import Mathlib

/-!
Synchronizer of the block-import core (src/core/network/impl/synchronizer_impl.cpp)

A shallow embedding of `kagome::network::SynchronizerImpl`.

* The object state is the record `SynchronizerImpl`; every member function is a Lean
  function that takes the state and returns the new state together with the list of
  `Event`s it emitted (handler invocations, scheduled tasks, requests handed to the
  sync protocol, blocks handed to the executor).
* Callbacks (`SyncResultHandler`) are values of `Handler`: a callback supplied by a caller
  is identified by a number, a lambda created inside the synchronizer is named after the
  place that creates it. A possibly empty `std::function` is an `Option Handler`, and
  `if (handler) handler(x)` is `callHandler`. Calling a handler is recorded as an `Event`.
* Block numbers are `Nat`; hashes, peer ids and fingerprints are natural numbers too, and
  the zero hash is `0`.
* `std::unordered_map` / `std::map` are association lists with unique keys,
  `std::multimap<BlockNumber, _>` is a list kept sorted by key (equal keys in insertion
  order), `std::unordered_multimap` is a list in insertion order, `std::set` is a sorted
  duplicate-free list.
* Collaborators that are not part of the file (hasher, block tree, request fingerprint,
  authority-set digest scan, tuning constants) are fields of `Env` and `BlockTree`.
* Logging and metrics are left out; `weak_from_this().lock()` always succeeds.
-/

namespace kagome.network

/-! ## Primitive types -/

abbrev BlockHash := Nat
abbrev PeerId := Nat
abbrev Fingerprint := Nat
abbrev Justification := Nat

/-- The value of a default-constructed `primitives::BlockHash` (all bytes zero). -/
def zero_hash : BlockHash := 0

/-- The pair `primitives::BlockInfo` (number, hash). -/
structure BlockInfo where
  number : Nat
  hash : BlockHash
deriving DecidableEq, Repr

/-- A default-constructed `primitives::BlockInfo`. -/
def BlockInfo.default : BlockInfo := ⟨0, zero_hash⟩

/-- The header `primitives::BlockHeader`. -/
structure BlockHeader where
  parent_hash : BlockHash
  number : Nat
  state_root : BlockHash
  extrinsics_root : BlockHash
  digest : List Nat
deriving DecidableEq, Repr

/-- The response item `primitives::BlockData`; the fields the synchronizer reads. -/
structure BlockData where
  hash : BlockHash
  header : Option BlockHeader
  body : Option (List Nat)
  justification : Option Justification
deriving DecidableEq, Repr

/-- The enumeration `SynchronizerImpl::Error`. -/
inductive Error where
  | SHUTTING_DOWN
  | EMPTY_RESPONSE
  | RESPONSE_WITHOUT_BLOCK_HEADER
  | RESPONSE_WITHOUT_BLOCK_BODY
  | DISCARDED_BLOCK
  | WRONG_ORDER
  | INVALID_HASH
  | ALREADY_IN_QUEUE
  | PEER_BUSY
  | ARRIVED_TOO_EARLY
  | DUPLICATE_REQUEST
deriving DecidableEq, Repr

/-- An error code carried by an `outcome::result`: a synchronizer error,
`blockchain::BlockTreeError::BLOCK_EXISTS`, or a code of any other category. -/
inductive ErrorCode where
  | synchronizer (e : Error)
  | BLOCK_EXISTS
  | other (code : Nat)
deriving DecidableEq, Repr

/-- The type `outcome::result<primitives::BlockInfo>` passed to a `SyncResultHandler`. -/
inductive SyncResult where
  | value (block : BlockInfo)
  | failure (e : ErrorCode)
deriving DecidableEq, Repr

/-- Shorthand for a failed result with a synchronizer error. -/
def SyncResult.err (e : Error) : SyncResult := .failure (.synchronizer e)

/-- The type `outcome::result<void>` reported by the block executor or header appender. -/
inductive AdditionResult where
  | success
  | failure (e : ErrorCode)
deriving DecidableEq, Repr

/-- The enumeration `application::AppConfiguration::SyncMethod`. -/
inductive SyncMethod where
  | Full
  | Fast
  | FastWithoutState
  | Warp
  | Auto
deriving DecidableEq, Repr

/-- The bit set `network::BlockAttributes`, one flag per attribute the synchronizer uses. -/
structure BlockAttributes where
  header : Bool
  body : Bool
  justification : Bool
deriving DecidableEq, Repr

/-- The constant `BlocksRequest::kBasicAttributes`: HEADER, BODY and JUSTIFICATION. -/
def kBasicAttributes : BlockAttributes := ⟨true, true, true⟩

/-- The file-local function `attributesForSync`. -/
def attributesForSync (method : SyncMethod) : BlockAttributes :=
  match method with
  | .Full => kBasicAttributes
  | .Fast => ⟨true, false, true⟩
  | .FastWithoutState => ⟨true, false, true⟩
  | .Warp => ⟨true, false, true⟩
  | .Auto => kBasicAttributes

/-- The variant `primitives::BlockId`: a hash or a number. -/
inductive BlockId where
  | hash (h : BlockHash)
  | number (n : Nat)
deriving DecidableEq, Repr

/-- The enumeration `network::Direction`. -/
inductive Direction where
  | ASCENDING
  | DESCENDING
deriving DecidableEq, Repr

/-- The request `network::BlocksRequest` as the synchronizer builds it:
fields, from, direction, max. -/
structure BlocksRequest where
  fields : BlockAttributes
  from_ : BlockId
  direction : Direction
  max : Option Nat
deriving DecidableEq, Repr

/-- The type `outcome::result<BlocksResponse>` delivered to a response handler. -/
inductive Response where
  | failure (e : ErrorCode)
  | blocks (bs : List BlockData)
deriving DecidableEq, Repr

/-- An entry of the import queue, `SynchronizerImpl::KnownBlock`. -/
structure KnownBlock where
  data : BlockData
  peers : List PeerId
deriving DecidableEq, Repr

/-- A `SyncResultHandler`. -/
inductive Handler where
  /-- A callback supplied by a caller of the synchronizer. -/
  | user (id : Nat)
  /-- The trace-only lambdas that `syncByBlockHeader` passes on. -/
  | announce
  /-- The logging lambda that `processBlockAdditionResult` passes to
  `syncMissingJustifications`. -/
  | justificationsLog (last_finalized block_info : BlockInfo)
  /-- The lambda `handler` of `askNextPortionOfBlocks`. -/
  | askPortion (peer_id : PeerId)
  /-- The lambda that `askNextPortionOfBlocks` passes to `findCommonBlock`. -/
  | askPortionFind (peer_id : PeerId)
  /-- The lambda `find_handler` of `syncByBlockInfo` around a caller-supplied callback. -/
  | findHandler (peer_id : PeerId) (inner : Option Nat)
  /-- The lambda `find_handler` of `syncByBlockInfo` around the trace-only lambda. -/
  | findHandlerAnnounce (peer_id : PeerId)
  /-- An empty `std::function` that was moved into a subscription or a scheduled task;
  calling it throws `std::bad_function_call`. -/
  | emptyFunction
deriving DecidableEq, Repr

/-- The record `SynchronizerImpl::StateSync`: peer and completion callback. -/
structure StateSync where
  peer : PeerId
  cb : Handler
deriving DecidableEq, Repr

/-- The captures of the response handler of `findCommonBlock`. -/
structure FindCapture where
  lower : Nat
  upper : Nat
  target : Nat
  peer_id : PeerId
  handler : Handler
  observed : List (Nat × BlockHash)
  request_fingerprint : Fingerprint
deriving DecidableEq, Repr

/-- The response handler registered with a request. -/
inductive ResponseHandler where
  | findCommonBlock (c : FindCapture)
  | loadBlocks (peer_id : PeerId) (handler : Option Handler)
  | loadJustifications (peer_id : PeerId) (target_block : BlockInfo) (limit : Option Nat)
      (handler : Option Handler)
deriving DecidableEq, Repr

/-- Collaborators and constants declared outside the file. -/
structure Env where
  /-- The call `hasher_->blake2b_256(scale::encode(header).value())`. -/
  hashHeader : BlockHeader → BlockHash
  /-- The call `request.fingerprint()`. -/
  fingerprint : BlocksRequest → Fingerprint
  /-- The flag `consensus::grandpa::HasAuthoritySetChange{header}.scheduled`. -/
  hasScheduledChange : BlockHeader → Bool
  kMinPreloadedBlockAmount : Nat
  kMinPreloadedBlockAmountForFastSyncing : Nat
  kMaxDistanceToBlockForSubscription : Nat

/-- What the synchronizer reads from `block_tree_` during one callback. -/
structure BlockTree where
  /-- The call `getLastFinalized()`. -/
  last_finalized : BlockInfo
  /-- The call `getBestContaining(last_finalized.hash, std::nullopt).value()`. -/
  best_block : BlockInfo
  /-- The test `getBlockHeader(hash).has_value()`. -/
  hasBlockHeader : BlockHash → Bool
  /-- The call `getBlockHash(number)`: the hash of the local chain at a number. -/
  getBlockHash : Nat → Option BlockHash

/-- The mutable members of `SynchronizerImpl`. -/
structure SynchronizerImpl where
  node_is_shutting_down : Bool
  sync_method : SyncMethod
  known_blocks : List (BlockHash × KnownBlock)
  generations : List (Nat × BlockHash)
  ancestry : List (BlockHash × BlockHash)
  busy_peers : List PeerId
  recent_requests : List ((PeerId × Fingerprint) × String)
  subscriptions : List (BlockInfo × Handler)
  watched_blocks_number : Nat
  watched_blocks : List (BlockHash × Handler)
  applying_in_progress : Bool
  asking_blocks_portion_in_progress : Bool
  justifications : List (BlockInfo × Justification)
  state_sync : Option StateSync
  state_sync_flow : Option BlockInfo
  entries : Nat
deriving DecidableEq, Repr

/-- A freshly constructed synchronizer with the given sync method. -/
def SynchronizerImpl.init (method : SyncMethod) : SynchronizerImpl :=
  { node_is_shutting_down := false, sync_method := method, known_blocks := [],
    generations := [], ancestry := [], busy_peers := [], recent_requests := [],
    subscriptions := [], watched_blocks_number := 0, watched_blocks := [],
    applying_in_progress := false, asking_blocks_portion_in_progress := false,
    justifications := [], state_sync := none, state_sync_flow := none, entries := 0 }

/-- The continuation `[wself, hash, handler](block_addition_result)` that `applyNextBlock`
passes to the executor or appender: it runs `processBlockAdditionResult` and then
`postApplyBlock`. -/
structure ApplyCallback where
  hash : BlockHash
  handler : Option Handler
deriving DecidableEq, Repr

/-- Observable effects of a member function, in program order. -/
inductive Event where
  /-- A direct call `handler(res)`. -/
  | handler (h : Handler) (res : SyncResult)
  /-- A task given to `scheduler_->schedule` that calls `handler(res)`. -/
  | scheduledHandler (h : Handler) (res : SyncResult)
  /-- A call `protocol->request(peer_id, request, response_handler)`. -/
  | request (peer_id : PeerId) (req : BlocksRequest) (response_handler : ResponseHandler)
  /-- The timer task of `scheduleRecentRequestRemoval`. -/
  | scheduledRemoval (peer_id : PeerId) (fp : Fingerprint)
  /-- The task that calls `applyNextBlock`. -/
  | scheduledApplyNextBlock
  /-- The task that calls `applyNextJustification`. -/
  | scheduledApplyNextJustification
  /-- The task that calls `syncMissingJustifications` again (peer was busy). -/
  | scheduledSyncMissingJustifications (peer_id : PeerId) (target : BlockInfo)
      (limit : Option Nat) (h : Option Handler)
  /-- The task that calls `loadJustifications` for the next page. -/
  | scheduledLoadJustifications (peer_id : PeerId) (target : BlockInfo)
      (limit : Option Nat) (h : Option Handler)
  /-- A call `block_executor_->applyBlock(block, justification, callback)`. -/
  | applyBlock (header : BlockHeader) (body : List Nat) (j : Option Justification)
      (callback : ApplyCallback)
  /-- A call `block_appender_->appendHeader(header, justification, callback)`. -/
  | appendHeader (header : BlockHeader) (j : Option Justification)
      (callback : ApplyCallback)
  /-- An evaluation of `block_data.body.value()` on an empty optional, which throws. -/
  | badOptionalAccess
  /-- A failed `BOOST_ASSERT`. -/
  | assertionFailure
  /-- A call `telemetry_->notifyBlockImported(block_info, kNetworkInitialSync)`. -/
  | blockImported (block : BlockInfo)
  /-- A call `grandpa_environment_->applyJustification(block_info, justification, cb)`. -/
  | applyJustification (block : BlockInfo) (j : Justification)
  /-- A call `protocol->request(state_sync_->peer, request, response_handler)` on the state
  protocol, for the next request of the flow of the given block. -/
  | stateRequest (peer_id : PeerId) (block : BlockInfo)
  /-- A call `chain_sub_engine_->notify(kNewRuntime, hash)`. -/
  | newRuntime (hash : BlockHash)
deriving DecidableEq, Repr

/-- The statement `if (handler) handler(res)`. -/
def callHandler (handler : Option Handler) (res : SyncResult) : List Event :=
  match handler with
  | some h => [Event.handler h res]
  | none => []

/-! ## Containers -/

/-- The lookup `map.find(key)`: the mapped value, if the key is present. -/
def mapFind {κ β : Type} [DecidableEq κ] (m : List (κ × β)) (key : κ) : Option β :=
  match m with
  | [] => none
  | (k, v) :: rest => if k = key then some v else mapFind rest key

/-- The test `map.find(key) != map.end()`. -/
def mapContains {κ β : Type} [DecidableEq κ] (m : List (κ × β)) (key : κ) : Bool :=
  (mapFind m key).isSome

/-- The call `map.erase(key)`, also `multimap.erase(key)`: drops every entry of the key. -/
def mapErase {κ β : Type} [DecidableEq κ] (m : List (κ × β)) (key : κ) : List (κ × β) :=
  m.filter (fun kv => decide (kv.1 ≠ key))

/-- The call `map.emplace(key, value)`: inserts only when the key is absent. -/
def mapEmplace {κ β : Type} [DecidableEq κ] (m : List (κ × β)) (key : κ) (v : β) :
    List (κ × β) :=
  if mapContains m key then m else m ++ [(key, v)]

/-- Replaces the value stored under an existing key (writes through `it->second`). -/
def mapUpdate {κ β : Type} [DecidableEq κ] (m : List (κ × β)) (key : κ) (f : β → β) :
    List (κ × β) :=
  m.map (fun kv => if kv.1 = key then (kv.1, f kv.2) else kv)

/-- The call `multimap.emplace(key, value)` on an ordered multimap: the new entry goes
after every entry whose key is not greater. -/
def multimapEmplace {β : Type} (m : List (Nat × β)) (key : Nat) (v : β) : List (Nat × β) :=
  match m with
  | [] => [(key, v)]
  | (k, w) :: rest =>
    if key < k then (key, v) :: (k, w) :: rest else (k, w) :: multimapEmplace rest key v

/-- The values of `multimap.equal_range(key)`, in iteration order. -/
def equalRange {κ β : Type} [DecidableEq κ] (m : List (κ × β)) (key : κ) : List β :=
  (m.filter (fun kv => decide (kv.1 = key))).map Prod.snd

/-- The call `set.insert(x)` / `set.emplace(x)` on a `std::set`. -/
def setInsert (s : List Nat) (x : Nat) : List Nat :=
  match s with
  | [] => [x]
  | y :: rest =>
    if x < y then x :: y :: rest
    else if x = y then y :: rest
    else y :: setInsert rest x

/-- The call `set.erase(x)`. -/
def setErase (s : List Nat) (x : Nat) : List Nat :=
  s.filter (fun y => decide (y ≠ x))

/-! ## loadBlocks -/

/-- The mutable locals of the response handler of `loadBlocks` together with the object
state: captured `parent_hash`, `some_blocks_added`, `last_loaded_block`. -/
structure LoadLoop where
  self : SynchronizerImpl
  parent_hash : BlockHash
  some_blocks_added : Bool
  last_loaded_block : BlockInfo
deriving DecidableEq, Repr

/-- The end of an iteration of the loop of `loadBlocks` (lines 768-794), reached by a
block that passed every check: remember it as last loaded, make it the expected parent,
and add it to the queue or add the peer to the existing record. -/
def enqueueBlock (peer_id : PeerId) (l : LoadLoop) (block : BlockData)
    (header : BlockHeader) : LoadLoop :=
  let last_loaded_block : BlockInfo := ⟨header.number, block.hash⟩
  let parent_hash := block.hash
  -- Add block in queue and save peer or just add peer for existing record
  if mapContains l.self.known_blocks block.hash then
    let known := mapUpdate l.self.known_blocks block.hash (fun kb =>
      { kb with peers := setInsert kb.peers peer_id })
    { self := { l.self with known_blocks := known },
      parent_hash := parent_hash,
      some_blocks_added := l.some_blocks_added,
      last_loaded_block := last_loaded_block }
  else
    let known := mapEmplace l.self.known_blocks block.hash ⟨block, [peer_id]⟩
    let generations := multimapEmplace l.self.generations header.number block.hash
    let ancestry := l.self.ancestry ++ [(header.parent_hash, block.hash)]
    { self := { l.self with known_blocks := known, generations := generations,
                            ancestry := ancestry },
      parent_hash := parent_hash,
      some_blocks_added := true,
      last_loaded_block := last_loaded_block }

/-- One iteration of `for (auto &block : blocks)` in the response handler of `loadBlocks`
(lines 655-795). `Except.error e` is the early `return` after `handler(e)`; `Except.ok`
is the state at the end of the iteration (or at `continue`). -/
def loadBlocksBlock (env : Env) (tree : BlockTree) (peer_id : PeerId) (l : LoadLoop)
    (block : BlockData) : Except Error LoadLoop :=
  -- Check if header is provided
  match block.header with
  | none => .error .RESPONSE_WITHOUT_BLOCK_HEADER
  | some header =>
    -- Check if body is provided (the source tests `block.header` here, not `block.body`)
    if block.header.isNone then .error .RESPONSE_WITHOUT_BLOCK_BODY
    else
      let last_finalized_block := tree.last_finalized
      -- Check by number if block is not finalized yet
      if last_finalized_block.number ≥ header.number then
        if last_finalized_block.number = header.number then
          if last_finalized_block.hash ≠ block.hash then .error .DISCARDED_BLOCK
          else .ok l
        else .ok l
      else
        -- Check if block is not discarded
        if last_finalized_block.number + 1 = header.number
            ∧ last_finalized_block.hash ≠ header.parent_hash then
          .error .DISCARDED_BLOCK
        else
          -- Start to check parents
          let parent_hash :=
            if last_finalized_block.number + 1 = header.number then header.parent_hash
            else l.parent_hash
          -- Check if block is in chain
          if parent_hash ≠ header.parent_hash ∧ parent_hash ≠ zero_hash then
            .error .WRONG_ORDER
          else
            -- Check if hash is valid
            let calculated_hash := env.hashHeader header
            if block.hash ≠ calculated_hash then .error .INVALID_HASH
            else .ok (enqueueBlock peer_id l block header)

/-- The loop `for (auto &block : blocks)`: the state when the loop was left and the error
of the early return, if there was one. -/
def loadBlocksLoop (env : Env) (tree : BlockTree) (peer_id : PeerId) :
    LoadLoop → List BlockData → LoadLoop × Option Error
  | l, [] => (l, none)
  | l, block :: rest =>
    match loadBlocksBlock env tree peer_id l block with
    | .error e => (l, some e)
    | .ok l' => loadBlocksLoop env tree peer_id l' rest

/-- The response handler that `loadBlocks` hands to the sync protocol (lines 607-810). -/
def loadBlocksResponse (env : Env) (tree : BlockTree) (self : SynchronizerImpl)
    (peer_id : PeerId) (handler : Option Handler) (response_res : Response) :
    SynchronizerImpl × List Event :=
  match response_res with
  -- Any error interrupts loading of blocks
  | .failure e => (self, callHandler handler (.failure e))
  | .blocks blocks =>
    -- No block in response is abnormal situation.
    if blocks.isEmpty then (self, callHandler handler (.err .EMPTY_RESPONSE))
    else
      match loadBlocksLoop env tree peer_id ⟨self, zero_hash, false, BlockInfo.default⟩ blocks with
      | (l, some e) => (l.self, callHandler handler (.err e))
      | (l, none) =>
        (l.self, callHandler handler (.value l.last_loaded_block)
          ++ (if l.some_blocks_added then [Event.scheduledApplyNextBlock] else []))

/-- The state after a successful `recent_requests_.emplace(key, reason)` for the key
`(peer_id, fingerprint)`. -/
def recordRequest (self : SynchronizerImpl) (peer_id : PeerId) (fp : Fingerprint)
    (reason : String) : SynchronizerImpl :=
  { self with recent_requests := mapEmplace self.recent_requests (peer_id, fp) reason }

/-- The removal task created by `scheduleRecentRequestRemoval`, when the timer fires. -/
def recentRequestRemoval (self : SynchronizerImpl) (peer_id : PeerId) (fp : Fingerprint) :
    SynchronizerImpl :=
  { self with recent_requests := mapErase self.recent_requests (peer_id, fp) }

/-- The request that `loadBlocks` builds: the attributes of the sync method, from the
hash of `from`, ascending, without a maximum. -/
def loadBlocksRequest (method : SyncMethod) (from_ : BlockInfo) : BlocksRequest :=
  ⟨attributesForSync method, .hash from_.hash, .ASCENDING, none⟩

/-- The function `SynchronizerImpl::loadBlocks` up to the hand-over of the request
(lines 573-606 and 812-814). The response handler is `loadBlocksResponse` with the same
`peer_id` and `handler`. -/
def loadBlocks (env : Env) (self : SynchronizerImpl) (peer_id : PeerId) (from_ : BlockInfo)
    (handler : Option Handler) : SynchronizerImpl × List Event :=
  -- Interrupts process if node is shutting down
  if self.node_is_shutting_down then (self, callHandler handler (.err .SHUTTING_DOWN))
  else
    let request := loadBlocksRequest self.sync_method from_
    let request_fingerprint := env.fingerprint request
    if mapContains self.recent_requests (peer_id, request_fingerprint) then
      (self, callHandler handler (.err .DUPLICATE_REQUEST))
    else
      (recordRequest self peer_id request_fingerprint "load blocks",
       [Event.scheduledRemoval peer_id request_fingerprint,
        Event.request peer_id request (.loadBlocks peer_id handler)])

/-! ## findCommonBlock -/

/-- The request that `findCommonBlock` builds for the number `hint`:
HEADER only, ascending, one block. -/
def findRequest (hint : Nat) : BlocksRequest :=
  ⟨⟨true, false, false⟩, .number hint, .ASCENDING, some 1⟩

/-- The test "block is known (is already enqueued or is in block tree)". -/
def blockIsKnown (tree : BlockTree) (self : SynchronizerImpl) (hash : BlockHash) : Bool :=
  mapContains self.known_blocks hash || tree.hasBlockHeader hash

/-- The function `SynchronizerImpl::findCommonBlock` up to the hand-over of the request
(lines 395-430 and 561-570). The third component is the capture of the registered
response handler when a request was sent. -/
def findCommonBlock (env : Env) (self : SynchronizerImpl) (peer_id : PeerId)
    (lower upper hint : Nat) (handler : Handler)
    (observed : List (Nat × BlockHash)) :
    SynchronizerImpl × List Event × Option FindCapture :=
  -- Interrupts process if node is shutting down
  if self.node_is_shutting_down then
    (self, [Event.handler handler (.err .SHUTTING_DOWN)], none)
  else
    let request := findRequest hint
    let request_fingerprint := env.fingerprint request
    if mapContains self.recent_requests (peer_id, request_fingerprint) then
      (self, [Event.handler handler (.err .DUPLICATE_REQUEST)], none)
    else
      let c : FindCapture :=
        ⟨lower, upper, hint, peer_id, handler, observed, request_fingerprint⟩
      (recordRequest self peer_id request_fingerprint "find common block",
       [Event.scheduledRemoval peer_id request_fingerprint,
        Event.request peer_id request (.findCommonBlock c)],
       some c)

/-- How the loop `for (;;)` of the response handler of `findCommonBlock` is left. -/
inductive Narrowing where
  /-- The statement `handler(res); return;`. -/
  | done (res : SyncResult)
  /-- The call `self->findCommonBlock(peer_id, lower, upper, hint, ...); break;`. -/
  | again (lower upper hint : Nat)
  /-- The iteration budget of the embedding ran out. -/
  | outOfFuel
deriving DecidableEq, Repr

/-- The loop `for (;;)` of the response handler of `findCommonBlock` (lines 478-558), with
an iteration budget. Both branches of the source compute a value for `hint` that line 531
overwrites with `lower + (upper - lower) / 2`. Block numbers satisfy `lower <= upper`
here, so the subtraction never wraps. -/
def narrowLoop (tree : BlockTree) (self : SynchronizerImpl)
    (observed : List (Nat × BlockHash)) :
    Nat → Nat → Nat → Nat → BlockHash → Narrowing
  | 0, _, _, _, _ => .outOfFuel
  | fuel + 1, lower, upper, target, hash =>
    -- Check if block is known (is already enqueued or is in block tree)
    let block_is_known := blockIsKnown tree self hash
    -- Interval of finding is totally narrowed. Common block should be found
    if target = lower then
      if block_is_known then .done (.value ⟨target, hash⟩)
      else .done (.err .EMPTY_RESPONSE)
    else
      -- Narrowing interval for next iteration
      let lower1 := if block_is_known then target else lower
      let upper1 := if block_is_known then upper else target
      let hint := lower1 + (upper1 - lower1) / 2
      -- Try again with narrowed interval
      match mapFind observed hint with
      -- This block number was observed early
      | some h => narrowLoop tree self observed fuel lower1 upper1 hint h
      -- This block number has not observed yet
      | none => .again lower1 upper1 hint

/-- The response handler that `findCommonBlock` hands to the sync protocol
(lines 431-559); `fuel` bounds the iterations of its loop. -/
def findCommonBlockResponse (env : Env) (tree : BlockTree) (fuel : Nat)
    (self : SynchronizerImpl) (c : FindCapture) (response_res : Response) :
    SynchronizerImpl × List Event × Option FindCapture :=
  match response_res with
  -- Any error interrupts finding common block
  | .failure e => (self, [Event.handler c.handler (.failure e)], none)
  -- No block in response is abnormal situation
  | .blocks [] =>
    ({ self with recent_requests :=
          mapErase self.recent_requests (c.peer_id, c.request_fingerprint) },
     [Event.handler c.handler (.err .EMPTY_RESPONSE)], none)
  | .blocks (front :: _) =>
    let hash := front.hash
    let observed := mapEmplace c.observed c.target hash
    match narrowLoop tree self observed fuel c.lower c.upper c.target hash with
    | .done res => (self, [Event.handler c.handler res], none)
    | .again lower upper hint =>
      findCommonBlock env self c.peer_id lower upper hint c.handler observed
    | .outOfFuel => (self, [], none)

/-- A search driven to its end against a peer that answers the request `r` with `peer r`,
with nothing else happening in between: each round delivers the response of the pending
request to `findCommonBlockResponse`. `fuel` bounds the rounds and the iterations of
each loop. -/
def findCommonBlockRun (env : Env) (tree : BlockTree) (peer : BlocksRequest → Response) :
    Nat → SynchronizerImpl → FindCapture → SynchronizerImpl × List Event
  | 0, self, _ => (self, [])
  | fuel + 1, self, c =>
    match findCommonBlockResponse env tree (fuel + 1) self c (peer (findRequest c.target)) with
    | (self1, evs, none) => (self1, evs)
    | (self1, evs, some c1) =>
      let r := findCommonBlockRun env tree peer fuel self1 c1
      (r.1, evs ++ r.2)

/-- A whole search: the call of `findCommonBlock` with an empty `observed` map followed by
the rounds of `findCommonBlockRun`. -/
def findCommonBlockSearch (env : Env) (tree : BlockTree) (peer : BlocksRequest → Response)
    (fuel : Nat) (self : SynchronizerImpl) (peer_id : PeerId)
    (lower upper hint : Nat) (handler : Handler) : SynchronizerImpl × List Event :=
  match findCommonBlock env self peer_id lower upper hint handler [] with
  | (self1, evs, none) => (self1, evs)
  | (self1, evs, some c) =>
    let r := findCommonBlockRun env tree peer fuel self1 c
    (r.1, evs ++ r.2)

/-- The results that the handler `h` received through direct calls, in order. -/
def handlerResults (h : Handler) (evs : List Event) : List SyncResult :=
  evs.filterMap (fun e =>
    match e with
    | .handler h1 res => if h1 = h then some res else none
    | _ => none)

/-- The requests handed to the sync protocol, in order. -/
def sentRequests (evs : List Event) : List (PeerId × BlocksRequest) :=
  evs.filterMap (fun e =>
    match e with
    | .request p r _ => some (p, r)
    | _ => none)

/-! ## loadJustifications (request side) -/

/-- The request that `loadJustifications` builds: HEADER and JUSTIFICATION, from the hash
of the target block, ascending, at most `limit` blocks. -/
def loadJustificationsRequest (target_block : BlockInfo) (limit : Option Nat) :
    BlocksRequest :=
  ⟨⟨true, false, true⟩, .hash target_block.hash, .ASCENDING, limit⟩

/-- The function `SynchronizerImpl::loadJustifications` up to the hand-over of the
request (lines 817-860 and 968-970). The scope guard `cleanup` erases the peer from
`busy_peers_` on every exit taken after it was created. -/
def loadJustifications (env : Env) (self : SynchronizerImpl) (peer_id : PeerId)
    (target_block : BlockInfo) (limit : Option Nat) (handler : Option Handler) :
    SynchronizerImpl × List Event :=
  if self.node_is_shutting_down then (self, callHandler handler (.err .SHUTTING_DOWN))
  else
    let busy := setInsert self.busy_peers peer_id
    let request := loadJustificationsRequest target_block limit
    let request_fingerprint := env.fingerprint request
    if mapContains self.recent_requests (peer_id, request_fingerprint) then
      ({ self with busy_peers := setErase busy peer_id },
       callHandler handler (.err .DUPLICATE_REQUEST))
    else
      (recordRequest { self with busy_peers := setErase busy peer_id } peer_id
          request_fingerprint "load justifications",
       [Event.scheduledRemoval peer_id request_fingerprint,
        Event.request peer_id request
          (.loadJustifications peer_id target_block limit handler)])

/-- The function `SynchronizerImpl::syncMissingJustifications`. -/
def syncMissingJustifications (env : Env) (self : SynchronizerImpl) (peer_id : PeerId)
    (target_block : BlockInfo) (limit : Option Nat) (handler : Option Handler) :
    SynchronizerImpl × List Event :=
  if peer_id ∈ self.busy_peers then
    (self, [Event.scheduledSyncMissingJustifications peer_id target_block limit handler])
  else loadJustifications env self peer_id target_block limit handler

/-! ## The import queue -/

/-- The function `SynchronizerImpl::notifySubscribers`. -/
def notifySubscribers (self : SynchronizerImpl) (block : BlockInfo) (res : AdditionResult) :
    SynchronizerImpl × List Event :=
  let handlers := equalRange self.subscriptions block
  ({ self with subscriptions := mapErase self.subscriptions block },
   handlers.map (fun h =>
     match res with
     | .failure e => Event.scheduledHandler h (.failure e)
     | .success => Event.scheduledHandler h (.value block)))

/-- The number read by `it->second.data.header->number`; the source dereferences the
optional without a test. -/
def headerNumber (data : BlockData) : Nat :=
  match data.header with
  | some header => header.number
  | none => 0

/-- The loop `while (not queue.empty())` of `discardBlock` (lines 1436-1454), with an
iteration budget; the result is the state, the counter `affected` and the events. -/
def discardLoop : Nat → SynchronizerImpl → List BlockHash → Nat → List Event →
    SynchronizerImpl × Nat × List Event
  | 0, self, _, affected, evs => (self, affected, evs)
  | _ + 1, self, [], affected, evs => (self, affected, evs)
  | fuel + 1, self, hash :: rest, affected, evs =>
    let children := equalRange self.ancestry hash
    match mapFind self.known_blocks hash with
    | some kb =>
      let number := headerNumber kb.data
      let r := notifySubscribers self ⟨number, hash⟩ (.failure (.synchronizer .DISCARDED_BLOCK))
      discardLoop fuel
        { r.1 with known_blocks := mapErase r.1.known_blocks hash,
                   ancestry := mapErase r.1.ancestry hash }
        (rest ++ children) (affected + 1) (evs ++ r.2)
    | none =>
      discardLoop fuel { self with ancestry := mapErase self.ancestry hash }
        (rest ++ children) affected evs

/-- The function `SynchronizerImpl::discardBlock`. Every iteration pops one hash and moves
the erased ancestry entries into the queue, so the loop runs at most
`ancestry_.size() + 1` times, which is the budget given here. -/
def discardBlock (self : SynchronizerImpl) (hash_of_discarding_block : BlockHash) :
    SynchronizerImpl × Nat × List Event :=
  discardLoop (self.ancestry.length + 1) self [hash_of_discarding_block] 0 []

/-- The first loop of `prune` (lines 1462-1475). The entry taken by
`generations_.extract(generations_.begin())` has left the multimap also when the loop
stops at it through `break`. -/
def pruneBelow (finalized_block : BlockInfo) :
    SynchronizerImpl → List (Nat × BlockHash) → List Event →
      SynchronizerImpl × List Event
  | self, [], evs => ({ self with generations := [] }, evs)
  | self, (number, hash) :: rest, evs =>
    if number ≥ finalized_block.number then ({ self with generations := rest }, evs)
    else
      let r := notifySubscribers self ⟨number, hash⟩ (.failure (.synchronizer .DISCARDED_BLOCK))
      pruneBelow finalized_block
        { r.1 with known_blocks := mapErase r.1.known_blocks hash,
                   ancestry := mapErase r.1.ancestry hash }
        rest (evs ++ r.2)

/-- The second loop of `prune` (lines 1479-1486) over the hashes of
`generations_.equal_range(finalized_block.number)`. -/
def pruneEqual (finalized_block : BlockInfo) :
    SynchronizerImpl → List BlockHash → List Event → SynchronizerImpl × List Event
  | self, [], evs => (self, evs)
  | self, hash :: rest, evs =>
    if hash ≠ finalized_block.hash then
      let r := discardBlock self hash
      pruneEqual finalized_block r.1 rest (evs ++ r.2.2)
    else pruneEqual finalized_block self rest evs

/-- The function `SynchronizerImpl::prune`. -/
def prune (self : SynchronizerImpl) (finalized_block : BlockInfo) :
    SynchronizerImpl × List Event :=
  let r := pruneBelow finalized_block self self.generations []
  pruneEqual finalized_block r.1 (equalRange r.1.generations finalized_block.number) r.2

/-- The body of the lambda `handler` of `askNextPortionOfBlocks` for a failed result. The
functions that `askNextPortionOfBlocks` calls invoke it before they return only with an
error (shutdown or duplicate request). -/
def askPortionFailed (self : SynchronizerImpl) (peer_id : PeerId) : SynchronizerImpl :=
  { self with busy_peers := setErase self.busy_peers peer_id,
              asking_blocks_portion_in_progress := false }

/-- The search of `askNextPortionOfBlocks` over `generations_` from `rbegin()` for the first
enqueued block that has a peer which is not busy. -/
def askNextPortionScan (self : SynchronizerImpl) :
    List (Nat × BlockHash) → Option (BlockInfo × PeerId)
  | [] => none
  | (number, hash) :: rest =>
    match mapFind self.known_blocks hash with
    | none => askNextPortionScan self rest
    | some kb =>
      match kb.peers.find? (fun p => decide (p ∉ self.busy_peers)) with
      | some peer_id => some (⟨number, hash⟩, peer_id)
      | none => askNextPortionScan self rest

/-- The state of `askNextPortionOfBlocks` once a peer is chosen: the flag
`asking_blocks_portion_in_progress_` is set and
`busy_peers_.insert(peers.extract(cp_it))` moved the peer from the peers of the block
to the busy peers. -/
def takePeer (self : SynchronizerImpl) (block_info : BlockInfo) (peer_id : PeerId) :
    SynchronizerImpl :=
  let known := mapUpdate self.known_blocks block_info.hash (fun kb =>
    { kb with peers := setErase kb.peers peer_id })
  { self with asking_blocks_portion_in_progress := true,
              busy_peers := setInsert self.busy_peers peer_id,
              known_blocks := known }

/-- The function `SynchronizerImpl::askNextPortionOfBlocks`. -/
def askNextPortionOfBlocks (env : Env) (self : SynchronizerImpl) :
    SynchronizerImpl × List Event :=
  if self.asking_blocks_portion_in_progress then (self, [])
  else
    match askNextPortionScan self self.generations.reverse with
    | none => ({ self with asking_blocks_portion_in_progress := false }, [])
    | some (block_info, peer_id) =>
      let self1 := takePeer self block_info peer_id
      if self1.sync_method = .Full then
        let lower := (self1.generations.head?.map Prod.fst).getD 0
        let upper := (self1.generations.getLast?.map Prod.fst).getD 0 + 1
        let hint := (self1.generations.getLast?.map Prod.fst).getD 0
        let r := findCommonBlock env self1 peer_id lower upper hint (.askPortionFind peer_id) []
        match r.2.2 with
        | some _ => (r.1, r.2.1)
        | none => (askPortionFailed r.1 peer_id, r.2.1)
      else
        let r := loadBlocks env self1 peer_id block_info (some (.askPortion peer_id))
        if (sentRequests r.2).isEmpty then (askPortionFailed r.1 peer_id, r.2) else r

/-- The function `SynchronizerImpl::postApplyBlock`. -/
def postApplyBlock (env : Env) (self : SynchronizerImpl) (hash : BlockHash) :
    SynchronizerImpl × List Event :=
  let self1 := { self with ancestry := mapErase self.ancestry hash }
  let minPreloadedBlockAmount :=
    if self1.sync_method = .Full then env.kMinPreloadedBlockAmount
    else env.kMinPreloadedBlockAmountForFastSyncing
  let r :=
    if self1.known_blocks.length < minPreloadedBlockAmount then askNextPortionOfBlocks env self1
    else (self1, [])
  (r.1, r.2 ++ [Event.scheduledApplyNextBlock])

/-- Modelled from the spec: `primitives::BlockNumber`, declared in primitives/common.hpp
which is not among the sources, is an unsigned 64-bit integer ("Nat (u64)"); this
is the number of its values. -/
def kBlockNumberModulus : Nat := 2 ^ 64

/-- Subtraction of block numbers as the machine performs it, wrapping below zero. -/
def blockNumberSub (a b : Nat) : Nat :=
  (a + kBlockNumberModulus - b) % kBlockNumberModulus

/-- The constant `kJustificationInterval` of `processBlockAdditionResult`. -/
def kJustificationInterval : Nat := 512

/-- The constant `kMaxJustificationLag` of `processBlockAdditionResult`. -/
def kMaxJustificationLag : Nat := 5

/-- The loop `for (const auto &peer_id : peers)` of `processBlockAdditionResult`. -/
def requestJustifications (env : Env) (last_finalized block_info : BlockInfo) :
    SynchronizerImpl → List PeerId → List Event → SynchronizerImpl × List Event
  | self, [], evs => (self, evs)
  | self, peer_id :: rest, evs =>
    let r := syncMissingJustifications env self peer_id last_finalized
      (some (kJustificationInterval * 2)) (some (.justificationsLog last_finalized block_info))
    requestJustifications env last_finalized block_info r.1 rest (evs ++ r.2)

/-- The function `SynchronizerImpl::processBlockAdditionResult`. -/
def processBlockAdditionResult (env : Env) (tree : BlockTree) (self : SynchronizerImpl)
    (block_addition_result : AdditionResult) (hash : BlockHash) (handler : Option Handler) :
    SynchronizerImpl × List Event :=
  match mapFind self.known_blocks hash with
  | none => (self, [])
  | some node =>
    let self1 := { self with known_blocks := mapErase self.known_blocks hash }
    let block_data := node.data
    let peers := node.peers
    match block_data.header with
    | none => (self1, [Event.assertionFailure])
    | some header =>
      let block_info : BlockInfo := ⟨header.number, block_data.hash⟩
      let r := notifySubscribers self1 block_info block_addition_result
      match block_addition_result with
      | .failure e =>
        if e ≠ .BLOCK_EXISTS then
          let d := discardBlock r.1 block_data.hash
          (d.1, r.2 ++ d.2.2 ++ callHandler handler (.err .DISCARDED_BLOCK))
        else (r.1, r.2 ++ callHandler handler (.value block_info))
      | .success =>
        let evs := r.2 ++ [Event.blockImported block_info]
          ++ callHandler handler (.value block_info)
        -- Check if finality lag greater than justification saving interval
        let last_finalized := tree.last_finalized
        if env.hasScheduledChange header
            ∨ blockNumberSub block_info.number kMaxJustificationLag / kJustificationInterval
                > last_finalized.number / kJustificationInterval then
          requestJustifications env last_finalized block_info r.1 peers evs
        else (r.1, evs)

/-- What `std::move(block_data.header.value())` leaves behind in the queue entry: the
scalar fields keep their values, the digest vector is emptied. -/
def movedFromHeader (header : BlockHeader) : BlockHeader :=
  { header with digest := [] }

/-- The function `SynchronizerImpl::applyNextBlock`. The flag `applying_in_progress_` is
set on entry and reset by the scope guard on every exit, so it is `false` again in the
returned state. -/
def applyNextBlock (env : Env) (tree : BlockTree) (self : SynchronizerImpl) :
    SynchronizerImpl × List Event :=
  match self.generations with
  | [] => (self, [])
  | (_, hash) :: generations =>
    if self.applying_in_progress then (self, [])
    else
      let self1 := { self with generations := generations }
      match mapFind self1.known_blocks hash with
      | some kb =>
        let block_data := kb.data
        match block_data.header with
        | none => (self1, [Event.assertionFailure])
        | some header =>
          let last_finalized_block := tree.last_finalized
          let watched := decide (self1.watched_blocks_number = header.number)
          let handler : Option Handler :=
            if watched then mapFind self1.watched_blocks hash else none
          let self2 :=
            if watched then { self1 with watched_blocks := mapErase self1.watched_blocks hash }
            else self1
          -- Skip applied and finalized blocks and discard side-chain below last finalized
          if header.number ≤ last_finalized_block.number then
            if ¬ tree.hasBlockHeader hash then
              let d := discardBlock self2 block_data.hash
              let p := postApplyBlock env d.1 hash
              (p.1, d.2.2 ++ callHandler handler (.err .DISCARDED_BLOCK) ++ p.2)
            else postApplyBlock env self2 hash
          else
            let callback : ApplyCallback := ⟨hash, handler⟩
            if self2.sync_method = .Full then
              -- Regular syncing
              match block_data.body with
              | none =>
                let moved := mapUpdate self2.known_blocks hash (fun k =>
                  { k with data := { k.data with header := some (movedFromHeader header) } })
                ({ self2 with known_blocks := moved }, [Event.badOptionalAccess])
              | some body =>
                let moved := mapUpdate self2.known_blocks hash (fun k =>
                  { k with data := { k.data with header := some (movedFromHeader header),
                                                 body := some [] } })
                ({ self2 with known_blocks := moved },
                 [Event.applyBlock header body block_data.justification callback])
            else
              -- Fast syncing
              match self2.state_sync with
              | none =>
                -- Headers loading
                let moved := mapUpdate self2.known_blocks hash (fun k =>
                  { k with data := { k.data with header := some (movedFromHeader header) } })
                ({ self2 with known_blocks := moved },
                 [Event.appendHeader header block_data.justification callback])
              | some _ =>
                -- State syncing in progress; Temporary discard all new blocks
                let d := discardBlock self2 block_data.hash
                (d.1, d.2.2 ++ callHandler handler (.err .DISCARDED_BLOCK))
      | none => postApplyBlock env self1 hash

/-- The continuation that `applyNextBlock` hands to the executor or appender, run with
the result of the block addition. -/
def applyCallback (env : Env) (tree : BlockTree) (self : SynchronizerImpl)
    (callback : ApplyCallback) (block_addition_result : AdditionResult) :
    SynchronizerImpl × List Event :=
  let r := processBlockAdditionResult env tree self block_addition_result callback.hash
    callback.handler
  let p := postApplyBlock env r.1 callback.hash
  (p.1, r.2 ++ p.2)

/-- The keys of an association list. -/
def keys {κ β : Type} (m : List (κ × β)) : List κ := m.map Prod.fst

/-! ## A concrete scenario for the worked examples -/

namespace Scenario

/-- A header hash, request fingerprint and constants for the worked examples. -/
def env : Env :=
  { hashHeader := fun h => 1000 * h.number + h.parent_hash + h.state_root + 1,
    fingerprint := fun r =>
      (match r.from_ with
        | .number n => 2 * n
        | .hash h => 2 * h + 1) * 4
        + (if r.fields.body then 1 else 0) + (if r.fields.justification then 2 else 0),
    hasScheduledChange := fun _ => false,
    kMinPreloadedBlockAmount := 256,
    kMinPreloadedBlockAmountForFastSyncing := 512,
    kMaxDistanceToBlockForSubscription := 8 }

/-- A block with the given parent, number and state root, an empty body, and the hash of
its header as advertised hash. -/
def mkBlock (parent : BlockHash) (number : Nat) (state_root : BlockHash) : BlockData :=
  let header : BlockHeader := ⟨parent, number, state_root, 0, []⟩
  ⟨env.hashHeader header, some header, some [], none⟩

/-- The genesis block `G`. -/
def G : BlockData := mkBlock 0 0 0
/-- The local block `A1`, child of `G`. -/
def A1 : BlockData := mkBlock G.hash 1 0
/-- The local block `A2`, child of `A1`. -/
def A2 : BlockData := mkBlock A1.hash 2 0
/-- The remote block `C3`, child of `A2`. -/
def C3 : BlockData := mkBlock A2.hash 3 0
/-- The remote block `C4`, child of `C3`. -/
def C4 : BlockData := mkBlock C3.hash 4 0
/-- The remote block `C5`, child of `C4`. -/
def C5 : BlockData := mkBlock C4.hash 5 0

/-- A block tree that holds exactly the given chain, finalized up to the number `fin`
(the chain starts at number 0 and is longer than `fin`). -/
def treeOf (chain : List BlockData) (fin : Nat) : BlockTree :=
  { last_finalized := ⟨fin, ((chain.get? fin).map (fun b => b.hash)).getD 0⟩,
    best_block := ⟨chain.length - 1, ((chain.getLast?).map (fun b => b.hash)).getD 0⟩,
    hasBlockHeader := fun h => chain.any (fun b => decide (b.hash = h)),
    getBlockHash := fun n => (chain.get? n).map (fun b => b.hash) }

/-- A peer that serves the given chain: a request by number returns the block of that
number, a request by hash returns the chain from that block on. The headers-only search
request is answered with one block. -/
def peerOf (chain : List BlockData) (r : BlocksRequest) : Response :=
  match r.from_ with
  | .number n => .blocks ((chain.drop n).take 1)
  | .hash h => .blocks (chain.dropWhile (fun b => decide (b.hash ≠ h)))

end Scenario

/-! ## Notions used to state the properties -/

/-- A response block whose header carries a number above the last finalized one. -/
def isAbove (tree : BlockTree) (b : BlockData) : Bool :=
  decide (tree.last_finalized.number < headerNumber b)

/-- The blocks of a response that are numbered above the last finalized block, in order. -/
def acceptedBlocks (tree : BlockTree) (blocks : List BlockData) : List BlockData :=
  blocks.filter (isAbove tree)

/-- The link that the loop of `loadBlocks` enforces between a block `b` and the block `a`
accepted before it: none if `b` is the first unfinalized number or if the hash of `a` is
the zero hash, otherwise the parent hash of `b` is the hash of `a`. -/
def parentLinked (tree : BlockTree) (a b : BlockData) : Prop :=
  headerNumber b = tree.last_finalized.number + 1 ∨ a.hash = zero_hash
    ∨ b.header.map (fun h => h.parent_hash) = some a.hash

namespace Scenario

/-- The block tree of a node whose chain is `G, A1, A2`, finalized at `G`. -/
def tree0 : BlockTree := treeOf [G, A1, A2] 0

/-- The block tree of a node whose chain is `G, A1, A2`, finalized at `A2`. -/
def tree2 : BlockTree := treeOf [G, A1, A2] 2

/-- The start of the loop of `loadBlocks` on a fresh synchronizer in Full mode. -/
def loop0 : LoadLoop := ⟨SynchronizerImpl.init .Full, zero_hash, false, BlockInfo.default⟩

/-- A block numbered 2 whose parent hash (777) is the hash of no block of the scenario. -/
def orphan2 : BlockData := mkBlock 777 2 0

/-- A block numbered 3 whose parent hash (777) is the hash of no block of the scenario. -/
def orphan3 : BlockData := mkBlock 777 3 0

/-- A block numbered 1 with parent 777 instead of `G`. -/
def orphan1 : BlockData := mkBlock 777 1 0

/-- A block numbered 1 that is not `A1` (another state root). -/
def fork1 : BlockData := mkBlock G.hash 1 5

/-- The block `A2` advertised under a hash (999) that is not the hash of its header. -/
def forgedA2 : BlockData := { A2 with hash := 999 }

/-- The block `A1` with its header but without a body. -/
def bodilessA1 : BlockData := { A1 with body := none }

end Scenario

/-- A call of one of the three functions that hand a block request to the sync protocol,
with its arguments other than the peer. -/
inductive RequestCall where
  | find (lower upper hint : Nat) (handler : Handler)
      (observed : List (Nat × BlockHash))
  | load (from_ : BlockInfo) (handler : Option Handler)
  | justifications (target_block : BlockInfo) (limit : Option Nat)
      (handler : Option Handler)
deriving DecidableEq, Repr

/-- The state and the events after the call. -/
def RequestCall.run (env : Env) (self : SynchronizerImpl) (peer_id : PeerId) :
    RequestCall → SynchronizerImpl × List Event
  | .find lower upper hint handler observed =>
    let r := findCommonBlock env self peer_id lower upper hint handler observed
    (r.1, r.2.1)
  | .load from_ handler => loadBlocks env self peer_id from_ handler
  | .justifications target_block limit handler =>
    loadJustifications env self peer_id target_block limit handler

/-- The request that the call builds in the given state. -/
def RequestCall.request (self : SynchronizerImpl) : RequestCall → BlocksRequest
  | .find _ _ hint _ _ => findRequest hint
  | .load from_ _ => loadBlocksRequest self.sync_method from_
  | .justifications target_block limit _ => loadJustificationsRequest target_block limit

/-- The handler argument of the call. -/
def RequestCall.handler : RequestCall → Option Handler
  | .find _ _ _ handler _ => some handler
  | .load _ handler => handler
  | .justifications _ _ handler => handler

namespace Scenario

/-- The call `loadBlocks(peer, from = A2)` with a caller-supplied handler. -/
def loadFromA2 : RequestCall := .load ⟨2, A2.hash⟩ (some (.user 1))

end Scenario

/-- The results passed to any handler through direct calls, in order. -/
def handlerCalls (evs : List Event) : List (Handler × SyncResult) :=
  evs.filterMap (fun e =>
    match e with
    | .handler h res => some (h, res)
    | _ => none)

/-- The situation of a common-ancestor search between `lower0` and `upper0` against a peer
whose chain is `p`, when the highest common block is `k`: the facts about the state
`self1` and the pending capture `c` that every round of the search maintains. -/
def SearchInv (env : Env) (self : SynchronizerImpl) (peer_id : PeerId) (handler : Handler)
    (lower0 upper0 k : Nat) (p : Nat → BlockHash) (self1 : SynchronizerImpl)
    (c : FindCapture) : Prop :=
  self1.node_is_shutting_down = false
  ∧ self1.known_blocks = self.known_blocks
  ∧ c.peer_id = peer_id ∧ c.handler = handler
  ∧ lower0 ≤ c.lower ∧ c.upper ≤ upper0 ∧ c.lower ≤ k ∧ k < c.upper
  ∧ c.lower ≤ c.target ∧ c.target < c.upper
  ∧ (c.target = c.lower → c.upper = c.lower + 1)
  ∧ (∀ n h, mapFind c.observed n = some h → h = p n ∧ lower0 ≤ n ∧ n < upper0)
  ∧ (∀ n, lower0 ≤ n → n < upper0 →
      mapContains self1.recent_requests (peer_id, env.fingerprint (findRequest n)) = true →
      n = c.target ∨ (mapFind c.observed n).isSome = true)

namespace Scenario

/-- The chain of the peer: `G, A1, A2, C3, C4, C5`. -/
def peerChain : List BlockData := [G, A1, A2, C3, C4, C5]

/-- The hash of the block of the peer chain with the given number. -/
def peerHash (n : Nat) : BlockHash := ((peerChain.get? n).map (fun b => b.hash)).getD 0

end Scenario

/-- The hash `b` is enqueued as a child of `a`: the pair `(a, b)` is an entry of the
ancestry multimap. -/
def Edge (ancestry : List (BlockHash × BlockHash)) (a b : BlockHash) : Prop :=
  (a, b) ∈ ancestry

/-- The hash `x` is `a` or a descendant of `a` according to the ancestry multimap. -/
def Reach (ancestry : List (BlockHash × BlockHash)) (a x : BlockHash) : Prop :=
  Relation.ReflTransGen (Edge ancestry) a x

/-- An event that hands a block to the block executor or a header to the header appender. -/
def isExecutorCall (e : Event) : Bool :=
  match e with
  | .applyBlock _ _ _ _ => true
  | .appendHeader _ _ _ => true
  | _ => false

/-- The property I6: every hash stored in `generations` and every child hash stored in
`ancestry` is a key of `known_blocks`. -/
def queueConsistent (self : SynchronizerImpl) : Prop :=
  (∀ e ∈ self.generations, mapContains self.known_blocks e.2 = true)
  ∧ (∀ e ∈ self.ancestry, mapContains self.known_blocks e.2 = true)

namespace Scenario

/-- A child of `fork1`, numbered 2. -/
def fork2 : BlockData := mkBlock fork1.hash 2 5

/-- A queue that holds `fork1` and `fork2`, fetched from peer 7 while the node was
finalized at `G`, with a handler watching `fork1`. -/
def forkQueue : SynchronizerImpl :=
  { (loadBlocksResponse env tree0 (SynchronizerImpl.init .Full) 7 none
      (.blocks [fork1, fork2])).1 with
    watched_blocks_number := 1, watched_blocks := [(fork1.hash, .user 9)] }

/-- The queue after the response `A2, C3` to `loadBlocks(peer, from = A2)` on a node with
chain `G, A1, A2` finalized at `G`. -/
def queueA2C3 : SynchronizerImpl :=
  (loadBlocksResponse env tree0 (SynchronizerImpl.init .Full) 7 none (.blocks [A2, C3])).1

/-- The queue after the response `C3, C4` on a node with chain `G, A1, A2`. -/
def queueC3C4 : SynchronizerImpl :=
  (loadBlocksResponse env tree0 (SynchronizerImpl.init .Full) 7 none (.blocks [C3, C4])).1

/-- The state after `applyNextBlock` popped `C3` from `queueC3C4` and handed it to the
block executor, and the executor reported a failure that is not `BLOCK_EXISTS`. -/
def afterRejectedC3 : SynchronizerImpl :=
  (applyCallback env tree0 (applyNextBlock env tree0 queueC3C4).1 ⟨C3.hash, none⟩
    (.failure (.other 1))).1

end Scenario

instance (self : SynchronizerImpl) : Decidable (queueConsistent self) := by
  unfold queueConsistent
  exact inferInstance

/-! ## Subscriptions and the entry points -/

/-- The function `SynchronizerImpl::subscribeToBlock`: the returned flag, the state and
the events. The sum `best_block.number + kMaxDistanceToBlockForSubscription` is taken in
the integers. -/
def subscribeToBlock (env : Env) (tree : BlockTree) (self : SynchronizerImpl)
    (block_info : BlockInfo) (handler : Handler) : Bool × SynchronizerImpl × List Event :=
  -- Check if block is already in tree
  if tree.hasBlockHeader block_info.hash then
    (false, self, [Event.scheduledHandler handler (.value block_info)])
  else
    let last_finalized_block := tree.last_finalized
    -- Check if block from discarded side-chain
    if last_finalized_block.number ≥ block_info.number then
      (false, self, [Event.scheduledHandler handler (.err .DISCARDED_BLOCK)])
    else
      -- Check if block has arrived too early
      let best_block := tree.best_block
      if best_block.number + env.kMaxDistanceToBlockForSubscription < block_info.number then
        (false, self, [Event.scheduledHandler handler (.err .ARRIVED_TOO_EARLY)])
      else
        (true, { self with subscriptions := self.subscriptions ++ [(block_info, handler)] }, [])

/-- The handler argument of `syncByBlockInfo`: an empty `std::function`, a callback
supplied by a caller, or the trace-only lambda that `syncByBlockHeader` passes. -/
inductive CallerHandler where
  | empty
  | user (id : Nat)
  | announce
deriving DecidableEq, Repr

/-- The handler as a possibly empty `std::function`. -/
def CallerHandler.toHandler : CallerHandler → Option Handler
  | .empty => none
  | .user id => some (.user id)
  | .announce => some .announce

/-- The lambda `find_handler` of `syncByBlockInfo` that captures the handler. -/
def CallerHandler.findHandler (peer_id : PeerId) : CallerHandler → Handler
  | .empty => .findHandler peer_id none
  | .user id => .findHandler peer_id (some id)
  | .announce => .findHandlerAnnounce peer_id

/-- The statement `block_in_queue.peers.emplace(peer_id)` on the queue entry of a hash. -/
def rememberPeer (self : SynchronizerImpl) (hash : BlockHash) (peer_id : PeerId) :
    SynchronizerImpl :=
  let known := mapUpdate self.known_blocks hash (fun kb =>
    { kb with peers := setInsert kb.peers peer_id })
  { self with known_blocks := known }

/-- The body of the lambda `find_handler` of `syncByBlockInfo` (lines 259-295), called with
the result of the search; `handler` is the captured handler. -/
def findHandlerInvoke (env : Env) (self : SynchronizerImpl) (peer_id : PeerId)
    (handler : Option Handler) (res : SyncResult) : SynchronizerImpl × List Event :=
  -- Remove peer from list of busy peers
  let self1 := { self with busy_peers := setErase self.busy_peers peer_id }
  match res with
  -- Finding the best common block was failed
  | .failure e => (self1, callHandler handler (.failure e))
  | .value block_info =>
    -- If provided block is already enqueued, just remember peer
    if mapContains self1.known_blocks block_info.hash then
      (rememberPeer self1 block_info.hash peer_id, callHandler handler (.value block_info))
    else
      -- Start to load blocks since found
      loadBlocks env self1 peer_id block_info handler

/-- The statement "Subscribe on demand" of `syncByBlockInfo` (lines 196-198): the state,
the events and what is left in the local `handler`. After
`subscribeToBlock(block_info, std::move(handler))` the local handler is empty; an empty
handler is moved like any other. -/
def subscribeOnDemand (env : Env) (tree : BlockTree) (self : SynchronizerImpl)
    (block_info : BlockInfo) (handler : CallerHandler) (subscribe_to_block : Bool) :
    SynchronizerImpl × List Event × CallerHandler :=
  if subscribe_to_block then
    let r := subscribeToBlock env tree self block_info
      (handler.toHandler.getD Handler.emptyFunction)
    (r.2.1, r.2.2, CallerHandler.empty)
  else (self, [], handler)

/-- The function `SynchronizerImpl::syncByBlockInfo`: the returned flag, the state and the
events. When `findCommonBlock` rejects the call (shutdown, duplicate request) it calls
`find_handler` before it returns; its body is run here. A failed `BOOST_ASSERT` ends the
call. -/
def syncByBlockInfo (env : Env) (tree : BlockTree) (self : SynchronizerImpl)
    (block_info : BlockInfo) (peer_id : PeerId) (handler : CallerHandler)
    (subscribe_to_block : Bool) : Bool × SynchronizerImpl × List Event :=
  -- Subscribe on demand
  let sub := subscribeOnDemand env tree self block_info handler subscribe_to_block
  let self1 := sub.1
  let evs1 := sub.2.1
  let handler1 := sub.2.2
  -- If provided block is already enqueued, just remember peer
  if mapContains self1.known_blocks block_info.hash then
    (false, rememberPeer self1 block_info.hash peer_id,
     evs1 ++ callHandler handler1.toHandler (.value block_info))
  -- If peer is already in use, don't start an additional issue
  else if peer_id ∈ self1.busy_peers then (false, self1, evs1)
  else
    let self2 := { self1 with busy_peers := setInsert self1.busy_peers peer_id }
    let last_finalized_block := tree.last_finalized
    let best_block := tree.best_block
    -- Provided block is equal our best one. Nothing needs to do.
    if block_info = best_block then
      (false, self2, evs1 ++ callHandler handler1.toHandler (.value block_info))
    else
      let lower := last_finalized_block.number
      let upper := min block_info.number best_block.number + 1
      let hint := min block_info.number best_block.number
      if ¬ lower < upper then (false, self2, evs1 ++ [Event.assertionFailure])
      else
        -- Find the best common block
        let r := findCommonBlock env self2 peer_id lower upper hint
          (handler1.findHandler peer_id) []
        match r.2.2 with
        | some _ => (true, r.1, evs1 ++ r.2.1)
        | none =>
          match handlerCalls r.2.1 with
          | (_, res) :: _ =>
            let f := findHandlerInvoke env r.1 peer_id handler1.toHandler res
            (true, f.1, evs1 ++ r.2.1 ++ f.2)
          | [] => (true, r.1, evs1 ++ r.2.1)

/-- The function `SynchronizerImpl::syncByBlockHeader`. -/
def syncByBlockHeader (env : Env) (tree : BlockTree) (self : SynchronizerImpl)
    (header : BlockHeader) (peer_id : PeerId) (handler : Handler) :
    Bool × SynchronizerImpl × List Event :=
  let block_hash := env.hashHeader header
  let block_info : BlockInfo := ⟨header.number, block_hash⟩
  -- Block was applied before
  if tree.hasBlockHeader block_hash then (false, self, [])
  -- Block is already enqueued
  else if mapContains self.known_blocks block_hash then
    (false, rememberPeer self block_hash peer_id, [])
  else
    -- Number of provided block header greater currently watched
    let self1 :=
      if self.watched_blocks_number < header.number then
        { self with watched_blocks_number := header.number, watched_blocks := [] }
      else self
    -- If number of provided block header is the same of watched, add handler
    let self2 :=
      if self1.watched_blocks_number = header.number then
        { self1 with watched_blocks := mapEmplace self1.watched_blocks block_hash handler }
      else self1
    -- If parent of provided block is in chain, start to load it immediately
    let parent_is_known :=
      mapContains self2.known_blocks header.parent_hash
        || tree.hasBlockHeader header.parent_hash
    if parent_is_known then
      let r := loadBlocks env self2 peer_id block_info (some .announce)
      (true, r.1, r.2)
    else
      -- Otherwise, is using base way to enqueue
      syncByBlockInfo env tree self2 block_info peer_id .announce false

/-! ## loadJustifications (response side) and applyNextJustification -/

/-- The update of `limit` at lines 900-906 for a response of `size` blocks. The
subtraction is reached only with `size < limit`, so it does not wrap. -/
def nextLimit (limit size : Nat) : Nat :=
  if size ≥ limit then 0 else limit - (size - 1)

/-- The locals of the loop over the blocks of a justification response. -/
structure JustificationLoop where
  self : SynchronizerImpl
  justification_received : Bool
  last_justified_block : BlockInfo
  last_observed_block : BlockInfo
deriving DecidableEq, Repr

/-- The loop `for (auto &block : blocks)` of the response handler of `loadJustifications`
(lines 911-934); the flag tells whether the loop was left by the early `return`. -/
def loadJustificationsLoop : JustificationLoop → List BlockData → JustificationLoop × Bool
  | l, [] => (l, false)
  | l, block :: rest =>
    match block.header with
    | none => (l, true)
    | some header =>
      let last_observed_block : BlockInfo := ⟨header.number, block.hash⟩
      match block.justification with
      | some j =>
        loadJustificationsLoop
          { self := { l.self with
                      justifications := l.self.justifications ++ [(last_observed_block, j)] },
            justification_received := true,
            last_justified_block := last_observed_block,
            last_observed_block := last_observed_block } rest
      | none =>
        loadJustificationsLoop { l with last_observed_block := last_observed_block } rest

/-- The response handler that `loadJustifications` hands to the sync protocol
(lines 861-966). -/
def loadJustificationsResponse (self : SynchronizerImpl) (peer_id : PeerId)
    (target_block : BlockInfo) (limit : Option Nat) (handler : Option Handler)
    (response_res : Response) : SynchronizerImpl × List Event :=
  match response_res with
  | .failure e => (self, callHandler handler (.failure e))
  | .blocks blocks =>
    if blocks.isEmpty then (self, callHandler handler (.err .EMPTY_RESPONSE))
    else
      -- Use decreasing limit
      let limit1 := limit.map (fun l => nextLimit l blocks.length)
      match loadJustificationsLoop
          ⟨self, false, BlockInfo.default, BlockInfo.default⟩ blocks with
      | (l, true) => (l.self, callHandler handler (.err .RESPONSE_WITHOUT_BLOCK_HEADER))
      | (l, false) =>
        let evs1 :=
          if l.justification_received then [Event.scheduledApplyNextJustification] else []
        -- Continue justifications requesting till limit is non-zero and last
        -- observed block is not target
        if (limit1.isNone ∨ 0 < limit1.getD 0) ∧ l.last_observed_block ≠ target_block then
          (l.self, evs1 ++ [Event.scheduledLoadJustifications peer_id l.last_observed_block
            limit1 handler])
        else (l.self, evs1 ++ callHandler handler (.value l.last_justified_block))

/-- The function `SynchronizerImpl::applyNextJustification`. The flag
`applying_in_progress_` is set on entry and reset by the scope guard on exit. -/
def applyNextJustification (self : SynchronizerImpl) : SynchronizerImpl × List Event :=
  if self.applying_in_progress then (self, [])
  else
    ({ self with justifications := [] },
     self.justifications.map (fun e => Event.applyJustification e.1 e.2))

/-! ## The synchronizer as a transition system -/

/-- The body of the lambda `handler` of `askNextPortionOfBlocks` (lines 1549-1571). -/
def askPortionInvoke (env : Env) (self : SynchronizerImpl) (peer_id : PeerId)
    (res : SyncResult) : SynchronizerImpl × List Event :=
  let self1 := askPortionFailed self peer_id
  match res with
  | .failure _ => (self1, [])
  | .value _ =>
    if self1.known_blocks.isEmpty then askNextPortionOfBlocks env self1 else (self1, [])

/-- The body of the lambda that `askNextPortionOfBlocks` passes to `findCommonBlock`
(lines 1589-1609). -/
def askPortionFindInvoke (env : Env) (self : SynchronizerImpl) (peer_id : PeerId)
    (res : SyncResult) : SynchronizerImpl × List Event :=
  match res with
  | .failure e =>
    let r := askPortionInvoke env self peer_id (.failure e)
    (r.1, Event.handler (.askPortion peer_id) (.failure e) :: r.2)
  | .value common_block_info =>
    let r := loadBlocks env self peer_id common_block_info (some (.askPortion peer_id))
    match handlerCalls r.2 with
    | (_, res1) :: _ =>
      let r1 := askPortionInvoke env r.1 peer_id res1
      (r1.1, r.2 ++ r1.2)
    | [] => r

/-- What a call of a handler does to the synchronizer: the lambdas created inside the
synchronizer run their bodies; a callback of a caller, the trace-only lambdas and the
throwing call of an empty function leave the state alone. -/
def invokeHandler (env : Env) (self : SynchronizerImpl) (h : Handler) (res : SyncResult) :
    SynchronizerImpl × List Event :=
  match h with
  | .user _ => (self, [])
  | .announce => (self, [])
  | .justificationsLog _ _ => (self, [])
  | .askPortion peer_id => askPortionInvoke env self peer_id res
  | .askPortionFind peer_id => askPortionFindInvoke env self peer_id res
  | .findHandler peer_id inner =>
    findHandlerInvoke env self peer_id (inner.map (fun id => Handler.user id)) res
  | .findHandlerAnnounce peer_id => findHandlerInvoke env self peer_id (some .announce) res
  | .emptyFunction => (self, [])

/-- Runs the bodies of the handlers called by the given events, in order. -/
def dispatchHandlers (env : Env) :
    SynchronizerImpl → List Event → List Event → SynchronizerImpl × List Event
  | self, [], acc => (self, acc)
  | self, Event.handler h res :: rest, acc =>
    let r := invokeHandler env self h res
    dispatchHandlers env r.1 rest (acc ++ r.2)
  | self, _ :: rest, acc => dispatchHandlers env self rest acc

/-- A response handler run with the response of its request, followed by the bodies of
the handlers it called. The loop of the search gets a budget of one more than the width
of its interval. -/
def respond (env : Env) (tree : BlockTree) (self : SynchronizerImpl)
    (response_handler : ResponseHandler) (response : Response) :
    SynchronizerImpl × List Event :=
  let r : SynchronizerImpl × List Event :=
    match response_handler with
    | .findCommonBlock c =>
      let f := findCommonBlockResponse env tree (c.upper - c.lower + 1) self c response
      (f.1, f.2.1)
    | .loadBlocks peer_id handler => loadBlocksResponse env tree self peer_id handler response
    | .loadJustifications peer_id target_block limit handler =>
      loadJustificationsResponse self peer_id target_block limit handler response
  dispatchHandlers env r.1 r.2 r.2

/-- The synchronizer together with what it has handed to its collaborators and not got
back yet. -/
structure Node where
  self : SynchronizerImpl
  /-- The requests sent and not yet answered. -/
  requests : List (PeerId × BlocksRequest × ResponseHandler)
  /-- The tasks given to the scheduler and not yet run. -/
  tasks : List Event
  /-- The blocks handed to the executor or appender whose callback has not run yet. -/
  executing : List ApplyCallback
  /-- The justifications handed to the finality gadget whose callback has not run yet. -/
  justifying : List BlockInfo
deriving DecidableEq, Repr

/-- A node around a freshly constructed synchronizer. -/
def Node.init (method : SyncMethod) : Node :=
  ⟨SynchronizerImpl.init method, [], [], [], []⟩

/-- Whether the event is a task given to the scheduler. -/
def isTask (e : Event) : Bool :=
  match e with
  | .scheduledHandler _ _ => true
  | .scheduledRemoval _ _ => true
  | .scheduledApplyNextBlock => true
  | .scheduledApplyNextJustification => true
  | .scheduledSyncMissingJustifications _ _ _ _ => true
  | .scheduledLoadJustifications _ _ _ _ => true
  | _ => false

/-- The node after a member function returned the given state and events. -/
def Node.absorb (n : Node) (r : SynchronizerImpl × List Event) : Node :=
  { self := r.1,
    requests := n.requests ++ r.2.filterMap (fun e =>
      match e with
      | .request p req k => some (p, req, k)
      | _ => none),
    tasks := n.tasks ++ r.2.filter isTask,
    executing := n.executing ++ r.2.filterMap (fun e =>
      match e with
      | .applyBlock _ _ _ callback => some callback
      | .appendHeader _ _ callback => some callback
      | _ => none),
    justifying := n.justifying ++ r.2.filterMap (fun e =>
      match e with
      | .applyJustification block _ => some block
      | _ => none) }

/-- A scheduled task, run. -/
def runTask (env : Env) (tree : BlockTree) (self : SynchronizerImpl) (task : Event) :
    SynchronizerImpl × List Event :=
  match task with
  | .scheduledHandler h res => (self, [Event.handler h res])
  | .scheduledRemoval peer_id fp => (recentRequestRemoval self peer_id fp, [])
  | .scheduledApplyNextBlock => applyNextBlock env tree self
  | .scheduledApplyNextJustification => applyNextJustification self
  | .scheduledSyncMissingJustifications peer_id target limit h =>
    syncMissingJustifications env self peer_id target limit h
  | .scheduledLoadJustifications peer_id target limit h =>
    loadJustifications env self peer_id target limit h
  | _ => (self, [])

/-- What can happen to a node. -/
inductive Action where
  /-- A caller invokes `syncByBlockInfo`. -/
  | syncByBlockInfo (block_info : BlockInfo) (peer_id : PeerId) (handler : CallerHandler)
      (subscribe_to_block : Bool)
  /-- A caller invokes `syncByBlockHeader`. -/
  | syncByBlockHeader (header : BlockHeader) (peer_id : PeerId) (handler : Handler)
  /-- A caller invokes `syncMissingJustifications`. -/
  | syncMissingJustifications (peer_id : PeerId) (target_block : BlockInfo)
      (limit : Option Nat) (handler : Option Handler)
  /-- The response of the pending request at the given position arrives. -/
  | response (i : Nat) (response : Response)
  /-- The scheduler runs the task at the given position. -/
  | task (i : Nat)
  /-- The executor or appender reports the result for the block at the given position. -/
  | completed (i : Nat) (res : AdditionResult)
  /-- The finality gadget finishes the justification at the given position. -/
  | justified (i : Nat)
  /-- The application state manager invokes `stop`. -/
  | stop
deriving DecidableEq, Repr

/-- One transition of the node; an action that names a position that does not exist
changes nothing. -/
def Node.step (env : Env) (tree : BlockTree) (n : Node) : Action → Node
  | .syncByBlockInfo block_info peer_id handler subscribe_to_block =>
    n.absorb (syncByBlockInfo env tree n.self block_info peer_id handler
      subscribe_to_block).2
  | .syncByBlockHeader header peer_id handler =>
    n.absorb (syncByBlockHeader env tree n.self header peer_id handler).2
  | .syncMissingJustifications peer_id target_block limit handler =>
    n.absorb (syncMissingJustifications env n.self peer_id target_block limit handler)
  | .response i response =>
    match n.requests.get? i with
    | some (_, _, k) =>
      Node.absorb { n with requests := n.requests.eraseIdx i }
        (respond env tree n.self k response)
    | none => n
  | .task i =>
    match n.tasks.get? i with
    | some t => Node.absorb { n with tasks := n.tasks.eraseIdx i } (runTask env tree n.self t)
    | none => n
  | .completed i res =>
    match n.executing.get? i with
    | some callback =>
      Node.absorb { n with executing := n.executing.eraseIdx i }
        (applyCallback env tree n.self callback res)
    | none => n
  | .justified i => { n with justifying := n.justifying.eraseIdx i }
  | .stop => { n with self := { n.self with node_is_shutting_down := true } }

/-- The node after a sequence of actions. -/
def Node.run (env : Env) (tree : BlockTree) : Node → List Action → Node
  | n, [] => n
  | n, a :: rest => Node.run env tree (Node.step env tree n a) rest

/-- The ordering that `std::multimap<BlockNumber, BlockHash>` keeps: the entries of
`generations` are in non-decreasing order of their block numbers. -/
def generationsSorted (self : SynchronizerImpl) : Prop :=
  List.Pairwise (fun a b : Nat × BlockHash => a.1 ≤ b.1) self.generations

namespace Scenario

/-- A second child of `A2`, numbered 3 (another state root than `C3`). -/
def C3b : BlockData := mkBlock A2.hash 3 9

/-- The header of a block of the scenario. -/
def headerOf (b : BlockData) : BlockHeader := b.header.getD ⟨0, 0, 0, 0, []⟩

/-- Peer 7 announces `C3` and peer 8 announces `C3b` to a node with chain `G, A1, A2`; both
parents are in the block tree, so two `loadBlocks` requests leave. Each response enqueues
its block and schedules `applyNextBlock`; then the scheduler runs the two tasks. -/
def twoAnnouncements : List Action :=
  [.syncByBlockHeader (headerOf C3) 7 (.user 1),
   .syncByBlockHeader (headerOf C3b) 8 (.user 2),
   .response 0 (.blocks [C3]),
   .response 0 (.blocks [C3b]),
   .task 2,
   .task 2]

/-- Peer 7 announces `C3`, and justifications from `G` on are requested from peer 9. The
response of peer 7 enqueues `C3`, the scheduled `applyNextBlock` hands it to the executor.
Before the executor reports back, peer 9 answers with a justification for `G` and the
scheduler runs the `applyNextJustification` task. -/
def blockAndJustification : List Action :=
  [.syncByBlockHeader (headerOf C3) 7 (.user 1),
   .syncMissingJustifications 9 ⟨0, G.hash⟩ none none,
   .response 0 (.blocks [C3]),
   .task 2,
   .response 0 (.blocks [{ G with justification := some 42 }]),
   .task 2]

end Scenario

/-- What a subscriber of `block` is called with for the addition result `res`: the block
info on success, the error otherwise. -/
def notifiedResult (block : BlockInfo) (res : AdditionResult) : SyncResult :=
  match res with
  | .failure e => .failure e
  | .success => .value block

namespace Scenario

/-- A synchronizer with two subscriptions for `C3` and one for `C4`. -/
def subscribed : SynchronizerImpl :=
  { SynchronizerImpl.init .Full with
    subscriptions := [(⟨3, C3.hash⟩, .user 1), (⟨4, C4.hash⟩, .user 2),
                      (⟨3, C3.hash⟩, .user 3)] }

end Scenario

namespace Scenario

/-- The block tree of a node whose last finalized block, also its best block, has number
100 (and hash 100100). -/
def tree100 : BlockTree :=
  { last_finalized := ⟨100, 100100⟩,
    best_block := ⟨100, 100100⟩,
    hasBlockHeader := fun h => decide (h = 100100),
    getBlockHash := fun n => if n = 100 then some 100100 else none }

/-- A block numbered 200. -/
def B200 : BlockData := mkBlock 199199 200 0

/-- A block numbered 517. -/
def B517 : BlockData := mkBlock 516516 517 0

/-- The queue of a node finalized at number 100 after peer 7 served the block `B200`. -/
def queue200 : SynchronizerImpl :=
  (loadBlocksResponse env tree100 (SynchronizerImpl.init .Full) 7 none (.blocks [B200])).1

/-- The queue of a node finalized at number 100 after peer 7 served the block `B517`. -/
def queue517 : SynchronizerImpl :=
  (loadBlocksResponse env tree100 (SynchronizerImpl.init .Full) 7 none (.blocks [B517])).1

end Scenario

/-- The calls of `loadJustifications` for a next page that the events schedule, each with
its arguments. -/
def scheduledPages (evs : List Event) :
    List (PeerId × BlockInfo × Option Nat × Option Handler) :=
  evs.filterMap (fun e =>
    match e with
    | .scheduledLoadJustifications peer_id target limit h => some (peer_id, target, limit, h)
    | _ => none)

/-- A justification download driven to its end against a peer that answers the request
`r` with `peer r`, with nothing else happening in between: each round calls
`loadJustifications`, delivers the response of the request it sent to
`loadJustificationsResponse`, and goes on with the scheduled call for the next page.
`fuel` bounds the rounds; the flag tells whether the download came to its end. -/
def loadJustificationsRun (env : Env) (peer : BlocksRequest → Response) :
    Nat → SynchronizerImpl → PeerId → BlockInfo → Option Nat → Option Handler →
      SynchronizerImpl × List Event × Bool
  | 0, self, _, _, _, _ => (self, [], false)
  | fuel + 1, self, peer_id, target_block, limit, handler =>
    let r := loadJustifications env self peer_id target_block limit handler
    if (sentRequests r.2).isEmpty then (r.1, r.2, true)
    else
      let a := loadJustificationsResponse r.1 peer_id target_block limit handler
        (peer (loadJustificationsRequest target_block limit))
      match scheduledPages a.2 with
      | [] => (a.1, r.2 ++ a.2, true)
      | (p, t, l, h) :: _ =>
        let n := loadJustificationsRun env peer fuel a.1 p t l h
        (n.1, r.2 ++ a.2 ++ n.2.1, n.2.2)

/-- The block info that the loop of the justification response records for a block. -/
def observedInfo (block : BlockData) : BlockInfo := ⟨headerNumber block, block.hash⟩

namespace Scenario

/-- The block `A1` with a justification attached. -/
def justifiedA1 : BlockData := { A1 with justification := some 42 }

/-- A peer that serves the chain `G, A1, A2, C3, C4, C5` two blocks at a time. -/
def pagingPeer (r : BlocksRequest) : Response :=
  match peerOf peerChain r with
  | .blocks bs => .blocks (bs.take 2)
  | .failure e => .failure e

end Scenario

namespace Scenario

/-- A peer that answers every request with two blocks: the requested one and a child of
it, numbered by their hashes, without justifications. -/
def endlessPeer (r : BlocksRequest) : Response :=
  match r.from_ with
  | .hash h =>
    .blocks [⟨h, some ⟨0, h, 0, 0, []⟩, none, none⟩, ⟨h + 1, some ⟨h, h + 1, 0, 0, []⟩, none, none⟩]
  | .number n =>
    .blocks [⟨n, some ⟨0, n, 0, 0, []⟩, none, none⟩, ⟨n + 1, some ⟨n, n + 1, 0, 0, []⟩, none, none⟩]

end Scenario

namespace Scenario

/-- A chain of `count` blocks on top of the block with hash `parent`, numbered from
`number` on. -/
def chainFrom : Nat → BlockHash → Nat → List BlockData
  | 0, _, _ => []
  | count + 1, parent, number =>
    (mkBlock parent number 0) :: chainFrom count (mkBlock parent number 0).hash (number + 1)

/-- The queue of a node with chain `G, A1, A2` after peer 7 served 256 blocks on top of
`A2`: as many as `kMinPreloadedBlockAmount`. -/
def fullQueue : SynchronizerImpl :=
  (loadBlocksResponse env tree0 (SynchronizerImpl.init .Full) 7 none
    (.blocks (chainFrom 256 A2.hash 3))).1

/-- The header of a block numbered 259 that is a child of the last block of `fullQueue`. -/
def announced259 : BlockHeader :=
  ⟨((chainFrom 256 A2.hash 3).getLast?.map (fun b => b.hash)).getD 0, 259, 0, 0, []⟩

end Scenario

/-! ## syncState -/

/-- A byte buffer. -/
abbrev Buffer := List Nat

/-- What `syncState` reads from the block tree and the trie storage. -/
structure StateEnv where
  /-- The call `block_tree_->getBlockHeader(hash)`. -/
  getBlockHeader : BlockHash → Except ErrorCode BlockHeader
  /-- The test `storage_->getEphemeralBatchAt(state_root)` succeeds. -/
  hasStateAt : BlockHash → Bool

/-- A `StateResponse`: the entry lists it carries. -/
structure StateResponse where
  entries : List (List (Buffer × Buffer))
deriving DecidableEq, Repr

/-- What the object `state_sync_flow_` (a `StateSyncRequestFlow`, declared outside the
sources) answers while one response is handled: the result of `onResponse(res)`, the
value of `complete()` after it, and the result of `commit(...)`. -/
structure FlowAnswers where
  onResponse : Except ErrorCode Unit
  complete : Bool
  commit : Except ErrorCode Unit

/-- The overload `SynchronizerImpl::syncState()` (lines 1120-1149): it sends the next
request of the flow to the peer of the state sync. Its callers have set `state_sync_` and
`state_sync_flow_`, which it dereferences without a test. -/
def syncStateNext (self : SynchronizerImpl) : SynchronizerImpl × List Event :=
  match self.state_sync, self.state_sync_flow with
  | some state_sync, some flow => (self, [Event.stateRequest state_sync.peer flow])
  | _, _ => (self, [])

/-- The function `SynchronizerImpl::syncState(peer_id, block, handler)`
(lines 1086-1118). -/
def syncState (senv : StateEnv) (self : SynchronizerImpl) (peer_id : PeerId)
    (block : BlockInfo) (handler : Handler) : SynchronizerImpl × List Event :=
  if self.state_sync.isSome then (self, [])
  else
    match senv.getBlockHeader block.hash with
    | .error e => (self, [Event.handler handler (.failure e)])
    | .ok header =>
      if senv.hasStateAt header.state_root then (self, [Event.handler handler (.value block)])
      else
        let flow :=
          if self.state_sync_flow.isNone ∨ self.state_sync_flow ≠ some block then some block
          else self.state_sync_flow
        syncStateNext
          { self with state_sync_flow := flow,
                      state_sync := some ⟨peer_id, handler⟩,
                      entries := 0 }

/-- The overload `SynchronizerImpl::syncState(lock, _res)` (lines 1151-1178): the state,
the events, and the error it returns, if any. The count read by
`res.entries[0].entries.size()` is the length of the first entry list. -/
def syncStateOnResponse (self : SynchronizerImpl) (res : Except ErrorCode StateResponse)
    (flow : FlowAnswers) : SynchronizerImpl × List Event × Option ErrorCode :=
  match res with
  | .error e => (self, [], some e)
  | .ok res =>
    match flow.onResponse with
    | .error e => (self, [], some e)
    | .ok _ =>
      let self1 := { self with entries := self.entries + (res.entries.head?.getD []).length }
      if ¬ flow.complete then
        let r := syncStateNext self1
        (r.1, r.2, none)
      else
        match flow.commit with
        | .error e => (self1, [], some e)
        | .ok _ =>
          match self1.state_sync_flow, self1.state_sync with
          | some block, some state_sync =>
            -- State syncing has completed; Switch to the full syncing
            ({ self1 with state_sync_flow := none, state_sync := none, sync_method := .Full },
             [Event.newRuntime block.hash, Event.handler state_sync.cb (.value block)],
             none)
          | _, _ => (self1, [], none)

/-- The response handler that `syncState()` hands to the state protocol
(lines 1131-1145). -/
def syncStateResponse (self : SynchronizerImpl) (res : Except ErrorCode StateResponse)
    (flow : FlowAnswers) : SynchronizerImpl × List Event :=
  let ok := syncStateOnResponse self res flow
  match ok.2.2 with
  | none => (ok.1, ok.2.1)
  | some e =>
    match ok.1.state_sync with
    | some state_sync =>
      ({ ok.1 with state_sync := none }, ok.2.1 ++ [Event.handler state_sync.cb (.failure e)])
    | none => (ok.1, ok.2.1)

namespace Scenario

/-- A block tree and trie storage that know the header of `A2` but not its state. -/
def stateEnv : StateEnv :=
  { getBlockHeader := fun h => if h = A2.hash then .ok (headerOf A2) else .error (.other 7),
    hasStateAt := fun _ => false }

/-- A synchronizer in Fast mode with a state sync of `A2` from peer 7 in progress. -/
def stateSyncing : SynchronizerImpl :=
  (syncState stateEnv (SynchronizerImpl.init .Fast) 7 ⟨2, A2.hash⟩ (.user 1)).1

end Scenario

/-! ## calculate_genesis_state (src/core/injector/calculate_genesis_state.hpp) -/

/-- Modelled from the spec: `storage::trie::PolkadotTrieImpl`, declared outside the
sources; the spec speaks of "an empty trie" into which key/value pairs are inserted. It
is taken as a finite map from keys to values, kept as the list of its entries (one per
key, in the order of the last insertion of the key). -/
structure PolkadotTrieImpl where
  entries : List (Buffer × Buffer)
deriving DecidableEq, Repr

/-- The empty trie `storage::trie::PolkadotTrieImpl trie;`. -/
def PolkadotTrieImpl.empty : PolkadotTrieImpl := ⟨[]⟩

/-- Modelled from the spec: `trie.put(k, v)`, inserting a pair; a value stored under the
key before is replaced. -/
def PolkadotTrieImpl.put (trie : PolkadotTrieImpl) (k v : Buffer) : PolkadotTrieImpl :=
  ⟨mapErase trie.entries k ++ [(k, v)]⟩

/-- The value stored under a key, if there is one. -/
def PolkadotTrieImpl.lookup (trie : PolkadotTrieImpl) (k : Buffer) : Option Buffer :=
  mapFind trie.entries k

/-- Modelled from the spec: the error of `trie.get(k)` for a key without a value; its code
is declared outside the sources. -/
def kNoValue : ErrorCode := .other 0

/-- Modelled from the spec: `trie.get(k)`, the value stored under the key or an error. -/
def PolkadotTrieImpl.get (trie : PolkadotTrieImpl) (k : Buffer) : Except ErrorCode Buffer :=
  match trie.lookup k with
  | some v => .ok v
  | none => .error kNoValue

/-- The type `application::GenesisRawData`: a sequence of key/value pairs. -/
abbrev GenesisRawData := List (Buffer × Buffer)

/-- What `calculate_genesis_state` reads from the chain spec. -/
structure ChainSpec where
  /-- The call `getGenesisTopSection()`. -/
  genesisTopSection : GenesisRawData
  /-- The call `getGenesisChildrenDefaultSection()`: child id and pairs, in iteration
  order. -/
  genesisChildrenDefaultSection : List (Buffer × GenesisRawData)

/-- The collaborators and constants of `calculate_genesis_state` that are declared
outside the sources. -/
structure GenesisEnv where
  /-- The constant `storage::kRuntimeCodeKey`. -/
  kRuntimeCodeKey : Buffer
  /-- The constant `storage::kChildStorageDefaultPrefix`. -/
  kChildStorageDefaultPrefix : Buffer
  /-- The call `runtime::RuntimeEnvironment::fromCode(module_factory, code)`; a runtime
  environment is identified by a number. -/
  fromCode : Buffer → Except ErrorCode Nat
  /-- The call `core_api.version(env)`, reduced to the `state_version` of its result. -/
  version : Nat → Except ErrorCode Nat
  /-- The call `trie_serializer.storeTrie(trie, version)`: the root hash or an error. -/
  storeTrie : PolkadotTrieImpl → Nat → Except ErrorCode Buffer

/-- The lambda `trie_from`: a trie built from the pairs, inserted in order. -/
def trie_from (kv : GenesisRawData) : PolkadotTrieImpl :=
  kv.foldl (fun trie e => trie.put e.1 e.2) PolkadotTrieImpl.empty

/-- The loop `for (auto &[child, kv] : chain_spec.getGenesisChildrenDefaultSection())`:
the top trie after it, or the error of the first `storeTrie` that fails. -/
def storeChildren (genv : GenesisEnv) (version : Nat) :
    PolkadotTrieImpl → List (Buffer × GenesisRawData) → Except ErrorCode PolkadotTrieImpl
  | top_trie, [] => .ok top_trie
  | top_trie, (child, kv) :: rest =>
    match genv.storeTrie (trie_from kv) version with
    | .error e => .error e
    | .ok root =>
      storeChildren genv version
        (top_trie.put (genv.kChildStorageDefaultPrefix ++ child) root) rest

/-- The function `kagome::injector::calculate_genesis_state`. -/
def calculate_genesis_state (genv : GenesisEnv) (chain_spec : ChainSpec) :
    Except ErrorCode Buffer :=
  let top_trie := trie_from chain_spec.genesisTopSection
  match top_trie.get genv.kRuntimeCodeKey with
  | .error e => .error e
  | .ok code =>
    match genv.fromCode code with
    | .error e => .error e
    | .ok env =>
      match genv.version env with
      | .error e => .error e
      | .ok version =>
        match storeChildren genv version top_trie chain_spec.genesisChildrenDefaultSection with
        | .error e => .error e
        | .ok top_trie1 => genv.storeTrie top_trie1 version

/-- The pairs of the genesis state as the spec lists them: every top-level pair, then
for each child of the default-children section its root under the key
`kChildStorageDefaultPrefix ++ child`; `root` gives the root of the trie of a child. -/
def genesisPairs (genv : GenesisEnv) (chain_spec : ChainSpec)
    (root : Buffer × GenesisRawData → Buffer) : GenesisRawData :=
  chain_spec.genesisTopSection
    ++ chain_spec.genesisChildrenDefaultSection.map
        (fun c => (genv.kChildStorageDefaultPrefix ++ c.1, root c))

namespace Scenario

/-- Constants and collaborators for the worked example: the runtime code key is `[58, 99]`,
the child prefix is `[58, 100]`, every code yields state version 1, and the root of a
trie is the concatenation of its keys and values. -/
def genesisEnv : GenesisEnv :=
  { kRuntimeCodeKey := [58, 99],
    kChildStorageDefaultPrefix := [58, 100],
    fromCode := fun _ => .ok 0,
    version := fun _ => .ok 1,
    storeTrie := fun trie _ => .ok (trie.entries.flatMap (fun e => e.1 ++ e.2)) }

/-- A chain spec with the runtime code and one more top-level pair, and one child. -/
def chainSpec : ChainSpec :=
  { genesisTopSection := [([58, 99], [1, 2, 3]), ([7], [8])],
    genesisChildrenDefaultSection := [([5], [([1], [2])])] }

end Scenario

/-- The hash `x` is one of the queued hashes or a descendant of one of them according to
the ancestry multimap: the hashes that the loop of `discardBlock` visits. -/
def Visited (ancestry : List (BlockHash × BlockHash)) (queue : List BlockHash)
    (x : BlockHash) : Prop :=
  ∃ q ∈ queue, Reach ancestry q x

namespace Scenario

/-- A queue that holds `fork1`, `fork2` and `C3`, whose ancestry multimap has a cycle
between `fork1` and `fork2` and a repeated entry, with a subscription for `fork2`. -/
def cyclicQueue : SynchronizerImpl :=
  { SynchronizerImpl.init .Full with
    known_blocks := [(fork1.hash, ⟨fork1, [7]⟩), (fork2.hash, ⟨fork2, [7]⟩),
                     (C3.hash, ⟨C3, [7]⟩)],
    generations := [(1, fork1.hash), (2, fork2.hash), (3, C3.hash)],
    ancestry := [(fork1.hash, fork2.hash), (fork2.hash, fork1.hash),
                 (fork1.hash, fork2.hash), (A2.hash, C3.hash)],
    subscriptions := [(⟨2, fork2.hash⟩, .user 4)] }

end Scenario

namespace Scenario

/-- The queue after peer 7 served `C3, C4` and peer 8 served the competing block `C3b`
(also numbered 3), on a node with chain `G, A1, A2`. -/
def queueWithCompetitor : SynchronizerImpl :=
  (loadBlocksResponse env tree0 queueC3C4 8 none (.blocks [C3b])).1

end Scenario

/-- Every entry of `known_blocks` has a header. -/
def headersPresent (self : SynchronizerImpl) : Prop :=
  ∀ e ∈ self.known_blocks, e.2.data.header.isSome = true

/-- What a member function that takes the state `self` to `self1` and emits `evs` keeps:
if every queue entry had a header before, every queue entry has one afterwards; and if
the node was shutting down before, it still is and no block request was sent. -/
def Preserved (self self1 : SynchronizerImpl) (evs : List Event) : Prop :=
  (headersPresent self → headersPresent self1)
  ∧ (self.node_is_shutting_down = true →
      self1.node_is_shutting_down = true ∧ sentRequests evs = [])

/-- Everything that can happen to a node: an action in front of the block tree as it is
at that moment, a finalization that makes the node call `prune`, a call of `syncState`,
or the arrival of a state response. The function `syncBabeDigest` reads and writes no
member of the synchronizer and is not among the steps. -/
inductive Step where
  | action (tree : BlockTree) (a : Action)
  | prune (finalized_block : BlockInfo)
  | syncState (senv : StateEnv) (peer_id : PeerId) (block : BlockInfo) (handler : Handler)
  | stateResponse (res : Except ErrorCode StateResponse) (flow : FlowAnswers)

/-- One transition of the node. A state response can arrive only while a state sync is
in progress. -/
def Node.stepIn (env : Env) (n : Node) : Step → Node
  | .action tree a => Node.step env tree n a
  | .prune finalized_block => n.absorb (prune n.self finalized_block)
  | .syncState senv peer_id block handler =>
    n.absorb (syncState senv n.self peer_id block handler)
  | .stateResponse res flow =>
    if n.self.state_sync.isSome then n.absorb (syncStateResponse n.self res flow) else n

/-- The node after a sequence of steps. -/
def Node.runIn (env : Env) : Node → List Step → Node
  | n, [] => n
  | n, s :: rest => Node.runIn env (Node.stepIn env n s) rest

namespace Scenario

/-- The block `C4` as a peer sends it without its header. -/
def headerlessC4 : BlockData := { C4 with header := none }

/-- A node with chain `G, A1, A2` to which peer 7 announced `C3`, stopped while the request
for the block is pending. -/
def stoppedNode : Node :=
  Node.run env tree0 (Node.init .Full)
    [.syncByBlockHeader (headerOf C3) 7 (.user 1), .stop]

/-- The steps of a node that fetches the announced block `C3` and hands it to the
executor. -/
def fetchC3 : List Step :=
  [.action tree0 (.syncByBlockHeader (headerOf C3) 7 (.user 1)),
   .action tree0 (.response 0 (.blocks [C3])),
   .action tree0 (.task 1)]

end Scenario

/-! # Properties -/

theorem loadBlocksLoop_append (env : Env) (tree : BlockTree) (peer_id : PeerId)
    (pre rest : List BlockData) (l : LoadLoop) :
    loadBlocksLoop env tree peer_id l (pre ++ rest) =
      match loadBlocksLoop env tree peer_id l pre with
      | (l1, none) => loadBlocksLoop env tree peer_id l1 rest
      | (l1, some e) => (l1, some e) := by
  induction pre generalizing l with
  | nil => simp [loadBlocksLoop]
  | cons b bs ih =>
    simp only [List.cons_append, loadBlocksLoop]
    cases h : loadBlocksBlock env tree peer_id l b with
    | error e => simp
    | ok l1 => simpa using ih l1

theorem loadBlocksResponse_split (env : Env) (tree : BlockTree) (self : SynchronizerImpl)
    (peer_id : PeerId) (handler : Option Handler) (pre post : List BlockData)
    (b : BlockData) (l : LoadLoop)
    (hpre : loadBlocksLoop env tree peer_id ⟨self, zero_hash, false, BlockInfo.default⟩ pre
      = (l, none)) :
    loadBlocksResponse env tree self peer_id handler (.blocks (pre ++ b :: post)) =
      match loadBlocksBlock env tree peer_id l b with
      | .error e => (l.self, callHandler handler (.err e))
      | .ok l1 =>
        match loadBlocksLoop env tree peer_id l1 post with
        | (l2, some e) => (l2.self, callHandler handler (.err e))
        | (l2, none) =>
          (l2.self, callHandler handler (.value l2.last_loaded_block)
            ++ (if l2.some_blocks_added then [Event.scheduledApplyNextBlock] else [])) := by
  have hne : (pre ++ b :: post).isEmpty = false := by
    cases pre <;> simp
  simp only [loadBlocksResponse, hne, loadBlocksLoop_append, hpre, loadBlocksLoop]
  cases h : loadBlocksBlock env tree peer_id l b with
  | error e => simp
  | ok l1 => simp

/-- Invariant rule for the loop of `loadBlocks`. -/
theorem loadBlocksLoop_invariant (env : Env) (tree : BlockTree) (peer_id : PeerId)
    (P : LoadLoop → Prop)
    (hstep : ∀ l b l1, P l → loadBlocksBlock env tree peer_id l b = .ok l1 → P l1) :
    ∀ (blocks : List BlockData) (l : LoadLoop), P l →
      P (loadBlocksLoop env tree peer_id l blocks).1 := by
  intro blocks
  induction blocks with
  | nil => intro l hl; simpa [loadBlocksLoop] using hl
  | cons b bs ih =>
    intro l hl
    simp only [loadBlocksLoop]
    cases h : loadBlocksBlock env tree peer_id l b with
    | error e => simpa using hl
    | ok l1 => simpa using ih l1 (hstep l b l1 hl h)

/-- The cases in which an iteration of the loop of `loadBlocks` goes on. -/
theorem loadBlocksBlock_ok (env : Env) (tree : BlockTree) (peer_id : PeerId)
    (l l1 : LoadLoop) (b : BlockData)
    (h : loadBlocksBlock env tree peer_id l b = .ok l1) :
    ∃ header, b.header = some header ∧
      ((header.number ≤ tree.last_finalized.number ∧ l1 = l) ∨
       (tree.last_finalized.number < header.number
        ∧ (tree.last_finalized.number + 1 = header.number →
            tree.last_finalized.hash = header.parent_hash)
        ∧ (tree.last_finalized.number + 1 ≠ header.number →
            l.parent_hash = header.parent_hash ∨ l.parent_hash = zero_hash)
        ∧ b.hash = env.hashHeader header
        ∧ l1 = enqueueBlock peer_id l b header)) := by
  unfold loadBlocksBlock at h
  cases hh : b.header with
  | none => simp [hh] at h
  | some header =>
    refine ⟨header, rfl, ?_⟩
    simp only [hh, Option.isNone_some] at h
    by_cases h1 : tree.last_finalized.number ≥ header.number
    · left
      refine ⟨h1, ?_⟩
      by_cases h2 : tree.last_finalized.number = header.number
      · by_cases h3 : tree.last_finalized.hash = b.hash
        · simpa [h1, h2, h3] using h.symm
        · simp [h1, h2, h3] at h
      · simpa [h1, h2] using h.symm
    · right
      by_cases h2 : tree.last_finalized.number + 1 = header.number
      · by_cases h3 : tree.last_finalized.hash = header.parent_hash
        · by_cases h4 : b.hash = env.hashHeader header
          · simp [h1, h2, h3, h4] at h
            exact ⟨Nat.lt_of_not_le h1, fun _ => h3, fun h5 => absurd h2 h5, h4, h.symm⟩
          · simp [h1, h2, h3, h4] at h
        · simp [h1, h2, h3] at h
      · by_cases h3 : l.parent_hash = header.parent_hash
        · by_cases h4 : b.hash = env.hashHeader header
          · simp [h1, h2, h3, h4] at h
            exact ⟨Nat.lt_of_not_le h1, fun h5 => absurd h5 h2, fun _ => Or.inl h3, h4, h.symm⟩
          · simp [h1, h2, h3, h4] at h
        · by_cases h5 : l.parent_hash = zero_hash
          · by_cases h4 : b.hash = env.hashHeader header
            · simp [h1, h2, h3, h4, h5] at h
              exact ⟨Nat.lt_of_not_le h1, fun h6 => absurd h6 h2, fun _ => Or.inr h5, h4, h.symm⟩
            · simp [h1, h2, h3, h4, h5] at h
          · simp [h1, h2, h3, h5] at h

theorem mem_mapUpdate {κ β : Type} [DecidableEq κ] (m : List (κ × β)) (key : κ) (f : β → β)
    (k : κ) (v : β) (h : (k, v) ∈ mapUpdate m key f) :
    ∃ v0, (k, v0) ∈ m ∧ (v = v0 ∨ v = f v0) := by
  unfold mapUpdate at h
  rw [List.mem_map] at h
  obtain ⟨⟨k0, v0⟩, hmem, heq⟩ := h
  by_cases hk : k0 = key
  · simp [hk] at heq
    exact ⟨v0, by rw [← heq.1, ← hk]; exact hmem, Or.inr heq.2.symm⟩
  · simp [hk] at heq
    exact ⟨v0, by rw [← heq.1]; exact hmem, Or.inl heq.2.symm⟩

theorem mem_mapEmplace {κ β : Type} [DecidableEq κ] (m : List (κ × β)) (key : κ) (v : β)
    (e : κ × β) (h : e ∈ mapEmplace m key v) : e ∈ m ∨ e = (key, v) := by
  unfold mapEmplace at h
  split at h
  · exact Or.inl h
  · simpa using h

theorem mapContains_iff {κ β : Type} [DecidableEq κ] (m : List (κ × β)) (key : κ) :
    mapContains m key = true ↔ key ∈ keys m := by
  induction m with
  | nil => simp [mapContains, mapFind, keys]
  | cons e rest ih =>
    obtain ⟨k, v⟩ := e
    by_cases hk : k = key
    · simp [mapContains, mapFind, keys, hk]
    · have ih1 : (mapFind rest key).isSome = true ↔ key ∈ List.map Prod.fst rest := by
        simpa [mapContains, keys] using ih
      simp [mapContains, mapFind, keys, hk, ih1, Ne.symm hk]

theorem mapContains_of_mem {κ β : Type} [DecidableEq κ] (m : List (κ × β)) (k : κ) (v : β)
    (h : (k, v) ∈ m) : mapContains m k = true := by
  rw [mapContains_iff]
  exact List.mem_map.mpr ⟨(k, v), h, rfl⟩

/-- The state in which the response handler of `loadBlocks` starts its loop. -/
theorem loadBlocksResponse_state (env : Env) (tree : BlockTree) (self : SynchronizerImpl)
    (peer_id : PeerId) (handler : Option Handler) (response : Response) :
    (loadBlocksResponse env tree self peer_id handler response).1 = self ∨
    ∃ blocks, (loadBlocksResponse env tree self peer_id handler response).1 =
      (loadBlocksLoop env tree peer_id ⟨self, zero_hash, false, BlockInfo.default⟩ blocks).1.self := by
  cases response with
  | failure e => left; rfl
  | blocks bs =>
    by_cases hbs : bs.isEmpty = true
    · left; simp [loadBlocksResponse, hbs]
    · right
      refine ⟨bs, ?_⟩
      simp only [loadBlocksResponse, hbs]
      rcases hres : loadBlocksLoop env tree peer_id ⟨self, zero_hash, false, BlockInfo.default⟩ bs
        with ⟨l, _ | e⟩ <;> simp

theorem enqueueBlock_known (peer_id : PeerId) (l : LoadLoop) (b : BlockData)
    (header : BlockHeader) (h : BlockHash) (kb : KnownBlock)
    (hmem : (h, kb) ∈ (enqueueBlock peer_id l b header).self.known_blocks) :
    (∃ kb0, (h, kb0) ∈ l.self.known_blocks ∧ kb.data = kb0.data) ∨ (h = b.hash ∧ kb.data = b) := by
  unfold enqueueBlock at hmem
  split at hmem
  · dsimp only at hmem
    obtain ⟨v0, hv0, hv⟩ := mem_mapUpdate l.self.known_blocks b.hash _ h kb hmem
    left
    refine ⟨v0, hv0, ?_⟩
    rcases hv with hv | hv <;> simp [hv]
  · dsimp only at hmem
    rcases mem_mapEmplace l.self.known_blocks b.hash _ (h, kb) hmem with hm | hm
    · exact Or.inl ⟨kb, hm, rfl⟩
    · right
      simp only [Prod.mk.injEq] at hm
      exact ⟨hm.1, by rw [hm.2]⟩

/-- Claim C3 (loadBlocks hash check). Every queue entry that the response handler of
`loadBlocks` adds under a new key is keyed by the advertised hash of its block, and that
hash is the hash of the SCALE-encoded header; and when the loop reaches a block numbered
above the last finalized block that passes the discarded-block and parent checks but
whose advertised hash differs from the recomputed one, the handler, if there is one, is
called once, with `INVALID_HASH`, and the queue is left as the blocks before it made
it. -/
theorem loadBlocks_hash_check (env : Env) (tree : BlockTree) (self : SynchronizerImpl)
    (peer_id : PeerId) (handler : Option Handler) :
    (∀ (response : Response) (h : BlockHash) (kb : KnownBlock),
      (h, kb) ∈ (loadBlocksResponse env tree self peer_id handler response).1.known_blocks →
      mapContains self.known_blocks h = false →
        kb.data.hash = h ∧ ∃ hd, kb.data.header = some hd ∧ env.hashHeader hd = h)
    ∧ (∀ (pre post : List BlockData) (b : BlockData) (header : BlockHeader) (l : LoadLoop),
      loadBlocksLoop env tree peer_id ⟨self, zero_hash, false, BlockInfo.default⟩ pre
        = (l, none) →
      b.header = some header →
      tree.last_finalized.number < header.number →
      (tree.last_finalized.number + 1 = header.number →
        tree.last_finalized.hash = header.parent_hash) →
      (tree.last_finalized.number + 1 ≠ header.number →
        l.parent_hash = header.parent_hash ∨ l.parent_hash = zero_hash) →
      b.hash ≠ env.hashHeader header →
      loadBlocksResponse env tree self peer_id handler (.blocks (pre ++ b :: post))
        = (l.self, handler.toList.map (fun h => Event.handler h (.err .INVALID_HASH)))) := by
  constructor
  · intro response h kb hmem hnew
    have hinv : ∀ (blocks : List BlockData) (h : BlockHash) (kb : KnownBlock),
        (h, kb) ∈ (loadBlocksLoop env tree peer_id
          ⟨self, zero_hash, false, BlockInfo.default⟩ blocks).1.self.known_blocks →
        mapContains self.known_blocks h = true ∨
          (kb.data.hash = h ∧ ∃ hd, kb.data.header = some hd ∧ env.hashHeader hd = h) := by
      intro blocks
      refine loadBlocksLoop_invariant env tree peer_id
        (fun l => ∀ (h : BlockHash) (kb : KnownBlock), (h, kb) ∈ l.self.known_blocks →
          mapContains self.known_blocks h = true ∨
          (kb.data.hash = h ∧ ∃ hd, kb.data.header = some hd ∧ env.hashHeader hd = h))
        ?_ blocks _ ?_
      · intro l0 b0 l1 hP hstep h kb hmem
        obtain ⟨hd, hhd, hcase⟩ := loadBlocksBlock_ok env tree peer_id l0 l1 b0 hstep
        rcases hcase with ⟨_, rfl⟩ | ⟨_, _, _, hgood, rfl⟩
        · exact hP h kb hmem
        · rcases enqueueBlock_known peer_id l0 b0 hd h kb hmem with ⟨kb0, hkb0, hdata⟩ | ⟨hk, hdata⟩
          · rcases hP h kb0 hkb0 with hold | hgd
            · exact Or.inl hold
            · right; rw [hdata]; exact hgd
          · right
            rw [hdata, hk]
            exact ⟨rfl, hd, hhd, hgood.symm⟩
      · intro h kb hmem
        exact Or.inl (mapContains_of_mem _ _ _ hmem)
    rcases loadBlocksResponse_state env tree self peer_id handler response with hs | ⟨blocks, hs⟩
    · rw [hs] at hmem
      rw [mapContains_of_mem _ _ _ hmem] at hnew
      exact absurd hnew (by simp)
    · rw [hs] at hmem
      rcases hinv blocks h kb hmem with hold | hgd
      · rw [hold] at hnew; exact absurd hnew (by simp)
      · exact hgd
  · intro pre post b header l hpre hh habove hdisc hparent hhash
    rw [loadBlocksResponse_split env tree self peer_id handler pre post b l hpre]
    have : loadBlocksBlock env tree peer_id l b = .error .INVALID_HASH := by
      have h1 : ¬ tree.last_finalized.number ≥ header.number := Nat.not_le.mpr habove
      simp only [loadBlocksBlock, hh, Option.isNone_some]
      by_cases h2 : tree.last_finalized.number + 1 = header.number
      · simp [h1, h2, hdisc h2, hhash]
      · rcases hparent h2 with h3 | h3
        · simp [h1, h2, h3, hhash]
        · simp [h1, h2, h3, hhash]
    cases handler <;> simp [this, callHandler]

/-- Claim C5 (loadBlocks finalized-range check, as amended). When the loop reaches a block
whose number is at most the last finalized number: if the number equals the last
finalized number and the advertised hash differs from the last finalized hash, the
handler receives `DISCARDED_BLOCK` and the queue is left as the blocks before it made
it; in every other case (equal number and equal hash, or a smaller number, for which no
hash is compared) the block is skipped: the iteration changes nothing, raises no error,
and the loop goes on with the next block. -/
theorem loadBlocks_finalized_range_check (env : Env) (tree : BlockTree)
    (self : SynchronizerImpl) (peer_id : PeerId) (handler : Option Handler)
    (pre post : List BlockData) (b : BlockData) (header : BlockHeader) (l : LoadLoop)
    (hpre : loadBlocksLoop env tree peer_id ⟨self, zero_hash, false, BlockInfo.default⟩ pre
      = (l, none))
    (hh : b.header = some header)
    (hn : header.number ≤ tree.last_finalized.number) :
    (header.number = tree.last_finalized.number ∧ b.hash ≠ tree.last_finalized.hash →
      loadBlocksResponse env tree self peer_id handler (.blocks (pre ++ b :: post))
        = (l.self, callHandler handler (.err .DISCARDED_BLOCK)))
    ∧ (header.number < tree.last_finalized.number ∨ b.hash = tree.last_finalized.hash →
        loadBlocksBlock env tree peer_id l b = .ok l
        ∧ loadBlocksLoop env tree peer_id ⟨self, zero_hash, false, BlockInfo.default⟩
            (pre ++ b :: post) = loadBlocksLoop env tree peer_id l post) := by
  have h1 : tree.last_finalized.number ≥ header.number := hn
  constructor
  · rintro ⟨he, hne⟩
    rw [loadBlocksResponse_split env tree self peer_id handler pre post b l hpre]
    have : loadBlocksBlock env tree peer_id l b = .error .DISCARDED_BLOCK := by
      simp only [loadBlocksBlock, hh, Option.isNone_some]
      simp [he, Ne.symm hne]
    simp [this]
  · intro hcase
    have hstep : loadBlocksBlock env tree peer_id l b = .ok l := by
      simp only [loadBlocksBlock, hh, Option.isNone_some]
      rcases hcase with hlt | heq
      · have h2 : ¬ tree.last_finalized.number = header.number := by omega
        simp [h1, h2]
      · by_cases h2 : tree.last_finalized.number = header.number
        · simp [h2, heq]
        · simp [h1, h2]
    refine ⟨hstep, ?_⟩
    rw [loadBlocksLoop_append, hpre]
    simp [loadBlocksLoop, hstep]

/-- Claim C6 (loadBlocks first-unfinalized check). When the loop reaches a block whose number
is the last finalized number plus one and whose parent hash differs from the last
finalized hash, the handler, if there is one, is called once, with `DISCARDED_BLOCK`, and
the state is the one left by the blocks before it: neither this block nor a later block
of the response is enqueued. -/
theorem loadBlocks_first_unfinalized_check (env : Env) (tree : BlockTree)
    (self : SynchronizerImpl) (peer_id : PeerId) (handler : Option Handler)
    (pre post : List BlockData) (b : BlockData) (header : BlockHeader) (l : LoadLoop)
    (hpre : loadBlocksLoop env tree peer_id ⟨self, zero_hash, false, BlockInfo.default⟩ pre
      = (l, none))
    (hh : b.header = some header)
    (hn : header.number = tree.last_finalized.number + 1)
    (hp : header.parent_hash ≠ tree.last_finalized.hash) :
    loadBlocksResponse env tree self peer_id handler (.blocks (pre ++ b :: post))
        = (l.self, handler.toList.map (fun h => Event.handler h (.err .DISCARDED_BLOCK)))
    ∧ (loadBlocksResponse env tree self peer_id handler (.blocks (pre ++ b :: post))).1
        = (loadBlocksLoop env tree peer_id
            ⟨self, zero_hash, false, BlockInfo.default⟩ pre).1.self := by
  have hstep : loadBlocksBlock env tree peer_id l b = .error .DISCARDED_BLOCK := by
    simp only [loadBlocksBlock, hh, hn]
    simp [Ne.symm hp]
  have hres : loadBlocksResponse env tree self peer_id handler (.blocks (pre ++ b :: post))
      = (l.self, handler.toList.map (fun h => Event.handler h (.err .DISCARDED_BLOCK))) := by
    rw [loadBlocksResponse_split env tree self peer_id handler pre post b l hpre]
    cases handler <;> simp [hstep, callHandler]
  exact ⟨hres, by rw [hres, hpre]⟩

theorem enqueueBlock_parent_hash (peer_id : PeerId) (l : LoadLoop) (b : BlockData)
    (header : BlockHeader) : (enqueueBlock peer_id l b header).parent_hash = b.hash := by
  unfold enqueueBlock
  split <;> rfl

/-- How one iteration of the loop of `loadBlocks` that goes on treats the expected parent:
a block at or below the last finalized number leaves it alone, a block above sets it to
its own hash. -/
theorem loadBlocksBlock_parent_hash (env : Env) (tree : BlockTree) (peer_id : PeerId)
    (l l1 : LoadLoop) (b : BlockData)
    (h : loadBlocksBlock env tree peer_id l b = .ok l1) :
    (isAbove tree b = false ∧ l1 = l) ∨
    (isAbove tree b = true ∧ l1.parent_hash = b.hash ∧
      (headerNumber b = tree.last_finalized.number + 1 ∨ l.parent_hash = zero_hash
        ∨ b.header.map (fun h => h.parent_hash) = some l.parent_hash)) := by
  obtain ⟨hd, hhd, hcase⟩ := loadBlocksBlock_ok env tree peer_id l l1 b h
  rcases hcase with ⟨hle, rfl⟩ | ⟨hlt, _, hpar, _, rfl⟩
  · left
    refine ⟨?_, rfl⟩
    simp only [isAbove, headerNumber, hhd, decide_eq_false_iff_not]
    omega
  · right
    refine ⟨?_, enqueueBlock_parent_hash peer_id l b hd, ?_⟩
    · simp only [isAbove, headerNumber, hhd, decide_eq_true_eq]
      exact hlt
    · by_cases h2 : tree.last_finalized.number + 1 = hd.number
      · left; simp only [headerNumber, hhd]; exact h2.symm
      · right
        rcases hpar h2 with h3 | h3
        · right; simp [hhd, h3]
        · left; exact h3

theorem loadBlocksLoop_parent_hash (env : Env) (tree : BlockTree) (peer_id : PeerId) :
    ∀ (blocks : List BlockData) (l l1 : LoadLoop),
      loadBlocksLoop env tree peer_id l blocks = (l1, none) →
      l1.parent_hash =
        (((acceptedBlocks tree blocks).getLast?).map (fun b => b.hash)).getD l.parent_hash := by
  intro blocks
  induction blocks with
  | nil =>
    intro l l1 h
    simp only [loadBlocksLoop, Prod.mk.injEq, and_true] at h
    simp [acceptedBlocks, h]
  | cons b bs ih =>
    intro l l1 h
    simp only [loadBlocksLoop] at h
    cases hstep : loadBlocksBlock env tree peer_id l b with
    | error e => simp [hstep] at h
    | ok l2 =>
      simp only [hstep] at h
      have ih2 := ih l2 l1 h
      rcases loadBlocksBlock_parent_hash env tree peer_id l l2 b hstep with ⟨hab, hl⟩ | ⟨hab, hph, _⟩
      · rw [hl] at ih2
        simpa [acceptedBlocks, List.filter_cons, hab] using ih2
      · rw [ih2, hph]
        simp only [acceptedBlocks, List.filter_cons, hab, if_true]
        cases hrest : List.filter (isAbove tree) bs with
        | nil => simp
        | cons c cs =>
          cases hl : (c :: cs).getLast? with
          | none => simp at hl
          | some x => simp [List.getLast?_cons_cons, hl]

theorem loadBlocksLoop_chain (env : Env) (tree : BlockTree) (peer_id : PeerId) :
    ∀ (blocks : List BlockData) (l l1 : LoadLoop) (a : BlockData),
      loadBlocksLoop env tree peer_id l blocks = (l1, none) → a.hash = l.parent_hash →
      List.Chain (parentLinked tree) a (acceptedBlocks tree blocks) := by
  intro blocks
  induction blocks with
  | nil => intro l l1 a _ _; simp [acceptedBlocks]
  | cons b bs ih =>
    intro l l1 a h ha
    simp only [loadBlocksLoop] at h
    cases hstep : loadBlocksBlock env tree peer_id l b with
    | error e => simp [hstep] at h
    | ok l2 =>
      simp only [hstep] at h
      rcases loadBlocksBlock_parent_hash env tree peer_id l l2 b hstep with ⟨hab, hl⟩ | ⟨hab, hph, hlink⟩
      · rw [hl] at h
        simpa [acceptedBlocks, List.filter_cons, hab] using ih l l1 a h ha
      · have := ih l2 l1 b h hph.symm
        simp only [acceptedBlocks, List.filter_cons, hab, if_true, List.chain_cons]
        refine ⟨?_, this⟩
        unfold parentLinked
        rw [ha]
        exact hlink

/-- Claim C2 (loadBlocks parent link, as amended). The loop of `loadBlocks` checks the parent
of a block only against the block accepted before it: when the loop reaches a block
numbered above the last finalized number plus one, the nearest earlier block of the
response numbered above the last finalized block exists and has a non-zero hash, and
the parent hash of the reached block differs from that hash, the handler receives
`WRONG_ORDER`. Consequently, when the response is accepted, any two consecutive blocks
among those numbered above the last finalized block are linked (`parentLinked`): the
later one is numbered last finalized plus one (its parent is checked against the last
finalized hash instead), or the hash of the earlier one is zero, or the parent hash of
the later one is the hash of the earlier one. -/
theorem loadBlocks_parent_link (env : Env) (tree : BlockTree) (self : SynchronizerImpl)
    (peer_id : PeerId) (handler : Option Handler) :
    (∀ (pre post : List BlockData) (b prev : BlockData) (header : BlockHeader) (l : LoadLoop),
      loadBlocksLoop env tree peer_id ⟨self, zero_hash, false, BlockInfo.default⟩ pre
        = (l, none) →
      b.header = some header →
      tree.last_finalized.number + 1 < header.number →
      (acceptedBlocks tree pre).getLast? = some prev →
      prev.hash ≠ zero_hash →
      header.parent_hash ≠ prev.hash →
      loadBlocksResponse env tree self peer_id handler (.blocks (pre ++ b :: post))
        = (l.self, callHandler handler (.err .WRONG_ORDER)))
    ∧ (∀ (blocks : List BlockData) (l : LoadLoop),
        loadBlocksLoop env tree peer_id ⟨self, zero_hash, false, BlockInfo.default⟩ blocks
          = (l, none) →
        List.Chain' (parentLinked tree) (acceptedBlocks tree blocks)) := by
  constructor
  · intro pre post b prev header l hpre hh hn hprev hz hne
    have hph := loadBlocksLoop_parent_hash env tree peer_id pre _ l hpre
    simp only [hprev, Option.map_some', Option.getD_some] at hph
    rw [loadBlocksResponse_split env tree self peer_id handler pre post b l hpre]
    have hstep : loadBlocksBlock env tree peer_id l b = .error .WRONG_ORDER := by
      have h1 : ¬ tree.last_finalized.number ≥ header.number := by omega
      have h2 : ¬ tree.last_finalized.number + 1 = header.number := by omega
      have h3 : ¬ prev.hash = header.parent_hash := fun h => hne h.symm
      simp only [loadBlocksBlock, hh, Option.isNone_some]
      simp [h1, h2, hph, h3, hz]
    simp [hstep]
  · intro blocks l hloop
    have hc := loadBlocksLoop_chain env tree peer_id blocks _ l ⟨zero_hash, none, none, none⟩
      hloop rfl
    cases hacc : acceptedBlocks tree blocks with
    | nil => simp
    | cons c cs =>
      rw [hacc] at hc
      simp only [List.chain_cons] at hc
      exact hc.2

/-- Worked example for C2 (claim as stated fails): the node is finalized at `G`. First, the
response is `G` followed by a block numbered 2 whose parent hash is not the hash of `G`:
`G` is skipped as finalized, the second block is numbered above the last finalized block
and its parent differs from the hash of the block before it, yet the handler receives
the block info of that block, not `WRONG_ORDER`, and the block is enqueued. Second, the
response is `A1` followed by another block numbered 1 with parent `G`: both are
accepted, although the parent of the second is not `A1`. -/
theorem loadBlocks_parent_link_counterexample :
    (isAbove Scenario.tree0 Scenario.orphan2 = true
      ∧ Scenario.orphan2.header.map (fun h => h.parent_hash) ≠ some Scenario.G.hash
      ∧ (loadBlocksResponse Scenario.env Scenario.tree0 (SynchronizerImpl.init .Full) 7
          (some (.user 1)) (.blocks [Scenario.G, Scenario.orphan2])).2
        = [Event.handler (.user 1) (.value ⟨2, Scenario.orphan2.hash⟩),
           Event.scheduledApplyNextBlock]
      ∧ mapContains (loadBlocksResponse Scenario.env Scenario.tree0
          (SynchronizerImpl.init .Full) 7 (some (.user 1))
          (.blocks [Scenario.G, Scenario.orphan2])).1.known_blocks
          Scenario.orphan2.hash = true)
    ∧ (isAbove Scenario.tree0 Scenario.fork1 = true
      ∧ Scenario.fork1.header.map (fun h => h.parent_hash) ≠ some Scenario.A1.hash
      ∧ (loadBlocksResponse Scenario.env Scenario.tree0 (SynchronizerImpl.init .Full) 7
          (some (.user 1)) (.blocks [Scenario.A1, Scenario.fork1])).2
        = [Event.handler (.user 1) (.value ⟨1, Scenario.fork1.hash⟩),
           Event.scheduledApplyNextBlock]
      ∧ mapContains (loadBlocksResponse Scenario.env Scenario.tree0
          (SynchronizerImpl.init .Full) 7 (some (.user 1))
          (.blocks [Scenario.A1, Scenario.fork1])).1.known_blocks
          Scenario.fork1.hash = true) := by
  decide

/-- Worked example for C2 as amended: after `A1` was accepted, a block numbered 3 whose
parent hash is not the hash of `A1` makes the handler receive `WRONG_ORDER`. -/
theorem loadBlocks_parent_link_witness :
    loadBlocksResponse Scenario.env Scenario.tree0 (SynchronizerImpl.init .Full) 7
      (some (.user 1)) (.blocks ([Scenario.A1] ++ Scenario.orphan3 :: []))
    = ((loadBlocksLoop Scenario.env Scenario.tree0 7 Scenario.loop0 [Scenario.A1]).1.self,
       [Event.handler (.user 1) (.err .WRONG_ORDER)]) :=
  (loadBlocks_parent_link Scenario.env Scenario.tree0 (SynchronizerImpl.init .Full) 7
    (some (.user 1))).1 [Scenario.A1] [] Scenario.orphan3 Scenario.A1 ⟨777, 3, 0, 0, []⟩
    (loadBlocksLoop Scenario.env Scenario.tree0 7 Scenario.loop0 [Scenario.A1]).1
    (by decide) (by decide) (by decide) (by decide) (by decide) (by decide)

/-- Worked example for C3: after `A1` was accepted, the block `A2` advertised under a hash
that is not the hash of its header makes the handler receive `INVALID_HASH`; the queue
holds `A1` and not the forged block. -/
theorem loadBlocks_hash_check_witness :
    loadBlocksResponse Scenario.env Scenario.tree0 (SynchronizerImpl.init .Full) 7
        (some (.user 1)) (.blocks ([Scenario.A1] ++ Scenario.forgedA2 :: [Scenario.C3]))
      = ((loadBlocksLoop Scenario.env Scenario.tree0 7 Scenario.loop0 [Scenario.A1]).1.self,
         [Event.handler (.user 1) (.err .INVALID_HASH)])
    ∧ keys (loadBlocksLoop Scenario.env Scenario.tree0 7 Scenario.loop0
        [Scenario.A1]).1.self.known_blocks = [Scenario.A1.hash]
    ∧ Scenario.forgedA2.hash ≠ Scenario.A1.hash :=
  ⟨(loadBlocks_hash_check Scenario.env Scenario.tree0 (SynchronizerImpl.init .Full) 7
      (some (.user 1))).2 [Scenario.A1] [Scenario.C3] Scenario.forgedA2
      ⟨Scenario.A1.hash, 2, 0, 0, []⟩
      (loadBlocksLoop Scenario.env Scenario.tree0 7 Scenario.loop0 [Scenario.A1]).1
      (by decide) (by decide) (by decide) (by decide) (by decide) (by decide),
   by decide, by decide⟩

/-- Claim C4, evaluated at the failing input (the code misses the body check): in Full
mode a response with the block `A1` that has a header but no body is accepted: the handler receives the block
info of `A1`, never `RESPONSE_WITHOUT_BLOCK_BODY`, the block is enqueued, and the next
`applyNextBlock` evaluates `body.value()` on the empty optional. -/
theorem loadBlocks_body_check_failing_input :
    (SynchronizerImpl.init .Full).sync_method = .Full
    ∧ (attributesForSync (SynchronizerImpl.init .Full).sync_method).body = true
    ∧ Scenario.bodilessA1.header.isSome = true ∧ Scenario.bodilessA1.body = none
    ∧ (loadBlocksResponse Scenario.env Scenario.tree0 (SynchronizerImpl.init .Full) 7
        (some (.user 1)) (.blocks [Scenario.bodilessA1])).2
      = [Event.handler (.user 1) (.value ⟨1, Scenario.A1.hash⟩), Event.scheduledApplyNextBlock]
    ∧ mapContains (loadBlocksResponse Scenario.env Scenario.tree0 (SynchronizerImpl.init .Full)
        7 (some (.user 1)) (.blocks [Scenario.bodilessA1])).1.known_blocks
        Scenario.A1.hash = true
    ∧ (applyNextBlock Scenario.env Scenario.tree0
        (loadBlocksResponse Scenario.env Scenario.tree0 (SynchronizerImpl.init .Full) 7
          (some (.user 1)) (.blocks [Scenario.bodilessA1])).1).2
      = [Event.badOptionalAccess] := by
  decide

/-- Worked example for C5 (claim as stated fails): the node is finalized at `A2`
(number 2); the response holds one block numbered 1 that is not the block `A1` of the
local chain. It is skipped without any comparison of hashes: the handler receives a
value (the default block info), not `DISCARDED_BLOCK`, and the state is unchanged. -/
theorem loadBlocks_finalized_range_counterexample :
    headerNumber Scenario.fork1 ≤ Scenario.tree2.last_finalized.number
    ∧ Scenario.tree2.getBlockHash (headerNumber Scenario.fork1) ≠ some Scenario.fork1.hash
    ∧ Scenario.tree2.hasBlockHeader Scenario.fork1.hash = false
    ∧ loadBlocksResponse Scenario.env Scenario.tree2 (SynchronizerImpl.init .Full) 7
        (some (.user 1)) (.blocks [Scenario.fork1])
      = (SynchronizerImpl.init .Full, [Event.handler (.user 1) (.value BlockInfo.default)]) := by
  decide

/-- Worked example for C5 as amended: the node is finalized at `A2`; the response `A1`
followed by a block numbered 2 other than `A2` makes the handler receive
`DISCARDED_BLOCK`, and `A1` (below the last finalized number) is skipped. -/
theorem loadBlocks_finalized_range_check_witness :
    (Scenario.orphan2.header.map (fun h => h.number) = some Scenario.tree2.last_finalized.number
      ∧ Scenario.orphan2.hash ≠ Scenario.tree2.last_finalized.hash)
    ∧ loadBlocksResponse Scenario.env Scenario.tree2 (SynchronizerImpl.init .Full) 7
        (some (.user 1)) (.blocks ([Scenario.A1] ++ Scenario.orphan2 :: []))
      = (SynchronizerImpl.init .Full, [Event.handler (.user 1) (.err .DISCARDED_BLOCK)]) :=
  ⟨by decide,
   (loadBlocks_finalized_range_check Scenario.env Scenario.tree2 (SynchronizerImpl.init .Full)
    7 (some (.user 1)) [Scenario.A1] [] Scenario.orphan2 ⟨777, 2, 0, 0, []⟩ Scenario.loop0
    (by decide) (by decide) (by decide)).1 (by decide)⟩

/-- Worked example for C6: the node is finalized at `G`; the response `G` followed by a
block numbered 1 whose parent is not `G` and by `A2` makes the handler receive
`DISCARDED_BLOCK`, and nothing is enqueued. -/
theorem loadBlocks_first_unfinalized_check_witness :
    loadBlocksResponse Scenario.env Scenario.tree0 (SynchronizerImpl.init .Full) 7
        (some (.user 1)) (.blocks ([Scenario.G] ++ Scenario.orphan1 :: [Scenario.A2]))
      = (SynchronizerImpl.init .Full, [Event.handler (.user 1) (.err .DISCARDED_BLOCK)]) :=
  (loadBlocks_first_unfinalized_check Scenario.env Scenario.tree0 (SynchronizerImpl.init .Full)
    7 (some (.user 1)) [Scenario.G] [Scenario.A2] Scenario.orphan1 ⟨777, 1, 0, 0, []⟩
    Scenario.loop0 (by decide) (by decide) (by decide) (by decide)).1

theorem mapContains_mapErase_self {κ β : Type} [DecidableEq κ] (m : List (κ × β)) (key : κ) :
    mapContains (mapErase m key) key = false := by
  rw [Bool.eq_false_iff]
  intro h
  rw [mapContains_iff] at h
  simp [keys, mapErase, List.mem_filter] at h

theorem mapContains_mapEmplace_self {κ β : Type} [DecidableEq κ] (m : List (κ × β)) (key : κ)
    (v : β) : mapContains (mapEmplace m key v) key = true := by
  unfold mapEmplace
  by_cases h : mapContains m key = true
  · simp [h]
  · simp only [h]
    rw [mapContains_iff]
    simp [keys]

theorem RequestCall.run_duplicate (env : Env) (self : SynchronizerImpl) (peer_id : PeerId)
    (call : RequestCall) (hs : self.node_is_shutting_down = false)
    (hdup : mapContains self.recent_requests
      (peer_id, env.fingerprint (call.request self)) = true) :
    (call.run env self peer_id).1.recent_requests = self.recent_requests
    ∧ (call.run env self peer_id).2 = callHandler call.handler (.err .DUPLICATE_REQUEST) := by
  cases call with
  | find lower upper hint handler observed =>
    simp only [RequestCall.request] at hdup
    simp [RequestCall.run, RequestCall.handler, findCommonBlock, hs, hdup, callHandler]
  | load from_ handler =>
    simp only [RequestCall.request] at hdup
    simp [RequestCall.run, RequestCall.handler, loadBlocks, hs, hdup]
  | justifications target_block limit handler =>
    simp only [RequestCall.request] at hdup
    simp [RequestCall.run, RequestCall.handler, loadJustifications, hs, hdup]

theorem RequestCall.run_fresh (env : Env) (self : SynchronizerImpl) (peer_id : PeerId)
    (call : RequestCall) (hs : self.node_is_shutting_down = false)
    (hnew : mapContains self.recent_requests
      (peer_id, env.fingerprint (call.request self)) = false) :
    (∃ reason, (call.run env self peer_id).1.recent_requests
      = self.recent_requests ++ [((peer_id, env.fingerprint (call.request self)), reason)])
    ∧ sentRequests (call.run env self peer_id).2 = [(peer_id, call.request self)]
    ∧ Event.scheduledRemoval peer_id (env.fingerprint (call.request self))
        ∈ (call.run env self peer_id).2
    ∧ handlerCalls (call.run env self peer_id).2 = []
    ∧ (call.run env self peer_id).1.node_is_shutting_down = false
    ∧ (call.run env self peer_id).1.sync_method = self.sync_method := by
  cases call with
  | find lower upper hint handler observed =>
    simp only [RequestCall.request] at hnew
    simp [RequestCall.run, RequestCall.request, findCommonBlock, hs, hnew, sentRequests,
      mapEmplace, handlerCalls, recordRequest]
  | load from_ handler =>
    simp only [RequestCall.request] at hnew
    simp [RequestCall.run, RequestCall.request, loadBlocks, hs, hnew, sentRequests,
      mapEmplace, handlerCalls, recordRequest]
  | justifications target_block limit handler =>
    simp only [RequestCall.request] at hnew
    simp [RequestCall.run, RequestCall.request, loadJustifications, hs, hnew, sentRequests,
      mapEmplace, handlerCalls, recordRequest]

theorem sentRequests_callHandler (handler : Option Handler) (res : SyncResult) :
    sentRequests (callHandler handler res) = [] := by
  cases handler <;> simp [callHandler, sentRequests]

theorem RequestCall.request_congr (self self1 : SynchronizerImpl) (call : RequestCall)
    (h : self1.sync_method = self.sync_method) : call.request self1 = call.request self := by
  cases call <;> simp [RequestCall.request, h]

/-- Claim C7 (duplicate-request suppression). For each of `findCommonBlock`, `loadBlocks` and
`loadJustifications`, called for a peer while the node is not shutting down (the shutdown
guard precedes the lines of this property): if the pair of the peer and the fingerprint
of the request is already in `recent_requests`, the handler receives `DUPLICATE_REQUEST`,
no request is sent and `recent_requests` is unchanged; otherwise the pair is inserted,
its removal is scheduled, exactly one request is sent and no handler is called; once the
scheduled removal has run, the identical call for the same peer sends its request again;
and a state whose `recent_requests` hold only entries of other peers never rejects. -/
theorem duplicate_request_suppression (env : Env) (self : SynchronizerImpl)
    (peer_id : PeerId) (call : RequestCall) (hs : self.node_is_shutting_down = false) :
    (mapContains self.recent_requests (peer_id, env.fingerprint (call.request self)) = true →
      (call.run env self peer_id).2 = callHandler call.handler (.err .DUPLICATE_REQUEST)
      ∧ sentRequests (call.run env self peer_id).2 = []
      ∧ (call.run env self peer_id).1.recent_requests = self.recent_requests)
    ∧ (mapContains self.recent_requests (peer_id, env.fingerprint (call.request self)) = false →
      mapContains (call.run env self peer_id).1.recent_requests
          (peer_id, env.fingerprint (call.request self)) = true
      ∧ sentRequests (call.run env self peer_id).2 = [(peer_id, call.request self)]
      ∧ handlerCalls (call.run env self peer_id).2 = []
      ∧ Event.scheduledRemoval peer_id (env.fingerprint (call.request self))
          ∈ (call.run env self peer_id).2
      ∧ sentRequests (call.run env
          (recentRequestRemoval (call.run env self peer_id).1 peer_id
            (env.fingerprint (call.request self))) peer_id).2
        = [(peer_id, call.request self)])
    ∧ ((∀ e ∈ self.recent_requests, e.1.1 ≠ peer_id) →
      sentRequests (call.run env self peer_id).2 = [(peer_id, call.request self)]) := by
  refine ⟨?_, ?_, ?_⟩
  · intro hdup
    obtain ⟨h1, h2⟩ := RequestCall.run_duplicate env self peer_id call hs hdup
    exact ⟨h2, by rw [h2]; exact sentRequests_callHandler _ _, h1⟩
  · intro hnew
    obtain ⟨⟨reason, h1⟩, h2, h3, h4, h5, h6⟩ :=
      RequestCall.run_fresh env self peer_id call hs hnew
    refine ⟨?_, h2, h4, h3, ?_⟩
    · rw [h1, mapContains_iff]
      simp [keys]
    · have hs1 : (recentRequestRemoval (call.run env self peer_id).1 peer_id
          (env.fingerprint (call.request self))).node_is_shutting_down = false := by
        simpa [recentRequestRemoval] using h5
      have hm1 : (recentRequestRemoval (call.run env self peer_id).1 peer_id
          (env.fingerprint (call.request self))).sync_method = self.sync_method := by
        simpa [recentRequestRemoval] using h6
      have hreq := RequestCall.request_congr self _ call hm1
      have hfresh : mapContains (recentRequestRemoval (call.run env self peer_id).1 peer_id
          (env.fingerprint (call.request self))).recent_requests
          (peer_id, env.fingerprint (call.request (recentRequestRemoval
            (call.run env self peer_id).1 peer_id (env.fingerprint (call.request self)))))
          = false := by
        rw [hreq]
        simp only [recentRequestRemoval]
        exact mapContains_mapErase_self _ _
      have := (RequestCall.run_fresh env _ peer_id call hs1 hfresh).2.1
      rw [hreq] at this
      exact this
  · intro hother
    have hnew : mapContains self.recent_requests
        (peer_id, env.fingerprint (call.request self)) = false := by
      rw [Bool.eq_false_iff]
      intro h
      rw [mapContains_iff] at h
      obtain ⟨e, he, hk⟩ := List.mem_map.mp h
      exact hother e he (by rw [hk])
    exact (RequestCall.run_fresh env self peer_id call hs hnew).2.1

/-- Worked example for C7: `loadBlocks(peer, from = A2)` issued twice. The first call
sends the request; the second call, made while the entry is still recorded, is rejected
with `DUPLICATE_REQUEST` and sends nothing; after the removal task ran, the call sends
the request again. -/
theorem duplicate_request_suppression_witness :
    sentRequests (Scenario.loadFromA2.run Scenario.env (SynchronizerImpl.init .Full) 7).2
      = [(7, loadBlocksRequest .Full ⟨2, Scenario.A2.hash⟩)]
    ∧ (Scenario.loadFromA2.run Scenario.env
        (Scenario.loadFromA2.run Scenario.env (SynchronizerImpl.init .Full) 7).1 7).2
      = [Event.handler (.user 1) (.err .DUPLICATE_REQUEST)]
    ∧ sentRequests (Scenario.loadFromA2.run Scenario.env
        (recentRequestRemoval
          (Scenario.loadFromA2.run Scenario.env (SynchronizerImpl.init .Full) 7).1 7
          (Scenario.env.fingerprint (loadBlocksRequest .Full ⟨2, Scenario.A2.hash⟩))) 7).2
      = [(7, loadBlocksRequest .Full ⟨2, Scenario.A2.hash⟩)] :=
  ⟨((duplicate_request_suppression Scenario.env (SynchronizerImpl.init .Full) 7
      Scenario.loadFromA2 (by decide)).2.1 (by decide)).2.1,
   ((duplicate_request_suppression Scenario.env
      (Scenario.loadFromA2.run Scenario.env (SynchronizerImpl.init .Full) 7).1 7
      Scenario.loadFromA2 (by decide)).1 (by decide)).1,
   ((duplicate_request_suppression Scenario.env (SynchronizerImpl.init .Full) 7
      Scenario.loadFromA2 (by decide)).2.1 (by decide)).2.2.2.2⟩

theorem mapFind_append_single {κ β : Type} [DecidableEq κ] (m : List (κ × β)) (k : κ) (v : β)
    (n : κ) :
    mapFind (m ++ [(k, v)]) n =
      match mapFind m n with
      | some x => some x
      | none => if k = n then some v else none := by
  induction m with
  | nil => simp [mapFind]
  | cons e rest ih =>
    obtain ⟨k0, v0⟩ := e
    by_cases h : k0 = n
    · simp [mapFind, h]
    · simp [mapFind, h, ih]

theorem mapFind_mapEmplace_some {κ β : Type} [DecidableEq κ] (m : List (κ × β)) (k : κ) (v : β)
    (n : κ) (x : β) (h : mapFind (mapEmplace m k v) n = some x) :
    mapFind m n = some x ∨ (n = k ∧ x = v) := by
  unfold mapEmplace at h
  split at h
  · exact Or.inl h
  · rw [mapFind_append_single] at h
    cases hm : mapFind m n with
    | some y => left; simpa [hm] using h
    | none =>
      right
      simp only [hm] at h
      by_cases hk : k = n
      · simp [hk] at h; exact ⟨hk.symm, h.symm⟩
      · simp [hk] at h

theorem mapFind_mapEmplace_none {κ β : Type} [DecidableEq κ] (m : List (κ × β)) (k : κ) (v : β)
    (n : κ) (h : mapFind (mapEmplace m k v) n = none) : n ≠ k ∧ mapFind m n = none := by
  unfold mapEmplace at h
  split at h
  · rename_i hc
    refine ⟨?_, h⟩
    intro hnk
    rw [hnk] at h
    simp [mapContains, h] at hc
  · rw [mapFind_append_single] at h
    cases hm : mapFind m n with
    | some y => simp [hm] at h
    | none =>
      simp only [hm] at h
      by_cases hk : k = n
      · simp [hk] at h
      · exact ⟨fun hnk => hk hnk.symm, rfl⟩

theorem mapContains_mapEmplace {κ β : Type} [DecidableEq κ] (m : List (κ × β)) (k : κ) (v : β)
    (n : κ) (h : mapContains (mapEmplace m k v) n = true) :
    mapContains m n = true ∨ n = k := by
  unfold mapContains at h ⊢
  cases hx : mapFind (mapEmplace m k v) n with
  | none => simp [hx] at h
  | some x =>
    rcases mapFind_mapEmplace_some m k v n x hx with h1 | h1
    · left; simp [h1]
    · right; exact h1.1

theorem handlerCalls_append (a b : List Event) :
    handlerCalls (a ++ b) = handlerCalls a ++ handlerCalls b := by
  simp [handlerCalls, List.filterMap_append]

theorem narrowLoop_known (tree : BlockTree) (self1 : SynchronizerImpl)
    (observed : List (Nat × BlockHash)) (fuel lower upper target : Nat) (hash : BlockHash)
    (ht : target ≠ lower) (hb : blockIsKnown tree self1 hash = true) :
    narrowLoop tree self1 observed (fuel + 1) lower upper target hash =
      match mapFind observed (target + (upper - target) / 2) with
      | some h => narrowLoop tree self1 observed fuel target upper
          (target + (upper - target) / 2) h
      | none => .again target upper (target + (upper - target) / 2) := by
  simp [narrowLoop, ht, hb]

theorem narrowLoop_unknown (tree : BlockTree) (self1 : SynchronizerImpl)
    (observed : List (Nat × BlockHash)) (fuel lower upper target : Nat) (hash : BlockHash)
    (ht : target ≠ lower) (hb : blockIsKnown tree self1 hash = false) :
    narrowLoop tree self1 observed (fuel + 1) lower upper target hash =
      match mapFind observed (lower + (target - lower) / 2) with
      | some h => narrowLoop tree self1 observed fuel lower target
          (lower + (target - lower) / 2) h
      | none => .again lower target (lower + (target - lower) / 2) := by
  simp [narrowLoop, ht, hb]

/-- The narrowing loop of the search, started inside the invariant with enough budget,
either reports the highest common block or asks for an unobserved number in a strictly
smaller interval that still holds the highest common block. -/
theorem narrowLoop_spec (tree : BlockTree) (self1 : SynchronizerImpl)
    (observed : List (Nat × BlockHash)) (lower0 upper0 k : Nat) (p : Nat → BlockHash)
    (hknown : ∀ n, lower0 ≤ n → n < upper0 → (blockIsKnown tree self1 (p n) = true ↔ n ≤ k))
    (hobs : ∀ n h, mapFind observed n = some h → h = p n ∧ lower0 ≤ n ∧ n < upper0) :
    ∀ (fuel lower upper target : Nat), lower0 ≤ lower → upper ≤ upper0 → lower ≤ k →
      k < upper → lower ≤ target → target < upper → (target = lower → upper = lower + 1) →
      upper - lower < fuel →
      narrowLoop tree self1 observed fuel lower upper target (p target)
          = .done (.value ⟨k, p k⟩)
      ∨ ∃ l2 u2 hint, narrowLoop tree self1 observed fuel lower upper target (p target)
          = .again l2 u2 hint
        ∧ lower0 ≤ l2 ∧ u2 ≤ upper0 ∧ l2 ≤ k ∧ k < u2 ∧ l2 ≤ hint ∧ hint < u2
        ∧ (hint = l2 → u2 = l2 + 1) ∧ mapFind observed hint = none
        ∧ u2 - l2 < upper - lower := by
  intro fuel
  induction fuel with
  | zero => intro lower upper target _ _ _ _ _ _ _ hf; omega
  | succ fuel ih =>
    intro lower upper target h1 h2 h3 h4 h5 h6 h7 hf
    have hkn := hknown target (by omega) (by omega)
    by_cases ht : target = lower
    · left
      have hkeq : k = target := by have := h7 ht; omega
      have hb : blockIsKnown tree self1 (p target) = true := hkn.mpr (by omega)
      rw [hkeq]
      subst ht
      simp [narrowLoop, hb]
    · by_cases hb : blockIsKnown tree self1 (p target) = true
      · have htk : target ≤ k := hkn.mp hb
        rw [narrowLoop_known tree self1 observed fuel lower upper target _ ht hb]
        cases hm : mapFind observed (target + (upper - target) / 2) with
        | none =>
          right
          exact ⟨target, upper, target + (upper - target) / 2, rfl, by omega, h2, htk, h4,
            by omega, by omega, by omega, hm, by omega⟩
        | some h =>
          have hh := (hobs _ h hm).1
          simp only [hh]
          rcases ih target upper (target + (upper - target) / 2) (by omega) h2 htk h4
            (by omega) (by omega) (by omega) (by omega) with hd | ⟨l2, u2, hint, hr, hrest⟩
          · exact Or.inl hd
          · exact Or.inr ⟨l2, u2, hint, hr, hrest.1, hrest.2.1, hrest.2.2.1, hrest.2.2.2.1,
              hrest.2.2.2.2.1, hrest.2.2.2.2.2.1, hrest.2.2.2.2.2.2.1,
              hrest.2.2.2.2.2.2.2.1, by omega⟩
      · have htk : k < target := by
          by_contra hc
          exact hb (hkn.mpr (by omega))
        have hb1 : blockIsKnown tree self1 (p target) = false := by simpa using hb
        rw [narrowLoop_unknown tree self1 observed fuel lower upper target _ ht hb1]
        cases hm : mapFind observed (lower + (target - lower) / 2) with
        | none =>
          right
          exact ⟨lower, target, lower + (target - lower) / 2, rfl, h1, by omega, h3, htk,
            by omega, by omega, by omega, hm, by omega⟩
        | some h =>
          have hh := (hobs _ h hm).1
          simp only [hh]
          rcases ih lower target (lower + (target - lower) / 2) h1 (by omega) h3 htk
            (by omega) (by omega) (by omega) (by omega) with hd | ⟨l2, u2, hint, hr, hrest⟩
          · exact Or.inl hd
          · exact Or.inr ⟨l2, u2, hint, hr, hrest.1, hrest.2.1, hrest.2.2.1, hrest.2.2.2.1,
              hrest.2.2.2.2.1, hrest.2.2.2.2.2.1, hrest.2.2.2.2.2.2.1,
              hrest.2.2.2.2.2.2.2.1, by omega⟩

theorem findCommonBlock_fresh (env : Env) (self1 : SynchronizerImpl) (peer_id : PeerId)
    (lower upper hint : Nat) (handler : Handler) (observed : List (Nat × BlockHash))
    (hs : self1.node_is_shutting_down = false)
    (hnew : mapContains self1.recent_requests
      (peer_id, env.fingerprint (findRequest hint)) = false) :
    findCommonBlock env self1 peer_id lower upper hint handler observed =
      (recordRequest self1 peer_id (env.fingerprint (findRequest hint)) "find common block",
       [Event.scheduledRemoval peer_id (env.fingerprint (findRequest hint)),
        Event.request peer_id (findRequest hint) (.findCommonBlock
          ⟨lower, upper, hint, peer_id, handler, observed,
            env.fingerprint (findRequest hint)⟩)],
       some ⟨lower, upper, hint, peer_id, handler, observed,
          env.fingerprint (findRequest hint)⟩) := by
  simp [findCommonBlock, hs, hnew]

/-- A search that is inside the invariant and has enough budget ends with exactly one call
of the handler, with the highest common block. -/
theorem findCommonBlockRun_spec (env : Env) (tree : BlockTree)
    (peer : BlocksRequest → Response) (self : SynchronizerImpl) (peer_id : PeerId)
    (handler : Handler) (lower0 upper0 k : Nat) (p : Nat → BlockHash)
    (hpeer : ∀ n, lower0 ≤ n → n < upper0 →
      ∃ b rest, peer (findRequest n) = .blocks (b :: rest) ∧ b.hash = p n)
    (hknown : ∀ n, lower0 ≤ n → n < upper0 → (blockIsKnown tree self (p n) = true ↔ n ≤ k))
    (hinj : ∀ n m, lower0 ≤ n → n < upper0 → lower0 ≤ m → m < upper0 →
      env.fingerprint (findRequest n) = env.fingerprint (findRequest m) → n = m) :
    ∀ (fuel : Nat) (self1 : SynchronizerImpl) (c : FindCapture),
      SearchInv env self peer_id handler lower0 upper0 k p self1 c →
      c.upper - c.lower < fuel →
      handlerCalls (findCommonBlockRun env tree peer fuel self1 c).2
        = [(handler, .value ⟨k, p k⟩)] := by
  intro fuel
  induction fuel with
  | zero => intro self1 c _ hf; omega
  | succ fuel ih =>
    intro self1 c hinv hf
    obtain ⟨hs, hkb, hpid, hhd, h1, h2, h3, h4, h5, h6, h7, hobs, hrec⟩ := hinv
    obtain ⟨b, rest, hresp, hbh⟩ := hpeer c.target (by omega) (by omega)
    have hknown1 : ∀ n, lower0 ≤ n → n < upper0 →
        (blockIsKnown tree self1 (p n) = true ↔ n ≤ k) := by
      intro n hn1 hn2
      have := hknown n hn1 hn2
      simpa [blockIsKnown, hkb] using this
    have hobs1 : ∀ n h, mapFind (mapEmplace c.observed c.target (p c.target)) n = some h →
        h = p n ∧ lower0 ≤ n ∧ n < upper0 := by
      intro n h hm
      rcases mapFind_mapEmplace_some _ _ _ _ _ hm with hm1 | ⟨hn, hv⟩
      · exact hobs n h hm1
      · rw [hn, hv]; exact ⟨rfl, by omega, by omega⟩
    have hnar := narrowLoop_spec tree self1 (mapEmplace c.observed c.target (p c.target))
      lower0 upper0 k p hknown1 hobs1 (fuel + 1) c.lower c.upper c.target h1 h2 h3 h4 h5 h6 h7 hf
    simp only [findCommonBlockRun, hresp, findCommonBlockResponse, hbh]
    rcases hnar with hd | ⟨l2, u2, hint, hr, g1, g2, g3, g4, g5, g6, g7, g8, g9⟩
    · rw [hd]
      simp [handlerCalls, hhd]
    · rw [hr]
      obtain ⟨hne, hnone⟩ := mapFind_mapEmplace_none _ _ _ _ g8
      have hnew : mapContains self1.recent_requests
          (c.peer_id, env.fingerprint (findRequest hint)) = false := by
        rw [Bool.eq_false_iff]
        intro hc
        rw [hpid] at hc
        rcases hrec hint (by omega) (by omega) hc with hx | hx
        · exact hne hx
        · simp [hnone] at hx
      simp only [findCommonBlock_fresh env self1 c.peer_id l2 u2 hint c.handler _ hs hnew]
      rw [handlerCalls_append]
      have hinv2 : SearchInv env self peer_id handler lower0 upper0 k p
          (recordRequest self1 c.peer_id (env.fingerprint (findRequest hint))
            "find common block")
          ⟨l2, u2, hint, c.peer_id, c.handler,
            mapEmplace c.observed c.target (p c.target),
            env.fingerprint (findRequest hint)⟩ := by
        refine ⟨hs, hkb, hpid, hhd, g1, g2, g3, g4, g5, g6, g7, hobs1, ?_⟩
        intro n hn1 hn2 hc
        simp only [recordRequest] at hc
        rw [hpid] at hc
        rcases mapContains_mapEmplace _ _ _ _ hc with hold | hnew2
        · rcases hrec n hn1 hn2 hold with hx | hx
          · right
            rw [hx]
            cases hz : mapFind (mapEmplace c.observed c.target (p c.target)) c.target with
            | some y => rfl
            | none => exact absurd rfl (mapFind_mapEmplace_none _ _ _ _ hz).1
          · right
            cases hz : mapFind (mapEmplace c.observed c.target (p c.target)) n with
            | some y => rfl
            | none =>
              rw [(mapFind_mapEmplace_none _ _ _ _ hz).2] at hx
              simp at hx
        · left
          simp only [Prod.mk.injEq] at hnew2
          exact hinj n hint hn1 hn2 (by omega) (by omega) hnew2.2
      rw [ih _ _ hinv2 (by simp only; omega)]
      simp [handlerCalls]

/-- Claim C1 (common-ancestor search). A search started with `hint = upper - 1` (as
`syncByBlockInfo` starts it) between `lower < upper`, against a peer that answers the
request for each number `n` of the interval with a block of hash `p n`, on a node for
which the hashes `p n` known locally (enqueued or in the block tree) are exactly those
with `lower <= n <= k`, ends - when nothing interrupts it: no shutdown, no error, no
fingerprint of a probe of the interval recorded or shared by two probes - with exactly
one call of the handler, which receives `BlockInfo(k, p k)`. Any budget above
`upper - lower` is enough. -/
theorem findCommonBlock_finds_highest_common (env : Env) (tree : BlockTree)
    (peer : BlocksRequest → Response) (self : SynchronizerImpl) (peer_id : PeerId)
    (handler : Handler) (lower upper k : Nat) (p : Nat → BlockHash) (fuel : Nat)
    (hk1 : lower ≤ k) (hk2 : k < upper)
    (hs : self.node_is_shutting_down = false)
    (hpeer : ∀ n, lower ≤ n → n < upper →
      ∃ b rest, peer (findRequest n) = .blocks (b :: rest) ∧ b.hash = p n)
    (hknown : ∀ n, lower ≤ n → n < upper → (blockIsKnown tree self (p n) = true ↔ n ≤ k))
    (hrecent : ∀ n, lower ≤ n → n < upper →
      mapContains self.recent_requests (peer_id, env.fingerprint (findRequest n)) = false)
    (hinj : ∀ n m, lower ≤ n → n < upper → lower ≤ m → m < upper →
      env.fingerprint (findRequest n) = env.fingerprint (findRequest m) → n = m)
    (hfuel : upper - lower < fuel) :
    handlerCalls (findCommonBlockSearch env tree peer fuel self peer_id lower upper
      (upper - 1) handler).2 = [(handler, .value ⟨k, p k⟩)] := by
  have hnew := hrecent (upper - 1) (by omega) (by omega)
  simp only [findCommonBlockSearch,
    findCommonBlock_fresh env self peer_id lower upper (upper - 1) handler [] hs hnew]
  rw [handlerCalls_append]
  have hinv : SearchInv env self peer_id handler lower upper k p
      (recordRequest self peer_id (env.fingerprint (findRequest (upper - 1)))
        "find common block")
      ⟨lower, upper, upper - 1, peer_id, handler, [],
        env.fingerprint (findRequest (upper - 1))⟩ := by
    refine ⟨hs, rfl, rfl, rfl, le_refl _, le_refl _, hk1, hk2, by simp only; omega,
      by simp only; omega, by simp only; omega, ?_, ?_⟩
    · intro n h hm
      simp [mapFind] at hm
    · intro n hn1 hn2 hc
      simp only [recordRequest] at hc
      rcases mapContains_mapEmplace _ _ _ _ hc with hold | hnew2
      · rw [hrecent n hn1 hn2] at hold
        exact absurd hold (by simp)
      · left
        simp only [Prod.mk.injEq] at hnew2
        exact hinj n (upper - 1) hn1 hn2 (by omega) (by omega) hnew2.2
  rw [findCommonBlockRun_spec env tree peer self peer_id handler lower upper k p hpeer hknown
    hinj fuel _ _ hinv (by simp only; omega)]
  simp [handlerCalls]

/-- Worked example for C1: local chain `G, A1, A2`, peer chain `G, A1, A2, C3, C4, C5`,
`lower = 0`, `upper = 3`: the handler receives `(2, A2)`. -/
theorem findCommonBlock_finds_highest_common_witness :
    handlerCalls (findCommonBlockSearch Scenario.env Scenario.tree0
      (Scenario.peerOf Scenario.peerChain) 4 (SynchronizerImpl.init .Full) 7 0 3 (3 - 1)
      (.user 1)).2 = [(.user 1, .value ⟨2, Scenario.A2.hash⟩)] :=
  findCommonBlock_finds_highest_common Scenario.env Scenario.tree0
    (Scenario.peerOf Scenario.peerChain) (SynchronizerImpl.init .Full) 7 (.user 1) 0 3 2
    Scenario.peerHash 4 (by decide) (by decide) (by decide)
    (by intro n _ hn; interval_cases n <;> exact ⟨_, _, rfl, rfl⟩)
    (by intro n _ hn; interval_cases n <;> decide)
    (by intro n _ _; rfl)
    (by
      intro n m _ hn _ hm h
      simp [Scenario.env, findRequest] at h
      exact h)
    (by decide)

theorem mapContains_mapErase {κ β : Type} [DecidableEq κ] (m : List (κ × β)) (key x : κ) :
    mapContains (mapErase m key) x = true ↔ mapContains m x = true ∧ x ≠ key := by
  rw [mapContains_iff, mapContains_iff]
  simp only [keys, mapErase, List.mem_map, List.mem_filter, decide_eq_true_eq]
  constructor
  · rintro ⟨e, ⟨he, hne⟩, rfl⟩
    exact ⟨⟨e, he, rfl⟩, hne⟩
  · rintro ⟨⟨e, he, rfl⟩, hne⟩
    exact ⟨e, ⟨he, hne⟩, rfl⟩

theorem mapContains_mapErase_of_false {κ β : Type} [DecidableEq κ] (m : List (κ × β))
    (key x : κ) (h : mapContains m x = false) : mapContains (mapErase m key) x = false := by
  rw [Bool.eq_false_iff] at h ⊢
  intro hc
  exact h ((mapContains_mapErase m key x).mp hc).1

theorem mapContains_mapUpdate {κ β : Type} [DecidableEq κ] (m : List (κ × β)) (key : κ)
    (f : β → β) (x : κ) : mapContains (mapUpdate m key f) x = mapContains m x := by
  have hk : keys (mapUpdate m key f) = keys m := by
    simp only [keys, mapUpdate, List.map_map]
    apply List.map_congr_left
    intro e _
    by_cases h : e.1 = key <;> simp [h]
  rw [Bool.eq_iff_iff, mapContains_iff, mapContains_iff, hk]

theorem equalRange_length_add {κ β : Type} [DecidableEq κ] (m : List (κ × β)) (key : κ) :
    (equalRange m key).length + (mapErase m key).length = m.length := by
  induction m with
  | nil => simp [equalRange, mapErase]
  | cons e rest ih =>
    simp only [equalRange, mapErase, List.length_map] at ih ⊢
    by_cases h : e.1 = key
    · have h1 : decide (e.1 = key) = true := by simp [h]
      have h2 : decide (e.1 ≠ key) = false := by simp [h]
      simp only [List.filter_cons, h1, h2, if_true, List.length_cons]
      simp only [Bool.false_eq_true, if_false]
      omega
    · have h1 : decide (e.1 = key) = false := by simp [h]
      have h2 : decide (e.1 ≠ key) = true := by simp [h]
      simp only [List.filter_cons, h1, h2, if_true, List.length_cons]
      simp only [Bool.false_eq_true, if_false]
      omega

theorem mem_equalRange {κ β : Type} [DecidableEq κ] (m : List (κ × β)) (key : κ) (v : β) :
    v ∈ equalRange m key ↔ (key, v) ∈ m := by
  simp only [equalRange, List.mem_map, List.mem_filter, decide_eq_true_eq]
  constructor
  · rintro ⟨⟨k, w⟩, ⟨he, hk⟩, rfl⟩
    simp only at hk
    rw [← hk]; exact he
  · intro h
    exact ⟨(key, v), ⟨h, rfl⟩, rfl⟩

theorem edge_mapErase (ancestry : List (BlockHash × BlockHash)) (h a b : BlockHash) :
    Edge (mapErase ancestry h) a b ↔ Edge ancestry a b ∧ a ≠ h := by
  simp [Edge, mapErase, List.mem_filter]

/-- Cutting a path at its last visit of `h`: a hash reachable from `a` is reachable from
`a` without the entries under `h`, or from a child of `h` without them. -/
theorem reach_cut (ancestry : List (BlockHash × BlockHash)) (h a x : BlockHash)
    (hax : Reach ancestry a x) :
    Reach (mapErase ancestry h) a x
      ∨ ∃ c, Edge ancestry h c ∧ Reach (mapErase ancestry h) c x := by
  unfold Reach at hax ⊢
  induction hax using Relation.ReflTransGen.head_induction_on with
  | refl => exact Or.inl Relation.ReflTransGen.refl
  | @head a1 b1 hab _ ih =>
    rcases ih with h1 | h1
    · by_cases ha : a1 = h
      · right
        exact ⟨b1, by rw [← ha]; exact hab, h1⟩
      · left
        exact Relation.ReflTransGen.head ((edge_mapErase ancestry h a1 b1).mpr ⟨hab, ha⟩) h1
    · exact Or.inr h1

theorem reach_mapErase_self (ancestry : List (BlockHash × BlockHash)) (h x : BlockHash)
    (hx : Reach (mapErase ancestry h) h x) : x = h := by
  unfold Reach at hx
  rcases Relation.ReflTransGen.cases_head hx with h1 | ⟨c, hc, _⟩
  · exact h1.symm
  · exact absurd rfl ((edge_mapErase ancestry h h c).mp hc).2

/-- The loop of `discardBlock`, given a budget of at least the queue length plus the number
of ancestry entries, removes from `known_blocks` every hash reachable from a queued hash
and puts nothing back. -/
theorem discardLoop_removes :
    ∀ (fuel : Nat) (self : SynchronizerImpl) (queue : List BlockHash) (affected : Nat)
      (evs : List Event), queue.length + self.ancestry.length ≤ fuel →
      ∀ x, (mapContains self.known_blocks x = false ∨ ∃ q ∈ queue, Reach self.ancestry q x) →
        mapContains (discardLoop fuel self queue affected evs).1.known_blocks x = false := by
  intro fuel
  induction fuel with
  | zero =>
    intro self queue affected evs hf x hx
    have hq : queue = [] := List.length_eq_zero.mp (by omega)
    subst hq
    rcases hx with hx | ⟨q, hq, _⟩
    · simpa [discardLoop] using hx
    · simp at hq
  | succ fuel ih =>
    intro self queue affected evs hf x hx
    cases queue with
    | nil =>
      rcases hx with hx | ⟨q, hq, _⟩
      · simpa [discardLoop] using hx
      · simp at hq
    | cons hash rest =>
      have hlen := equalRange_length_add self.ancestry hash
      have hkey : ∀ (known1 : List (BlockHash × KnownBlock)),
          (∀ y, mapContains self.known_blocks y = false → mapContains known1 y = false) →
          mapContains known1 hash = false →
          mapContains known1 x = false
            ∨ ∃ q ∈ rest ++ equalRange self.ancestry hash,
                Reach (mapErase self.ancestry hash) q x := by
        intro known1 hmono hgone
        rcases hx with hx | ⟨q, hq, hreach⟩
        · exact Or.inl (hmono x hx)
        · rcases reach_cut self.ancestry hash q x hreach with h1 | ⟨c, hc, h1⟩
          · rcases List.mem_cons.mp hq with hq1 | hq1
            · rw [hq1] at h1
              rw [reach_mapErase_self self.ancestry hash x h1]
              exact Or.inl hgone
            · exact Or.inr ⟨q, List.mem_append_left _ hq1, h1⟩
          · exact Or.inr ⟨c, List.mem_append_right _
              ((mem_equalRange self.ancestry hash c).mpr hc), h1⟩
      simp only [discardLoop]
      cases hfind : mapFind self.known_blocks hash with
      | some kb =>
        simp only []
        apply ih
        · simp only [notifySubscribers, List.length_append]
          simp only [List.length_cons] at hf
          omega
        · simp only [notifySubscribers]
          exact hkey _ (fun y hy => mapContains_mapErase_of_false _ _ _ hy)
            (mapContains_mapErase_self _ _)
      | none =>
        simp only []
        apply ih
        · simp only [List.length_append]
          simp only [List.length_cons] at hf
          omega
        · exact hkey _ (fun y hy => hy) (by simp [mapContains, hfind])

theorem findCommonBlock_queue (env : Env) (self : SynchronizerImpl) (peer_id : PeerId)
    (lower upper hint : Nat) (handler : Handler) (observed : List (Nat × BlockHash)) :
    (findCommonBlock env self peer_id lower upper hint handler observed).1.known_blocks
        = self.known_blocks
    ∧ (findCommonBlock env self peer_id lower upper hint handler observed).1.generations
        = self.generations
    ∧ (findCommonBlock env self peer_id lower upper hint handler observed).1.ancestry
        = self.ancestry
    ∧ ∀ e ∈ (findCommonBlock env self peer_id lower upper hint handler observed).2.1,
        isExecutorCall e = false := by
  by_cases hs : self.node_is_shutting_down = true
  · simp [findCommonBlock, hs, isExecutorCall]
  · by_cases hd : mapContains self.recent_requests
        (peer_id, env.fingerprint (findRequest hint)) = true
    · simp [findCommonBlock, hs, hd, isExecutorCall]
    · simp [findCommonBlock, hs, hd, isExecutorCall, recordRequest]

theorem loadBlocks_queue (env : Env) (self : SynchronizerImpl) (peer_id : PeerId)
    (from_ : BlockInfo) (handler : Option Handler) :
    (loadBlocks env self peer_id from_ handler).1.known_blocks = self.known_blocks
    ∧ (loadBlocks env self peer_id from_ handler).1.generations = self.generations
    ∧ (loadBlocks env self peer_id from_ handler).1.ancestry = self.ancestry
    ∧ ∀ e ∈ (loadBlocks env self peer_id from_ handler).2, isExecutorCall e = false := by
  by_cases hs : self.node_is_shutting_down = true
  · cases handler <;> simp [loadBlocks, hs, isExecutorCall, callHandler]
  · by_cases hd : mapContains self.recent_requests
        (peer_id, env.fingerprint (loadBlocksRequest self.sync_method from_)) = true
    · cases handler <;> simp [loadBlocks, hs, hd, isExecutorCall, callHandler]
    · simp [loadBlocks, hs, hd, isExecutorCall, recordRequest]

theorem takePeer_queue (self : SynchronizerImpl) (block_info : BlockInfo) (peer_id : PeerId) :
    (∀ x, mapContains (takePeer self block_info peer_id).known_blocks x
        = mapContains self.known_blocks x)
    ∧ (takePeer self block_info peer_id).generations = self.generations
    ∧ (takePeer self block_info peer_id).ancestry = self.ancestry := by
  refine ⟨fun x => ?_, rfl, rfl⟩
  simp only [takePeer]
  exact mapContains_mapUpdate self.known_blocks block_info.hash _ x

theorem askNextPortionOfBlocks_queue (env : Env) (self : SynchronizerImpl) :
    (∀ x, mapContains (askNextPortionOfBlocks env self).1.known_blocks x
        = mapContains self.known_blocks x)
    ∧ (askNextPortionOfBlocks env self).1.generations = self.generations
    ∧ (askNextPortionOfBlocks env self).1.ancestry = self.ancestry
    ∧ ∀ e ∈ (askNextPortionOfBlocks env self).2, isExecutorCall e = false := by
  unfold askNextPortionOfBlocks
  by_cases hask : self.asking_blocks_portion_in_progress = true
  · simp [hask]
  · rw [if_neg hask]
    cases hscan : askNextPortionScan self self.generations.reverse with
    | none => simp
    | some found =>
      obtain ⟨block_info, peer_id⟩ := found
      obtain ⟨t1, t2, t3⟩ := takePeer_queue self block_info peer_id
      dsimp only
      by_cases hfull : (takePeer self block_info peer_id).sync_method = .Full
      · rw [if_pos hfull]
        obtain ⟨h1, h2, h3, h4⟩ := findCommonBlock_queue env (takePeer self block_info peer_id)
          peer_id (((takePeer self block_info peer_id).generations.head?.map Prod.fst).getD 0)
          (((takePeer self block_info peer_id).generations.getLast?.map Prod.fst).getD 0 + 1)
          (((takePeer self block_info peer_id).generations.getLast?.map Prod.fst).getD 0)
          (.askPortionFind peer_id) []
        split
        · exact ⟨fun x => by rw [h1]; exact t1 x, by rw [h2]; exact t2,
            by rw [h3]; exact t3, h4⟩
        · refine ⟨fun x => ?_, ?_, ?_, h4⟩
          · simp only [askPortionFailed]; rw [h1]; exact t1 x
          · simp only [askPortionFailed]; rw [h2]; exact t2
          · simp only [askPortionFailed]; rw [h3]; exact t3
      · rw [if_neg hfull]
        obtain ⟨h1, h2, h3, h4⟩ := loadBlocks_queue env (takePeer self block_info peer_id)
          peer_id block_info (some (.askPortion peer_id))
        split
        · refine ⟨fun x => ?_, ?_, ?_, h4⟩
          · simp only [askPortionFailed]; rw [h1]; exact t1 x
          · simp only [askPortionFailed]; rw [h2]; exact t2
          · simp only [askPortionFailed]; rw [h3]; exact t3
        · exact ⟨fun x => by rw [h1]; exact t1 x, by rw [h2]; exact t2,
            by rw [h3]; exact t3, h4⟩

theorem postApplyBlock_queue (env : Env) (self : SynchronizerImpl) (hash : BlockHash) :
    (∀ x, mapContains (postApplyBlock env self hash).1.known_blocks x
        = mapContains self.known_blocks x)
    ∧ (postApplyBlock env self hash).1.generations = self.generations
    ∧ (postApplyBlock env self hash).1.ancestry = mapErase self.ancestry hash
    ∧ ∀ e ∈ (postApplyBlock env self hash).2, isExecutorCall e = false := by
  unfold postApplyBlock
  dsimp only
  generalize (if self.sync_method = SyncMethod.Full then env.kMinPreloadedBlockAmount
    else env.kMinPreloadedBlockAmountForFastSyncing) = m
  by_cases hlt : self.known_blocks.length < m
  · rw [if_pos hlt]
    obtain ⟨h1, h2, h3, h4⟩ := askNextPortionOfBlocks_queue env
      { self with ancestry := mapErase self.ancestry hash }
    refine ⟨fun x => h1 x, h2, h3, ?_⟩
    intro e he
    rcases List.mem_append.mp he with he1 | he1
    · exact h4 e he1
    · simp at he1; rw [he1]; rfl
  · rw [if_neg hlt]
    refine ⟨fun _ => rfl, rfl, rfl, ?_⟩
    intro e he
    simp at he; rw [he]; rfl

theorem discardBlock_removes (self : SynchronizerImpl) (hash x : BlockHash)
    (hx : mapContains self.known_blocks x = false ∨ Reach self.ancestry hash x) :
    mapContains (discardBlock self hash).1.known_blocks x = false := by
  unfold discardBlock
  apply discardLoop_removes
  · simp; omega
  · rcases hx with hx | hx
    · exact Or.inl hx
    · exact Or.inr ⟨hash, by simp, hx⟩

theorem notifySubscribers_events (self : SynchronizerImpl) (block : BlockInfo)
    (res : AdditionResult) :
    ∀ e ∈ (notifySubscribers self block res).2, isExecutorCall e = false := by
  intro e he
  simp only [notifySubscribers, List.mem_map] at he
  obtain ⟨h, _, rfl⟩ := he
  cases res <;> rfl

theorem discardLoop_events :
    ∀ (fuel : Nat) (self : SynchronizerImpl) (queue : List BlockHash) (affected : Nat)
      (evs : List Event), (∀ e ∈ evs, isExecutorCall e = false) →
      ∀ e ∈ (discardLoop fuel self queue affected evs).2.2, isExecutorCall e = false := by
  intro fuel
  induction fuel with
  | zero => intro self queue affected evs h; simpa [discardLoop] using h
  | succ fuel ih =>
    intro self queue affected evs h
    cases queue with
    | nil => simpa [discardLoop] using h
    | cons hash rest =>
      simp only [discardLoop]
      cases hfind : mapFind self.known_blocks hash with
      | some kb =>
        simp only []
        apply ih
        intro e he
        rcases List.mem_append.mp he with he1 | he1
        · exact h e he1
        · exact notifySubscribers_events _ _ _ e he1
      | none =>
        simp only []
        exact ih _ _ _ _ h

theorem discardBlock_events (self : SynchronizerImpl) (hash : BlockHash) :
    ∀ e ∈ (discardBlock self hash).2.2, isExecutorCall e = false :=
  discardLoop_events _ _ _ _ _ (by simp)

theorem isExecutorCall_callHandler (handler : Option Handler) (res : SyncResult) :
    ∀ e ∈ callHandler handler res, isExecutorCall e = false := by
  intro e he
  cases handler with
  | none => simp [callHandler] at he
  | some h => simp [callHandler] at he; rw [he]; rfl

/-- The result of `applyNextBlock` on a stale block that is not in the block tree. -/
theorem applyNextBlock_stale (env : Env) (tree : BlockTree) (self : SynchronizerImpl)
    (number : Nat) (hash : BlockHash) (rest : List (Nat × BlockHash)) (kb : KnownBlock)
    (header : BlockHeader)
    (hgen : self.generations = (number, hash) :: rest)
    (hidle : self.applying_in_progress = false)
    (hkb : mapFind self.known_blocks hash = some kb)
    (hkey : kb.data.hash = hash)
    (hheader : kb.data.header = some header)
    (hstale : header.number ≤ tree.last_finalized.number)
    (hnot : tree.hasBlockHeader hash = false) :
    ∃ (self2 : SynchronizerImpl) (handler : Option Handler),
      self2.known_blocks = self.known_blocks ∧ self2.ancestry = self.ancestry
      ∧ (self.watched_blocks_number = header.number →
          handler = mapFind self.watched_blocks hash)
      ∧ applyNextBlock env tree self =
          ((postApplyBlock env (discardBlock self2 hash).1 hash).1,
           (discardBlock self2 hash).2.2 ++ callHandler handler (.err .DISCARDED_BLOCK)
             ++ (postApplyBlock env (discardBlock self2 hash).1 hash).2) := by
  by_cases hw : self.watched_blocks_number = header.number
  · refine ⟨{ self with generations := rest,
                        watched_blocks := mapErase self.watched_blocks hash },
      mapFind self.watched_blocks hash, rfl, rfl, fun _ => rfl, ?_⟩
    simp [applyNextBlock, hgen, hidle, hkb, hheader, hstale, hnot, hkey, hw]
  · refine ⟨{ self with generations := rest }, none, rfl, rfl, fun h => absurd h hw, ?_⟩
    simp [applyNextBlock, hgen, hidle, hkb, hheader, hstale, hnot, hkey, hw]

/-- Claim C10 (applyNextBlock on a stale block). When `applyNextBlock` pops a queued block
whose number is at most the last finalized number and whose header is not in the block
tree, the block and every hash reachable from it through `ancestry` are no keys of
`known_blocks` afterwards, the handler watching the block (if there is one for its
number) receives `DISCARDED_BLOCK`, and no event hands the block to the block executor
or to the header appender. -/
theorem applyNextBlock_stale_block (env : Env) (tree : BlockTree) (self : SynchronizerImpl)
    (number : Nat) (hash : BlockHash) (rest : List (Nat × BlockHash)) (kb : KnownBlock)
    (header : BlockHeader)
    (hgen : self.generations = (number, hash) :: rest)
    (hidle : self.applying_in_progress = false)
    (hkb : mapFind self.known_blocks hash = some kb)
    (hkey : kb.data.hash = hash)
    (hheader : kb.data.header = some header)
    (hstale : header.number ≤ tree.last_finalized.number)
    (hnot : tree.hasBlockHeader hash = false) :
    (∀ x, Reach self.ancestry hash x →
      mapContains (applyNextBlock env tree self).1.known_blocks x = false)
    ∧ (∀ h, self.watched_blocks_number = header.number →
        mapFind self.watched_blocks hash = some h →
        Event.handler h (.err .DISCARDED_BLOCK) ∈ (applyNextBlock env tree self).2)
    ∧ (∀ e ∈ (applyNextBlock env tree self).2, isExecutorCall e = false) := by
  obtain ⟨self2, handler, hk2, ha2, hh2, heq⟩ := applyNextBlock_stale env tree self number hash
    rest kb header hgen hidle hkb hkey hheader hstale hnot
  rw [heq]
  obtain ⟨p1, _, _, p4⟩ := postApplyBlock_queue env (discardBlock self2 hash).1 hash
  refine ⟨?_, ?_, ?_⟩
  · intro x hx
    simp only
    rw [p1 x]
    exact discardBlock_removes self2 hash x (Or.inr (by rw [ha2]; exact hx))
  · intro h hw hfind
    simp only
    rw [hh2 hw, hfind]
    simp [callHandler]
  · intro e he
    simp only at he
    rcases List.mem_append.mp he with he1 | he1
    · rcases List.mem_append.mp he1 with he2 | he2
      · exact discardBlock_events self2 hash e he2
      · exact isExecutorCall_callHandler _ _ e he2
    · exact p4 e he1

/-- Worked example for C10: the queue holds `fork1` (number 1) and its child `fork2`, and a
handler watches `fork1`; meanwhile the node finalized `A2` (number 2) on another chain.
`applyNextBlock` pops `fork1`: both blocks leave `known_blocks` and the handler receives
`DISCARDED_BLOCK`. -/
theorem applyNextBlock_stale_block_witness :
    mapContains (applyNextBlock Scenario.env Scenario.tree2 Scenario.forkQueue).1.known_blocks
        Scenario.fork1.hash = false
    ∧ mapContains (applyNextBlock Scenario.env Scenario.tree2 Scenario.forkQueue).1.known_blocks
        Scenario.fork2.hash = false
    ∧ Event.handler (.user 9) (.err .DISCARDED_BLOCK)
        ∈ (applyNextBlock Scenario.env Scenario.tree2 Scenario.forkQueue).2 :=
  have h := applyNextBlock_stale_block Scenario.env Scenario.tree2 Scenario.forkQueue 1
    Scenario.fork1.hash [(2, Scenario.fork2.hash)] ⟨Scenario.fork1, [7]⟩
    ⟨Scenario.G.hash, 1, 5, 0, []⟩ (by decide) (by decide) (by decide) (by decide)
    (by decide) (by decide) (by decide)
  ⟨h.1 _ Relation.ReflTransGen.refl,
   h.1 _ (Relation.ReflTransGen.single
     (show (Scenario.fork1.hash, Scenario.fork2.hash) ∈ Scenario.forkQueue.ancestry by decide)),
   h.2.1 _ (by decide) (by decide)⟩

/-- Claim C9, evaluated at the failing input (the code keeps the block): the node has the
chain `G, A1, A2` and asked a peer for blocks from `A2`; the response `A2, C3` enqueued both. Before `A2`
is popped, the node finalizes `A2`. `applyNextBlock` then pops `A2`, finds its number at
most the last finalized one and its header in the block tree, and skips it: no executor
or appender is called, `postApplyBlock` schedules the next application, and `A2` is
still a key of `known_blocks` although it left `generations`. -/
theorem applyNextBlock_skipped_block_stays :
    Scenario.queueA2C3.generations = [(2, Scenario.A2.hash), (3, Scenario.C3.hash)]
    ∧ Scenario.tree2.last_finalized = ⟨2, Scenario.A2.hash⟩
    ∧ Scenario.tree2.hasBlockHeader Scenario.A2.hash = true
    ∧ (applyNextBlock Scenario.env Scenario.tree2 Scenario.queueA2C3).1.generations
        = [(3, Scenario.C3.hash)]
    ∧ mapContains (applyNextBlock Scenario.env Scenario.tree2 Scenario.queueA2C3).1.known_blocks
        Scenario.A2.hash = true
    ∧ (applyNextBlock Scenario.env Scenario.tree2 Scenario.queueA2C3).2.all
        (fun e => !isExecutorCall e) = true
    ∧ Event.scheduledApplyNextBlock
        ∈ (applyNextBlock Scenario.env Scenario.tree2 Scenario.queueA2C3).2 := by
  decide

/-- Worked example for C8 (claim as stated fails): the queue holds `C3` and `C4`, fetched
as children of the local block `A2`; `applyNextBlock` hands `C3` to the executor.
If the executor rejects `C3`, the callback (`processBlockAdditionResult`, then
`postApplyBlock`) leaves `known_blocks` empty while `generations` still holds `C4` and
`ancestry` still holds `C3` as a child of `A2`. If the executor accepts `C3`, `ancestry`
still holds `C3` as a child of `A2` although `C3` left `known_blocks`. `discardBlock`,
`prune` and a discarding `applyNextBlock` break the property as well. -/
theorem queue_consistency_counterexample :
    queueConsistent Scenario.queueC3C4
    ∧ (applyNextBlock Scenario.env Scenario.tree0 Scenario.queueC3C4).2
      = [Event.applyBlock ⟨Scenario.A2.hash, 3, 0, 0, []⟩ [] none ⟨Scenario.C3.hash, none⟩]
    ∧ ((4, Scenario.C4.hash) ∈ Scenario.afterRejectedC3.generations
      ∧ mapContains Scenario.afterRejectedC3.known_blocks Scenario.C4.hash = false
      ∧ (Scenario.A2.hash, Scenario.C3.hash) ∈ Scenario.afterRejectedC3.ancestry
      ∧ mapContains Scenario.afterRejectedC3.known_blocks Scenario.C3.hash = false
      ∧ ¬ queueConsistent Scenario.afterRejectedC3)
    ∧ ¬ queueConsistent (applyCallback Scenario.env Scenario.tree0
        (applyNextBlock Scenario.env Scenario.tree0 Scenario.queueC3C4).1
        ⟨Scenario.C3.hash, none⟩ .success).1
    ∧ ¬ queueConsistent (discardBlock Scenario.queueC3C4 Scenario.C4.hash).1
    ∧ ¬ queueConsistent (prune Scenario.queueC3C4 ⟨4, 0⟩).1
    ∧ (queueConsistent Scenario.forkQueue
      ∧ ¬ queueConsistent
          (applyNextBlock Scenario.env Scenario.tree2 Scenario.forkQueue).1) := by
  decide

theorem mem_multimapEmplace {β : Type} (m : List (Nat × β)) (key : Nat) (v : β)
    (e : Nat × β) (h : e ∈ multimapEmplace m key v) : e ∈ m ∨ e = (key, v) := by
  induction m with
  | nil => simpa [multimapEmplace] using h
  | cons x rest ih =>
    obtain ⟨k, w⟩ := x
    unfold multimapEmplace at h
    split at h
    · rcases List.mem_cons.mp h with h1 | h1
      · exact Or.inr h1
      · exact Or.inl h1
    · rcases List.mem_cons.mp h with h1 | h1
      · exact Or.inl (by rw [h1]; exact List.mem_cons_self _ _)
      · rcases ih h1 with h2 | h2
        · exact Or.inl (List.mem_cons_of_mem _ h2)
        · exact Or.inr h2

theorem mapContains_mapEmplace_of {κ β : Type} [DecidableEq κ] (m : List (κ × β)) (k : κ)
    (v : β) (n : κ) (h : mapContains m n = true ∨ n = k) :
    mapContains (mapEmplace m k v) n = true := by
  rcases h with h | h
  · unfold mapEmplace
    split
    · exact h
    · rw [mapContains_iff] at h ⊢
      simp only [keys, List.map_append, List.mem_append]
      exact Or.inl h
  · rw [h]; exact mapContains_mapEmplace_self m k v

theorem enqueueBlock_consistent (peer_id : PeerId) (l : LoadLoop) (b : BlockData)
    (header : BlockHeader) (h : queueConsistent l.self) :
    queueConsistent (enqueueBlock peer_id l b header).self := by
  obtain ⟨hg, ha⟩ := h
  unfold enqueueBlock
  by_cases hc : mapContains l.self.known_blocks b.hash = true
  · rw [if_pos hc]
    dsimp only
    constructor
    · intro e he
      rw [mapContains_mapUpdate]
      exact hg e he
    · intro e he
      rw [mapContains_mapUpdate]
      exact ha e he
  · rw [if_neg hc]
    dsimp only
    constructor
    · intro e he
      apply mapContains_mapEmplace_of
      rcases mem_multimapEmplace _ _ _ e he with h1 | h1
      · exact Or.inl (hg e h1)
      · right; rw [h1]
    · intro e he
      apply mapContains_mapEmplace_of
      rcases List.mem_append.mp he with h1 | h1
      · exact Or.inl (ha e h1)
      · right
        simp only [List.mem_singleton] at h1
        rw [h1]

/-- Claim C8 (queue consistency I6, as amended). The property "every hash stored in
`generations` and every child hash stored in `ancestry` is a key of `known_blocks`" is
preserved by the handling of every `loadBlocks` response and by `postApplyBlock`; it
holds for the empty queue and so in every state reached through these two alone. (The
functions that remove keys of `known_blocks` - `processBlockAdditionResult`,
`discardBlock`, `prune`, and `applyNextBlock` where it discards - do not remove the
matching entries of `generations`, nor those of `ancestry` filed under another parent;
`applyNextBlock` looks the popped hash up and tolerates its absence.) -/
theorem queue_consistency_preserved (env : Env) (tree : BlockTree) :
    (∀ (self : SynchronizerImpl) (peer_id : PeerId) (handler : Option Handler)
      (response : Response), queueConsistent self →
      queueConsistent (loadBlocksResponse env tree self peer_id handler response).1)
    ∧ (∀ (self : SynchronizerImpl) (hash : BlockHash), queueConsistent self →
      queueConsistent (postApplyBlock env self hash).1)
    ∧ (∀ method : SyncMethod, queueConsistent (SynchronizerImpl.init method)) := by
  refine ⟨?_, ?_, ?_⟩
  · intro self peer_id handler response h
    rcases loadBlocksResponse_state env tree self peer_id handler response with hs | ⟨bs, hs⟩
    · rw [hs]; exact h
    · rw [hs]
      refine loadBlocksLoop_invariant env tree peer_id (fun l => queueConsistent l.self)
        ?_ bs _ h
      intro l0 b0 l1 hP hstep
      obtain ⟨hd, _, hcase⟩ := loadBlocksBlock_ok env tree peer_id l0 l1 b0 hstep
      rcases hcase with ⟨_, rfl⟩ | ⟨_, _, _, _, rfl⟩
      · exact hP
      · exact enqueueBlock_consistent peer_id l0 b0 hd hP
  · intro self hash h
    obtain ⟨p1, p2, p3, _⟩ := postApplyBlock_queue env self hash
    constructor
    · intro e he
      rw [p1]
      rw [p2] at he
      exact h.1 e he
    · intro e he
      rw [p1]
      rw [p3] at he
      simp only [mapErase, List.mem_filter] at he
      exact h.2 e he.1
  · intro method
    constructor <;> intro e he <;> simp [SynchronizerImpl.init] at he

/-- Worked example for C8 as amended: the queue after the response `C3, C4` on a fresh
synchronizer is consistent. -/
theorem queue_consistency_preserved_witness :
    queueConsistent Scenario.queueC3C4
    ∧ queueConsistent (postApplyBlock Scenario.env Scenario.queueC3C4 Scenario.A2.hash).1 :=
  have h := queue_consistency_preserved Scenario.env Scenario.tree0
  have h0 := h.1 (SynchronizerImpl.init .Full) 7 none
    (.blocks [Scenario.C3, Scenario.C4]) (h.2.2 .Full)
  ⟨h0, h.2.1 Scenario.queueC3C4 Scenario.A2.hash h0⟩

theorem multimapEmplace_sorted {β : Type} (m : List (Nat × β)) (key : Nat) (v : β)
    (h : List.Pairwise (fun a b : Nat × β => a.1 ≤ b.1) m) :
    List.Pairwise (fun a b : Nat × β => a.1 ≤ b.1) (multimapEmplace m key v) := by
  induction m with
  | nil => simp [multimapEmplace]
  | cons x rest ih =>
    obtain ⟨k, w⟩ := x
    unfold multimapEmplace
    by_cases hlt : key < k
    · rw [if_pos hlt]
      refine List.Pairwise.cons ?_ h
      intro e he
      rcases List.mem_cons.mp he with h1 | h1
      · rw [h1]; exact Nat.le_of_lt hlt
      · exact Nat.le_trans (Nat.le_of_lt hlt) (List.rel_of_pairwise_cons h h1)
    · rw [if_neg hlt]
      refine List.Pairwise.cons ?_ (ih (List.Pairwise.of_cons h))
      intro e he
      rcases mem_multimapEmplace rest key v e he with h1 | h1
      · exact List.rel_of_pairwise_cons h h1
      · rw [h1]; exact Nat.le_of_not_lt hlt

/-- The queue of a fresh synchronizer is sorted, and the handling of a `loadBlocks`
response, the only place that inserts into `generations`, keeps it sorted. -/
theorem loadBlocksResponse_sorted (env : Env) (tree : BlockTree) (self : SynchronizerImpl)
    (peer_id : PeerId) (handler : Option Handler) (response : Response)
    (h : generationsSorted self) :
    generationsSorted (loadBlocksResponse env tree self peer_id handler response).1 := by
  rcases loadBlocksResponse_state env tree self peer_id handler response with hs | ⟨bs, hs⟩
  · rw [hs]; exact h
  · rw [hs]
    refine loadBlocksLoop_invariant env tree peer_id (fun l => generationsSorted l.self)
      ?_ bs _ h
    intro l0 b0 l1 hP hstep
    obtain ⟨hd, _, hcase⟩ := loadBlocksBlock_ok env tree peer_id l0 l1 b0 hstep
    rcases hcase with ⟨_, rfl⟩ | ⟨_, _, _, _, rfl⟩
    · exact hP
    · unfold enqueueBlock
      by_cases hc : mapContains l0.self.known_blocks b0.hash = true
      · rw [if_pos hc]; exact hP
      · rw [if_neg hc]
        exact multimapEmplace_sorted _ _ _ hP

/-- Claim C12, evaluated at the failing inputs (the code admits two applications at a
time). The scope guard of `applyNextBlock` resets `applying_in_progress_` when the
function returns, which is before the executor invokes the completion callback. First
run: two announced blocks `C3` and `C3b` are fetched from two peers, each response
schedules `applyNextBlock`; after the first task has handed `C3` to the executor the flag
is `false` again, and the second task hands `C3b` over while `C3` has not completed.
Second run: `C3` is with the executor when the `applyNextJustification` task runs; it
finds the flag `false` and hands the justification of `G` to the finality gadget. -/
theorem at_most_one_apply_failing_input :
    ((Node.run Scenario.env Scenario.tree0 (Node.init .Full)
        (Scenario.twoAnnouncements.take 5)).executing
      = [⟨Scenario.C3.hash, some (.user 1)⟩]
    ∧ (Node.run Scenario.env Scenario.tree0 (Node.init .Full)
        (Scenario.twoAnnouncements.take 5)).self.applying_in_progress = false
    ∧ (Node.run Scenario.env Scenario.tree0 (Node.init .Full)
        Scenario.twoAnnouncements).executing
      = [⟨Scenario.C3.hash, some (.user 1)⟩, ⟨Scenario.C3b.hash, some (.user 2)⟩])
    ∧ ((Node.run Scenario.env Scenario.tree0 (Node.init .Full)
        (Scenario.blockAndJustification.take 5)).executing
      = [⟨Scenario.C3.hash, some (.user 1)⟩]
    ∧ (Node.run Scenario.env Scenario.tree0 (Node.init .Full)
        (Scenario.blockAndJustification.take 5)).justifying = []
    ∧ (Node.run Scenario.env Scenario.tree0 (Node.init .Full)
        Scenario.blockAndJustification).executing
      = [⟨Scenario.C3.hash, some (.user 1)⟩]
    ∧ (Node.run Scenario.env Scenario.tree0 (Node.init .Full)
        Scenario.blockAndJustification).justifying = [⟨0, Scenario.G.hash⟩]) := by
  decide

theorem mem_setInsert_self (s : List Nat) (x : Nat) : x ∈ setInsert s x := by
  induction s with
  | nil => simp [setInsert]
  | cons y rest ih =>
    unfold setInsert
    by_cases h1 : x < y
    · rw [if_pos h1]; exact List.mem_cons_self _ _
    · rw [if_neg h1]
      by_cases h2 : x = y
      · rw [if_pos h2, h2]; exact List.mem_cons_self _ _
      · rw [if_neg h2]; exact List.mem_cons_of_mem _ ih

theorem sentRequests_append (a b : List Event) :
    sentRequests (a ++ b) = sentRequests a ++ sentRequests b := by
  simp [sentRequests, List.filterMap_append]

theorem subscribeToBlock_frame (env : Env) (tree : BlockTree) (self : SynchronizerImpl)
    (block_info : BlockInfo) (handler : Handler) :
    (subscribeToBlock env tree self block_info handler).2.1.busy_peers = self.busy_peers
    ∧ (subscribeToBlock env tree self block_info handler).2.1.known_blocks = self.known_blocks
    ∧ sentRequests (subscribeToBlock env tree self block_info handler).2.2 = [] := by
  unfold subscribeToBlock
  by_cases h1 : tree.hasBlockHeader block_info.hash = true
  · rw [if_pos h1]; exact ⟨rfl, rfl, rfl⟩
  · rw [if_neg h1]
    dsimp only
    by_cases h2 : tree.last_finalized.number ≥ block_info.number
    · rw [if_pos h2]; exact ⟨rfl, rfl, rfl⟩
    · rw [if_neg h2]
      by_cases h3 : tree.best_block.number + env.kMaxDistanceToBlockForSubscription
          < block_info.number
      · rw [if_pos h3]; exact ⟨rfl, rfl, rfl⟩
      · rw [if_neg h3]; exact ⟨rfl, rfl, rfl⟩

theorem subscribeOnDemand_frame (env : Env) (tree : BlockTree) (self : SynchronizerImpl)
    (block_info : BlockInfo) (handler : CallerHandler) (subscribe_to_block : Bool) :
    (subscribeOnDemand env tree self block_info handler subscribe_to_block).1.busy_peers
        = self.busy_peers
    ∧ (subscribeOnDemand env tree self block_info handler subscribe_to_block).1.known_blocks
        = self.known_blocks
    ∧ sentRequests (subscribeOnDemand env tree self block_info handler subscribe_to_block).2.1
        = [] := by
  unfold subscribeOnDemand
  cases subscribe_to_block with
  | false => exact ⟨rfl, rfl, rfl⟩
  | true =>
    rw [if_pos rfl]
    exact subscribeToBlock_frame env tree self block_info _

/-- What `findCommonBlock` sends: nothing when it rejects the call, and one request to
`peer_id` otherwise; the busy peers are not touched. -/
theorem findCommonBlock_requests (env : Env) (self : SynchronizerImpl) (peer_id : PeerId)
    (lower upper hint : Nat) (handler : Handler) (observed : List (Nat × BlockHash)) :
    (findCommonBlock env self peer_id lower upper hint handler observed).1.busy_peers
        = self.busy_peers
    ∧ (∀ pr ∈ sentRequests
          (findCommonBlock env self peer_id lower upper hint handler observed).2.1,
        pr.1 = peer_id)
    ∧ ((findCommonBlock env self peer_id lower upper hint handler observed).2.2 = none →
        sentRequests (findCommonBlock env self peer_id lower upper hint handler observed).2.1
          = []
        ∧ ∃ e, handlerCalls
            (findCommonBlock env self peer_id lower upper hint handler observed).2.1
              = [(handler, .err e)]) := by
  by_cases hs : self.node_is_shutting_down = true
  · simp [findCommonBlock, hs, sentRequests, handlerCalls, SyncResult.err]
  · by_cases hd : mapContains self.recent_requests
        (peer_id, env.fingerprint (findRequest hint)) = true
    · simp [findCommonBlock, hs, hd, sentRequests, handlerCalls, SyncResult.err]
    · simp [findCommonBlock, hs, hd, sentRequests, handlerCalls, recordRequest]

/-- What `loadBlocks` sends: at most one request, to `peer_id`; the busy peers are not
touched. -/
theorem loadBlocks_requests (env : Env) (self : SynchronizerImpl) (peer_id : PeerId)
    (from_ : BlockInfo) (handler : Option Handler) :
    (loadBlocks env self peer_id from_ handler).1.busy_peers = self.busy_peers
    ∧ ∀ pr ∈ sentRequests (loadBlocks env self peer_id from_ handler).2, pr.1 = peer_id := by
  by_cases hs : self.node_is_shutting_down = true
  · cases handler <;> simp [loadBlocks, hs, sentRequests, callHandler]
  · by_cases hd : mapContains self.recent_requests
        (peer_id, env.fingerprint (loadBlocksRequest self.sync_method from_)) = true
    · cases handler <;> simp [loadBlocks, hs, hd, sentRequests, callHandler]
    · simp [loadBlocks, hs, hd, sentRequests, recordRequest]

/-- A request that `syncByBlockInfo` sends goes to `peer_id`, which was not busy before
the call and is busy after it. -/
theorem syncByBlockInfo_requests (env : Env) (tree : BlockTree) (self : SynchronizerImpl)
    (block_info : BlockInfo) (peer_id : PeerId) (handler : CallerHandler)
    (subscribe_to_block : Bool) :
    ∀ pr ∈ sentRequests
        (syncByBlockInfo env tree self block_info peer_id handler subscribe_to_block).2.2,
      pr.1 = peer_id ∧ peer_id ∉ self.busy_peers
      ∧ peer_id ∈ (syncByBlockInfo env tree self block_info peer_id handler
          subscribe_to_block).2.1.busy_peers := by
  obtain ⟨sb, _, ss⟩ := subscribeOnDemand_frame env tree self block_info handler
    subscribe_to_block
  unfold syncByBlockInfo
  dsimp only
  generalize subscribeOnDemand env tree self block_info handler subscribe_to_block = sub
    at sb ss ⊢
  by_cases h1 : mapContains sub.1.known_blocks block_info.hash = true
  · rw [if_pos h1]
    intro pr hpr
    simp [sentRequests_append, ss, sentRequests_callHandler] at hpr
  · rw [if_neg h1]
    by_cases h2 : peer_id ∈ sub.1.busy_peers
    · rw [if_pos h2]
      intro pr hpr
      simp [ss] at hpr
    · rw [if_neg h2]
      by_cases h3 : block_info = tree.best_block
      · rw [if_pos h3]
        intro pr hpr
        simp [sentRequests_append, ss, sentRequests_callHandler] at hpr
      · rw [if_neg h3]
        by_cases h4 : tree.last_finalized.number
            < min block_info.number tree.best_block.number + 1
        · rw [if_neg (not_not.mpr h4)]
          obtain ⟨f1, f2, f3⟩ := findCommonBlock_requests env
            { sub.1 with busy_peers := setInsert sub.1.busy_peers peer_id } peer_id
            tree.last_finalized.number (min block_info.number tree.best_block.number + 1)
            (min block_info.number tree.best_block.number)
            (sub.2.2.findHandler peer_id) []
          generalize findCommonBlock env
            { sub.1 with busy_peers := setInsert sub.1.busy_peers peer_id } peer_id
            tree.last_finalized.number (min block_info.number tree.best_block.number + 1)
            (min block_info.number tree.best_block.number)
            (sub.2.2.findHandler peer_id) [] = r at f1 f2 f3 ⊢
          have hbusy : peer_id ∈ r.1.busy_peers := by
            rw [f1]; exact mem_setInsert_self _ _
          have hnot : peer_id ∉ self.busy_peers := by rw [← sb]; exact h2
          cases hc : r.2.2 with
          | some c =>
            intro pr hpr
            simp only [sentRequests_append, ss, List.nil_append] at hpr
            exact ⟨f2 pr hpr, hnot, hbusy⟩
          | none =>
            obtain ⟨g1, e, g2⟩ := f3 hc
            rw [g2]
            intro pr hpr
            simp [sentRequests_append, ss, g1, findHandlerInvoke, SyncResult.err,
              sentRequests_callHandler] at hpr
        · rw [if_pos h4]
          intro pr hpr
          simp only [sentRequests_append, ss, List.nil_append] at hpr
          simp [sentRequests] at hpr

theorem askNextPortionScan_idle (self : SynchronizerImpl) (gens : List (Nat × BlockHash))
    (block_info : BlockInfo) (peer_id : PeerId)
    (h : askNextPortionScan self gens = some (block_info, peer_id)) :
    peer_id ∉ self.busy_peers := by
  induction gens with
  | nil => simp [askNextPortionScan] at h
  | cons x rest ih =>
    obtain ⟨number, hash⟩ := x
    unfold askNextPortionScan at h
    cases hk : mapFind self.known_blocks hash with
    | none => rw [hk] at h; exact ih h
    | some kb =>
      rw [hk] at h
      dsimp only at h
      cases hf : kb.peers.find? (fun p => decide (p ∉ self.busy_peers)) with
      | none => rw [hf] at h; exact ih h
      | some p =>
        rw [hf] at h
        simp only [Option.some.injEq, Prod.mk.injEq] at h
        have := List.find?_some hf
        rw [← h.2]
        simpa using this

/-- A request that `askNextPortionOfBlocks` sends goes to a peer that was not busy before
the call and is busy after it. -/
theorem askNextPortionOfBlocks_requests (env : Env) (self : SynchronizerImpl) :
    ∀ pr ∈ sentRequests (askNextPortionOfBlocks env self).2,
      pr.1 ∉ self.busy_peers ∧ pr.1 ∈ (askNextPortionOfBlocks env self).1.busy_peers := by
  unfold askNextPortionOfBlocks
  by_cases hask : self.asking_blocks_portion_in_progress = true
  · simp [hask, sentRequests]
  · rw [if_neg hask]
    cases hscan : askNextPortionScan self self.generations.reverse with
    | none => simp [sentRequests]
    | some found =>
      obtain ⟨block_info, peer_id⟩ := found
      have hidle := askNextPortionScan_idle self _ block_info peer_id hscan
      have hbusy : peer_id ∈ (takePeer self block_info peer_id).busy_peers := by
        simp only [takePeer]
        exact mem_setInsert_self _ _
      dsimp only
      by_cases hfull : (takePeer self block_info peer_id).sync_method = .Full
      · rw [if_pos hfull]
        obtain ⟨f1, f2, f3⟩ := findCommonBlock_requests env (takePeer self block_info peer_id)
          peer_id (((takePeer self block_info peer_id).generations.head?.map Prod.fst).getD 0)
          (((takePeer self block_info peer_id).generations.getLast?.map Prod.fst).getD 0 + 1)
          (((takePeer self block_info peer_id).generations.getLast?.map Prod.fst).getD 0)
          (.askPortionFind peer_id) []
        generalize findCommonBlock env (takePeer self block_info peer_id)
          peer_id (((takePeer self block_info peer_id).generations.head?.map Prod.fst).getD 0)
          (((takePeer self block_info peer_id).generations.getLast?.map Prod.fst).getD 0 + 1)
          (((takePeer self block_info peer_id).generations.getLast?.map Prod.fst).getD 0)
          (.askPortionFind peer_id) [] = r at f1 f2 f3 ⊢
        cases hc : r.2.2 with
        | some c =>
          intro pr hpr
          have hp := f2 pr hpr
          rw [hp]
          exact ⟨hidle, by rw [f1]; exact hbusy⟩
        | none =>
          intro pr hpr
          dsimp only at hpr
          rw [(f3 hc).1] at hpr
          simp at hpr
      · rw [if_neg hfull]
        obtain ⟨l1, l2⟩ := loadBlocks_requests env (takePeer self block_info peer_id) peer_id
          block_info (some (.askPortion peer_id))
        generalize loadBlocks env (takePeer self block_info peer_id) peer_id
          block_info (some (.askPortion peer_id)) = r at l1 l2 ⊢
        by_cases hempty : (sentRequests r.2).isEmpty = true
        · rw [if_pos hempty]
          intro pr hpr
          dsimp only at hpr
          rw [List.isEmpty_iff.mp hempty] at hpr
          simp at hpr
        · rw [if_neg hempty]
          intro pr hpr
          have hp := l2 pr hpr
          rw [hp]
          exact ⟨hidle, by rw [l1]; exact hbusy⟩

/-- The response handler of a common-ancestor probe does not touch the busy peers, and a
request it sends goes to the peer of the search. -/
theorem findCommonBlockResponse_requests (env : Env) (tree : BlockTree) (fuel : Nat)
    (self : SynchronizerImpl) (c : FindCapture) (response : Response) :
    (findCommonBlockResponse env tree fuel self c response).1.busy_peers = self.busy_peers
    ∧ ∀ pr ∈ sentRequests (findCommonBlockResponse env tree fuel self c response).2.1,
        pr.1 = c.peer_id := by
  unfold findCommonBlockResponse
  cases response with
  | failure e => simp [sentRequests]
  | blocks blocks =>
    cases blocks with
    | nil => simp [sentRequests]
    | cons front rest =>
      dsimp only
      cases narrowLoop tree self (mapEmplace c.observed c.target front.hash) fuel c.lower
          c.upper c.target front.hash with
      | done res => simp [sentRequests]
      | outOfFuel => simp [sentRequests]
      | again lower upper hint =>
        dsimp only
        obtain ⟨f1, f2, _⟩ := findCommonBlock_requests env self c.peer_id lower upper hint
          c.handler (mapEmplace c.observed c.target front.hash)
        exact ⟨f1, f2⟩

/-- Claim C13 (per-peer request guard, as amended). The three entry points that consult
`busy_peers` send a request to a peer only if the peer is not a member of `busy_peers`
when they are called: a request sent by `syncByBlockInfo` goes to its `peer_id`, which was
not busy before the call and is busy after it; a request sent by
`askNextPortionOfBlocks` goes to a peer that was not busy before the call and is busy
after it; `syncMissingJustifications` sends nothing to a busy peer. While a
common-ancestor search runs, the handling of each probe response leaves `busy_peers`
unchanged and sends the next probe to the peer of the search. (`loadBlocks` does not
consult `busy_peers`: `syncByBlockHeader` calls it directly when the parent is known, and
`find_handler` erases the peer before it calls it, so a peer can have several
block-range fetches in flight without being busy.) -/
theorem per_peer_request_guard (env : Env) (tree : BlockTree) (self : SynchronizerImpl) :
    (∀ (block_info : BlockInfo) (peer_id : PeerId) (handler : CallerHandler)
        (subscribe_to_block : Bool),
      ∀ pr ∈ sentRequests
          (syncByBlockInfo env tree self block_info peer_id handler subscribe_to_block).2.2,
        pr.1 = peer_id ∧ peer_id ∉ self.busy_peers
        ∧ peer_id ∈ (syncByBlockInfo env tree self block_info peer_id handler
            subscribe_to_block).2.1.busy_peers)
    ∧ (∀ pr ∈ sentRequests (askNextPortionOfBlocks env self).2,
        pr.1 ∉ self.busy_peers ∧ pr.1 ∈ (askNextPortionOfBlocks env self).1.busy_peers)
    ∧ (∀ (peer_id : PeerId) (target_block : BlockInfo) (limit : Option Nat)
        (handler : Option Handler), peer_id ∈ self.busy_peers →
        sentRequests (syncMissingJustifications env self peer_id target_block limit handler).2
          = [])
    ∧ (∀ (fuel : Nat) (c : FindCapture) (response : Response),
        (findCommonBlockResponse env tree fuel self c response).1.busy_peers = self.busy_peers
        ∧ ∀ pr ∈ sentRequests (findCommonBlockResponse env tree fuel self c response).2.1,
            pr.1 = c.peer_id) := by
  refine ⟨?_, askNextPortionOfBlocks_requests env self, ?_, ?_⟩
  · intro block_info peer_id handler subscribe_to_block
    exact syncByBlockInfo_requests env tree self block_info peer_id handler subscribe_to_block
  · intro peer_id target_block limit handler hbusy
    simp [syncMissingJustifications, hbusy, sentRequests]
  · intro fuel c response
    exact findCommonBlockResponse_requests env tree fuel self c response

/-- Worked example for C13 as amended: `syncByBlockInfo` for `C5` with the idle peer 7
sends one probe to peer 7 and leaves it busy; a second call for the same peer sends
nothing. -/
theorem per_peer_request_guard_witness :
    (sentRequests (syncByBlockInfo Scenario.env Scenario.tree0 (SynchronizerImpl.init .Full)
        ⟨5, Scenario.C5.hash⟩ 7 (.user 1) false).2.2 = [(7, findRequest 2)]
      ∧ 7 ∉ (SynchronizerImpl.init .Full).busy_peers
      ∧ 7 ∈ (syncByBlockInfo Scenario.env Scenario.tree0 (SynchronizerImpl.init .Full)
          ⟨5, Scenario.C5.hash⟩ 7 (.user 1) false).2.1.busy_peers)
    ∧ sentRequests (syncByBlockInfo Scenario.env Scenario.tree0
        (syncByBlockInfo Scenario.env Scenario.tree0 (SynchronizerImpl.init .Full)
          ⟨5, Scenario.C5.hash⟩ 7 (.user 1) false).2.1
        ⟨4, Scenario.C4.hash⟩ 7 (.user 2) false).2.2 = [] :=
  have h := (per_peer_request_guard Scenario.env Scenario.tree0
    (SynchronizerImpl.init .Full)).1 ⟨5, Scenario.C5.hash⟩ 7 (.user 1) false
    (7, findRequest 2) (by decide)
  ⟨⟨by decide, h.2.1, h.2.2⟩, by decide⟩

/-- Worked example for C13 (claim as stated fails). Peer 7 announces `C3` and then `C3b`,
both children of the local block `A2`: `syncByBlockHeader` calls `loadBlocks` for each, so
two requests to peer 7 are in flight, and peer 7 is not a member of `busy_peers`. Also,
once the probe of a search started by `syncByBlockInfo` is answered, `find_handler`
erases peer 7 from `busy_peers` and then sends the block-range request to it. -/
theorem per_peer_request_bound_counterexample :
    ((Node.run Scenario.env Scenario.tree0 (Node.init .Full)
        [.syncByBlockHeader (Scenario.headerOf Scenario.C3) 7 (.user 1),
         .syncByBlockHeader (Scenario.headerOf Scenario.C3b) 7 (.user 2)]).requests.map
        (fun r => (r.1, r.2.1))
      = [(7, loadBlocksRequest .Full ⟨3, Scenario.C3.hash⟩),
         (7, loadBlocksRequest .Full ⟨3, Scenario.C3b.hash⟩)]
    ∧ (Node.run Scenario.env Scenario.tree0 (Node.init .Full)
        [.syncByBlockHeader (Scenario.headerOf Scenario.C3) 7 (.user 1),
         .syncByBlockHeader (Scenario.headerOf Scenario.C3b) 7 (.user 2)]).self.busy_peers
      = [])
    ∧ ((Node.run Scenario.env Scenario.tree0 (Node.init .Full)
        [.syncByBlockInfo ⟨5, Scenario.C5.hash⟩ 7 (.user 1) false,
         .response 0 (.blocks [Scenario.A2])]).requests.map (fun r => (r.1, r.2.1))
      = [(7, loadBlocksRequest .Full ⟨2, Scenario.A2.hash⟩)]
    ∧ (Node.run Scenario.env Scenario.tree0 (Node.init .Full)
        [.syncByBlockInfo ⟨5, Scenario.C5.hash⟩ 7 (.user 1) false,
         .response 0 (.blocks [Scenario.A2])]).self.busy_peers = []) := by
  decide

/-- Claim C14, evaluated at the failing input (the code leaves the peer busy). The second
half of the claim holds: the body of `find_handler` erases the peer from `busy_peers`
first, so the peer is not busy after it ran, whether with a value or an error. The first
half fails on the exit "provided block is equal our best one" (lines 231-237), which is
taken after `busy_peers_.emplace(peer_id)` and returns `false` without erasing the peer:
on a node with chain `G, A1, A2` the call `syncByBlockInfo(A2, peer 7)` returns `false`
and leaves peer 7 in `busy_peers`; a later call for `C5` with the same peer finds it busy
and sends nothing. -/
theorem syncByBlockInfo_best_block_keeps_peer_busy :
    (∀ (env : Env) (self : SynchronizerImpl) (peer_id : PeerId) (handler : Option Handler)
        (res : SyncResult),
      peer_id ∉ (findHandlerInvoke env self peer_id handler res).1.busy_peers)
    ∧ Scenario.tree0.best_block = ⟨2, Scenario.A2.hash⟩
    ∧ (SynchronizerImpl.init .Full).busy_peers = []
    ∧ syncByBlockInfo Scenario.env Scenario.tree0 (SynchronizerImpl.init .Full)
        ⟨2, Scenario.A2.hash⟩ 7 (.user 1) false
      = (false, { SynchronizerImpl.init .Full with busy_peers := [7] },
         [Event.handler (.user 1) (.value ⟨2, Scenario.A2.hash⟩)])
    ∧ syncByBlockInfo Scenario.env Scenario.tree0
        { SynchronizerImpl.init .Full with busy_peers := [7] }
        ⟨5, Scenario.C5.hash⟩ 7 (.user 2) false
      = (false, { SynchronizerImpl.init .Full with busy_peers := [7] }, []) := by
  refine ⟨?_, by decide, by decide, by decide, by decide⟩
  intro env self peer_id handler res
  have herase : peer_id ∉ setErase self.busy_peers peer_id := by
    simp [setErase, List.mem_filter]
  unfold findHandlerInvoke
  cases res with
  | failure e => exact herase
  | value block_info =>
    dsimp only
    by_cases hk : mapContains self.known_blocks block_info.hash = true
    · rw [if_pos hk]; exact herase
    · rw [if_neg hk]
      rw [(loadBlocks_requests env _ peer_id block_info handler).1]
      exact herase

/-- Claim C15 (subscribeToBlock case analysis). In this priority: if the block tree has the
header of `info.hash`, a call `cb(info)` is scheduled; else if
`info.number <= last_finalized.number`, `cb(DISCARDED_BLOCK)` is scheduled; else if
`info.number > best.number + kMaxDistanceToBlockForSubscription`, `cb(ARRIVED_TOO_EARLY)`
is scheduled; else `(info, cb)` is added to `subscriptions` and nothing is scheduled. The
function returns `true` exactly in the last case, the state (so `subscriptions`) is
unchanged in the first three, and no event is a direct call of a handler. -/
theorem subscribeToBlock_case_analysis (env : Env) (tree : BlockTree)
    (self : SynchronizerImpl) (info : BlockInfo) (cb : Handler) :
    (tree.hasBlockHeader info.hash = true →
      subscribeToBlock env tree self info cb
        = (false, self, [Event.scheduledHandler cb (.value info)]))
    ∧ (tree.hasBlockHeader info.hash = false → info.number ≤ tree.last_finalized.number →
      subscribeToBlock env tree self info cb
        = (false, self, [Event.scheduledHandler cb (.err .DISCARDED_BLOCK)]))
    ∧ (tree.hasBlockHeader info.hash = false → ¬ info.number ≤ tree.last_finalized.number →
      info.number > tree.best_block.number + env.kMaxDistanceToBlockForSubscription →
      subscribeToBlock env tree self info cb
        = (false, self, [Event.scheduledHandler cb (.err .ARRIVED_TOO_EARLY)]))
    ∧ (tree.hasBlockHeader info.hash = false → ¬ info.number ≤ tree.last_finalized.number →
      ¬ info.number > tree.best_block.number + env.kMaxDistanceToBlockForSubscription →
      subscribeToBlock env tree self info cb
        = (true, { self with subscriptions := self.subscriptions ++ [(info, cb)] }, []))
    ∧ ((subscribeToBlock env tree self info cb).1 = true ↔
        (tree.hasBlockHeader info.hash = false ∧ ¬ info.number ≤ tree.last_finalized.number
          ∧ ¬ info.number > tree.best_block.number + env.kMaxDistanceToBlockForSubscription))
    ∧ ((subscribeToBlock env tree self info cb).1 = false →
        (subscribeToBlock env tree self info cb).2.1 = self)
    ∧ (∀ e ∈ (subscribeToBlock env tree self info cb).2.2,
        ∀ (h : Handler) (res : SyncResult), e ≠ Event.handler h res) := by
  by_cases h1 : tree.hasBlockHeader info.hash = true
  · simp [subscribeToBlock, h1]
  · by_cases h2 : info.number ≤ tree.last_finalized.number
    · simp [subscribeToBlock, h1, h2]
    · by_cases h3 : tree.best_block.number + env.kMaxDistanceToBlockForSubscription
          < info.number
      · simp [subscribeToBlock, h1, h2, h3]
      · simp [subscribeToBlock, h1, h2, h3]

/-- Worked example for C15: on a node with chain `G, A1, A2` finalized at `G` and a
subscription distance of 8, subscribing to `C5` (number 5) stores the subscription. -/
theorem subscribeToBlock_case_analysis_witness :
    subscribeToBlock Scenario.env Scenario.tree0 (SynchronizerImpl.init .Full)
        ⟨5, Scenario.C5.hash⟩ (.user 1)
      = (true, { SynchronizerImpl.init .Full with
                  subscriptions := [(⟨5, Scenario.C5.hash⟩, .user 1)] }, [])
    ∧ subscribeToBlock Scenario.env Scenario.tree0 (SynchronizerImpl.init .Full)
        ⟨11, 77⟩ (.user 1)
      = (false, SynchronizerImpl.init .Full,
         [Event.scheduledHandler (.user 1) (.err .ARRIVED_TOO_EARLY)]) :=
  have h := subscribeToBlock_case_analysis Scenario.env Scenario.tree0
    (SynchronizerImpl.init .Full) ⟨5, Scenario.C5.hash⟩ (.user 1)
  have g := subscribeToBlock_case_analysis Scenario.env Scenario.tree0
    (SynchronizerImpl.init .Full) ⟨11, 77⟩ (.user 1)
  ⟨h.2.2.2.1 (by decide) (by decide) (by decide),
   g.2.2.1 (by decide) (by decide) (by decide)⟩

theorem equalRange_count (m : List (BlockInfo × Handler)) (block : BlockInfo)
    (r : SyncResult) (h : Handler) :
    ((equalRange m block).map (fun h1 => Event.scheduledHandler h1 r)).count
        (Event.scheduledHandler h r)
      = m.count (block, h) := by
  induction m with
  | nil => simp [equalRange]
  | cons kv rest ih =>
    obtain ⟨k, v⟩ := kv
    unfold equalRange at ih ⊢
    by_cases hk : k = block
    · by_cases hv : v = h
      · simpa [List.filter_cons, hk, hv, List.count_cons] using ih
      · simpa [List.filter_cons, hk, hv, List.count_cons] using ih
    · simpa [List.filter_cons, hk, List.count_cons] using ih

theorem notifySubscribers_result (self : SynchronizerImpl) (block : BlockInfo)
    (res : AdditionResult) :
    (notifySubscribers self block res).2
      = (equalRange self.subscriptions block).map
          (fun h => Event.scheduledHandler h (notifiedResult block res)) := by
  cases res <;> rfl

/-- Claim C16 (notifySubscribers). For every handler, the number of scheduled calls of it
equals the number of subscriptions stored for it under exactly that `BlockInfo`, each
call carrying the block info when `res` is success and the error of `res` otherwise;
nothing else is emitted; afterwards `subscriptions` holds no entry for `block`, and the
entries stored under any other `BlockInfo` are the same as before, in the same order. -/
theorem notifySubscribers_drains (self : SynchronizerImpl) (block : BlockInfo)
    (res : AdditionResult) :
    (∀ h : Handler,
      (notifySubscribers self block res).2.count
          (Event.scheduledHandler h (notifiedResult block res))
        = self.subscriptions.count (block, h))
    ∧ (∀ e ∈ (notifySubscribers self block res).2,
        ∃ h, (block, h) ∈ self.subscriptions
          ∧ e = Event.scheduledHandler h (notifiedResult block res))
    ∧ (∀ h : Handler, (block, h) ∉ (notifySubscribers self block res).1.subscriptions)
    ∧ (notifySubscribers self block res).1.subscriptions
        = self.subscriptions.filter (fun kv => decide (kv.1 ≠ block))
    ∧ (∀ other : BlockInfo, other ≠ block →
        equalRange (notifySubscribers self block res).1.subscriptions other
          = equalRange self.subscriptions other) := by
  rw [notifySubscribers_result]
  refine ⟨fun h => equalRange_count _ _ _ h, ?_, ?_, rfl, ?_⟩
  · intro e he
    simp only [equalRange, List.mem_map, List.mem_filter] at he
    obtain ⟨h, ⟨kv, ⟨hm, hk⟩, hkv⟩, rfl⟩ := he
    refine ⟨h, ?_, rfl⟩
    have hk' : kv.1 = block := by simpa using hk
    rw [← hk', ← hkv]
    exact hm
  · intro h hmem
    simp [notifySubscribers, mapErase, List.mem_filter] at hmem
  · intro other hne
    simp only [notifySubscribers, mapErase, equalRange, List.filter_filter]
    congr 1
    apply List.filter_congr
    intro kv _
    by_cases hk : kv.1 = other
    · simp [hk, hne]
    · simp [hk]

/-- Worked example for C16: with two subscriptions for `C3` and one for `C4`, notifying
the success of `C3` schedules the two handlers of `C3` with its block info and leaves the
subscription of `C4`. -/
theorem notifySubscribers_drains_witness :
    notifySubscribers Scenario.subscribed ⟨3, Scenario.C3.hash⟩ .success
      = ({ Scenario.subscribed with subscriptions := [(⟨4, Scenario.C4.hash⟩, .user 2)] },
         [Event.scheduledHandler (.user 1) (.value ⟨3, Scenario.C3.hash⟩),
          Event.scheduledHandler (.user 3) (.value ⟨3, Scenario.C3.hash⟩)])
    ∧ (notifySubscribers Scenario.subscribed ⟨3, Scenario.C3.hash⟩ .success).2.count
          (Event.scheduledHandler (.user 1) (.value ⟨3, Scenario.C3.hash⟩)) = 1
    ∧ equalRange (notifySubscribers Scenario.subscribed ⟨3, Scenario.C3.hash⟩
          .success).1.subscriptions ⟨4, Scenario.C4.hash⟩ = [.user 2] :=
  have h := notifySubscribers_drains Scenario.subscribed ⟨3, Scenario.C3.hash⟩ .success
  ⟨by decide, (h.1 (.user 1)).trans (by decide),
   (h.2.2.2.2 ⟨4, Scenario.C4.hash⟩ (by decide)).trans (by decide)⟩

/-- Claim C17, evaluated at the failing input (the subscribers get the error). When the
block-addition result of a queued block is `BLOCK_EXISTS`, `processBlockAdditionResult`
erases the block from `known_blocks` and nothing else from it (no descendant is
discarded), and the handler of the callback receives the block info. The subscribers,
however, are notified by `notifySubscribers(block_info, block_addition_result)` at line
1302, before the result is compared with `BLOCK_EXISTS`: each of them is scheduled with
the failure `BLOCK_EXISTS`. Example: the queue holds `C3` and `C4`, handler 5 subscribed
to `C3` and handler 1 watches it; on `BLOCK_EXISTS` for `C3` handler 1 receives the block
info of `C3`, handler 5 is scheduled with the error, and `C4` stays queued. -/
theorem block_exists_subscribers_get_error :
    (∀ (env : Env) (tree : BlockTree) (self : SynchronizerImpl) (hash : BlockHash)
        (handler : Option Handler) (node : KnownBlock) (header : BlockHeader),
      mapFind self.known_blocks hash = some node → node.data.header = some header →
      processBlockAdditionResult env tree self (.failure .BLOCK_EXISTS) hash handler
        = ({ self with
              known_blocks := mapErase self.known_blocks hash,
              subscriptions := mapErase self.subscriptions ⟨header.number, node.data.hash⟩ },
           (equalRange self.subscriptions ⟨header.number, node.data.hash⟩).map
               (fun h => Event.scheduledHandler h (.failure .BLOCK_EXISTS))
             ++ callHandler handler (.value ⟨header.number, node.data.hash⟩)))
    ∧ (subscribeToBlock Scenario.env Scenario.tree0 Scenario.queueC3C4
          ⟨3, Scenario.C3.hash⟩ (.user 5)).2.1
        = { Scenario.queueC3C4 with subscriptions := [(⟨3, Scenario.C3.hash⟩, .user 5)] }
    ∧ processBlockAdditionResult Scenario.env Scenario.tree0
          { Scenario.queueC3C4 with subscriptions := [(⟨3, Scenario.C3.hash⟩, .user 5)] }
          (.failure .BLOCK_EXISTS) Scenario.C3.hash (some (.user 1))
        = ({ Scenario.queueC3C4 with
              known_blocks := [(Scenario.C4.hash, ⟨Scenario.C4, [7]⟩)] },
           [Event.scheduledHandler (.user 5) (.failure .BLOCK_EXISTS),
            Event.handler (.user 1) (.value ⟨3, Scenario.C3.hash⟩)]) := by
  refine ⟨?_, by decide, by decide⟩
  intro env tree self hash handler node header hk hh
  simp [processBlockAdditionResult, hk, hh, notifySubscribers]

/-- Claim C18, evaluated at the failing input (the subtraction wraps). The code computes
`block_info.number - kMaxJustificationLag` on unsigned block numbers. For `n >= 5` this is
`n - 5`, and the test is the one of the claim. For `n < 5` the difference wraps to
`2^64 - 5 + n`, whose quotient by 512 exceeds `f / 512` for every realistic `f`, so the
test succeeds. Example: the node is finalized at `G` (number 0), the imported block `C3`
has number 3, its header declares no scheduled change, it was served by peer 7: a
justification request from `G` with limit 1024 leaves for peer 7. -/
theorem finality_lag_trigger_wraps :
    (∀ n f : Nat, n < kMaxJustificationLag → f < 2 ^ 64 - 1024 →
      blockNumberSub n kMaxJustificationLag / kJustificationInterval
        > f / kJustificationInterval)
    ∧ (∀ n : Nat, kMaxJustificationLag ≤ n → n < 2 ^ 64 →
      blockNumberSub n kMaxJustificationLag = n - kMaxJustificationLag)
    ∧ Scenario.env.hasScheduledChange (Scenario.headerOf Scenario.C3) = false
    ∧ Scenario.tree0.last_finalized = ⟨0, Scenario.G.hash⟩
    ∧ mapFind Scenario.queueC3C4.known_blocks Scenario.C3.hash = some ⟨Scenario.C3, [7]⟩
    ∧ sentRequests (processBlockAdditionResult Scenario.env Scenario.tree0 Scenario.queueC3C4
          .success Scenario.C3.hash none).2
        = [(7, loadJustificationsRequest ⟨0, Scenario.G.hash⟩ (some 1024))] := by
  refine ⟨?_, ?_, by decide, by decide, by decide, by decide⟩
  · intro n f hn hf
    simp only [blockNumberSub, kBlockNumberModulus, kMaxJustificationLag,
      kJustificationInterval] at hn ⊢
    norm_num at hf ⊢
    omega
  · intro n hn hlt
    simp only [blockNumberSub, kBlockNumberModulus, kMaxJustificationLag] at hn ⊢
    norm_num at hlt ⊢
    omega

theorem mem_setInsert (s : List Nat) (x y : Nat) (h : y ∈ setInsert s x) : y = x ∨ y ∈ s := by
  induction s with
  | nil => simp [setInsert] at h; exact Or.inl h
  | cons z rest ih =>
    unfold setInsert at h
    by_cases h1 : x < z
    · rw [if_pos h1] at h
      rcases List.mem_cons.mp h with h2 | h2
      · exact Or.inl h2
      · exact Or.inr h2
    · rw [if_neg h1] at h
      by_cases h2 : x = z
      · rw [if_pos h2] at h; exact Or.inr h
      · rw [if_neg h2] at h
        rcases List.mem_cons.mp h with h3 | h3
        · exact Or.inr (by rw [h3]; exact List.mem_cons_self _ _)
        · rcases ih h3 with h4 | h4
          · exact Or.inl h4
          · exact Or.inr (List.mem_cons_of_mem _ h4)

/-- What `syncMissingJustifications` leaves alone for another peer: the shutdown flag, the
idleness of the other peer, and the absence of the requests of the other peer from
`recent_requests`. -/
theorem syncMissingJustifications_other (env : Env) (self : SynchronizerImpl)
    (peer_id other : PeerId) (target_block : BlockInfo) (limit : Option Nat)
    (handler : Option Handler) (fp : Fingerprint) (hne : other ≠ peer_id)
    (hrun : self.node_is_shutting_down = false)
    (hidle : other ∉ self.busy_peers)
    (hfresh : mapContains self.recent_requests (other, fp) = false) :
    (syncMissingJustifications env self peer_id target_block limit handler).1.node_is_shutting_down
        = false
    ∧ other ∉ (syncMissingJustifications env self peer_id target_block limit
        handler).1.busy_peers
    ∧ mapContains (syncMissingJustifications env self peer_id target_block limit
        handler).1.recent_requests (other, fp) = false := by
  unfold syncMissingJustifications
  by_cases hb : peer_id ∈ self.busy_peers
  · rw [if_pos hb]; exact ⟨hrun, hidle, hfresh⟩
  · rw [if_neg hb]
    have herase : other ∉ setErase (setInsert self.busy_peers peer_id) peer_id := by
      intro hmem
      simp only [setErase, List.mem_filter] at hmem
      rcases mem_setInsert _ _ _ hmem.1 with h1 | h1
      · exact hne h1
      · exact hidle h1
    unfold loadJustifications
    rw [if_neg (by rw [hrun]; simp)]
    dsimp only
    by_cases hd : mapContains self.recent_requests
        (peer_id, env.fingerprint (loadJustificationsRequest target_block limit)) = true
    · rw [if_pos hd]; exact ⟨hrun, herase, hfresh⟩
    · rw [if_neg hd]
      refine ⟨hrun, herase, ?_⟩
      simp only [recordRequest]
      rw [Bool.eq_false_iff]
      intro hc
      rcases mapContains_mapEmplace _ _ _ _ hc with h1 | h1
      · rw [hfresh] at h1; exact absurd h1 (by simp)
      · exact hne (congrArg Prod.fst h1)

theorem requestJustifications_keeps (env : Env) (last_finalized block_info : BlockInfo) :
    ∀ (peers : List PeerId) (self : SynchronizerImpl) (evs : List Event) (e : Event),
      e ∈ evs → e ∈ (requestJustifications env last_finalized block_info self peers evs).2 := by
  intro peers
  induction peers with
  | nil => intro self evs e he; exact he
  | cons p rest ih =>
    intro self evs e he
    unfold requestJustifications
    exact ih _ _ e (List.mem_append_left _ he)

/-- The loop over the serving peers sends the justification request to every serving peer
that is idle and has no identical recent request. -/
theorem requestJustifications_sends (env : Env) (last_finalized block_info : BlockInfo)
    (peer_id : PeerId) :
    ∀ (peers : List PeerId) (self : SynchronizerImpl) (evs : List Event),
      peer_id ∈ peers →
      self.node_is_shutting_down = false →
      peer_id ∉ self.busy_peers →
      mapContains self.recent_requests
        (peer_id, env.fingerprint
          (loadJustificationsRequest last_finalized (some (kJustificationInterval * 2))))
        = false →
      Event.request peer_id
          (loadJustificationsRequest last_finalized (some (kJustificationInterval * 2)))
          (.loadJustifications peer_id last_finalized (some (kJustificationInterval * 2))
            (some (.justificationsLog last_finalized block_info)))
        ∈ (requestJustifications env last_finalized block_info self peers evs).2 := by
  intro peers
  induction peers with
  | nil => intro self evs hmem; simp at hmem
  | cons p rest ih =>
    intro self evs hmem hrun hidle hfresh
    unfold requestJustifications
    by_cases hp : peer_id = p
    · subst hp
      apply requestJustifications_keeps
      apply List.mem_append_right
      simp [syncMissingJustifications, hidle, loadJustifications, hrun, hfresh]
    · have hrest : peer_id ∈ rest := by
        rcases List.mem_cons.mp hmem with h1 | h1
        · exact absurd h1 hp
        · exact h1
      obtain ⟨k1, k2, k3⟩ := syncMissingJustifications_other env self p peer_id last_finalized
        (some (kJustificationInterval * 2))
        (some (.justificationsLog last_finalized block_info)) _ hp hrun hidle hfresh
      exact ih _ _ hrest k1 k2 k3

theorem mem_sentRequests (evs : List Event) (p : PeerId) (req : BlocksRequest)
    (k : ResponseHandler) (h : Event.request p req k ∈ evs) : (p, req) ∈ sentRequests evs := by
  simp only [sentRequests, List.mem_filterMap]
  exact ⟨_, h, rfl⟩

/-- Claim C19 (justification-lag scenario, as amended). After the successful import of a
queued block whose number `n` satisfies `(n - 5) / 512 > f / 512` for the last finalized
number `f` (with the subtraction of the machine), every peer that served the block, is
not busy and has no identical request among the recent ones, on a node that is not
shutting down, is sent a justification request: header and justification, from the hash
of the last finalized block, ascending, at most 1024 blocks. The header is the one that
the queue entry holds when the callback runs. -/
theorem justification_lag_request (env : Env) (tree : BlockTree) (self : SynchronizerImpl)
    (hash : BlockHash) (handler : Option Handler) (node : KnownBlock) (header : BlockHeader)
    (peer_id : PeerId)
    (hknown : mapFind self.known_blocks hash = some node)
    (hheader : node.data.header = some header)
    (htrigger : blockNumberSub header.number 5 / 512 > tree.last_finalized.number / 512)
    (hserved : peer_id ∈ node.peers)
    (hrun : self.node_is_shutting_down = false)
    (hidle : peer_id ∉ self.busy_peers)
    (hfresh : mapContains self.recent_requests
      (peer_id, env.fingerprint
        ⟨⟨true, false, true⟩, .hash tree.last_finalized.hash, .ASCENDING, some 1024⟩)
        = false) :
    Event.request peer_id
        ⟨⟨true, false, true⟩, .hash tree.last_finalized.hash, .ASCENDING, some 1024⟩
        (.loadJustifications peer_id tree.last_finalized (some 1024)
          (some (.justificationsLog tree.last_finalized ⟨header.number, node.data.hash⟩)))
      ∈ (processBlockAdditionResult env tree self .success hash handler).2
    ∧ (peer_id, (⟨⟨true, false, true⟩, .hash tree.last_finalized.hash, .ASCENDING,
          some 1024⟩ : BlocksRequest))
      ∈ sentRequests (applyCallback env tree self ⟨hash, handler⟩ .success).2 := by
  have hsend := requestJustifications_sends env tree.last_finalized
    ⟨header.number, node.data.hash⟩ peer_id node.peers
    (notifySubscribers { self with known_blocks := mapErase self.known_blocks hash }
      ⟨header.number, node.data.hash⟩ .success).1
    ((notifySubscribers { self with known_blocks := mapErase self.known_blocks hash }
      ⟨header.number, node.data.hash⟩ .success).2
      ++ [Event.blockImported ⟨header.number, node.data.hash⟩]
      ++ callHandler handler (.value ⟨header.number, node.data.hash⟩))
    hserved hrun hidle hfresh
  have hev : Event.request peer_id
        ⟨⟨true, false, true⟩, .hash tree.last_finalized.hash, .ASCENDING, some 1024⟩
        (.loadJustifications peer_id tree.last_finalized (some 1024)
          (some (.justificationsLog tree.last_finalized ⟨header.number, node.data.hash⟩)))
      ∈ (processBlockAdditionResult env tree self .success hash handler).2 := by
    unfold processBlockAdditionResult
    rw [hknown]
    dsimp only
    rw [hheader]
    dsimp only
    have htr : env.hasScheduledChange header = true
        ∨ blockNumberSub header.number kMaxJustificationLag / kJustificationInterval
            > tree.last_finalized.number / kJustificationInterval := Or.inr htrigger
    rw [if_pos htr]
    exact hsend
  refine ⟨hev, ?_⟩
  unfold applyCallback
  rw [sentRequests_append]
  exact List.mem_append_left _ (mem_sentRequests _ _ _ _ hev)

/-- Worked example for C19 as amended: last finalized at 100; the block numbered 517 that
peer 7 served is popped and handed to the executor, and its successful import (so that
`(517 - 5) / 512 = 1 > 0 = 100 / 512`) sends the justification request from the last
finalized block to peer 7. -/
theorem justification_lag_request_witness :
    (applyNextBlock Scenario.env Scenario.tree100 Scenario.queue517).2
      = [Event.applyBlock ⟨516516, 517, 0, 0, []⟩ [] none ⟨Scenario.B517.hash, none⟩]
    ∧ Event.request 7 ⟨⟨true, false, true⟩, .hash 100100, .ASCENDING, some 1024⟩
        (.loadJustifications 7 ⟨100, 100100⟩ (some 1024)
          (some (.justificationsLog ⟨100, 100100⟩ ⟨517, Scenario.B517.hash⟩)))
      ∈ (processBlockAdditionResult Scenario.env Scenario.tree100
          (applyNextBlock Scenario.env Scenario.tree100 Scenario.queue517).1
          .success Scenario.B517.hash none).2
    ∧ (7, (⟨⟨true, false, true⟩, .hash 100100, .ASCENDING, some 1024⟩ : BlocksRequest))
      ∈ sentRequests (applyCallback Scenario.env Scenario.tree100
          (applyNextBlock Scenario.env Scenario.tree100 Scenario.queue517).1
          ⟨Scenario.B517.hash, none⟩ .success).2 :=
  ⟨by decide,
   justification_lag_request Scenario.env Scenario.tree100
    (applyNextBlock Scenario.env Scenario.tree100 Scenario.queue517).1
    Scenario.B517.hash none ⟨Scenario.B517, [7]⟩ ⟨516516, 517, 0, 0, []⟩ 7
    (by decide) (by decide) (by decide) (by decide) (by decide) (by decide)
    (by decide)⟩

/-- Worked example for C19 (claim as stated fails): last finalized at 100, a block
numbered 200 served by peer 7 is queued, handed to the executor and imported
successfully. Both `(200 - 5) / 512` and `100 / 512` are 0 and the header declares no
scheduled change, so the callback sends no request at all. -/
theorem justification_lag_scenario_counterexample :
    Scenario.tree100.last_finalized.number = 100
    ∧ mapFind Scenario.queue200.known_blocks Scenario.B200.hash = some ⟨Scenario.B200, [7]⟩
    ∧ (applyNextBlock Scenario.env Scenario.tree100 Scenario.queue200).2
        = [Event.applyBlock ⟨199199, 200, 0, 0, []⟩ [] none ⟨Scenario.B200.hash, none⟩]
    ∧ blockNumberSub 200 kMaxJustificationLag / kJustificationInterval = 0
    ∧ 100 / kJustificationInterval = 0
    ∧ (processBlockAdditionResult Scenario.env Scenario.tree100
          (applyNextBlock Scenario.env Scenario.tree100 Scenario.queue200).1
          .success Scenario.B200.hash none).2
        = [Event.blockImported ⟨200, Scenario.B200.hash⟩]
    ∧ sentRequests (applyCallback Scenario.env Scenario.tree100
          (applyNextBlock Scenario.env Scenario.tree100 Scenario.queue200).1
          ⟨Scenario.B200.hash, none⟩ .success).2 = [] := by
  decide

theorem loadJustificationsLoop_headers :
    ∀ (blocks : List BlockData) (l : JustificationLoop),
      (∀ b ∈ blocks, b.header.isSome = true) →
      (loadJustificationsLoop l blocks).2 = false
      ∧ (loadJustificationsLoop l blocks).1.last_observed_block
          = (blocks.getLast?.map observedInfo).getD l.last_observed_block := by
  intro blocks
  induction blocks with
  | nil => intro l _; simp [loadJustificationsLoop]
  | cons b rest ih =>
    intro l hall
    have hb := hall b (List.mem_cons_self _ _)
    have hrest : ∀ x ∈ rest, x.header.isSome = true :=
      fun x hx => hall x (List.mem_cons_of_mem _ hx)
    cases hh : b.header with
    | none => rw [hh] at hb; simp at hb
    | some header =>
      have hobs : observedInfo b = ⟨header.number, b.hash⟩ := by
        simp [observedInfo, headerNumber, hh]
      unfold loadJustificationsLoop
      rw [hh]
      dsimp only
      cases hj : b.justification with
      | some j =>
        dsimp only
        obtain ⟨i1, i2⟩ := ih
          { self := { l.self with
                      justifications := l.self.justifications
                        ++ [((⟨header.number, b.hash⟩ : BlockInfo), j)] },
            justification_received := true,
            last_justified_block := ⟨header.number, b.hash⟩,
            last_observed_block := ⟨header.number, b.hash⟩ } hrest
        refine ⟨i1, ?_⟩
        rw [i2]
        cases rest with
        | nil => simp [hobs]
        | cons c cs =>
          obtain ⟨x, hx⟩ : ∃ x, (c :: cs).getLast? = some x :=
            ⟨_, List.getLast?_eq_getLast _ (List.cons_ne_nil c cs)⟩
          simp [List.getLast?_cons_cons, hx]
      | none =>
        dsimp only
        obtain ⟨i1, i2⟩ := ih { l with last_observed_block := ⟨header.number, b.hash⟩ } hrest
        refine ⟨i1, ?_⟩
        rw [i2]
        cases rest with
        | nil => simp [hobs]
        | cons c cs =>
          obtain ⟨x, hx⟩ : ∃ x, (c :: cs).getLast? = some x :=
            ⟨_, List.getLast?_eq_getLast _ (List.cons_ne_nil c cs)⟩
          simp [List.getLast?_cons_cons, hx]

theorem scheduledPages_append (a b : List Event) :
    scheduledPages (a ++ b) = scheduledPages a ++ scheduledPages b := by
  simp [scheduledPages, List.filterMap_append]

theorem scheduledPages_callHandler (handler : Option Handler) (res : SyncResult) :
    scheduledPages (callHandler handler res) = [] := by
  cases handler <;> rfl

/-- The pages that the response handler of `loadJustifications` schedules, once the loop
over the blocks ran through: one page from the last observed block with the new limit if
the new limit is absent or positive and the last observed block is not the target, none
otherwise. -/
theorem loadJustificationsResponse_scheduled (self : SynchronizerImpl) (peer_id : PeerId)
    (target_block : BlockInfo) (limit : Option Nat) (handler : Option Handler)
    (blocks : List BlockData) (hne : blocks ≠ [])
    (hall : ∀ b ∈ blocks, b.header.isSome = true) :
    scheduledPages (loadJustificationsResponse self peer_id target_block limit handler
        (.blocks blocks)).2
      = if ((limit.map (fun l => nextLimit l blocks.length)).isNone
              ∨ 0 < (limit.map (fun l => nextLimit l blocks.length)).getD 0)
            ∧ (blocks.getLast?.map observedInfo).getD BlockInfo.default ≠ target_block
        then [(peer_id, (blocks.getLast?.map observedInfo).getD BlockInfo.default,
               limit.map (fun l => nextLimit l blocks.length), handler)]
        else [] := by
  obtain ⟨l1, l2⟩ := loadJustificationsLoop_headers blocks
    ⟨self, false, BlockInfo.default, BlockInfo.default⟩ hall
  have hempty : blocks.isEmpty = false := by
    cases blocks with
    | nil => exact absurd rfl hne
    | cons b bs => rfl
  unfold loadJustificationsResponse
  dsimp only
  rw [hempty]
  simp only [Bool.false_eq_true, if_false]
  generalize loadJustificationsLoop ⟨self, false, BlockInfo.default, BlockInfo.default⟩ blocks
    = res at l1 l2
  obtain ⟨l, flag⟩ := res
  dsimp only at l1 l2
  subst l1
  dsimp only
  rw [l2]
  have hevs : scheduledPages
      (if l.justification_received = true then [Event.scheduledApplyNextJustification]
        else []) = [] := by
    cases l.justification_received <;> rfl
  by_cases hc : ((limit.map (fun l => nextLimit l blocks.length)).isNone
              ∨ 0 < (limit.map (fun l => nextLimit l blocks.length)).getD 0)
            ∧ (blocks.getLast?.map observedInfo).getD BlockInfo.default ≠ target_block
  · rw [if_pos hc, if_pos hc]
    dsimp only
    rw [scheduledPages_append, hevs]
    rfl
  · rw [if_neg hc, if_neg hc]
    dsimp only
    rw [scheduledPages_append, hevs, scheduledPages_callHandler]
    rfl

/-- The response handler of `loadJustifications` sends no request itself, and a page it
schedules is for the same peer and handler, with the new limit, which is then absent or
positive. -/
theorem loadJustificationsResponse_pages (self : SynchronizerImpl) (peer_id : PeerId)
    (target_block : BlockInfo) (limit : Option Nat) (handler : Option Handler)
    (response : Response) :
    sentRequests (loadJustificationsResponse self peer_id target_block limit handler
        response).2 = []
    ∧ ∀ pg ∈ scheduledPages (loadJustificationsResponse self peer_id target_block limit
          handler response).2,
        ∃ blocks, response = .blocks blocks
          ∧ pg.1 = peer_id
          ∧ pg.2.2.1 = limit.map (fun l => nextLimit l blocks.length)
          ∧ ((limit.map (fun l => nextLimit l blocks.length)).isNone
              ∨ 0 < (limit.map (fun l => nextLimit l blocks.length)).getD 0)
          ∧ pg.2.2.2 = handler := by
  unfold loadJustificationsResponse
  cases response with
  | failure e =>
    dsimp only
    rw [sentRequests_callHandler, scheduledPages_callHandler]
    exact ⟨rfl, fun pg h => by simp at h⟩
  | blocks blocks =>
    dsimp only
    by_cases hempty : blocks.isEmpty = true
    · rw [if_pos hempty]
      dsimp only
      rw [sentRequests_callHandler, scheduledPages_callHandler]
      exact ⟨rfl, fun pg h => by simp at h⟩
    · rw [if_neg hempty]
      generalize loadJustificationsLoop ⟨self, false, BlockInfo.default, BlockInfo.default⟩
        blocks = res
      obtain ⟨l, flag⟩ := res
      cases flag with
      | true =>
        dsimp only
        rw [sentRequests_callHandler, scheduledPages_callHandler]
        exact ⟨rfl, fun pg h => by simp at h⟩
      | false =>
        dsimp only
        have hevs : scheduledPages
            (if l.justification_received = true then [Event.scheduledApplyNextJustification]
              else []) = []
            ∧ sentRequests
            (if l.justification_received = true then [Event.scheduledApplyNextJustification]
              else []) = [] := by
          cases l.justification_received <;> exact ⟨rfl, rfl⟩
        by_cases hc : ((limit.map (fun l => nextLimit l blocks.length)).isNone
              ∨ 0 < (limit.map (fun l => nextLimit l blocks.length)).getD 0)
            ∧ l.last_observed_block ≠ target_block
        · rw [if_pos hc]
          dsimp only
          rw [sentRequests_append, scheduledPages_append, hevs.1, hevs.2]
          refine ⟨rfl, ?_⟩
          intro pg hpg
          simp only [scheduledPages, List.filterMap_cons, List.filterMap_nil, List.nil_append,
            List.mem_singleton] at hpg
          subst hpg
          exact ⟨blocks, rfl, rfl, rfl, hc.1, rfl⟩
        · rw [if_neg hc]
          dsimp only
          rw [sentRequests_append, scheduledPages_append, hevs.1, hevs.2,
            sentRequests_callHandler, scheduledPages_callHandler]
          exact ⟨rfl, fun pg h => by simp at h⟩

theorem loadJustifications_requests (env : Env) (self : SynchronizerImpl) (peer_id : PeerId)
    (target_block : BlockInfo) (limit : Option Nat) (handler : Option Handler) :
    (sentRequests (loadJustifications env self peer_id target_block limit handler).2).length
      ≤ 1 := by
  unfold loadJustifications
  by_cases hs : self.node_is_shutting_down = true
  · rw [if_pos hs]
    dsimp only
    rw [sentRequests_callHandler]
    simp
  · rw [if_neg hs]
    dsimp only
    by_cases hd : mapContains self.recent_requests
        (peer_id, env.fingerprint (loadJustificationsRequest target_block limit)) = true
    · rw [if_pos hd]
      dsimp only
      rw [sentRequests_callHandler]
      simp
    · rw [if_neg hd]
      simp [sentRequests]

theorem nextLimit_page (l s : Nat) (hs : 2 ≤ s) (hpos : 0 < nextLimit l s) :
    1 ≤ nextLimit l s ∧ nextLimit l s + 1 ≤ l := by
  unfold nextLimit at hpos ⊢
  by_cases h : s ≥ l
  · rw [if_pos h] at hpos; exact absurd hpos (by simp)
  · rw [if_neg h]
    omega

/-- A download with a present limit `l >= 1` against a peer whose pages hold at least two
blocks sends at most `l` requests, and a budget of `l` rounds is enough for it to come
to its end. -/
theorem loadJustificationsRun_bound (env : Env) (peer : BlocksRequest → Response)
    (hpeer : ∀ req bs, peer req = .blocks bs → 2 ≤ bs.length) :
    ∀ (fuel : Nat) (self : SynchronizerImpl) (peer_id : PeerId) (target_block : BlockInfo)
      (l : Nat) (handler : Option Handler), 1 ≤ l →
      (sentRequests (loadJustificationsRun env peer fuel self peer_id target_block (some l)
          handler).2.1).length ≤ l
      ∧ (l ≤ fuel →
          (loadJustificationsRun env peer fuel self peer_id target_block (some l)
            handler).2.2 = true) := by
  intro fuel
  induction fuel with
  | zero =>
    intro self peer_id target_block l handler hl
    refine ⟨by simp [loadJustificationsRun, sentRequests], fun h => ?_⟩
    omega
  | succ fuel ih =>
    intro self peer_id target_block l handler hl
    unfold loadJustificationsRun
    dsimp only
    have hr := loadJustifications_requests env self peer_id target_block (some l) handler
    generalize loadJustifications env self peer_id target_block (some l) handler = r at hr ⊢
    by_cases hempty : (sentRequests r.2).isEmpty = true
    · rw [if_pos hempty]
      refine ⟨?_, fun _ => rfl⟩
      show (sentRequests r.2).length ≤ l
      omega
    · rw [if_neg hempty]
      obtain ⟨a1, a2⟩ := loadJustificationsResponse_pages r.1 peer_id target_block (some l)
        handler (peer (loadJustificationsRequest target_block (some l)))
      generalize loadJustificationsResponse r.1 peer_id target_block (some l) handler
        (peer (loadJustificationsRequest target_block (some l))) = a at a1 a2 ⊢
      cases hpages : scheduledPages a.2 with
      | nil =>
        dsimp only
        rw [sentRequests_append, a1]
        simp only [List.append_nil]
        refine ⟨by omega, fun _ => ?_⟩
        trivial
      | cons pg rest =>
        obtain ⟨p, t, l1, h⟩ := pg
        dsimp only
        obtain ⟨blocks, hresp, _, hl1, hcond, _⟩ := a2 (p, t, l1, h)
          (by rw [hpages]; exact List.mem_cons_self _ _)
        dsimp only at hl1 hcond
        have hs := hpeer _ _ hresp
        simp only [Option.map_some', Option.isNone_some, Bool.false_eq_true, false_or,
          Option.getD_some] at hcond
        obtain ⟨n1, n2⟩ := nextLimit_page l blocks.length hs hcond
        rw [hl1]
        simp only [Option.map_some']
        obtain ⟨i1, i2⟩ := ih a.1 p t (nextLimit l blocks.length) h n1
        constructor
        · rw [sentRequests_append, sentRequests_append, a1]
          simp only [List.append_nil, List.length_append]
          omega
        · intro hfuel
          exact i2 (by omega)

/-- Claim C20 (justification pagination, as amended). For a page with remaining limit `l` whose
response holds `s` blocks the new limit is `0` if `s >= l`; otherwise it is
`l - (s - 1)`, where the subtraction does not underflow (the value is the integer
`l - (s - 1)`) and lies in `[1, l]` for `s >= 1`. When the response is not empty and every
block of it carries a header (otherwise the handler has returned before), exactly one
further page is scheduled - for the same peer, from the last observed block, with the
new limit - if the new limit is absent or positive and the last observed block differs
from the target `T`, and none otherwise. With a present limit `l >= 1` and `s >= 2` the new
limit is smaller than `l`; hence a download with a present limit `l >= 1` against a peer
whose pages hold at least two blocks sends at most `l` requests, and `l` rounds bring it
to its end. -/
theorem justification_pagination :
    (∀ l s : Nat,
      (s ≥ l → nextLimit l s = 0)
      ∧ (1 ≤ s → s < l →
          (nextLimit l s : Int) = (l : Int) - ((s : Int) - 1)
          ∧ 1 ≤ nextLimit l s ∧ nextLimit l s ≤ l))
    ∧ (∀ (self : SynchronizerImpl) (peer_id : PeerId) (target_block : BlockInfo)
        (limit : Option Nat) (handler : Option Handler) (blocks : List BlockData),
      blocks ≠ [] → (∀ b ∈ blocks, b.header.isSome = true) →
      scheduledPages (loadJustificationsResponse self peer_id target_block limit handler
          (.blocks blocks)).2
        = if ((limit.map (fun l => nextLimit l blocks.length)).isNone
                ∨ 0 < (limit.map (fun l => nextLimit l blocks.length)).getD 0)
              ∧ (blocks.getLast?.map observedInfo).getD BlockInfo.default ≠ target_block
          then [(peer_id, (blocks.getLast?.map observedInfo).getD BlockInfo.default,
                 limit.map (fun l => nextLimit l blocks.length), handler)]
          else [])
    ∧ (∀ l s : Nat, 1 ≤ l → 2 ≤ s → nextLimit l s < l)
    ∧ (∀ (env : Env) (peer : BlocksRequest → Response),
        (∀ req bs, peer req = .blocks bs → 2 ≤ bs.length) →
        ∀ (fuel : Nat) (self : SynchronizerImpl) (peer_id : PeerId)
          (target_block : BlockInfo) (l : Nat) (handler : Option Handler), 1 ≤ l →
          (sentRequests (loadJustificationsRun env peer fuel self peer_id target_block
              (some l) handler).2.1).length ≤ l
          ∧ (l ≤ fuel →
              (loadJustificationsRun env peer fuel self peer_id target_block (some l)
                handler).2.2 = true)) := by
  refine ⟨?_, ?_, ?_, ?_⟩
  · intro l s
    constructor
    · intro h
      unfold nextLimit
      rw [if_pos h]
    · intro h1 h2
      unfold nextLimit
      rw [if_neg (by omega)]
      omega
  · intro self peer_id target_block limit handler blocks hne hall
    exact loadJustificationsResponse_scheduled self peer_id target_block limit handler blocks
      hne hall
  · intro l s hl hs
    unfold nextLimit
    by_cases h : s ≥ l
    · rw [if_pos h]; omega
    · rw [if_neg h]; omega
  · intro env peer hpeer fuel self peer_id target_block l handler hl
    exact loadJustificationsRun_bound env peer hpeer fuel self peer_id target_block l handler hl

/-- Worked example for C20: a page from `G` with limit 4 whose response holds `G` and `A1`
schedules the next page from `A1` with limit 3; and a download with limit 4 against a
peer that always answers with two blocks sends three requests (limits 4, 3, 2) and comes
to its end within 4 rounds. -/
theorem justification_pagination_witness :
    scheduledPages (loadJustificationsResponse (SynchronizerImpl.init .Full) 7
        ⟨0, Scenario.G.hash⟩ (some 4) (some (.user 1))
        (.blocks [Scenario.G, Scenario.justifiedA1])).2
      = [(7, ⟨1, Scenario.A1.hash⟩, some 3, some (.user 1))]
    ∧ ((sentRequests (loadJustificationsRun Scenario.env Scenario.endlessPeer 4
          (SynchronizerImpl.init .Full) 7 ⟨0, 1⟩ (some 4) none).2.1).length ≤ 4
      ∧ (loadJustificationsRun Scenario.env Scenario.endlessPeer 4
          (SynchronizerImpl.init .Full) 7 ⟨0, 1⟩ (some 4) none).2.2 = true)
    ∧ (sentRequests (loadJustificationsRun Scenario.env Scenario.endlessPeer 4
          (SynchronizerImpl.init .Full) 7 ⟨0, 1⟩ (some 4) none).2.1).map
          (fun pr => pr.2.max) = [some 4, some 3, some 2] :=
  have h := justification_pagination
  have hpeer : ∀ req bs, Scenario.endlessPeer req = .blocks bs → 2 ≤ bs.length := by
    intro req bs hreq
    unfold Scenario.endlessPeer at hreq
    cases hfrom : req.from_ <;> rw [hfrom] at hreq <;>
      simp only [Response.blocks.injEq] at hreq <;> rw [← hreq] <;> simp
  have hrun := h.2.2.2 Scenario.env Scenario.endlessPeer hpeer 4
    (SynchronizerImpl.init .Full) 7 ⟨0, 1⟩ 4 none (by decide)
  ⟨(h.2.1 (SynchronizerImpl.init .Full) 7 ⟨0, Scenario.G.hash⟩ (some 4) (some (.user 1))
      [Scenario.G, Scenario.justifiedA1] (by decide) (by decide)).trans (by decide),
   ⟨hrun.1, hrun.2 (by decide)⟩, by decide⟩

/-- Worked example for C20 (claim as stated fails). With the present limit 0 the page is
requested all the same, with the maximum 0 in the request: one page is requested where
the claim allows at most `l = 0`. A response of two blocks leaves the limit at 0, which
is not smaller than before, and no further page is scheduled. -/
theorem justification_pagination_zero_limit_counterexample :
    sentRequests (loadJustifications Scenario.env (SynchronizerImpl.init .Full) 7 ⟨0, 1⟩
        (some 0) none).2
      = [(7, ⟨⟨true, false, true⟩, .hash 1, .ASCENDING, some 0⟩)]
    ∧ (sentRequests (loadJustificationsRun Scenario.env Scenario.endlessPeer 4
        (SynchronizerImpl.init .Full) 7 ⟨0, 1⟩ (some 0) none).2.1).length = 1
    ∧ Scenario.endlessPeer ⟨⟨true, false, true⟩, .hash 1, .ASCENDING, some 0⟩
        = .blocks [⟨1, some ⟨0, 1, 0, 0, []⟩, none, none⟩, ⟨2, some ⟨1, 2, 0, 0, []⟩, none, none⟩]
    ∧ nextLimit 0 2 = 0
    ∧ scheduledPages (loadJustificationsResponse
        (loadJustifications Scenario.env (SynchronizerImpl.init .Full) 7 ⟨0, 1⟩
          (some 0) none).1 7 ⟨0, 1⟩ (some 0) none
        (Scenario.endlessPeer ⟨⟨true, false, true⟩, .hash 1, .ASCENDING, some 0⟩)).2 = [] := by
  decide

/-- How the narrowing loop ends when it starts with `lower <= target < upper` and a budget
of at least `upper - lower` iterations: with a block that is known locally and numbered
inside the interval, with `EMPTY_RESPONSE`, or with a request for an unobserved number
inside a strictly smaller interval; the budget never runs out. -/
theorem narrowLoop_outcome (tree : BlockTree) (self : SynchronizerImpl)
    (observed : List (Nat × BlockHash)) :
    ∀ (fuel lower upper target : Nat) (hash : BlockHash),
      lower ≤ target → target < upper → upper - lower ≤ fuel →
      (∃ t h, narrowLoop tree self observed fuel lower upper target hash
            = .done (.value ⟨t, h⟩)
          ∧ blockIsKnown tree self h = true ∧ lower ≤ t ∧ t < upper)
      ∨ narrowLoop tree self observed fuel lower upper target hash
          = .done (.err .EMPTY_RESPONSE)
      ∨ ∃ l2 u2 hint, narrowLoop tree self observed fuel lower upper target hash
            = .again l2 u2 hint
          ∧ lower ≤ l2 ∧ u2 ≤ upper ∧ l2 ≤ hint ∧ hint < u2
          ∧ mapFind observed hint = none ∧ u2 - l2 < upper - lower := by
  intro fuel
  induction fuel with
  | zero => intro lower upper target hash _ _ hf; omega
  | succ fuel ih =>
    intro lower upper target hash h1 h2 hf
    by_cases ht : target = lower
    · subst ht
      by_cases hb : blockIsKnown tree self hash = true
      · left
        exact ⟨target, hash, by simp [narrowLoop, hb], hb, le_refl _, h2⟩
      · right; left
        simp [narrowLoop, hb]
    · by_cases hb : blockIsKnown tree self hash = true
      · rw [narrowLoop_known tree self observed fuel lower upper target _ ht hb]
        cases hm : mapFind observed (target + (upper - target) / 2) with
        | none =>
          right; right
          exact ⟨target, upper, target + (upper - target) / 2, rfl, h1, le_refl _,
            by omega, by omega, hm, by omega⟩
        | some h =>
          dsimp only
          rcases ih target upper (target + (upper - target) / 2) h (by omega) (by omega)
            (by omega) with ⟨t, h', hr, hk, g1, g2⟩ | hr | ⟨l2, u2, hint, hr, g1, g2, g3, g4, g5, g6⟩
          · left; exact ⟨t, h', hr, hk, by omega, g2⟩
          · right; left; exact hr
          · right; right
            exact ⟨l2, u2, hint, hr, by omega, g2, g3, g4, g5, by omega⟩
      · have hb1 : blockIsKnown tree self hash = false := by simpa using hb
        rw [narrowLoop_unknown tree self observed fuel lower upper target _ ht hb1]
        cases hm : mapFind observed (lower + (target - lower) / 2) with
        | none =>
          right; right
          exact ⟨lower, target, lower + (target - lower) / 2, rfl, le_refl _, by omega,
            by omega, by omega, hm, by omega⟩
        | some h =>
          dsimp only
          rcases ih lower target (lower + (target - lower) / 2) h (by omega) (by omega)
            (by omega) with ⟨t, h', hr, hk, g1, g2⟩ | hr | ⟨l2, u2, hint, hr, g1, g2, g3, g4, g5, g6⟩
          · left; exact ⟨t, h', hr, hk, g1, by omega⟩
          · right; left; exact hr
          · right; right
            exact ⟨l2, u2, hint, hr, g1, by omega, g3, g4, g5, by omega⟩

/-- One round of the search: the response handler either ends the search with exactly
one call of the handler and no request - a value it passes is a block known locally
whose number lies in the interval - or it sends exactly one request, for a number that
is not in the observed map, inside a strictly smaller interval. -/
theorem findCommonBlockResponse_outcome (env : Env) (tree : BlockTree) (fuel : Nat)
    (self : SynchronizerImpl) (c : FindCapture) (response : Response)
    (h1 : c.lower ≤ c.target) (h2 : c.target < c.upper) (hf : c.upper - c.lower ≤ fuel) :
    ((findCommonBlockResponse env tree fuel self c response).2.2 = none
      ∧ (findCommonBlockResponse env tree fuel self c response).1.known_blocks
          = self.known_blocks
      ∧ ∃ res, (findCommonBlockResponse env tree fuel self c response).2.1
          = [Event.handler c.handler res]
        ∧ ∀ info, res = .value info →
            blockIsKnown tree self info.hash = true
            ∧ c.lower ≤ info.number ∧ info.number < c.upper)
    ∨ ∃ c1 hash, (findCommonBlockResponse env tree fuel self c response).2.2 = some c1
      ∧ (findCommonBlockResponse env tree fuel self c response).1.known_blocks
          = self.known_blocks
      ∧ (findCommonBlockResponse env tree fuel self c response).2.1
          = [Event.scheduledRemoval c.peer_id (env.fingerprint (findRequest c1.target)),
             Event.request c.peer_id (findRequest c1.target) (.findCommonBlock c1)]
      ∧ c.lower ≤ c1.lower ∧ c1.upper ≤ c.upper ∧ c1.lower ≤ c1.target
      ∧ c1.target < c1.upper ∧ c1.upper - c1.lower < c.upper - c.lower
      ∧ c1.observed = mapEmplace c.observed c.target hash
      ∧ mapFind c1.observed c1.target = none := by
  unfold findCommonBlockResponse
  cases response with
  | failure e =>
    left
    exact ⟨rfl, rfl, _, rfl, fun info hi => by simp at hi⟩
  | blocks blocks =>
    cases blocks with
    | nil =>
      left
      exact ⟨rfl, rfl, _, rfl, fun info hi => by simp [SyncResult.err] at hi⟩
    | cons front rest =>
      dsimp only
      rcases narrowLoop_outcome tree self (mapEmplace c.observed c.target front.hash) fuel
        c.lower c.upper c.target front.hash h1 h2 hf with
        ⟨t, h, hr, hk, g1, g2⟩ | hr | ⟨l2, u2, hint, hr, g1, g2, g3, g4, g5, g6⟩
      · left
        rw [hr]
        refine ⟨rfl, rfl, _, rfl, ?_⟩
        intro info hi
        simp only [SyncResult.value.injEq] at hi
        rw [← hi]
        exact ⟨hk, g1, g2⟩
      · left
        rw [hr]
        exact ⟨rfl, rfl, _, rfl, fun info hi => by simp [SyncResult.err] at hi⟩
      · rw [hr]
        dsimp only
        by_cases hs : self.node_is_shutting_down = true
        · left
          have heq : findCommonBlock env self c.peer_id l2 u2 hint c.handler
              (mapEmplace c.observed c.target front.hash)
              = (self, [Event.handler c.handler (.err .SHUTTING_DOWN)], none) := by
            simp [findCommonBlock, hs]
          rw [heq]
          exact ⟨rfl, rfl, _, rfl, fun info hi => by simp [SyncResult.err] at hi⟩
        · by_cases hd : mapContains self.recent_requests
              (c.peer_id, env.fingerprint (findRequest hint)) = true
          · left
            have heq : findCommonBlock env self c.peer_id l2 u2 hint c.handler
                (mapEmplace c.observed c.target front.hash)
                = (self, [Event.handler c.handler (.err .DUPLICATE_REQUEST)], none) := by
              simp [findCommonBlock, hs, hd]
            rw [heq]
            exact ⟨rfl, rfl, _, rfl, fun info hi => by simp [SyncResult.err] at hi⟩
          · right
            have hs1 : self.node_is_shutting_down = false := by simpa using hs
            have hd1 : mapContains self.recent_requests
                (c.peer_id, env.fingerprint (findRequest hint)) = false := by simpa using hd
            rw [findCommonBlock_fresh env self c.peer_id l2 u2 hint c.handler _ hs1 hd1]
            exact ⟨_, front.hash, rfl, rfl, rfl, g1, g2, g3, g4, g6, rfl, g5⟩

theorem findRequest_injective (n m : Nat) (h : findRequest n = findRequest m) : n = m := by
  simp [findRequest] at h
  exact h

/-- A search driven against any peer, started with `lower <= target < upper` and a budget
of at least `upper - lower` rounds: the handler is called exactly once; a value it
receives is a block known locally whose number lies in the interval; each number is
requested at most once, and never the number just requested or an observed one. -/
theorem findCommonBlockRun_outcome (env : Env) (tree : BlockTree)
    (peer : BlocksRequest → Response) :
    ∀ (fuel : Nat) (self : SynchronizerImpl) (c : FindCapture),
      c.lower ≤ c.target → c.target < c.upper → c.upper - c.lower ≤ fuel →
      (handlerCalls (findCommonBlockRun env tree peer fuel self c).2).length = 1
      ∧ (∀ hd info, (hd, SyncResult.value info)
            ∈ handlerCalls (findCommonBlockRun env tree peer fuel self c).2 →
          blockIsKnown tree self info.hash = true
          ∧ c.lower ≤ info.number ∧ info.number < c.upper)
      ∧ (∀ pr ∈ sentRequests (findCommonBlockRun env tree peer fuel self c).2,
          ∃ n, pr.2 = findRequest n ∧ n ≠ c.target ∧ mapFind c.observed n = none)
      ∧ ((sentRequests (findCommonBlockRun env tree peer fuel self c).2).map
          (fun pr => pr.2)).Nodup := by
  intro fuel
  induction fuel with
  | zero => intro self c h1 h2 hf; omega
  | succ fuel ih =>
    intro self c h1 h2 hf
    unfold findCommonBlockRun
    rcases findCommonBlockResponse_outcome env tree (fuel + 1) self c
      (peer (findRequest c.target)) h1 h2 hf with
      ⟨hn, _, res, hev, hval⟩ | ⟨c1, hash, hsome, hkb, hev, g1, g2, g3, g4, g5, g6, g7⟩
    · generalize findCommonBlockResponse env tree (fuel + 1) self c
        (peer (findRequest c.target)) = r at hn hev
      obtain ⟨s1, evs, oc⟩ := r
      dsimp only at hn hev
      subst hn hev
      dsimp only
      refine ⟨by simp [handlerCalls], ?_, by simp [sentRequests], by simp [sentRequests]⟩
      intro hd info hmem
      simp only [handlerCalls, List.filterMap_cons, List.filterMap_nil, List.mem_singleton,
        Prod.mk.injEq] at hmem
      exact hval info hmem.2.symm
    · generalize findCommonBlockResponse env tree (fuel + 1) self c
        (peer (findRequest c.target)) = r at hsome hkb hev
      obtain ⟨s1, evs, oc⟩ := r
      dsimp only at hsome hkb hev
      subst hsome hev
      dsimp only
      obtain ⟨i1, i2, i3, i4⟩ := ih s1 c1 g3 g4 (by omega)
      have hknown : ∀ h, blockIsKnown tree s1 h = blockIsKnown tree self h := by
        intro h
        simp only [blockIsKnown, hkb]
      have hobs : ∀ n, mapFind c1.observed n = none → n ≠ c.target ∧ mapFind c.observed n = none := by
        intro n hn
        rw [g6] at hn
        exact mapFind_mapEmplace_none _ _ _ _ hn
      refine ⟨?_, ?_, ?_, ?_⟩
      · rw [handlerCalls_append]
        simpa [handlerCalls] using i1
      · intro hd info hmem
        rw [handlerCalls_append] at hmem
        simp only [handlerCalls, List.filterMap_cons, List.filterMap_nil, List.nil_append]
          at hmem
        obtain ⟨k1, k2, k3⟩ := i2 hd info hmem
        rw [hknown] at k1
        exact ⟨k1, by omega, by omega⟩
      · intro pr hpr
        rw [sentRequests_append] at hpr
        simp only [sentRequests, List.filterMap_cons, List.filterMap_nil,
          List.singleton_append, List.mem_cons] at hpr
        rcases hpr with hpr | hpr
        · rw [hpr]
          exact ⟨c1.target, rfl, (hobs _ g7).1, (hobs _ g7).2⟩
        · obtain ⟨n, q1, q2, q3⟩ := i3 pr hpr
          exact ⟨n, q1, (hobs n q3).1, (hobs n q3).2⟩
      · rw [sentRequests_append]
        simp only [sentRequests, List.filterMap_cons, List.filterMap_nil,
          List.singleton_append, List.map_cons, List.nodup_cons]
        refine ⟨?_, i4⟩
        intro hmem
        simp only [List.mem_map] at hmem
        obtain ⟨pr, hpr, heq⟩ := hmem
        obtain ⟨n, q1, q2, _⟩ := i3 pr hpr
        rw [q1] at heq
        exact q2 (findRequest_injective _ _ heq)

/-- A whole search started with `lower <= hint < upper` and a budget of at least
`upper - lower` rounds, against any peer. -/
theorem findCommonBlockSearch_outcome (env : Env) (tree : BlockTree)
    (peer : BlocksRequest → Response) (fuel : Nat) (self : SynchronizerImpl)
    (peer_id : PeerId) (lower upper hint : Nat) (handler : Handler)
    (h1 : lower ≤ hint) (h2 : hint < upper) (hf : upper - lower ≤ fuel) :
    (handlerCalls (findCommonBlockSearch env tree peer fuel self peer_id lower upper hint
        handler).2).length = 1
    ∧ (∀ hd info, (hd, SyncResult.value info)
          ∈ handlerCalls (findCommonBlockSearch env tree peer fuel self peer_id lower upper
              hint handler).2 →
        blockIsKnown tree self info.hash = true ∧ lower ≤ info.number ∧ info.number < upper)
    ∧ ((sentRequests (findCommonBlockSearch env tree peer fuel self peer_id lower upper hint
        handler).2).map (fun pr => pr.2)).Nodup := by
  unfold findCommonBlockSearch
  by_cases hs : self.node_is_shutting_down = true
  · have heq : findCommonBlock env self peer_id lower upper hint handler []
        = (self, [Event.handler handler (.err .SHUTTING_DOWN)], none) := by
      simp [findCommonBlock, hs]
    rw [heq]
    simp [handlerCalls, sentRequests, SyncResult.err]
  · by_cases hd : mapContains self.recent_requests
        (peer_id, env.fingerprint (findRequest hint)) = true
    · have heq : findCommonBlock env self peer_id lower upper hint handler []
          = (self, [Event.handler handler (.err .DUPLICATE_REQUEST)], none) := by
        simp [findCommonBlock, hs, hd]
      rw [heq]
      simp [handlerCalls, sentRequests, SyncResult.err]
    · have hs1 : self.node_is_shutting_down = false := by simpa using hs
      have hd1 : mapContains self.recent_requests
          (peer_id, env.fingerprint (findRequest hint)) = false := by simpa using hd
      rw [findCommonBlock_fresh env self peer_id lower upper hint handler [] hs1 hd1]
      dsimp only
      obtain ⟨i1, i2, i3, i4⟩ := findCommonBlockRun_outcome env tree peer fuel
        (recordRequest self peer_id (env.fingerprint (findRequest hint)) "find common block")
        ⟨lower, upper, hint, peer_id, handler, [], env.fingerprint (findRequest hint)⟩
        h1 h2 hf
      refine ⟨?_, ?_, ?_⟩
      · rw [handlerCalls_append]
        simpa [handlerCalls] using i1
      · intro hd2 info hmem
        rw [handlerCalls_append] at hmem
        simp only [handlerCalls, List.filterMap_cons, List.filterMap_nil, List.nil_append]
          at hmem
        exact i2 hd2 info hmem
      · rw [sentRequests_append]
        simp only [sentRequests, List.filterMap_cons, List.filterMap_nil,
          List.singleton_append, List.map_cons, List.nodup_cons]
        refine ⟨?_, i4⟩
        intro hmem
        simp only [List.mem_map] at hmem
        obtain ⟨pr, hpr, heq⟩ := hmem
        obtain ⟨n, q1, q2, _⟩ := i3 pr hpr
        rw [q1] at heq
        exact q2 (findRequest_injective _ _ heq)

/-- Claim C21 (search termination rule). Whenever the probed number equals the current
lower bound - on a response of the peer, and likewise on a step of the loop answered
from the observed map - the search ends without a further request: the handler receives
`BlockInfo(lower, hash)` if the hash is a key of `known_blocks` or in the block tree,
and `EMPTY_RESPONSE` otherwise. Therefore every block that a search started with
`lower0 <= hint < upper0` passes to its handler is known locally and its number `n`
satisfies `lower0 <= n < upper0` (for any peer, and a budget of `upper0 - lower0` rounds
or more). -/
theorem search_termination_rule (env : Env) (tree : BlockTree) :
    (∀ (fuel : Nat) (self : SynchronizerImpl) (c : FindCapture) (front : BlockData)
        (rest : List BlockData), c.target = c.lower →
      findCommonBlockResponse env tree (fuel + 1) self c (.blocks (front :: rest))
        = (self,
           [Event.handler c.handler
             (if blockIsKnown tree self front.hash then .value ⟨c.lower, front.hash⟩
              else .err .EMPTY_RESPONSE)],
           none))
    ∧ (∀ (self : SynchronizerImpl) (observed : List (Nat × BlockHash))
        (fuel lower upper : Nat) (hash : BlockHash),
      narrowLoop tree self observed (fuel + 1) lower upper lower hash
        = .done (if blockIsKnown tree self hash then .value ⟨lower, hash⟩
                 else .err .EMPTY_RESPONSE))
    ∧ (∀ (peer : BlocksRequest → Response) (fuel : Nat) (self : SynchronizerImpl)
        (peer_id : PeerId) (lower0 upper0 hint : Nat) (handler : Handler),
      lower0 ≤ hint → hint < upper0 → upper0 - lower0 ≤ fuel →
      ∀ hd info, (hd, SyncResult.value info)
          ∈ handlerCalls (findCommonBlockSearch env tree peer fuel self peer_id lower0 upper0
              hint handler).2 →
        blockIsKnown tree self info.hash = true
        ∧ lower0 ≤ info.number ∧ info.number < upper0) := by
  have hloop : ∀ (self : SynchronizerImpl) (observed : List (Nat × BlockHash))
      (fuel lower upper : Nat) (hash : BlockHash),
      narrowLoop tree self observed (fuel + 1) lower upper lower hash
        = .done (if blockIsKnown tree self hash then .value ⟨lower, hash⟩
                 else .err .EMPTY_RESPONSE) := by
    intro self observed fuel lower upper hash
    by_cases hb : blockIsKnown tree self hash = true <;> simp [narrowLoop, hb]
  refine ⟨?_, hloop, ?_⟩
  · intro fuel self c front rest ht
    unfold findCommonBlockResponse
    dsimp only
    rw [ht, hloop]
  · intro peer fuel self peer_id lower0 upper0 hint handler h1 h2 hf
    exact (findCommonBlockSearch_outcome env tree peer fuel self peer_id lower0 upper0 hint
      handler h1 h2 hf).2.1

/-- Worked example for C21: local chain `G, A1, A2`, peer chain `G, A1, A2, C3, C4, C5`,
search between 0 and 3 from hint 2: the block passed to the handler, `(2, A2)`, is known
locally and `0 <= 2 < 3`. -/
theorem search_termination_rule_witness :
    (Handler.user 1, SyncResult.value ⟨2, Scenario.A2.hash⟩)
        ∈ handlerCalls (findCommonBlockSearch Scenario.env Scenario.tree0
            (Scenario.peerOf Scenario.peerChain) 3 (SynchronizerImpl.init .Full) 7 0 3 2
            (.user 1)).2
    ∧ (blockIsKnown Scenario.tree0 (SynchronizerImpl.init .Full) Scenario.A2.hash = true
        ∧ 0 ≤ 2 ∧ 2 < 3) :=
  ⟨by decide,
   (search_termination_rule Scenario.env Scenario.tree0).2.2
     (Scenario.peerOf Scenario.peerChain) 3 (SynchronizerImpl.init .Full) 7 0 3 2 (.user 1)
     (by decide) (by decide) (by decide) (.user 1) ⟨2, Scenario.A2.hash⟩ (by decide)⟩

/-- Claim C29 (the common-ancestor search terminates). A search started with
`lower <= hint < upper`, against any peer (any response to every probe), given a budget of
`upper - lower` rounds or more, reaches exactly one final call of the handler, and no
request is sent twice within it (a request is determined by its block number). On the
way, every round that does not end the search - the steps of its loop answered from the
observed map included - keeps `lower <= target < upper`, makes `upper - lower` strictly
smaller, and asks for a number that is not in the observed map; a budget of
`upper - lower` iterations is never used up by the loop. -/
theorem search_terminates (env : Env) (tree : BlockTree) (peer : BlocksRequest → Response)
    (fuel : Nat) (self : SynchronizerImpl) (peer_id : PeerId) (lower upper hint : Nat)
    (handler : Handler) (h1 : lower ≤ hint) (h2 : hint < upper) (hf : upper - lower ≤ fuel) :
    (handlerCalls (findCommonBlockSearch env tree peer fuel self peer_id lower upper hint
        handler).2).length = 1
    ∧ ((sentRequests (findCommonBlockSearch env tree peer fuel self peer_id lower upper hint
        handler).2).map (fun pr => pr.2)).Nodup
    ∧ (∀ pr ∈ sentRequests (findCommonBlockSearch env tree peer fuel self peer_id lower upper
          hint handler).2, ∃ n, pr.2 = findRequest n)
    ∧ (∀ (self1 : SynchronizerImpl) (c : FindCapture) (response : Response)
        (c1 : FindCapture), c.lower ≤ c.target → c.target < c.upper →
      (findCommonBlockResponse env tree (c.upper - c.lower) self1 c response).2.2 = some c1 →
      c1.lower ≤ c1.target ∧ c1.target < c1.upper
      ∧ c.lower ≤ c1.lower ∧ c1.upper ≤ c.upper
      ∧ c1.upper - c1.lower < c.upper - c.lower
      ∧ mapFind c1.observed c1.target = none)
    ∧ (∀ (self1 : SynchronizerImpl) (observed : List (Nat × BlockHash))
        (lower1 upper1 target : Nat) (hash : BlockHash),
      lower1 ≤ target → target < upper1 →
      narrowLoop tree self1 observed (upper1 - lower1) lower1 upper1 target hash
        ≠ .outOfFuel) := by
  obtain ⟨s1, _, s3⟩ := findCommonBlockSearch_outcome env tree peer fuel self peer_id lower
    upper hint handler h1 h2 hf
  refine ⟨s1, s3, ?_, ?_, ?_⟩
  · intro pr hpr
    unfold findCommonBlockSearch at hpr
    by_cases hs : self.node_is_shutting_down = true
    · have heq : findCommonBlock env self peer_id lower upper hint handler []
          = (self, [Event.handler handler (.err .SHUTTING_DOWN)], none) := by
        simp [findCommonBlock, hs]
      rw [heq] at hpr
      simp [sentRequests] at hpr
    · by_cases hd : mapContains self.recent_requests
          (peer_id, env.fingerprint (findRequest hint)) = true
      · have heq : findCommonBlock env self peer_id lower upper hint handler []
            = (self, [Event.handler handler (.err .DUPLICATE_REQUEST)], none) := by
          simp [findCommonBlock, hs, hd]
        rw [heq] at hpr
        simp [sentRequests] at hpr
      · have hs1 : self.node_is_shutting_down = false := by simpa using hs
        have hd1 : mapContains self.recent_requests
            (peer_id, env.fingerprint (findRequest hint)) = false := by simpa using hd
        rw [findCommonBlock_fresh env self peer_id lower upper hint handler [] hs1 hd1] at hpr
        dsimp only at hpr
        rw [sentRequests_append] at hpr
        simp only [sentRequests, List.filterMap_cons, List.filterMap_nil,
          List.singleton_append, List.mem_cons] at hpr
        rcases hpr with hpr | hpr
        · exact ⟨hint, by rw [hpr]⟩
        · obtain ⟨n, q1, _⟩ := (findCommonBlockRun_outcome env tree peer fuel _ _ h1 h2 hf).2.2.1
            pr hpr
          exact ⟨n, q1⟩
  · intro self1 c response c1 g1 g2 hsome
    rcases findCommonBlockResponse_outcome env tree (c.upper - c.lower) self1 c response g1 g2
      (le_refl _) with ⟨hn, _⟩ | ⟨c2, hash, hs2, _, _, k1, k2, k3, k4, k5, _, k7⟩
    · rw [hn] at hsome
      exact absurd hsome (by simp)
    · rw [hs2] at hsome
      simp only [Option.some.injEq] at hsome
      subst hsome
      exact ⟨k3, k4, k1, k2, k5, k7⟩
  · intro self1 observed lower1 upper1 target hash g1 g2 hout
    rcases narrowLoop_outcome tree self1 observed (upper1 - lower1) lower1 upper1 target hash
      g1 g2 (le_refl _) with ⟨t, h, hr, _⟩ | hr | ⟨l2, u2, hint2, hr, _⟩ <;>
      rw [hr] at hout <;> exact absurd hout (by simp)

/-- Worked example for C29: local chain `G, A1, A2`, peer chain `G, A1, A2, C3, C4, C5`,
search between 0 and 3 from hint 2 with a budget of 3 rounds: one call of the handler,
one request (for number 2). -/
theorem search_terminates_witness :
    (handlerCalls (findCommonBlockSearch Scenario.env Scenario.tree0
        (Scenario.peerOf Scenario.peerChain) 3 (SynchronizerImpl.init .Full) 7 0 3 2
        (.user 1)).2).length = 1
    ∧ sentRequests (findCommonBlockSearch Scenario.env Scenario.tree0
        (Scenario.peerOf Scenario.peerChain) 3 (SynchronizerImpl.init .Full) 7 0 3 2
        (.user 1)).2 = [(7, findRequest 2)] :=
  ⟨(search_terminates Scenario.env Scenario.tree0 (Scenario.peerOf Scenario.peerChain) 3
      (SynchronizerImpl.init .Full) 7 0 3 2 (.user 1) (by decide) (by decide) (by decide)).1,
   by decide⟩

/-- Claim C28, evaluated at the failing input (the assertion can fail). For a block tree
with `best.number >= last_finalized.number` and an announced block numbered at least
`last_finalized.number` the asserted `lower < upper` and `lower <= hint < upper` hold.
Nothing on the way to the assertion compares the announced number with the last
finalized one, though: on a node with chain `G, A1, A2` finalized at `A2` (number 2),
peer 7 announces a header numbered 1 whose hash and parent are unknown;
`syncByBlockHeader` passes it to `syncByBlockInfo`, which computes `lower = 2`,
`upper = min(1, 2) + 1 = 2`, and the assertion `lower < upper` fails. -/
theorem search_interval_assertion_fails :
    (∀ (tree : BlockTree) (block_info : BlockInfo),
      tree.last_finalized.number ≤ tree.best_block.number →
      tree.last_finalized.number ≤ block_info.number →
      tree.last_finalized.number < min block_info.number tree.best_block.number + 1
      ∧ tree.last_finalized.number ≤ min block_info.number tree.best_block.number
      ∧ min block_info.number tree.best_block.number
          < min block_info.number tree.best_block.number + 1)
    ∧ Scenario.tree2.last_finalized.number ≤ Scenario.tree2.best_block.number
    ∧ Scenario.headerOf Scenario.orphan1 = ⟨777, 1, 0, 0, []⟩
    ∧ ¬ (Scenario.tree2.last_finalized.number
          < min (Scenario.headerOf Scenario.orphan1).number Scenario.tree2.best_block.number + 1)
    ∧ syncByBlockInfo Scenario.env Scenario.tree2 (SynchronizerImpl.init .Full)
        ⟨1, Scenario.orphan1.hash⟩ 7 .announce false
      = (false, { SynchronizerImpl.init .Full with busy_peers := [7] },
         [Event.assertionFailure])
    ∧ (syncByBlockHeader Scenario.env Scenario.tree2 (SynchronizerImpl.init .Full)
        (Scenario.headerOf Scenario.orphan1) 7 (.user 1)).2.2 = [Event.assertionFailure] := by
  refine ⟨?_, by decide, by decide, by decide, by decide, by decide⟩
  intro tree block_info h1 h2
  refine ⟨?_, ?_, ?_⟩ <;> omega

/-- Claim C24 (backpressure, as amended). In `postApplyBlock`, `askNextPortionOfBlocks` is
called if and only if `known_blocks.size()` is below the threshold of the current mode
(`kMinPreloadedBlockAmount` in Full mode, `kMinPreloadedBlockAmountForFastSyncing`
otherwise): below it the result is the one of `askNextPortionOfBlocks` on the state with
the ancestry entries of the hash erased, followed by the scheduling of `applyNextBlock`;
otherwise nothing but that scheduling happens. So `postApplyBlock` sends a request only
when the queue is shorter than the threshold. -/
theorem postApplyBlock_backpressure (env : Env) (self : SynchronizerImpl)
    (hash : BlockHash) :
    (self.known_blocks.length
        < (if self.sync_method = .Full then env.kMinPreloadedBlockAmount
           else env.kMinPreloadedBlockAmountForFastSyncing) →
      postApplyBlock env self hash
        = ((askNextPortionOfBlocks env
              { self with ancestry := mapErase self.ancestry hash }).1,
           (askNextPortionOfBlocks env
              { self with ancestry := mapErase self.ancestry hash }).2
             ++ [Event.scheduledApplyNextBlock]))
    ∧ (¬ self.known_blocks.length
        < (if self.sync_method = .Full then env.kMinPreloadedBlockAmount
           else env.kMinPreloadedBlockAmountForFastSyncing) →
      postApplyBlock env self hash
        = ({ self with ancestry := mapErase self.ancestry hash },
           [Event.scheduledApplyNextBlock]))
    ∧ (sentRequests (postApplyBlock env self hash).2 ≠ [] →
      self.known_blocks.length
        < (if self.sync_method = .Full then env.kMinPreloadedBlockAmount
           else env.kMinPreloadedBlockAmountForFastSyncing)) := by
  have hge : ¬ self.known_blocks.length
        < (if self.sync_method = .Full then env.kMinPreloadedBlockAmount
           else env.kMinPreloadedBlockAmountForFastSyncing) →
      postApplyBlock env self hash
        = ({ self with ancestry := mapErase self.ancestry hash },
           [Event.scheduledApplyNextBlock]) := by
    intro h
    unfold postApplyBlock
    dsimp only
    rw [if_neg h]
    rfl
  refine ⟨?_, hge, ?_⟩
  · intro h
    unfold postApplyBlock
    dsimp only
    rw [if_pos h]
  · intro hreq
    by_contra h
    rw [hge h] at hreq
    exact hreq rfl

/-- Worked example for C24 as amended: with two blocks queued (fewer than 256) in Full
mode, `postApplyBlock` runs `askNextPortionOfBlocks`, which starts a search with peer 7. -/
theorem postApplyBlock_backpressure_witness :
    postApplyBlock Scenario.env Scenario.queueC3C4 Scenario.A2.hash
      = ((askNextPortionOfBlocks Scenario.env
            { Scenario.queueC3C4 with
              ancestry := mapErase Scenario.queueC3C4.ancestry Scenario.A2.hash }).1,
         (askNextPortionOfBlocks Scenario.env
            { Scenario.queueC3C4 with
              ancestry := mapErase Scenario.queueC3C4.ancestry Scenario.A2.hash }).2
           ++ [Event.scheduledApplyNextBlock])
    ∧ sentRequests (postApplyBlock Scenario.env Scenario.queueC3C4 Scenario.A2.hash).2
        = [(7, findRequest 4)] :=
  ⟨(postApplyBlock_backpressure Scenario.env Scenario.queueC3C4 Scenario.A2.hash).1
     (by decide), by decide⟩

set_option maxRecDepth 100000 in
/-- Worked example for C24 (claim as stated fails): the queue holds 256 blocks, as many as
`kMinPreloadedBlockAmount` (Full mode), so it is not below the threshold. Peer 8
announces a block whose parent is the last queued block: `syncByBlockHeader` calls
`loadBlocks` without looking at the queue length, and a block-range request leaves for
peer 8. -/
theorem backpressure_counterexample :
    Scenario.fullQueue.sync_method = .Full
    ∧ Scenario.env.kMinPreloadedBlockAmount = 256
    ∧ Scenario.fullQueue.known_blocks.length = 256
    ∧ sentRequests (syncByBlockHeader Scenario.env Scenario.tree0 Scenario.fullQueue
        Scenario.announced259 8 (.user 1)).2.2
      = [(8, loadBlocksRequest .Full
          ⟨259, Scenario.env.hashHeader Scenario.announced259⟩)] := by
  decide

/-- Claim C22 (single state sync). While a state sync is in progress (`state_sync_` is
set), a call `syncState(peer, block, handler)` returns the state as it is and emits
nothing: no state request is sent, and `state_sync_`, `state_sync_flow_`, `entries_` and
`sync_method_` are unchanged. When a response completes the state sync successfully
(the response and `onResponse` are successes, the flow is complete, `commit` succeeds),
`state_sync_` and `state_sync_flow_` are cleared, `sync_method_` becomes Full, and the
stored callback is called with the synced block. -/
theorem single_state_sync :
    (∀ (senv : StateEnv) (self : SynchronizerImpl) (peer_id : PeerId) (block : BlockInfo)
        (handler : Handler), self.state_sync.isSome = true →
      syncState senv self peer_id block handler = (self, []))
    ∧ (∀ (self : SynchronizerImpl) (res : StateResponse) (flow : FlowAnswers)
        (state_sync : StateSync) (block : BlockInfo),
      self.state_sync = some state_sync → self.state_sync_flow = some block →
      flow.onResponse = .ok () → flow.complete = true → flow.commit = .ok () →
      (syncStateResponse self (.ok res) flow).1.state_sync = none
      ∧ (syncStateResponse self (.ok res) flow).1.state_sync_flow = none
      ∧ (syncStateResponse self (.ok res) flow).1.sync_method = .Full
      ∧ (syncStateResponse self (.ok res) flow).2
          = [Event.newRuntime block.hash, Event.handler state_sync.cb (.value block)]) := by
  constructor
  · intro senv self peer_id block handler h
    unfold syncState
    rw [if_pos h]
  · intro self res flow state_sync block h1 h2 h3 h4 h5
    simp [syncStateResponse, syncStateOnResponse, h1, h2, h3, h4, h5]

/-- Worked example for C22: a state sync of `A2` from peer 7 is in progress; a second
call of `syncState` changes nothing and sends nothing, and the completing response
switches to Full mode and calls the stored callback with `A2`. -/
theorem single_state_sync_witness :
    syncState Scenario.stateEnv Scenario.stateSyncing 8 ⟨2, Scenario.A2.hash⟩ (.user 2)
      = (Scenario.stateSyncing, [])
    ∧ ((syncStateResponse Scenario.stateSyncing (.ok ⟨[[([1], [2])]]⟩)
          ⟨.ok (), true, .ok ()⟩).1.state_sync = none
      ∧ (syncStateResponse Scenario.stateSyncing (.ok ⟨[[([1], [2])]]⟩)
          ⟨.ok (), true, .ok ()⟩).1.state_sync_flow = none
      ∧ (syncStateResponse Scenario.stateSyncing (.ok ⟨[[([1], [2])]]⟩)
          ⟨.ok (), true, .ok ()⟩).1.sync_method = .Full
      ∧ (syncStateResponse Scenario.stateSyncing (.ok ⟨[[([1], [2])]]⟩)
          ⟨.ok (), true, .ok ()⟩).2
        = [Event.newRuntime Scenario.A2.hash,
           Event.handler (.user 1) (.value ⟨2, Scenario.A2.hash⟩)]) :=
  ⟨single_state_sync.1 Scenario.stateEnv Scenario.stateSyncing 8 ⟨2, Scenario.A2.hash⟩
     (.user 2) (by decide),
   single_state_sync.2 Scenario.stateSyncing ⟨[[([1], [2])]]⟩ ⟨.ok (), true, .ok ()⟩
     ⟨7, .user 1⟩ ⟨2, Scenario.A2.hash⟩ (by decide) (by decide) rfl rfl rfl⟩

theorem mapFind_mapErase {κ β : Type} [DecidableEq κ] (m : List (κ × β)) (key x : κ) :
    mapFind (mapErase m key) x = if x = key then none else mapFind m x := by
  induction m with
  | nil => simp [mapErase, mapFind]
  | cons e rest ih =>
    obtain ⟨k, v⟩ := e
    unfold mapErase at ih ⊢
    by_cases hk : k = key
    · have hd : decide ((k, v).1 ≠ key) = false := by simp [hk]
      rw [List.filter_cons, hd]
      simp only [Bool.false_eq_true, if_false]
      rw [ih]
      by_cases hx : x = key
      · simp [hx]
      · have hkx : ¬ k = x := fun h => hx (h ▸ hk)
        simp [hx, mapFind, hkx]
    · have hd : decide ((k, v).1 ≠ key) = true := by simp [hk]
      rw [List.filter_cons, hd]
      simp only [if_true]
      by_cases hkx : k = x
      · have hx : ¬ x = key := fun h => hk (hkx ▸ h)
        simp [mapFind, hkx, hx]
      · simp only [mapFind, hkx, if_false]
        exact ih

theorem PolkadotTrieImpl.lookup_put (trie : PolkadotTrieImpl) (k v x : Buffer) :
    (trie.put k v).lookup x = if k = x then some v else trie.lookup x := by
  unfold PolkadotTrieImpl.put PolkadotTrieImpl.lookup
  dsimp only
  rw [mapFind_append_single, mapFind_mapErase]
  by_cases h : k = x
  · have h2 : x = k := h.symm
    simp [h2]
  · have h2 : ¬ x = k := fun h3 => h h3.symm
    simp only [h, h2, if_false]
    cases mapFind trie.entries x <;> rfl

theorem lookup_foldl_put (kv : GenesisRawData) :
    ∀ (trie : PolkadotTrieImpl) (x : Buffer),
      (kv.foldl (fun t e => t.put e.1 e.2) trie).lookup x
        = match mapFind kv.reverse x with
          | some v => some v
          | none => trie.lookup x := by
  induction kv with
  | nil => intro trie x; simp [mapFind]
  | cons e rest ih =>
    intro trie x
    rw [List.foldl_cons, ih, List.reverse_cons, mapFind_append_single,
      PolkadotTrieImpl.lookup_put]
    cases mapFind rest.reverse x with
    | some v => rfl
    | none =>
      dsimp only
      by_cases h : e.1 = x <;> simp [h]

/-- The content of a trie built by `trie_from`: under each key the value of the last pair
with that key, and nothing under other keys. -/
theorem trie_from_lookup (kv : GenesisRawData) (x : Buffer) :
    (trie_from kv).lookup x = mapFind kv.reverse x := by
  unfold trie_from
  rw [lookup_foldl_put]
  cases mapFind kv.reverse x <;> rfl

theorem mapFind_isSome_iff {κ β : Type} [DecidableEq κ] (m : List (κ × β)) (x : κ) :
    (∃ v, mapFind m x = some v) ↔ ∃ v, (x, v) ∈ m := by
  induction m with
  | nil => simp [mapFind]
  | cons e rest ih =>
    obtain ⟨k, w⟩ := e
    by_cases hk : k = x
    · subst hk
      simp only [mapFind, if_true]
      exact ⟨fun _ => ⟨w, List.mem_cons_self _ _⟩, fun _ => ⟨w, rfl⟩⟩
    · simp only [mapFind, hk, if_false]
      rw [ih]
      constructor
      · rintro ⟨v, hv⟩; exact ⟨v, List.mem_cons_of_mem _ hv⟩
      · rintro ⟨v, hv⟩
        rcases List.mem_cons.mp hv with h1 | h1
        · simp only [Prod.mk.injEq] at h1
          exact absurd h1.1.symm hk
        · exact ⟨v, h1⟩

theorem mapFind_of_nodup {κ β : Type} [DecidableEq κ] (m : List (κ × β))
    (hn : (keys m).Nodup) (x : κ) (v : β) (h : (x, v) ∈ m) : mapFind m x = some v := by
  induction m with
  | nil => simp at h
  | cons e rest ih =>
    obtain ⟨k, w⟩ := e
    simp only [keys, List.map_cons, List.nodup_cons] at hn
    rcases List.mem_cons.mp h with h1 | h1
    · simp only [Prod.mk.injEq] at h1
      simp [mapFind, h1.1, h1.2]
    · have hk : k ≠ x := by
        intro hkx
        apply hn.1
        rw [hkx]
        exact List.mem_map.mpr ⟨(x, v), h1, rfl⟩
      simp only [mapFind, hk, if_false]
      exact ih hn.2 h1

theorem storeChildren_ok (genv : GenesisEnv) (version : Nat)
    (root : Buffer × GenesisRawData → Buffer) :
    ∀ (children : List (Buffer × GenesisRawData)) (top_trie : PolkadotTrieImpl),
      (∀ c ∈ children, genv.storeTrie (trie_from c.2) version = .ok (root c)) →
      storeChildren genv version top_trie children
        = .ok ((children.map (fun c => (genv.kChildStorageDefaultPrefix ++ c.1, root c))).foldl
            (fun t e => t.put e.1 e.2) top_trie) := by
  intro children
  induction children with
  | nil => intro top_trie _; rfl
  | cons c rest ih =>
    intro top_trie h
    obtain ⟨child, kv⟩ := c
    unfold storeChildren
    rw [h (child, kv) (List.mem_cons_self _ _)]
    dsimp only
    rw [ih _ (fun c hc => h c (List.mem_cons_of_mem _ hc))]
    rfl

/-- Claim C25 (genesis state root). When the top section has no pair under the
runtime-code key, `calculate_genesis_state` returns an error (the one of `trie.get`).
When the top trie holds the runtime code (which is the case exactly when the top section
has a pair under that key), the runtime environment and its version are obtained, and the
trie of every child of the default-children section is stored with root `root c`, the
result is `storeTrie` of the trie built by inserting every top-level pair and then, for
each child `c`, the pair `kChildStorageDefaultPrefix ++ c -> root c`. That trie holds
under each key the value of the last of these pairs with that key and nothing else; so
when the keys of the pairs are distinct it contains every one of the pairs and no other
key. The trie of a child contains exactly the pairs of that child in the same sense. -/
theorem genesis_state_root (genv : GenesisEnv) (chain_spec : ChainSpec) :
    ((∀ v, (genv.kRuntimeCodeKey, v) ∉ chain_spec.genesisTopSection) →
      calculate_genesis_state genv chain_spec = .error kNoValue)
    ∧ ((∃ v, (genv.kRuntimeCodeKey, v) ∈ chain_spec.genesisTopSection) ↔
        ∃ code, (trie_from chain_spec.genesisTopSection).get genv.kRuntimeCodeKey = .ok code)
    ∧ (∀ (code : Buffer) (env version : Nat) (root : Buffer × GenesisRawData → Buffer),
        (trie_from chain_spec.genesisTopSection).get genv.kRuntimeCodeKey = .ok code →
        genv.fromCode code = .ok env → genv.version env = .ok version →
        (∀ c ∈ chain_spec.genesisChildrenDefaultSection,
          genv.storeTrie (trie_from c.2) version = .ok (root c)) →
        calculate_genesis_state genv chain_spec
          = genv.storeTrie (trie_from (genesisPairs genv chain_spec root)) version)
    ∧ (∀ (kv : GenesisRawData) (x : Buffer),
        (trie_from kv).lookup x = mapFind kv.reverse x)
    ∧ (∀ (kv : GenesisRawData), (keys kv).Nodup →
        (∀ k v, (k, v) ∈ kv → (trie_from kv).lookup k = some v)
        ∧ (∀ k, (∀ v, (k, v) ∉ kv) → (trie_from kv).lookup k = none)) := by
  have hfind : ∀ (kv : GenesisRawData) (x : Buffer),
      (∃ v, (trie_from kv).lookup x = some v) ↔ ∃ v, (x, v) ∈ kv := by
    intro kv x
    rw [trie_from_lookup, mapFind_isSome_iff]
    simp only [List.mem_reverse]
  refine ⟨?_, ?_, ?_, trie_from_lookup, ?_⟩
  · intro hno
    have hnone : (trie_from chain_spec.genesisTopSection).lookup genv.kRuntimeCodeKey
        = none := by
      cases hl : (trie_from chain_spec.genesisTopSection).lookup genv.kRuntimeCodeKey with
      | none => rfl
      | some v =>
        obtain ⟨w, hw⟩ := (hfind _ _).mp ⟨v, hl⟩
        exact absurd hw (hno w)
    simp [calculate_genesis_state, PolkadotTrieImpl.get, hnone]
  · rw [← hfind]
    unfold PolkadotTrieImpl.get
    constructor
    · rintro ⟨v, hv⟩
      rw [hv]
      exact ⟨v, rfl⟩
    · rintro ⟨code, hc⟩
      cases hl : (trie_from chain_spec.genesisTopSection).lookup genv.kRuntimeCodeKey with
      | none => rw [hl] at hc; simp at hc
      | some v => exact ⟨v, rfl⟩
  · intro code env version root hcode henv hver hroots
    unfold calculate_genesis_state
    dsimp only
    rw [hcode]
    dsimp only
    rw [henv]
    dsimp only
    rw [hver]
    dsimp only
    rw [storeChildren_ok genv version root _ _ hroots]
    dsimp only
    unfold genesisPairs trie_from
    rw [List.foldl_append]
  · intro kv hn
    constructor
    · intro k v hkv
      rw [trie_from_lookup]
      apply mapFind_of_nodup
      · unfold keys
        rw [List.map_reverse]
        exact List.nodup_reverse.mpr hn
      · exact List.mem_reverse.mpr hkv
    · intro k hno
      cases hl : (trie_from kv).lookup k with
      | none => rfl
      | some v =>
        obtain ⟨w, hw⟩ := (hfind _ _).mp ⟨v, hl⟩
        exact absurd hw (hno w)

/-- Worked example for C25: a top section with the runtime code and one more pair, one
child with one pair; the root of a trie is the concatenation of its keys and values. The
result is the root of the trie holding the two top-level pairs and the root of the child
under the prefixed child id. -/
theorem genesis_state_root_witness :
    calculate_genesis_state Scenario.genesisEnv Scenario.chainSpec
      = .ok [58, 99, 1, 2, 3, 7, 8, 58, 100, 5, 1, 2]
    ∧ calculate_genesis_state Scenario.genesisEnv
        { Scenario.chainSpec with genesisTopSection := [([7], [8])] } = .error kNoValue :=
  ⟨((genesis_state_root Scenario.genesisEnv Scenario.chainSpec).2.2.1 [1, 2, 3] 0 1
      (fun c => (trie_from c.2).entries.flatMap (fun e => e.1 ++ e.2)) rfl rfl rfl
      (by intro c _; rfl)).trans rfl,
   (genesis_state_root Scenario.genesisEnv
      { Scenario.chainSpec with genesisTopSection := [([7], [8])] }).1
      (by intro v hv; simp [Scenario.genesisEnv] at hv)⟩

theorem discardLoop_nil (fuel : Nat) (self : SynchronizerImpl) (affected : Nat)
    (evs : List Event) : discardLoop fuel self [] affected evs = (self, affected, evs) := by
  cases fuel <;> rfl

/-- The loop of `discardBlock` comes to its end within `queue.size() + ancestry_.size()`
iterations, whatever the ancestry multimap holds: a larger budget gives the same result. -/
theorem discardLoop_fuel :
    ∀ (fuel : Nat) (self : SynchronizerImpl) (queue : List BlockHash) (affected : Nat)
      (evs : List Event), queue.length + self.ancestry.length ≤ fuel →
      discardLoop fuel self queue affected evs
        = discardLoop (queue.length + self.ancestry.length) self queue affected evs := by
  intro fuel
  induction fuel with
  | zero =>
    intro self queue affected evs hf
    have hq : queue.length + self.ancestry.length = 0 := by omega
    rw [hq]
  | succ fuel ih =>
    intro self queue affected evs hf
    cases queue with
    | nil => rw [discardLoop_nil, discardLoop_nil]
    | cons hash rest =>
      have hlen := equalRange_length_add self.ancestry hash
      have hb : (hash :: rest).length + self.ancestry.length
          = (rest.length + self.ancestry.length) + 1 := by
        simp only [List.length_cons]; omega
      rw [hb]
      simp only [discardLoop]
      cases hfind : mapFind self.known_blocks hash with
      | some kb =>
        dsimp only
        have hq : (rest ++ equalRange self.ancestry hash).length
            + (mapErase self.ancestry hash).length
            = rest.length + self.ancestry.length := by
          rw [List.length_append]; omega
        rw [ih _ _ _ _ (by
          simp only [notifySubscribers, List.length_append]
          simp only [List.length_cons] at hf
          omega)]
        simp only [notifySubscribers]
        rw [hq]
      | none =>
        dsimp only
        have hq : (rest ++ equalRange self.ancestry hash).length
            + (mapErase self.ancestry hash).length
            = rest.length + self.ancestry.length := by
          rw [List.length_append]; omega
        rw [ih _ _ _ _ (by
          simp only [List.length_append]
          simp only [List.length_cons] at hf
          omega)]
        dsimp only
        rw [hq]

theorem reach_mono (ancestry : List (BlockHash × BlockHash)) (h a x : BlockHash)
    (hr : Reach (mapErase ancestry h) a x) : Reach ancestry a x := by
  unfold Reach at hr ⊢
  exact Relation.ReflTransGen.mono
    (fun a b hab => ((edge_mapErase ancestry h a b).mp hab).1) hr

/-- One iteration of the loop of `discardBlock` in terms of the visited hashes: the hashes
to visit from `hash :: rest` are `hash` and those to visit from `rest` and the children
of `hash` once the entries under `hash` are erased. -/
theorem visited_step (ancestry : List (BlockHash × BlockHash)) (hash : BlockHash)
    (rest : List BlockHash) (x : BlockHash) :
    Visited ancestry (hash :: rest) x
      ↔ x = hash ∨ Visited (mapErase ancestry hash) (rest ++ equalRange ancestry hash) x := by
  unfold Visited
  constructor
  · rintro ⟨q, hq, hreach⟩
    rcases reach_cut ancestry hash q x hreach with h1 | ⟨c, hc, h1⟩
    · rcases List.mem_cons.mp hq with hq1 | hq1
      · rw [hq1] at h1
        exact Or.inl (reach_mapErase_self ancestry hash x h1)
      · exact Or.inr ⟨q, List.mem_append_left _ hq1, h1⟩
    · exact Or.inr ⟨c, List.mem_append_right _ ((mem_equalRange ancestry hash c).mpr hc), h1⟩
  · rintro (hx | ⟨q, hq, hreach⟩)
    · exact ⟨hash, List.mem_cons_self _ _, by rw [hx]; exact Relation.ReflTransGen.refl⟩
    · have hr := reach_mono ancestry hash q x hreach
      rcases List.mem_append.mp hq with hq1 | hq1
      · exact ⟨q, List.mem_cons_of_mem _ hq1, hr⟩
      · have he : Edge ancestry hash q := (mem_equalRange ancestry hash q).mp hq1
        exact ⟨hash, List.mem_cons_self _ _, Relation.ReflTransGen.head he hr⟩

theorem mapErase_of_not_contains {κ β : Type} [DecidableEq κ] (m : List (κ × β)) (key : κ)
    (h : mapFind m key = none) : mapErase m key = m := by
  unfold mapErase
  rw [List.filter_eq_self]
  intro e he
  simp only [ne_eq, decide_eq_true_eq]
  intro hk
  have : ∃ v, mapFind m key = some v :=
    (mapFind_isSome_iff m key).mpr ⟨e.2, by rw [← hk]; exact he⟩
  rw [h] at this
  obtain ⟨v, hv⟩ := this
  exact absurd hv (by simp)

theorem filter_visited_step {β : Type} (m : List (BlockHash × β))
    (ancestry : List (BlockHash × BlockHash)) (hash : BlockHash) (rest : List BlockHash) :
    (mapErase m hash).filter (fun e =>
        @decide (¬ Visited (mapErase ancestry hash) (rest ++ equalRange ancestry hash) e.1)
          (Classical.propDecidable _))
      = m.filter (fun e =>
        @decide (¬ Visited ancestry (hash :: rest) e.1) (Classical.propDecidable _)) := by
  unfold mapErase
  rw [List.filter_filter]
  apply List.filter_congr
  intro e _
  rw [Bool.eq_iff_iff]
  simp only [Bool.and_eq_true, decide_eq_true_eq, visited_step ancestry hash rest e.1]
  constructor
  · rintro ⟨h1, h2⟩ (h3 | h3)
    · exact h2 h3
    · exact h1 h3
  · intro h
    exact ⟨fun h1 => h (Or.inr h1), fun h2 => h (Or.inl h2)⟩

/-- What the loop of `discardBlock` leaves, given a budget of at least the queue length
plus the number of ancestry entries: the entries of `known_blocks` whose key was not
visited, and the entries of `ancestry` whose parent key was not visited, in their
order. -/
theorem discardLoop_result :
    ∀ (fuel : Nat) (self : SynchronizerImpl) (queue : List BlockHash) (affected : Nat)
      (evs : List Event), queue.length + self.ancestry.length ≤ fuel →
      (discardLoop fuel self queue affected evs).1.known_blocks
          = self.known_blocks.filter (fun e =>
              @decide (¬ Visited self.ancestry queue e.1) (Classical.propDecidable _))
      ∧ (discardLoop fuel self queue affected evs).1.ancestry
          = self.ancestry.filter (fun e =>
              @decide (¬ Visited self.ancestry queue e.1) (Classical.propDecidable _)) := by
  have hnil : ∀ {β : Type} (anc : List (BlockHash × BlockHash)) (m : List (BlockHash × β)),
      m = m.filter (fun e =>
        @decide (¬ Visited anc [] e.1) (Classical.propDecidable _)) := by
    intro β anc m
    symm
    rw [List.filter_eq_self]
    intro e _
    simp [Visited]
  intro fuel
  induction fuel with
  | zero =>
    intro self queue affected evs hf
    have hq : queue = [] := List.length_eq_zero.mp (by omega)
    subst hq
    exact ⟨hnil _ _, hnil _ _⟩
  | succ fuel ih =>
    intro self queue affected evs hf
    cases queue with
    | nil => exact ⟨hnil _ _, hnil _ _⟩
    | cons hash rest =>
      have hlen := equalRange_length_add self.ancestry hash
      simp only [discardLoop]
      cases hfind : mapFind self.known_blocks hash with
      | some kb =>
        dsimp only
        obtain ⟨i1, i2⟩ := ih
          { (notifySubscribers self ⟨headerNumber kb.data, hash⟩
                (.failure (.synchronizer .DISCARDED_BLOCK))).1 with
            known_blocks := mapErase (notifySubscribers self ⟨headerNumber kb.data, hash⟩
                (.failure (.synchronizer .DISCARDED_BLOCK))).1.known_blocks hash,
            ancestry := mapErase (notifySubscribers self ⟨headerNumber kb.data, hash⟩
                (.failure (.synchronizer .DISCARDED_BLOCK))).1.ancestry hash }
          (rest ++ equalRange self.ancestry hash) (affected + 1)
          (evs ++ (notifySubscribers self ⟨headerNumber kb.data, hash⟩
                (.failure (.synchronizer .DISCARDED_BLOCK))).2)
          (by
            simp only [notifySubscribers, List.length_append]
            simp only [List.length_cons] at hf
            omega)
        rw [i1, i2]
        simp only [notifySubscribers]
        exact ⟨filter_visited_step _ _ _ _, filter_visited_step _ _ _ _⟩
      | none =>
        dsimp only
        obtain ⟨i1, i2⟩ := ih { self with ancestry := mapErase self.ancestry hash }
          (rest ++ equalRange self.ancestry hash) affected evs
          (by
            simp only [List.length_append]
            simp only [List.length_cons] at hf
            omega)
        rw [i1, i2]
        dsimp only
        refine ⟨?_, filter_visited_step _ _ _ _⟩
        rw [← filter_visited_step self.known_blocks self.ancestry hash rest,
          mapErase_of_not_contains _ _ hfind]

theorem nodup_keys_mapErase {κ β : Type} [DecidableEq κ] (m : List (κ × β)) (key : κ)
    (h : (keys m).Nodup) : (keys (mapErase m key)).Nodup := by
  unfold keys mapErase at *
  exact List.Nodup.sublist (List.Sublist.map _ (List.filter_sublist _)) h

theorem length_mapErase_of_nodup {κ β : Type} [DecidableEq κ] (m : List (κ × β)) (key : κ)
    (v : β) (hn : (keys m).Nodup) (h : mapFind m key = some v) :
    (mapErase m key).length + 1 = m.length := by
  induction m with
  | nil => simp [mapFind] at h
  | cons e rest ih =>
    obtain ⟨k, w⟩ := e
    simp only [keys, List.map_cons, List.nodup_cons] at hn
    by_cases hk : k = key
    · subst hk
      have hrest : mapFind rest k = none := by
        cases hr : mapFind rest k with
        | none => rfl
        | some x =>
          obtain ⟨y, hy⟩ := (mapFind_isSome_iff rest k).mp ⟨x, hr⟩
          exact absurd (List.mem_map.mpr ⟨(k, y), hy, rfl⟩) hn.1
      have hd : decide ((k, w).1 ≠ k) = false := by simp
      unfold mapErase
      rw [List.filter_cons, hd]
      simp only [Bool.false_eq_true, if_false, List.length_cons]
      have := mapErase_of_not_contains rest k hrest
      unfold mapErase at this
      rw [this]
    · have hd : decide ((k, w).1 ≠ key) = true := by simp [hk]
      unfold mapErase at ih ⊢
      rw [List.filter_cons, hd]
      simp only [if_true, List.length_cons]
      simp only [mapFind, hk, if_false] at h
      have := ih hn.2 h
      omega

/-- The counter of the loop of `discardBlock` grows by the number of entries that leave
`known_blocks` (whose keys are distinct, as in every map). -/
theorem discardLoop_count :
    ∀ (fuel : Nat) (self : SynchronizerImpl) (queue : List BlockHash) (affected : Nat)
      (evs : List Event), (keys self.known_blocks).Nodup →
      (discardLoop fuel self queue affected evs).2.1
          + (discardLoop fuel self queue affected evs).1.known_blocks.length
        = affected + self.known_blocks.length := by
  intro fuel
  induction fuel with
  | zero => intro self queue affected evs _; rfl
  | succ fuel ih =>
    intro self queue affected evs hn
    cases queue with
    | nil => rfl
    | cons hash rest =>
      simp only [discardLoop]
      cases hfind : mapFind self.known_blocks hash with
      | some kb =>
        dsimp only
        rw [ih _ _ _ _ (by
          simp only [notifySubscribers]
          exact nodup_keys_mapErase _ _ hn)]
        simp only [notifySubscribers]
        have := length_mapErase_of_nodup self.known_blocks hash kb hn hfind
        omega
      | none =>
        dsimp only
        exact ih { self with ancestry := mapErase self.ancestry hash } _ _ _ hn

theorem discardLoop_events_grow :
    ∀ (fuel : Nat) (self : SynchronizerImpl) (queue : List BlockHash) (affected : Nat)
      (evs : List Event),
      (∀ e ∈ evs, e ∈ (discardLoop fuel self queue affected evs).2.2)
      ∧ ∀ e ∈ (discardLoop fuel self queue affected evs).2.2,
          e ∈ evs ∨ ∃ h, e = Event.scheduledHandler h
            (.failure (.synchronizer .DISCARDED_BLOCK)) := by
  intro fuel
  induction fuel with
  | zero => intro self queue affected evs; exact ⟨fun e he => he, fun e he => Or.inl he⟩
  | succ fuel ih =>
    intro self queue affected evs
    cases queue with
    | nil => exact ⟨fun e he => he, fun e he => Or.inl he⟩
    | cons hash rest =>
      simp only [discardLoop]
      cases hfind : mapFind self.known_blocks hash with
      | some kb =>
        dsimp only
        obtain ⟨i1, i2⟩ := ih
          { (notifySubscribers self ⟨headerNumber kb.data, hash⟩
                (.failure (.synchronizer .DISCARDED_BLOCK))).1 with
            known_blocks := mapErase (notifySubscribers self ⟨headerNumber kb.data, hash⟩
                (.failure (.synchronizer .DISCARDED_BLOCK))).1.known_blocks hash,
            ancestry := mapErase (notifySubscribers self ⟨headerNumber kb.data, hash⟩
                (.failure (.synchronizer .DISCARDED_BLOCK))).1.ancestry hash }
          (rest ++ equalRange self.ancestry hash) (affected + 1)
          (evs ++ (notifySubscribers self ⟨headerNumber kb.data, hash⟩
                (.failure (.synchronizer .DISCARDED_BLOCK))).2)
        constructor
        · intro e he
          exact i1 e (List.mem_append_left _ he)
        · intro e he
          rcases i2 e he with h1 | h1
          · rcases List.mem_append.mp h1 with h2 | h2
            · exact Or.inl h2
            · right
              simp only [notifySubscribers, List.mem_map] at h2
              obtain ⟨h, _, rfl⟩ := h2
              exact ⟨h, rfl⟩
          · exact Or.inr h1
      | none =>
        dsimp only
        exact ih { self with ancestry := mapErase self.ancestry hash } _ _ _

/-- The loop of `discardBlock` notifies the subscribers of every block it removes: for a
visited hash `x` with queue entry `kb`, each handler subscribed to
`BlockInfo(kb.data.header->number, x)` is scheduled with `DISCARDED_BLOCK`. -/
theorem discardLoop_notifies :
    ∀ (fuel : Nat) (self : SynchronizerImpl) (queue : List BlockHash) (affected : Nat)
      (evs : List Event), queue.length + self.ancestry.length ≤ fuel →
      (keys self.known_blocks).Nodup →
      ∀ (x : BlockHash) (kb : KnownBlock) (h : Handler),
        (x, kb) ∈ self.known_blocks → Visited self.ancestry queue x →
        (⟨headerNumber kb.data, x⟩, h) ∈ self.subscriptions →
        Event.scheduledHandler h (.failure (.synchronizer .DISCARDED_BLOCK))
          ∈ (discardLoop fuel self queue affected evs).2.2 := by
  intro fuel
  induction fuel with
  | zero =>
    intro self queue affected evs hf _ x kb h _ hv _
    have hq : queue = [] := List.length_eq_zero.mp (by omega)
    subst hq
    obtain ⟨q, hq, _⟩ := hv
    simp at hq
  | succ fuel ih =>
    intro self queue affected evs hf hn x kb h hmem hv hsub
    cases queue with
    | nil =>
      obtain ⟨q, hq, _⟩ := hv
      simp at hq
    | cons hash rest =>
      have hlen := equalRange_length_add self.ancestry hash
      have hx := mapFind_of_nodup self.known_blocks hn x kb hmem
      simp only [discardLoop]
      cases hfind : mapFind self.known_blocks hash with
      | some kb1 =>
        dsimp only
        by_cases hxh : x = hash
        · subst hxh
          rw [hx] at hfind
          simp only [Option.some.injEq] at hfind
          subst hfind
          apply (discardLoop_events_grow _ _ _ _ _).1
          apply List.mem_append_right
          simp only [notifySubscribers, List.mem_map]
          exact ⟨h, (mem_equalRange _ _ _).mpr hsub, rfl⟩
        · apply ih
          · simp only [notifySubscribers, List.length_append]
            simp only [List.length_cons] at hf
            omega
          · simp only [notifySubscribers]
            exact nodup_keys_mapErase _ _ hn
          · simp only [notifySubscribers, mapErase, List.mem_filter]
            exact ⟨hmem, by simpa using hxh⟩
          · simp only [notifySubscribers]
            rcases (visited_step self.ancestry hash rest x).mp hv with h1 | h1
            · exact absurd h1 hxh
            · exact h1
          · simp only [notifySubscribers, mapErase, List.mem_filter]
            refine ⟨hsub, ?_⟩
            simp only [ne_eq, decide_eq_true_eq, BlockInfo.mk.injEq, not_and]
            intro _ hc
            exact hxh hc
      | none =>
        dsimp only
        have hxh : x ≠ hash := by
          intro hc
          rw [hc] at hx
          rw [hx] at hfind
          exact absurd hfind (by simp)
        apply ih { self with ancestry := mapErase self.ancestry hash }
        · simp only [List.length_append]
          simp only [List.length_cons] at hf
          omega
        · exact hn
        · exact hmem
        · rcases (visited_step self.ancestry hash rest x).mp hv with h1 | h1
          · exact absurd h1 hxh
          · exact h1
        · exact hsub

/-- Claim C26 (discardBlock). For every state - whatever the ancestry multimap holds,
cycles and repeated entries included - the loop of `discardBlock(h)` comes to its end
within `ancestry_.size() + 1` iterations (a larger budget gives the same result). The
call leaves in `known_blocks` exactly the entries whose key is neither `h` nor reachable
from `h` through `ancestry`, and in `ancestry` exactly the entries whose parent key is
neither `h` nor reachable from `h`, both in their order. It returns the number of
entries that left `known_blocks`, schedules every handler subscribed to a removed block
(under the number of its header and its hash) with `DISCARDED_BLOCK`, and emits nothing
else. The count and the notifications are stated for a `known_blocks` with distinct keys,
which it has as a map. -/
theorem discardBlock_cascade (self : SynchronizerImpl) (h : BlockHash) :
    (∀ n : Nat, discardLoop (self.ancestry.length + 1 + n) self [h] 0 [] = discardBlock self h)
    ∧ (discardBlock self h).1.known_blocks
        = self.known_blocks.filter (fun e =>
            @decide (¬ Reach self.ancestry h e.1) (Classical.propDecidable _))
    ∧ (discardBlock self h).1.ancestry
        = self.ancestry.filter (fun e =>
            @decide (¬ Reach self.ancestry h e.1) (Classical.propDecidable _))
    ∧ ((keys self.known_blocks).Nodup →
        (discardBlock self h).2.1 + (discardBlock self h).1.known_blocks.length
          = self.known_blocks.length)
    ∧ ((keys self.known_blocks).Nodup →
        ∀ (x : BlockHash) (kb : KnownBlock) (handler : Handler),
          (x, kb) ∈ self.known_blocks → Reach self.ancestry h x →
          (⟨headerNumber kb.data, x⟩, handler) ∈ self.subscriptions →
          Event.scheduledHandler handler (.failure (.synchronizer .DISCARDED_BLOCK))
            ∈ (discardBlock self h).2.2)
    ∧ (∀ e ∈ (discardBlock self h).2.2,
        ∃ handler, e = Event.scheduledHandler handler
          (.failure (.synchronizer .DISCARDED_BLOCK))) := by
  have hv : ∀ x, Visited self.ancestry [h] x ↔ Reach self.ancestry h x := by
    intro x
    simp [Visited]
  have hfilter : ∀ {β : Type} (m : List (BlockHash × β)),
      m.filter (fun e =>
        @decide (¬ Visited self.ancestry [h] e.1) (Classical.propDecidable _))
      = m.filter (fun e =>
        @decide (¬ Reach self.ancestry h e.1) (Classical.propDecidable _)) := by
    intro β m
    apply List.filter_congr
    intro e _
    rw [Bool.eq_iff_iff]
    simp only [decide_eq_true_eq, hv]
  have hbound : [h].length + self.ancestry.length ≤ self.ancestry.length + 1 := by
    simp only [List.length_singleton]; omega
  obtain ⟨r1, r2⟩ := discardLoop_result (self.ancestry.length + 1) self [h] 0 [] hbound
  refine ⟨?_, ?_, ?_, ?_, ?_, ?_⟩
  · intro n
    unfold discardBlock
    rw [discardLoop_fuel (self.ancestry.length + 1 + n) self [h] 0 []
        (by simp only [List.length_singleton]; omega),
      discardLoop_fuel (self.ancestry.length + 1) self [h] 0 [] hbound]
  · unfold discardBlock
    rw [r1, hfilter]
  · unfold discardBlock
    rw [r2, hfilter]
  · intro hn
    have := discardLoop_count (self.ancestry.length + 1) self [h] 0 [] hn
    unfold discardBlock
    omega
  · intro hn x kb handler hmem hreach hsub
    unfold discardBlock
    exact discardLoop_notifies _ self [h] 0 [] hbound hn x kb handler hmem
      ((hv x).mpr hreach) hsub
  · intro e he
    unfold discardBlock at he
    rcases (discardLoop_events_grow _ self [h] 0 []).2 e he with h1 | h1
    · simp at h1
    · exact h1

/-- Worked example for C26: the ancestry multimap has a cycle between `fork1` and `fork2`
and a repeated entry. `discardBlock(fork1)` ends, removes `fork1` and `fork2` and their
ancestry entries, returns 2, notifies the subscriber of `fork2`, and leaves `C3`. -/
theorem discardBlock_cascade_witness :
    discardBlock Scenario.cyclicQueue Scenario.fork1.hash
      = ({ Scenario.cyclicQueue with
            known_blocks := [(Scenario.C3.hash, ⟨Scenario.C3, [7]⟩)],
            ancestry := [(Scenario.A2.hash, Scenario.C3.hash)],
            subscriptions := [] },
         2,
         [Event.scheduledHandler (.user 4) (.failure (.synchronizer .DISCARDED_BLOCK))])
    ∧ (discardBlock Scenario.cyclicQueue Scenario.fork1.hash).2.1
        + (discardBlock Scenario.cyclicQueue Scenario.fork1.hash).1.known_blocks.length
      = Scenario.cyclicQueue.known_blocks.length
    ∧ Event.scheduledHandler (.user 4) (.failure (.synchronizer .DISCARDED_BLOCK))
        ∈ (discardBlock Scenario.cyclicQueue Scenario.fork1.hash).2.2 :=
  have h := discardBlock_cascade Scenario.cyclicQueue Scenario.fork1.hash
  ⟨by decide, h.2.2.2.1 (by decide),
   h.2.2.2.2.1 (by decide) Scenario.fork2.hash ⟨Scenario.fork2, [7]⟩ (.user 4) (by decide)
     (Relation.ReflTransGen.single
       (show (Scenario.fork1.hash, Scenario.fork2.hash) ∈ Scenario.cyclicQueue.ancestry
         by decide))
     (by decide)⟩

/-- Claim C27, evaluated at the failing inputs (the code drops an entry it should keep).
The first loop of `prune` takes each entry out of `generations_` with `extract` before it
compares its number with `F.number`, and leaves the loop by `break` without putting the
entry back: the first entry numbered `F.number` or above leaves `generations_` although
its block stays in `known_blocks_`. First input: the queue holds `C3` and `C4` and
`F = C3`; afterwards `C3` is still a key of `known_blocks` but no entry of `generations`,
so the next `applyNextBlock` pops `C4`, and `C3` is never popped. Second input: the queue
holds `C3`, the competing `C3b` and `C4` (child of `C3`), and `F = C3b`; the dropped entry
is the one of `C3`, which the second loop therefore does not find: `C3` and its
descendant `C4` stay in `known_blocks` although `C3` is numbered `F.number` and is not
`F`. -/
theorem prune_drops_first_remaining_entry :
    (Scenario.queueC3C4.generations = [(3, Scenario.C3.hash), (4, Scenario.C4.hash)]
      ∧ (prune Scenario.queueC3C4 ⟨3, Scenario.C3.hash⟩).1.generations
          = [(4, Scenario.C4.hash)]
      ∧ mapContains (prune Scenario.queueC3C4 ⟨3, Scenario.C3.hash⟩).1.known_blocks
          Scenario.C3.hash = true
      ∧ (applyNextBlock Scenario.env Scenario.tree0
          (prune Scenario.queueC3C4 ⟨3, Scenario.C3.hash⟩).1).2
          = [Event.applyBlock ⟨Scenario.C3.hash, 4, 0, 0, []⟩ [] none
              ⟨Scenario.C4.hash, none⟩]
      ∧ (applyNextBlock Scenario.env Scenario.tree0
          (prune Scenario.queueC3C4 ⟨3, Scenario.C3.hash⟩).1).1.generations = [])
    ∧ (Scenario.queueWithCompetitor.generations
          = [(3, Scenario.C3.hash), (3, Scenario.C3b.hash), (4, Scenario.C4.hash)]
      ∧ Scenario.C3.hash ≠ Scenario.C3b.hash
      ∧ (prune Scenario.queueWithCompetitor ⟨3, Scenario.C3b.hash⟩).1.generations
          = [(3, Scenario.C3b.hash), (4, Scenario.C4.hash)]
      ∧ mapContains (prune Scenario.queueWithCompetitor ⟨3, Scenario.C3b.hash⟩).1.known_blocks
          Scenario.C3.hash = true
      ∧ mapContains (prune Scenario.queueWithCompetitor ⟨3, Scenario.C3b.hash⟩).1.known_blocks
          Scenario.C4.hash = true) := by
  decide

theorem Preserved.refl (self : SynchronizerImpl) (evs : List Event)
    (h : sentRequests evs = []) : Preserved self self evs :=
  ⟨fun hp => hp, fun hf => ⟨hf, h⟩⟩

theorem Preserved.trans {a b c : SynchronizerImpl} {e1 e2 : List Event}
    (h1 : Preserved a b e1) (h2 : Preserved b c e2) : Preserved a c (e1 ++ e2) := by
  refine ⟨fun hp => h2.1 (h1.1 hp), fun hf => ?_⟩
  obtain ⟨f1, r1⟩ := h1.2 hf
  obtain ⟨f2, r2⟩ := h2.2 f1
  exact ⟨f2, by rw [sentRequests_append, r1, r2]; rfl⟩

theorem Preserved.append {a b : SynchronizerImpl} {e1 : List Event} (e2 : List Event)
    (h1 : Preserved a b e1) (h2 : sentRequests e2 = []) : Preserved a b (e1 ++ e2) :=
  h1.trans (Preserved.refl b e2 h2)

theorem Preserved.prepend {a b : SynchronizerImpl} {e2 : List Event} (e1 : List Event)
    (h1 : sentRequests e1 = []) (h2 : Preserved a b e2) : Preserved a b (e1 ++ e2) :=
  (Preserved.refl a e1 h1).trans h2

/-- A step that keeps `known_blocks` and the shutdown flag, and sends no block request
when the node is shutting down. -/
theorem Preserved.frame {a b : SynchronizerImpl} {evs : List Event}
    (hk : b.known_blocks = a.known_blocks)
    (hf : b.node_is_shutting_down = a.node_is_shutting_down)
    (hr : a.node_is_shutting_down = true → sentRequests evs = []) : Preserved a b evs := by
  refine ⟨fun hp => ?_, fun h => ⟨by rw [hf]; exact h, hr h⟩⟩
  unfold headersPresent at hp ⊢
  rw [hk]
  exact hp

/-- A step that only drops entries of `known_blocks` or rewrites them with their header
kept. -/
theorem Preserved.known {a b : SynchronizerImpl} {evs : List Event}
    (hk : ∀ e ∈ b.known_blocks, ∃ e0 ∈ a.known_blocks,
      e0.2.data.header.isSome = true → e.2.data.header.isSome = true)
    (hf : b.node_is_shutting_down = a.node_is_shutting_down)
    (hr : a.node_is_shutting_down = true → sentRequests evs = []) : Preserved a b evs := by
  refine ⟨fun hp => ?_, fun h => ⟨by rw [hf]; exact h, hr h⟩⟩
  intro e he
  obtain ⟨e0, he0, himp⟩ := hk e he
  exact himp (hp e0 he0)

theorem known_mapErase (m : List (BlockHash × KnownBlock)) (hash : BlockHash) :
    ∀ e ∈ mapErase m hash, ∃ e0 ∈ m,
      e0.2.data.header.isSome = true → e.2.data.header.isSome = true := by
  intro e he
  simp only [mapErase, List.mem_filter] at he
  exact ⟨e, he.1, fun h => h⟩

theorem known_mapUpdate (m : List (BlockHash × KnownBlock)) (hash : BlockHash)
    (f : KnownBlock → KnownBlock)
    (hf : ∀ kb, kb.data.header.isSome = true → (f kb).data.header.isSome = true) :
    ∀ e ∈ mapUpdate m hash f, ∃ e0 ∈ m,
      e0.2.data.header.isSome = true → e.2.data.header.isSome = true := by
  intro e he
  simp only [mapUpdate, List.mem_map] at he
  obtain ⟨e0, he0, rfl⟩ := he
  refine ⟨e0, he0, fun h => ?_⟩
  by_cases hk : e0.1 = hash
  · rw [if_pos hk]; exact hf _ h
  · rw [if_neg hk]; exact h

theorem findCommonBlock_preserved (env : Env) (self : SynchronizerImpl) (peer_id : PeerId)
    (lower upper hint : Nat) (handler : Handler) (observed : List (Nat × BlockHash)) :
    Preserved self (findCommonBlock env self peer_id lower upper hint handler observed).1
      (findCommonBlock env self peer_id lower upper hint handler observed).2.1 := by
  by_cases hs : self.node_is_shutting_down = true
  · have heq : findCommonBlock env self peer_id lower upper hint handler observed
        = (self, [Event.handler handler (.err .SHUTTING_DOWN)], none) := by
      simp [findCommonBlock, hs]
    rw [heq]
    exact Preserved.refl _ _ rfl
  · apply Preserved.frame
    · exact (findCommonBlock_queue env self peer_id lower upper hint handler observed).1
    · by_cases hd : mapContains self.recent_requests
          (peer_id, env.fingerprint (findRequest hint)) = true
      · simp [findCommonBlock, hs, hd]
      · simp [findCommonBlock, hs, hd, recordRequest]
    · intro h; exact absurd h hs

theorem loadBlocks_preserved (env : Env) (self : SynchronizerImpl) (peer_id : PeerId)
    (from_ : BlockInfo) (handler : Option Handler) :
    Preserved self (loadBlocks env self peer_id from_ handler).1
      (loadBlocks env self peer_id from_ handler).2 := by
  by_cases hs : self.node_is_shutting_down = true
  · have heq : loadBlocks env self peer_id from_ handler
        = (self, callHandler handler (.err .SHUTTING_DOWN)) := by
      simp [loadBlocks, hs]
    rw [heq]
    exact Preserved.refl _ _ (sentRequests_callHandler _ _)
  · apply Preserved.frame
    · exact (loadBlocks_queue env self peer_id from_ handler).1
    · by_cases hd : mapContains self.recent_requests
          (peer_id, env.fingerprint (loadBlocksRequest self.sync_method from_)) = true
      · simp [loadBlocks, hs, hd]
      · simp [loadBlocks, hs, hd, recordRequest]
    · intro h; exact absurd h hs

theorem loadJustifications_preserved (env : Env) (self : SynchronizerImpl)
    (peer_id : PeerId) (target_block : BlockInfo) (limit : Option Nat)
    (handler : Option Handler) :
    Preserved self (loadJustifications env self peer_id target_block limit handler).1
      (loadJustifications env self peer_id target_block limit handler).2 := by
  by_cases hs : self.node_is_shutting_down = true
  · have heq : loadJustifications env self peer_id target_block limit handler
        = (self, callHandler handler (.err .SHUTTING_DOWN)) := by
      simp [loadJustifications, hs]
    rw [heq]
    exact Preserved.refl _ _ (sentRequests_callHandler _ _)
  · by_cases hd : mapContains self.recent_requests
        (peer_id, env.fingerprint (loadJustificationsRequest target_block limit)) = true
    · apply Preserved.frame
      · simp [loadJustifications, hs, hd]
      · simp [loadJustifications, hs, hd]
      · intro h; exact absurd h hs
    · apply Preserved.frame
      · simp [loadJustifications, hs, hd, recordRequest]
      · simp [loadJustifications, hs, hd, recordRequest]
      · intro h; exact absurd h hs

theorem syncMissingJustifications_preserved (env : Env) (self : SynchronizerImpl)
    (peer_id : PeerId) (target_block : BlockInfo) (limit : Option Nat)
    (handler : Option Handler) :
    Preserved self (syncMissingJustifications env self peer_id target_block limit handler).1
      (syncMissingJustifications env self peer_id target_block limit handler).2 := by
  unfold syncMissingJustifications
  by_cases hb : peer_id ∈ self.busy_peers
  · rw [if_pos hb]
    exact Preserved.refl _ _ rfl
  · rw [if_neg hb]
    exact loadJustifications_preserved env self peer_id target_block limit handler

theorem rememberPeer_preserved (self : SynchronizerImpl) (hash : BlockHash)
    (peer_id : PeerId) (evs : List Event) (h : sentRequests evs = []) :
    Preserved self (rememberPeer self hash peer_id) evs := by
  apply Preserved.known
  · exact known_mapUpdate self.known_blocks hash
      (fun kb => { kb with peers := setInsert kb.peers peer_id }) (fun kb hkb => hkb)
  · rfl
  · intro _; exact h

theorem takePeer_preserved (self : SynchronizerImpl) (block_info : BlockInfo)
    (peer_id : PeerId) : Preserved self (takePeer self block_info peer_id) [] := by
  apply Preserved.known
  · exact known_mapUpdate self.known_blocks block_info.hash
      (fun kb => { kb with peers := setErase kb.peers peer_id }) (fun kb hkb => hkb)
  · rfl
  · intro _; rfl

theorem subscribeOnDemand_preserved (env : Env) (tree : BlockTree) (self : SynchronizerImpl)
    (block_info : BlockInfo) (handler : CallerHandler) (subscribe_to_block : Bool) :
    Preserved self
      (subscribeOnDemand env tree self block_info handler subscribe_to_block).1
      (subscribeOnDemand env tree self block_info handler subscribe_to_block).2.1 := by
  obtain ⟨_, hk, hr⟩ := subscribeOnDemand_frame env tree self block_info handler
    subscribe_to_block
  apply Preserved.frame hk _ (fun _ => hr)
  unfold subscribeOnDemand
  cases subscribe_to_block with
  | false => rfl
  | true =>
    rw [if_pos rfl]
    dsimp only
    unfold subscribeToBlock
    by_cases h1 : tree.hasBlockHeader block_info.hash = true
    · rw [if_pos h1]
    · rw [if_neg h1]
      dsimp only
      by_cases h2 : tree.last_finalized.number ≥ block_info.number
      · rw [if_pos h2]
      · rw [if_neg h2]
        by_cases h3 : tree.best_block.number + env.kMaxDistanceToBlockForSubscription
            < block_info.number
        · rw [if_pos h3]
        · rw [if_neg h3]

theorem findHandlerInvoke_preserved (env : Env) (self : SynchronizerImpl) (peer_id : PeerId)
    (handler : Option Handler) (res : SyncResult) :
    Preserved self (findHandlerInvoke env self peer_id handler res).1
      (findHandlerInvoke env self peer_id handler res).2 := by
  have h0 : Preserved self { self with busy_peers := setErase self.busy_peers peer_id } [] :=
    Preserved.frame rfl rfl (fun _ => rfl)
  unfold findHandlerInvoke
  cases res with
  | failure e => exact h0.trans (Preserved.refl _ _ (sentRequests_callHandler _ _))
  | value block_info =>
    dsimp only
    by_cases hk : mapContains self.known_blocks block_info.hash = true
    · rw [if_pos hk]
      exact h0.trans (rememberPeer_preserved _ _ _ _ (sentRequests_callHandler _ _))
    · rw [if_neg hk]
      exact h0.trans (loadBlocks_preserved env _ peer_id block_info handler)

theorem syncByBlockInfo_preserved (env : Env) (tree : BlockTree) (self : SynchronizerImpl)
    (block_info : BlockInfo) (peer_id : PeerId) (handler : CallerHandler)
    (subscribe_to_block : Bool) :
    Preserved self
      (syncByBlockInfo env tree self block_info peer_id handler subscribe_to_block).2.1
      (syncByBlockInfo env tree self block_info peer_id handler subscribe_to_block).2.2 := by
  have hsub := subscribeOnDemand_preserved env tree self block_info handler subscribe_to_block
  unfold syncByBlockInfo
  dsimp only
  generalize subscribeOnDemand env tree self block_info handler subscribe_to_block = sub
    at hsub ⊢
  by_cases h1 : mapContains sub.1.known_blocks block_info.hash = true
  · rw [if_pos h1]
    exact hsub.trans (rememberPeer_preserved _ _ _ _ (sentRequests_callHandler _ _))
  · rw [if_neg h1]
    by_cases h2 : peer_id ∈ sub.1.busy_peers
    · rw [if_pos h2]
      exact hsub
    · rw [if_neg h2]
      have hbusy : Preserved sub.1
          { sub.1 with busy_peers := setInsert sub.1.busy_peers peer_id } [] :=
        Preserved.frame rfl rfl (fun _ => rfl)
      by_cases h3 : block_info = tree.best_block
      · rw [if_pos h3]
        exact hsub.trans (hbusy.trans (Preserved.refl _ _ (sentRequests_callHandler _ _)))
      · rw [if_neg h3]
        by_cases h4 : tree.last_finalized.number
            < min block_info.number tree.best_block.number + 1
        · rw [if_neg (not_not.mpr h4)]
          have hfind := findCommonBlock_preserved env
            { sub.1 with busy_peers := setInsert sub.1.busy_peers peer_id } peer_id
            tree.last_finalized.number (min block_info.number tree.best_block.number + 1)
            (min block_info.number tree.best_block.number)
            (sub.2.2.findHandler peer_id) []
          generalize findCommonBlock env
            { sub.1 with busy_peers := setInsert sub.1.busy_peers peer_id } peer_id
            tree.last_finalized.number (min block_info.number tree.best_block.number + 1)
            (min block_info.number tree.best_block.number)
            (sub.2.2.findHandler peer_id) [] = r at hfind ⊢
          have hr := hsub.trans (hbusy.trans hfind)
          cases r.2.2 with
          | some c => exact hr
          | none =>
            dsimp only
            cases handlerCalls r.2.1 with
            | nil => exact hr
            | cons hd tl =>
              dsimp only
              have := hr.trans (findHandlerInvoke_preserved env r.1 peer_id
                sub.2.2.toHandler hd.2)
              simpa [List.append_assoc] using this
        · rw [if_pos h4]
          exact hsub.trans (hbusy.trans (Preserved.refl _ _ rfl))

theorem syncByBlockHeader_preserved (env : Env) (tree : BlockTree) (self : SynchronizerImpl)
    (header : BlockHeader) (peer_id : PeerId) (handler : Handler) :
    Preserved self (syncByBlockHeader env tree self header peer_id handler).2.1
      (syncByBlockHeader env tree self header peer_id handler).2.2 := by
  unfold syncByBlockHeader
  dsimp only
  by_cases h1 : tree.hasBlockHeader (env.hashHeader header) = true
  · rw [if_pos h1]
    exact Preserved.refl _ _ rfl
  · rw [if_neg h1]
    by_cases h2 : mapContains self.known_blocks (env.hashHeader header) = true
    · rw [if_pos h2]
      exact rememberPeer_preserved _ _ _ _ rfl
    · rw [if_neg h2]
      have hw1 : Preserved self
          (if self.watched_blocks_number < header.number then
            { self with watched_blocks_number := header.number, watched_blocks := [] }
           else self) [] := by
        by_cases hw : self.watched_blocks_number < header.number
        · rw [if_pos hw]; exact Preserved.frame rfl rfl (fun _ => rfl)
        · rw [if_neg hw]; exact Preserved.refl _ _ rfl
      generalize (if self.watched_blocks_number < header.number then
            ({ self with watched_blocks_number := header.number, watched_blocks := [] } :
              SynchronizerImpl)
           else self) = s1 at hw1 ⊢
      have hw2 : Preserved s1
          (if s1.watched_blocks_number = header.number then
            { s1 with watched_blocks :=
                mapEmplace s1.watched_blocks (env.hashHeader header) handler }
           else s1) [] := by
        by_cases hw : s1.watched_blocks_number = header.number
        · rw [if_pos hw]; exact Preserved.frame rfl rfl (fun _ => rfl)
        · rw [if_neg hw]; exact Preserved.refl _ _ rfl
      generalize (if s1.watched_blocks_number = header.number then
            ({ s1 with watched_blocks :=
                mapEmplace s1.watched_blocks (env.hashHeader header) handler } :
              SynchronizerImpl)
           else s1) = s2 at hw2 ⊢
      have h12 := hw1.trans hw2
      by_cases hp : (mapContains s2.known_blocks header.parent_hash
          || tree.hasBlockHeader header.parent_hash) = true
      · rw [if_pos hp]
        exact h12.trans (loadBlocks_preserved env s2 peer_id _ _)
      · rw [if_neg hp]
        exact h12.trans (syncByBlockInfo_preserved env tree s2 _ peer_id .announce false)

theorem loadBlocksResponse_quiet (env : Env) (tree : BlockTree) (self : SynchronizerImpl)
    (peer_id : PeerId) (handler : Option Handler) (response : Response) :
    sentRequests (loadBlocksResponse env tree self peer_id handler response).2 = [] := by
  unfold loadBlocksResponse
  cases response with
  | failure e => exact sentRequests_callHandler _ _
  | blocks bs =>
    dsimp only
    by_cases hbs : bs.isEmpty = true
    · rw [if_pos hbs]; exact sentRequests_callHandler _ _
    · rw [if_neg hbs]
      rcases loadBlocksLoop env tree peer_id ⟨self, zero_hash, false, BlockInfo.default⟩ bs
        with ⟨l, _ | e⟩
      · dsimp only
        rw [sentRequests_append, sentRequests_callHandler]
        cases l.some_blocks_added <;> rfl
      · exact sentRequests_callHandler _ _

theorem loadBlocksResponse_preserved (env : Env) (tree : BlockTree)
    (self : SynchronizerImpl) (peer_id : PeerId) (handler : Option Handler)
    (response : Response) :
    Preserved self (loadBlocksResponse env tree self peer_id handler response).1
      (loadBlocksResponse env tree self peer_id handler response).2 := by
  have hq := loadBlocksResponse_quiet env tree self peer_id handler response
  rcases loadBlocksResponse_state env tree self peer_id handler response with hs | ⟨bs, hs⟩
  · rw [hs]
    exact Preserved.refl _ _ hq
  · rw [hs]
    have hinv := loadBlocksLoop_invariant env tree peer_id
      (fun l => (headersPresent self → headersPresent l.self)
        ∧ l.self.node_is_shutting_down = self.node_is_shutting_down)
      (by
        intro l0 b0 l1 hP hstep
        obtain ⟨hd, hhd, hcase⟩ := loadBlocksBlock_ok env tree peer_id l0 l1 b0 hstep
        rcases hcase with ⟨_, rfl⟩ | ⟨_, _, _, _, rfl⟩
        · exact hP
        · unfold enqueueBlock
          by_cases hc : mapContains l0.self.known_blocks b0.hash = true
          · rw [if_pos hc]
            refine ⟨fun hp => ?_, hP.2⟩
            intro e he
            obtain ⟨e0, he0, himp⟩ := known_mapUpdate l0.self.known_blocks b0.hash
              (fun kb => { kb with peers := setInsert kb.peers peer_id })
              (fun kb hkb => hkb) e he
            exact himp (hP.1 hp e0 he0)
          · rw [if_neg hc]
            refine ⟨fun hp => ?_, hP.2⟩
            intro e he
            dsimp only at he
            rcases mem_mapEmplace _ _ _ _ he with h1 | h1
            · exact hP.1 hp e h1
            · rw [h1]
              dsimp only
              rw [hhd]
              rfl)
      bs ⟨self, zero_hash, false, BlockInfo.default⟩ ⟨fun hp => hp, rfl⟩
    exact ⟨hinv.1, fun hf => ⟨by rw [hinv.2]; exact hf, hq⟩⟩

theorem findCommonBlockResponse_preserved (env : Env) (tree : BlockTree) (fuel : Nat)
    (self : SynchronizerImpl) (c : FindCapture) (response : Response) :
    Preserved self (findCommonBlockResponse env tree fuel self c response).1
      (findCommonBlockResponse env tree fuel self c response).2.1 := by
  unfold findCommonBlockResponse
  cases response with
  | failure e => exact Preserved.refl _ _ rfl
  | blocks blocks =>
    cases blocks with
    | nil => exact Preserved.frame rfl rfl (fun _ => rfl)
    | cons front rest =>
      dsimp only
      cases narrowLoop tree self (mapEmplace c.observed c.target front.hash) fuel c.lower
          c.upper c.target front.hash with
      | done res => exact Preserved.refl _ _ rfl
      | outOfFuel => exact Preserved.refl _ _ rfl
      | again lower upper hint =>
        exact findCommonBlock_preserved env self c.peer_id lower upper hint c.handler _

theorem loadJustificationsLoop_frame :
    ∀ (blocks : List BlockData) (l : JustificationLoop),
      (loadJustificationsLoop l blocks).1.self.known_blocks = l.self.known_blocks
      ∧ (loadJustificationsLoop l blocks).1.self.node_is_shutting_down
          = l.self.node_is_shutting_down := by
  intro blocks
  induction blocks with
  | nil => intro l; exact ⟨rfl, rfl⟩
  | cons b rest ih =>
    intro l
    unfold loadJustificationsLoop
    cases b.header with
    | none => exact ⟨rfl, rfl⟩
    | some header =>
      dsimp only
      cases b.justification with
      | some j =>
        dsimp only
        obtain ⟨i1, i2⟩ := ih
          { self := { l.self with
                      justifications := l.self.justifications
                        ++ [((⟨header.number, b.hash⟩ : BlockInfo), j)] },
            justification_received := true,
            last_justified_block := ⟨header.number, b.hash⟩,
            last_observed_block := ⟨header.number, b.hash⟩ }
        exact ⟨i1, i2⟩
      | none =>
        dsimp only
        exact ih { l with last_observed_block := ⟨header.number, b.hash⟩ }

theorem loadJustificationsResponse_preserved (self : SynchronizerImpl) (peer_id : PeerId)
    (target_block : BlockInfo) (limit : Option Nat) (handler : Option Handler)
    (response : Response) :
    Preserved self
      (loadJustificationsResponse self peer_id target_block limit handler response).1
      (loadJustificationsResponse self peer_id target_block limit handler response).2 := by
  have hq := (loadJustificationsResponse_pages self peer_id target_block limit handler
    response).1
  refine Preserved.frame ?_ ?_ (fun _ => hq)
  · unfold loadJustificationsResponse
    cases response with
    | failure e => rfl
    | blocks blocks =>
      dsimp only
      by_cases hempty : blocks.isEmpty = true
      · rw [if_pos hempty]
      · rw [if_neg hempty]
        have hl := (loadJustificationsLoop_frame blocks
          ⟨self, false, BlockInfo.default, BlockInfo.default⟩).1
        generalize loadJustificationsLoop ⟨self, false, BlockInfo.default, BlockInfo.default⟩
          blocks = res at hl
        obtain ⟨l, flag⟩ := res
        cases flag with
        | true => exact hl
        | false =>
          dsimp only
          split <;> exact hl
  · unfold loadJustificationsResponse
    cases response with
    | failure e => rfl
    | blocks blocks =>
      dsimp only
      by_cases hempty : blocks.isEmpty = true
      · rw [if_pos hempty]
      · rw [if_neg hempty]
        have hl := (loadJustificationsLoop_frame blocks
          ⟨self, false, BlockInfo.default, BlockInfo.default⟩).2
        generalize loadJustificationsLoop ⟨self, false, BlockInfo.default, BlockInfo.default⟩
          blocks = res at hl
        obtain ⟨l, flag⟩ := res
        cases flag with
        | true => exact hl
        | false =>
          dsimp only
          split <;> exact hl

theorem askPortionFailed_preserved (self : SynchronizerImpl) (peer_id : PeerId) :
    Preserved self (askPortionFailed self peer_id) [] :=
  Preserved.frame rfl rfl (fun _ => rfl)

theorem askNextPortionOfBlocks_preserved (env : Env) (self : SynchronizerImpl) :
    Preserved self (askNextPortionOfBlocks env self).1 (askNextPortionOfBlocks env self).2 := by
  unfold askNextPortionOfBlocks
  by_cases hask : self.asking_blocks_portion_in_progress = true
  · rw [if_pos hask]
    exact Preserved.refl _ _ rfl
  · rw [if_neg hask]
    cases askNextPortionScan self self.generations.reverse with
    | none => exact Preserved.frame rfl rfl (fun _ => rfl)
    | some found =>
      obtain ⟨block_info, peer_id⟩ := found
      have ht := takePeer_preserved self block_info peer_id
      dsimp only
      by_cases hfull : (takePeer self block_info peer_id).sync_method = .Full
      · rw [if_pos hfull]
        have hfind := findCommonBlock_preserved env (takePeer self block_info peer_id)
          peer_id (((takePeer self block_info peer_id).generations.head?.map Prod.fst).getD 0)
          (((takePeer self block_info peer_id).generations.getLast?.map Prod.fst).getD 0 + 1)
          (((takePeer self block_info peer_id).generations.getLast?.map Prod.fst).getD 0)
          (.askPortionFind peer_id) []
        generalize findCommonBlock env (takePeer self block_info peer_id)
          peer_id (((takePeer self block_info peer_id).generations.head?.map Prod.fst).getD 0)
          (((takePeer self block_info peer_id).generations.getLast?.map Prod.fst).getD 0 + 1)
          (((takePeer self block_info peer_id).generations.getLast?.map Prod.fst).getD 0)
          (.askPortionFind peer_id) [] = r at hfind ⊢
        have hr := ht.trans hfind
        cases r.2.2 with
        | some c => exact hr
        | none =>
          dsimp only
          have := hr.trans (askPortionFailed_preserved r.1 peer_id)
          simpa using this
      · rw [if_neg hfull]
        have hload := loadBlocks_preserved env (takePeer self block_info peer_id) peer_id
          block_info (some (.askPortion peer_id))
        generalize loadBlocks env (takePeer self block_info peer_id) peer_id
          block_info (some (.askPortion peer_id)) = r at hload ⊢
        have hr := ht.trans hload
        by_cases hempty : (sentRequests r.2).isEmpty = true
        · rw [if_pos hempty]
          have := hr.trans (askPortionFailed_preserved r.1 peer_id)
          simpa using this
        · rw [if_neg hempty]
          exact hr

theorem askPortionInvoke_preserved (env : Env) (self : SynchronizerImpl) (peer_id : PeerId)
    (res : SyncResult) :
    Preserved self (askPortionInvoke env self peer_id res).1
      (askPortionInvoke env self peer_id res).2 := by
  have h0 := askPortionFailed_preserved self peer_id
  unfold askPortionInvoke
  cases res with
  | failure e => exact h0
  | value info =>
    dsimp only
    by_cases hk : (askPortionFailed self peer_id).known_blocks.isEmpty = true
    · rw [if_pos hk]
      exact h0.trans (askNextPortionOfBlocks_preserved env _)
    · rw [if_neg hk]
      exact h0

theorem askPortionFindInvoke_preserved (env : Env) (self : SynchronizerImpl)
    (peer_id : PeerId) (res : SyncResult) :
    Preserved self (askPortionFindInvoke env self peer_id res).1
      (askPortionFindInvoke env self peer_id res).2 := by
  unfold askPortionFindInvoke
  cases res with
  | failure e =>
    dsimp only
    exact Preserved.prepend [Event.handler (.askPortion peer_id) (.failure e)] rfl
      (askPortionInvoke_preserved env self peer_id (.failure e))
  | value info =>
    dsimp only
    have hload := loadBlocks_preserved env self peer_id info (some (.askPortion peer_id))
    generalize loadBlocks env self peer_id info (some (.askPortion peer_id)) = r at hload ⊢
    cases handlerCalls r.2 with
    | nil => exact hload
    | cons hd tl =>
      dsimp only
      exact hload.trans (askPortionInvoke_preserved env r.1 peer_id hd.2)

theorem invokeHandler_preserved (env : Env) (self : SynchronizerImpl) (h : Handler)
    (res : SyncResult) :
    Preserved self (invokeHandler env self h res).1 (invokeHandler env self h res).2 := by
  cases h with
  | user id => exact Preserved.refl _ _ rfl
  | announce => exact Preserved.refl _ _ rfl
  | justificationsLog lf info => exact Preserved.refl _ _ rfl
  | askPortion peer_id => exact askPortionInvoke_preserved env self peer_id res
  | askPortionFind peer_id => exact askPortionFindInvoke_preserved env self peer_id res
  | findHandler peer_id inner => exact findHandlerInvoke_preserved env self peer_id _ res
  | findHandlerAnnounce peer_id => exact findHandlerInvoke_preserved env self peer_id _ res
  | emptyFunction => exact Preserved.refl _ _ rfl

theorem dispatchHandlers_preserved (env : Env) (a : SynchronizerImpl) :
    ∀ (evs : List Event) (self : SynchronizerImpl) (acc : List Event),
      Preserved a self acc →
      Preserved a (dispatchHandlers env self evs acc).1 (dispatchHandlers env self evs acc).2 := by
  intro evs
  induction evs with
  | nil => intro self acc h; exact h
  | cons e rest ih =>
    intro self acc h
    cases e with
    | handler hd res =>
      simp only [dispatchHandlers]
      exact ih _ _ (h.trans (invokeHandler_preserved env self hd res))
    | _ =>
      simp only [dispatchHandlers]
      exact ih _ _ h

theorem respond_preserved (env : Env) (tree : BlockTree) (self : SynchronizerImpl)
    (response_handler : ResponseHandler) (response : Response) :
    Preserved self (respond env tree self response_handler response).1
      (respond env tree self response_handler response).2 := by
  unfold respond
  dsimp only
  apply dispatchHandlers_preserved
  cases response_handler with
  | findCommonBlock c => exact findCommonBlockResponse_preserved env tree _ self c response
  | loadBlocks peer_id handler =>
    exact loadBlocksResponse_preserved env tree self peer_id handler response
  | loadJustifications peer_id target_block limit handler =>
    exact loadJustificationsResponse_preserved self peer_id target_block limit handler response

theorem notifySubscribers_preserved (self : SynchronizerImpl) (block : BlockInfo)
    (res : AdditionResult) :
    Preserved self (notifySubscribers self block res).1 (notifySubscribers self block res).2 := by
  apply Preserved.frame rfl rfl
  intro _
  rw [notifySubscribers_result]
  simp [sentRequests, List.filterMap_map]

theorem discardLoop_flag :
    ∀ (fuel : Nat) (self : SynchronizerImpl) (queue : List BlockHash) (affected : Nat)
      (evs : List Event),
      (discardLoop fuel self queue affected evs).1.node_is_shutting_down
        = self.node_is_shutting_down := by
  intro fuel
  induction fuel with
  | zero => intro self queue affected evs; rfl
  | succ fuel ih =>
    intro self queue affected evs
    cases queue with
    | nil => rfl
    | cons hash rest =>
      simp only [discardLoop]
      cases hfind : mapFind self.known_blocks hash with
      | some kb => dsimp only; rw [ih]; rfl
      | none => dsimp only; rw [ih]

theorem discardBlock_preserved (self : SynchronizerImpl) (hash : BlockHash) :
    Preserved self (discardBlock self hash).1 (discardBlock self hash).2.2 := by
  apply Preserved.known
  · intro e he
    unfold discardBlock at he
    rw [(discardLoop_result (self.ancestry.length + 1) self [hash] 0 []
      (by simp only [List.length_singleton]; omega)).1] at he
    exact ⟨e, (List.mem_filter.mp he).1, fun h => h⟩
  · exact discardLoop_flag _ _ _ _ _
  · intro _
    unfold discardBlock
    have hall := (discardLoop_events_grow (self.ancestry.length + 1) self [hash] 0 []).2
    generalize (discardLoop (self.ancestry.length + 1) self [hash] 0 []).2.2 = evs at hall
    simp only [sentRequests, List.filterMap_eq_nil_iff]
    intro e he
    rcases hall e he with h1 | ⟨h, rfl⟩
    · simp at h1
    · rfl

theorem postApplyBlock_preserved (env : Env) (self : SynchronizerImpl) (hash : BlockHash) :
    Preserved self (postApplyBlock env self hash).1 (postApplyBlock env self hash).2 := by
  have h0 : Preserved self { self with ancestry := mapErase self.ancestry hash } [] :=
    Preserved.frame rfl rfl (fun _ => rfl)
  unfold postApplyBlock
  dsimp only
  by_cases hlt : self.known_blocks.length
      < (if self.sync_method = .Full then env.kMinPreloadedBlockAmount
         else env.kMinPreloadedBlockAmountForFastSyncing)
  · rw [if_pos hlt]
    exact (h0.trans (askNextPortionOfBlocks_preserved env _)).append
      [Event.scheduledApplyNextBlock] rfl
  · rw [if_neg hlt]
    exact h0.append [Event.scheduledApplyNextBlock] rfl

theorem requestJustifications_preserved (env : Env) (last_finalized block_info : BlockInfo)
    (a : SynchronizerImpl) :
    ∀ (peers : List PeerId) (self : SynchronizerImpl) (evs : List Event),
      Preserved a self evs →
      Preserved a (requestJustifications env last_finalized block_info self peers evs).1
        (requestJustifications env last_finalized block_info self peers evs).2 := by
  intro peers
  induction peers with
  | nil => intro self evs h; exact h
  | cons p rest ih =>
    intro self evs h
    unfold requestJustifications
    exact ih _ _ (h.trans (syncMissingJustifications_preserved env self p _ _ _))

theorem processBlockAdditionResult_preserved (env : Env) (tree : BlockTree)
    (self : SynchronizerImpl) (res : AdditionResult) (hash : BlockHash)
    (handler : Option Handler) :
    Preserved self (processBlockAdditionResult env tree self res hash handler).1
      (processBlockAdditionResult env tree self res hash handler).2 := by
  unfold processBlockAdditionResult
  cases mapFind self.known_blocks hash with
  | none => exact Preserved.refl _ _ rfl
  | some node =>
    dsimp only
    have h0 : Preserved self { self with known_blocks := mapErase self.known_blocks hash } [] :=
      Preserved.known (known_mapErase _ _) rfl (fun _ => rfl)
    cases node.data.header with
    | none => exact h0.append [Event.assertionFailure] rfl
    | some header =>
      dsimp only
      have hn := h0.trans (notifySubscribers_preserved
        { self with known_blocks := mapErase self.known_blocks hash }
        ⟨header.number, node.data.hash⟩ res)
      simp only [List.nil_append] at hn
      cases res with
      | failure e =>
        dsimp only
        by_cases he : e ≠ .BLOCK_EXISTS
        · rw [if_pos he]
          exact (hn.trans (discardBlock_preserved _ _)).append _ (sentRequests_callHandler _ _)
        · rw [if_neg he]
          exact hn.append _ (sentRequests_callHandler _ _)
      | success =>
        dsimp only
        have hevs := (hn.append [Event.blockImported ⟨header.number, node.data.hash⟩]
          rfl).append (callHandler handler (.value ⟨header.number, node.data.hash⟩))
          (sentRequests_callHandler _ _)
        by_cases htr : env.hasScheduledChange header = true
            ∨ blockNumberSub header.number kMaxJustificationLag / kJustificationInterval
                > tree.last_finalized.number / kJustificationInterval
        · rw [if_pos htr]
          exact requestJustifications_preserved env _ _ self _ _ _ hevs
        · rw [if_neg htr]
          exact hevs

theorem applyCallback_preserved (env : Env) (tree : BlockTree) (self : SynchronizerImpl)
    (callback : ApplyCallback) (res : AdditionResult) :
    Preserved self (applyCallback env tree self callback res).1
      (applyCallback env tree self callback res).2 := by
  unfold applyCallback
  exact (processBlockAdditionResult_preserved env tree self res callback.hash
    callback.handler).trans (postApplyBlock_preserved env _ callback.hash)

theorem applyNextBlock_preserved (env : Env) (tree : BlockTree) (self : SynchronizerImpl) :
    Preserved self (applyNextBlock env tree self).1 (applyNextBlock env tree self).2 := by
  cases hgen : self.generations with
  | nil =>
    have heq : applyNextBlock env tree self = (self, []) := by simp [applyNextBlock, hgen]
    rw [heq]
    exact Preserved.refl _ _ rfl
  | cons g rest =>
    obtain ⟨number, hash⟩ := g
    by_cases hidle : self.applying_in_progress = true
    · have heq : applyNextBlock env tree self = (self, []) := by
        simp [applyNextBlock, hgen, hidle]
      rw [heq]
      exact Preserved.refl _ _ rfl
    · have h1 : Preserved self { self with generations := rest } [] :=
        Preserved.frame rfl rfl (fun _ => rfl)
      cases hk : mapFind self.known_blocks hash with
      | none =>
        have heq : applyNextBlock env tree self
            = postApplyBlock env { self with generations := rest } hash := by
          simp [applyNextBlock, hgen, hidle, hk]
        rw [heq]
        exact h1.trans (postApplyBlock_preserved env _ hash)
      | some kb =>
        cases hh : kb.data.header with
        | none =>
          have heq : applyNextBlock env tree self
              = ({ self with generations := rest }, [Event.assertionFailure]) := by
            simp [applyNextBlock, hgen, hidle, hk, hh]
          rw [heq]
          exact h1.append [Event.assertionFailure] rfl
        | some header =>
          have hmoved : ∀ (self2 : SynchronizerImpl) (f : KnownBlock → KnownBlock)
              (evs : List Event),
              (∀ k, k.data.header.isSome = true → (f k).data.header.isSome = true) →
              sentRequests evs = [] →
              Preserved self2
                { self2 with known_blocks := mapUpdate self2.known_blocks hash f } evs := by
            intro self2 f evs hf hq
            exact Preserved.known (known_mapUpdate _ _ _ hf) rfl (fun _ => hq)
          have key : ∀ (self2 : SynchronizerImpl) (handler : Option Handler),
              Preserved self self2 [] →
              let r : SynchronizerImpl × List Event :=
                if header.number ≤ tree.last_finalized.number then
                  if ¬ tree.hasBlockHeader hash then
                    ((postApplyBlock env (discardBlock self2 kb.data.hash).1 hash).1,
                     (discardBlock self2 kb.data.hash).2.2
                       ++ callHandler handler (.err .DISCARDED_BLOCK)
                       ++ (postApplyBlock env (discardBlock self2 kb.data.hash).1 hash).2)
                  else postApplyBlock env self2 hash
                else
                  if self2.sync_method = .Full then
                    match kb.data.body with
                    | none =>
                      ({ self2 with known_blocks := mapUpdate self2.known_blocks hash (fun k =>
                          { k with data := { k.data with
                              header := some (movedFromHeader header) } }) },
                       [Event.badOptionalAccess])
                    | some body =>
                      ({ self2 with known_blocks := mapUpdate self2.known_blocks hash (fun k =>
                          { k with data := { k.data with
                              header := some (movedFromHeader header), body := some [] } }) },
                       [Event.applyBlock header body kb.data.justification ⟨hash, handler⟩])
                  else
                    match self2.state_sync with
                    | none =>
                      ({ self2 with known_blocks := mapUpdate self2.known_blocks hash (fun k =>
                          { k with data := { k.data with
                              header := some (movedFromHeader header) } }) },
                       [Event.appendHeader header kb.data.justification ⟨hash, handler⟩])
                    | some _ =>
                      ((discardBlock self2 kb.data.hash).1,
                       (discardBlock self2 kb.data.hash).2.2
                         ++ callHandler handler (.err .DISCARDED_BLOCK))
              Preserved self r.1 r.2 := by
            intro self2 handler h2
            dsimp only
            by_cases hst : header.number ≤ tree.last_finalized.number
            · rw [if_pos hst]
              by_cases hnot : tree.hasBlockHeader hash = true
              · rw [if_neg (by simp [hnot])]
                exact h2.trans (postApplyBlock_preserved env self2 hash)
              · rw [if_pos (by simp [hnot])]
                exact h2.trans ((((discardBlock_preserved self2 kb.data.hash).append _
                  (sentRequests_callHandler handler (.err .DISCARDED_BLOCK)))).trans
                  (postApplyBlock_preserved env _ hash))
            · rw [if_neg hst]
              by_cases hfull : self2.sync_method = .Full
              · rw [if_pos hfull]
                cases kb.data.body with
                | none => exact h2.trans (hmoved self2 _ _ (fun k _ => rfl) rfl)
                | some body => exact h2.trans (hmoved self2 _ _ (fun k _ => rfl) rfl)
              · rw [if_neg hfull]
                cases self2.state_sync with
                | none => exact h2.trans (hmoved self2 _ _ (fun k _ => rfl) rfl)
                | some ss =>
                  exact h2.trans ((discardBlock_preserved self2 kb.data.hash).append _
                    (sentRequests_callHandler handler (.err .DISCARDED_BLOCK)))
          by_cases hw : self.watched_blocks_number = header.number
          · have := key { self with generations := rest,
                                    watched_blocks := mapErase self.watched_blocks hash }
              (mapFind self.watched_blocks hash) (Preserved.frame rfl rfl (fun _ => rfl))
            simpa [applyNextBlock, hgen, hidle, hk, hh, hw] using this
          · have := key { self with generations := rest } none h1
            simpa [applyNextBlock, hgen, hidle, hk, hh, hw] using this

theorem applyNextJustification_preserved (self : SynchronizerImpl) :
    Preserved self (applyNextJustification self).1 (applyNextJustification self).2 := by
  unfold applyNextJustification
  by_cases h : self.applying_in_progress = true
  · rw [if_pos h]; exact Preserved.refl _ _ rfl
  · rw [if_neg h]
    apply Preserved.frame rfl rfl
    intro _
    simp [sentRequests, List.filterMap_map]

theorem runTask_preserved (env : Env) (tree : BlockTree) (self : SynchronizerImpl)
    (task : Event) :
    Preserved self (runTask env tree self task).1 (runTask env tree self task).2 := by
  cases task with
  | scheduledHandler h res => exact Preserved.refl _ _ rfl
  | scheduledRemoval peer_id fp => exact Preserved.frame rfl rfl (fun _ => rfl)
  | scheduledApplyNextBlock => exact applyNextBlock_preserved env tree self
  | scheduledApplyNextJustification => exact applyNextJustification_preserved self
  | scheduledSyncMissingJustifications peer_id target limit h =>
    exact syncMissingJustifications_preserved env self peer_id target limit h
  | scheduledLoadJustifications peer_id target limit h =>
    exact loadJustifications_preserved env self peer_id target limit h
  | _ => exact Preserved.refl _ _ rfl

theorem pruneBelow_preserved (finalized_block : BlockInfo) (a : SynchronizerImpl) :
    ∀ (gens : List (Nat × BlockHash)) (self : SynchronizerImpl) (evs : List Event),
      Preserved a self evs →
      Preserved a (pruneBelow finalized_block self gens evs).1
        (pruneBelow finalized_block self gens evs).2 := by
  intro gens
  induction gens with
  | nil =>
    intro self evs h
    have hf : Preserved self { self with generations := [] } [] :=
      Preserved.frame rfl rfl (fun _ => rfl)
    have := h.trans hf
    simpa [pruneBelow] using this
  | cons g rest ih =>
    intro self evs h
    obtain ⟨number, hash⟩ := g
    unfold pruneBelow
    by_cases hge : number ≥ finalized_block.number
    · rw [if_pos hge]
      have hf : Preserved self { self with generations := rest } [] :=
        Preserved.frame rfl rfl (fun _ => rfl)
      have := h.trans hf
      simpa using this
    · rw [if_neg hge]
      dsimp only
      apply ih
      have hn := notifySubscribers_preserved self ⟨number, hash⟩
        (.failure (.synchronizer .DISCARDED_BLOCK))
      have he : Preserved (notifySubscribers self ⟨number, hash⟩
            (.failure (.synchronizer .DISCARDED_BLOCK))).1
          { (notifySubscribers self ⟨number, hash⟩
              (.failure (.synchronizer .DISCARDED_BLOCK))).1 with
            known_blocks := mapErase (notifySubscribers self ⟨number, hash⟩
              (.failure (.synchronizer .DISCARDED_BLOCK))).1.known_blocks hash,
            ancestry := mapErase (notifySubscribers self ⟨number, hash⟩
              (.failure (.synchronizer .DISCARDED_BLOCK))).1.ancestry hash } [] :=
        Preserved.known (known_mapErase _ _) rfl (fun _ => rfl)
      have := h.trans (hn.trans he)
      simpa using this

theorem pruneEqual_preserved (finalized_block : BlockInfo) (a : SynchronizerImpl) :
    ∀ (hashes : List BlockHash) (self : SynchronizerImpl) (evs : List Event),
      Preserved a self evs →
      Preserved a (pruneEqual finalized_block self hashes evs).1
        (pruneEqual finalized_block self hashes evs).2 := by
  intro hashes
  induction hashes with
  | nil => intro self evs h; exact h
  | cons hash rest ih =>
    intro self evs h
    unfold pruneEqual
    by_cases hne : hash ≠ finalized_block.hash
    · rw [if_pos hne]
      exact ih _ _ (h.trans (discardBlock_preserved self hash))
    · rw [if_neg hne]
      exact ih _ _ h

theorem prune_preserved (self : SynchronizerImpl) (finalized_block : BlockInfo) :
    Preserved self (prune self finalized_block).1 (prune self finalized_block).2 := by
  unfold prune
  exact pruneEqual_preserved finalized_block self _ _ _
    (pruneBelow_preserved finalized_block self _ self [] (Preserved.refl _ _ rfl))

theorem syncStateNext_preserved (self : SynchronizerImpl) :
    Preserved self (syncStateNext self).1 (syncStateNext self).2 := by
  unfold syncStateNext
  cases self.state_sync with
  | none => exact Preserved.refl _ _ rfl
  | some s =>
    cases self.state_sync_flow with
    | none => exact Preserved.refl _ _ rfl
    | some f => exact Preserved.refl _ _ rfl

theorem syncState_preserved (senv : StateEnv) (self : SynchronizerImpl) (peer_id : PeerId)
    (block : BlockInfo) (handler : Handler) :
    Preserved self (syncState senv self peer_id block handler).1
      (syncState senv self peer_id block handler).2 := by
  unfold syncState
  by_cases h : self.state_sync.isSome = true
  · rw [if_pos h]; exact Preserved.refl _ _ rfl
  · rw [if_neg h]
    cases senv.getBlockHeader block.hash with
    | error e => exact Preserved.refl _ _ rfl
    | ok header =>
      dsimp only
      by_cases hs : senv.hasStateAt header.state_root = true
      · rw [if_pos hs]; exact Preserved.refl _ _ rfl
      · rw [if_neg hs]
        have h0 : Preserved self
            { self with
              state_sync_flow :=
                if self.state_sync_flow.isNone ∨ self.state_sync_flow ≠ some block
                then some block else self.state_sync_flow,
              state_sync := some ⟨peer_id, handler⟩,
              entries := 0 } [] := Preserved.frame rfl rfl (fun _ => rfl)
        exact h0.trans (syncStateNext_preserved _)

theorem syncStateResponse_preserved (self : SynchronizerImpl)
    (res : Except ErrorCode StateResponse) (flow : FlowAnswers) :
    Preserved self (syncStateResponse self res flow).1 (syncStateResponse self res flow).2 := by
  have hstep : Preserved self (syncStateOnResponse self res flow).1
      (syncStateOnResponse self res flow).2.1 := by
    unfold syncStateOnResponse
    cases res with
    | error e => exact Preserved.refl _ _ rfl
    | ok r =>
      dsimp only
      cases flow.onResponse with
      | error e => exact Preserved.refl _ _ rfl
      | ok u =>
        dsimp only
        have h0 : Preserved self
            { self with entries := self.entries + (r.entries.head?.getD []).length } [] :=
          Preserved.frame rfl rfl (fun _ => rfl)
        by_cases hc : flow.complete = true
        · rw [if_neg (by simp [hc])]
          cases flow.commit with
          | error e => exact h0
          | ok u2 =>
            dsimp only
            cases self.state_sync_flow with
            | none => exact h0
            | some block =>
              cases self.state_sync with
              | none => exact h0
              | some ss => exact Preserved.frame rfl rfl (fun _ => rfl)
        · rw [if_pos (by simp [hc])]
          exact h0.trans (syncStateNext_preserved _)
  unfold syncStateResponse
  dsimp only
  generalize syncStateOnResponse self res flow = ok at hstep ⊢
  cases ok.2.2 with
  | none => exact hstep
  | some e =>
    dsimp only
    cases hss : ok.1.state_sync with
    | none => exact hstep
    | some ss =>
      dsimp only
      have hf : Preserved ok.1 { ok.1 with state_sync := none }
          [Event.handler ss.cb (.failure e)] := Preserved.frame rfl rfl (fun _ => rfl)
      exact hstep.trans hf

theorem callHandler_noAssert (handler : Option Handler) (res : SyncResult) :
    Event.assertionFailure ∉ callHandler handler res := by
  cases handler <;> simp [callHandler]

theorem notifySubscribers_noAssert (self : SynchronizerImpl) (block : BlockInfo)
    (res : AdditionResult) : Event.assertionFailure ∉ (notifySubscribers self block res).2 := by
  cases res <;> simp [notifySubscribers]

theorem discardLoop_noAssert :
    ∀ (fuel : Nat) (self : SynchronizerImpl) (queue : List BlockHash) (affected : Nat)
      (evs : List Event), Event.assertionFailure ∉ evs →
      Event.assertionFailure ∉ (discardLoop fuel self queue affected evs).2.2 := by
  intro fuel
  induction fuel with
  | zero => intro self queue affected evs h; simpa [discardLoop] using h
  | succ fuel ih =>
    intro self queue affected evs h
    cases queue with
    | nil => simpa [discardLoop] using h
    | cons hash rest =>
      unfold discardLoop
      dsimp only
      cases mapFind self.known_blocks hash with
      | none => exact ih _ _ _ _ h
      | some kb =>
        apply ih
        intro hmem
        rcases List.mem_append.1 hmem with h1 | h1
        · exact h h1
        · exact notifySubscribers_noAssert _ _ _ h1

theorem discardBlock_noAssert (self : SynchronizerImpl) (hash : BlockHash) :
    Event.assertionFailure ∉ (discardBlock self hash).2.2 := by
  unfold discardBlock
  exact discardLoop_noAssert _ _ _ _ _ (by simp)

theorem findCommonBlock_noAssert (env : Env) (self : SynchronizerImpl) (peer_id : PeerId)
    (lower upper hint : Nat) (handler : Handler) (observed : List (Nat × BlockHash)) :
    Event.assertionFailure ∉
      (findCommonBlock env self peer_id lower upper hint handler observed).2.1 := by
  unfold findCommonBlock
  split
  · simp
  · dsimp only
    split <;> simp

theorem loadBlocks_noAssert (env : Env) (self : SynchronizerImpl) (peer_id : PeerId)
    (from_ : BlockInfo) (handler : Option Handler) :
    Event.assertionFailure ∉ (loadBlocks env self peer_id from_ handler).2 := by
  unfold loadBlocks
  split
  · exact callHandler_noAssert _ _
  · dsimp only
    split
    · exact callHandler_noAssert _ _
    · simp

theorem syncMissingJustifications_noAssert (env : Env) (self : SynchronizerImpl)
    (peer_id : PeerId) (target_block : BlockInfo) (limit : Option Nat)
    (handler : Option Handler) :
    Event.assertionFailure ∉
      (syncMissingJustifications env self peer_id target_block limit handler).2 := by
  unfold syncMissingJustifications
  split
  · simp
  · unfold loadJustifications
    split
    · exact callHandler_noAssert _ _
    · dsimp only
      split
      · exact callHandler_noAssert _ _
      · simp

theorem askNextPortionOfBlocks_noAssert (env : Env) (self : SynchronizerImpl) :
    Event.assertionFailure ∉ (askNextPortionOfBlocks env self).2 := by
  unfold askNextPortionOfBlocks
  split
  · simp
  · split
    · simp
    · dsimp only
      split
      · have h := findCommonBlock_noAssert env (takePeer self ‹BlockInfo› ‹PeerId›) ‹PeerId›
          (((takePeer self ‹BlockInfo› ‹PeerId›).generations.head?.map Prod.fst).getD 0)
          (((takePeer self ‹BlockInfo› ‹PeerId›).generations.getLast?.map Prod.fst).getD 0 + 1)
          (((takePeer self ‹BlockInfo› ‹PeerId›).generations.getLast?.map Prod.fst).getD 0)
          (.askPortionFind ‹PeerId›) []
        split <;> exact h
      · have h := loadBlocks_noAssert env (takePeer self ‹BlockInfo› ‹PeerId›) ‹PeerId›
          ‹BlockInfo› (some (.askPortion ‹PeerId›))
        split <;> exact h

theorem postApplyBlock_noAssert (env : Env) (self : SynchronizerImpl) (hash : BlockHash) :
    Event.assertionFailure ∉ (postApplyBlock env self hash).2 := by
  unfold postApplyBlock
  dsimp only
  by_cases hlt : self.known_blocks.length
      < (if self.sync_method = .Full then env.kMinPreloadedBlockAmount
         else env.kMinPreloadedBlockAmountForFastSyncing)
  · rw [if_pos hlt]
    intro hmem
    rcases List.mem_append.1 hmem with h1 | h1
    · exact askNextPortionOfBlocks_noAssert env _ h1
    · simp at h1
  · rw [if_neg hlt]
    simp

theorem requestJustifications_noAssert (env : Env) (last_finalized block_info : BlockInfo) :
    ∀ (peers : List PeerId) (self : SynchronizerImpl) (evs : List Event),
      Event.assertionFailure ∉ evs →
      Event.assertionFailure ∉
        (requestJustifications env last_finalized block_info self peers evs).2 := by
  intro peers
  induction peers with
  | nil => intro self evs h; simpa [requestJustifications] using h
  | cons p rest ih =>
    intro self evs h
    unfold requestJustifications
    dsimp only
    apply ih
    intro hmem
    rcases List.mem_append.1 hmem with h1 | h1
    · exact h h1
    · exact syncMissingJustifications_noAssert _ _ _ _ _ _ h1

theorem mapFind_mem {κ β : Type} [DecidableEq κ] (m : List (κ × β)) (key : κ) (v : β)
    (h : mapFind m key = some v) : (key, v) ∈ m := by
  induction m with
  | nil => simp [mapFind] at h
  | cons e rest ih =>
    obtain ⟨k, w⟩ := e
    unfold mapFind at h
    by_cases he : k = key
    · rw [if_pos he] at h
      cases h
      rw [he]
      exact List.mem_cons_self _ _
    · rw [if_neg he] at h
      exact List.mem_cons_of_mem _ (ih h)

theorem not_mem_append_of {e : Event} {a b : List Event} (ha : e ∉ a) (hb : e ∉ b) :
    e ∉ a ++ b := by
  intro h
  rcases List.mem_append.1 h with h1 | h1
  · exact ha h1
  · exact hb h1

theorem processBlockAdditionResult_noAssert (env : Env) (tree : BlockTree)
    (self : SynchronizerImpl) (res : AdditionResult) (hash : BlockHash)
    (handler : Option Handler) (hp : headersPresent self) :
    Event.assertionFailure ∉ (processBlockAdditionResult env tree self res hash handler).2 := by
  unfold processBlockAdditionResult
  cases hk : mapFind self.known_blocks hash with
  | none => simp
  | some node =>
    dsimp only
    have hh := hp _ (mapFind_mem _ _ _ hk)
    cases hd : node.data.header with
    | none => simp [hd] at hh
    | some header =>
      dsimp only
      have hn := notifySubscribers_noAssert
        { self with known_blocks := mapErase self.known_blocks hash }
        ⟨header.number, node.data.hash⟩ res
      cases res with
      | failure e =>
        dsimp only
        by_cases he : e ≠ .BLOCK_EXISTS
        · rw [if_pos he]
          exact not_mem_append_of (not_mem_append_of hn (discardBlock_noAssert _ _))
            (callHandler_noAssert _ _)
        · rw [if_neg he]
          exact not_mem_append_of hn (callHandler_noAssert _ _)
      | success =>
        dsimp only
        have hevs : Event.assertionFailure ∉
            (notifySubscribers { self with known_blocks := mapErase self.known_blocks hash }
                ⟨header.number, node.data.hash⟩ .success).2
              ++ [Event.blockImported ⟨header.number, node.data.hash⟩]
              ++ callHandler handler (.value ⟨header.number, node.data.hash⟩) :=
          not_mem_append_of (not_mem_append_of hn (by simp)) (callHandler_noAssert _ _)
        by_cases htr : env.hasScheduledChange header = true
            ∨ blockNumberSub header.number kMaxJustificationLag / kJustificationInterval
                > tree.last_finalized.number / kJustificationInterval
        · rw [if_pos htr]
          exact requestJustifications_noAssert env _ _ _ _ _ hevs
        · rw [if_neg htr]
          exact hevs

theorem applyNextBlock_noAssert (env : Env) (tree : BlockTree) (self : SynchronizerImpl)
    (hp : headersPresent self) :
    Event.assertionFailure ∉ (applyNextBlock env tree self).2 := by
  cases hgen : self.generations with
  | nil =>
    have heq : applyNextBlock env tree self = (self, []) := by simp [applyNextBlock, hgen]
    rw [heq]; simp
  | cons g rest =>
    obtain ⟨number, hash⟩ := g
    by_cases hidle : self.applying_in_progress = true
    · have heq : applyNextBlock env tree self = (self, []) := by
        simp [applyNextBlock, hgen, hidle]
      rw [heq]; simp
    · cases hk : mapFind self.known_blocks hash with
      | none =>
        have heq : applyNextBlock env tree self
            = postApplyBlock env { self with generations := rest } hash := by
          simp [applyNextBlock, hgen, hidle, hk]
        rw [heq]
        exact postApplyBlock_noAssert env _ hash
      | some kb =>
        have hh := hp _ (mapFind_mem _ _ _ hk)
        cases hd : kb.data.header with
        | none => simp [hd] at hh
        | some header =>
          have key : ∀ (self2 : SynchronizerImpl) (handler : Option Handler),
              let r : SynchronizerImpl × List Event :=
                if header.number ≤ tree.last_finalized.number then
                  if ¬ tree.hasBlockHeader hash then
                    ((postApplyBlock env (discardBlock self2 kb.data.hash).1 hash).1,
                     (discardBlock self2 kb.data.hash).2.2
                       ++ callHandler handler (.err .DISCARDED_BLOCK)
                       ++ (postApplyBlock env (discardBlock self2 kb.data.hash).1 hash).2)
                  else postApplyBlock env self2 hash
                else
                  if self2.sync_method = .Full then
                    match kb.data.body with
                    | none =>
                      ({ self2 with known_blocks := mapUpdate self2.known_blocks hash (fun k =>
                          { k with data := { k.data with
                              header := some (movedFromHeader header) } }) },
                       [Event.badOptionalAccess])
                    | some body =>
                      ({ self2 with known_blocks := mapUpdate self2.known_blocks hash (fun k =>
                          { k with data := { k.data with
                              header := some (movedFromHeader header), body := some [] } }) },
                       [Event.applyBlock header body kb.data.justification ⟨hash, handler⟩])
                  else
                    match self2.state_sync with
                    | none =>
                      ({ self2 with known_blocks := mapUpdate self2.known_blocks hash (fun k =>
                          { k with data := { k.data with
                              header := some (movedFromHeader header) } }) },
                       [Event.appendHeader header kb.data.justification ⟨hash, handler⟩])
                    | some _ =>
                      ((discardBlock self2 kb.data.hash).1,
                       (discardBlock self2 kb.data.hash).2.2
                         ++ callHandler handler (.err .DISCARDED_BLOCK))
              Event.assertionFailure ∉ r.2 := by
            intro self2 handler
            dsimp only
            by_cases hst : header.number ≤ tree.last_finalized.number
            · rw [if_pos hst]
              by_cases hnot : tree.hasBlockHeader hash = true
              · rw [if_neg (by simp [hnot])]
                exact postApplyBlock_noAssert env self2 hash
              · rw [if_pos (by simp [hnot])]
                exact not_mem_append_of (not_mem_append_of (discardBlock_noAssert _ _)
                  (callHandler_noAssert _ _)) (postApplyBlock_noAssert env _ hash)
            · rw [if_neg hst]
              by_cases hfull : self2.sync_method = .Full
              · rw [if_pos hfull]
                cases kb.data.body with
                | none => simp
                | some body => simp
              · rw [if_neg hfull]
                cases self2.state_sync with
                | none => simp
                | some ss =>
                  exact not_mem_append_of (discardBlock_noAssert _ _) (callHandler_noAssert _ _)
          by_cases hw : self.watched_blocks_number = header.number
          · have := key { self with generations := rest,
                                    watched_blocks := mapErase self.watched_blocks hash }
              (mapFind self.watched_blocks hash)
            simpa [applyNextBlock, hgen, hidle, hk, hd, hw] using this
          · have := key { self with generations := rest } none
            simpa [applyNextBlock, hgen, hidle, hk, hd, hw] using this

theorem requests_of_quiet (evs : List Event) (h : sentRequests evs = []) :
    evs.filterMap (fun e =>
      match e with
      | .request p req k => some (p, req, k)
      | _ => none) = [] := by
  induction evs with
  | nil => rfl
  | cons e rest ih =>
    cases e <;> simp_all [sentRequests, List.filterMap_cons]

theorem absorb_invariant (n : Node) (r : SynchronizerImpl × List Event)
    (a : SynchronizerImpl) (h : Preserved a r.1 r.2) :
    (headersPresent a → headersPresent (n.absorb r).self)
    ∧ (a.node_is_shutting_down = true →
        (n.absorb r).self.node_is_shutting_down = true
        ∧ (n.absorb r).requests = n.requests) := by
  refine ⟨h.1, fun hs => ⟨(h.2 hs).1, ?_⟩⟩
  show n.requests ++ _ = n.requests
  rw [requests_of_quiet _ (h.2 hs).2, List.append_nil]

theorem step_invariant (env : Env) (tree : BlockTree) (n : Node) (a : Action) :
    (headersPresent n.self → headersPresent (Node.step env tree n a).self)
    ∧ (n.self.node_is_shutting_down = true →
        (Node.step env tree n a).self.node_is_shutting_down = true
        ∧ List.Sublist (Node.step env tree n a).requests n.requests) := by
  have lift : ∀ (m : Node) (r : SynchronizerImpl × List Event),
      Preserved n.self r.1 r.2 → List.Sublist m.requests n.requests →
      (headersPresent n.self → headersPresent (m.absorb r).self)
      ∧ (n.self.node_is_shutting_down = true →
          (m.absorb r).self.node_is_shutting_down = true
          ∧ List.Sublist (m.absorb r).requests n.requests) := by
    intro m r hr hsub
    have h := absorb_invariant m r n.self hr
    refine ⟨h.1, fun hs => ⟨(h.2 hs).1, ?_⟩⟩
    rw [(h.2 hs).2]
    exact hsub
  cases a with
  | syncByBlockInfo block_info peer_id handler subscribe_to_block =>
    exact lift n _ (syncByBlockInfo_preserved env tree n.self block_info peer_id handler
      subscribe_to_block) (List.Sublist.refl _)
  | syncByBlockHeader header peer_id handler =>
    exact lift n _ (syncByBlockHeader_preserved env tree n.self header peer_id handler)
      (List.Sublist.refl _)
  | syncMissingJustifications peer_id target_block limit handler =>
    exact lift n _ (syncMissingJustifications_preserved env n.self peer_id target_block limit
      handler) (List.Sublist.refl _)
  | response i response =>
    cases hg : n.requests.get? i with
    | none =>
      have heq : Node.step env tree n (.response i response) = n := by
        simp only [Node.step, hg]
      rw [heq]
      exact ⟨fun h => h, fun hs => ⟨hs, List.Sublist.refl _⟩⟩
    | some e =>
      obtain ⟨p, req, k⟩ := e
      have heq : Node.step env tree n (.response i response)
          = Node.absorb { n with requests := n.requests.eraseIdx i }
              (respond env tree n.self k response) := by
        simp only [Node.step, hg]
      rw [heq]
      exact lift { n with requests := n.requests.eraseIdx i } _
        (respond_preserved env tree n.self k response) (List.eraseIdx_sublist _ _)
  | task i =>
    cases hg : n.tasks.get? i with
    | none =>
      have heq : Node.step env tree n (.task i) = n := by
        simp only [Node.step, hg]
      rw [heq]
      exact ⟨fun h => h, fun hs => ⟨hs, List.Sublist.refl _⟩⟩
    | some t =>
      have heq : Node.step env tree n (.task i)
          = Node.absorb { n with tasks := n.tasks.eraseIdx i }
              (runTask env tree n.self t) := by
        simp only [Node.step, hg]
      rw [heq]
      exact lift { n with tasks := n.tasks.eraseIdx i } _
        (runTask_preserved env tree n.self t) (List.Sublist.refl _)
  | completed i res =>
    cases hg : n.executing.get? i with
    | none =>
      have heq : Node.step env tree n (.completed i res) = n := by
        simp only [Node.step, hg]
      rw [heq]
      exact ⟨fun h => h, fun hs => ⟨hs, List.Sublist.refl _⟩⟩
    | some callback =>
      have heq : Node.step env tree n (.completed i res)
          = Node.absorb { n with executing := n.executing.eraseIdx i }
              (applyCallback env tree n.self callback res) := by
        simp only [Node.step, hg]
      rw [heq]
      exact lift { n with executing := n.executing.eraseIdx i } _
        (applyCallback_preserved env tree n.self callback res) (List.Sublist.refl _)
  | justified i => exact ⟨fun h => h, fun hs => ⟨hs, List.Sublist.refl _⟩⟩
  | stop => exact ⟨fun h => h, fun _ => ⟨rfl, List.Sublist.refl _⟩⟩

theorem stepIn_invariant (env : Env) (n : Node) (s : Step) :
    (headersPresent n.self → headersPresent (Node.stepIn env n s).self)
    ∧ (n.self.node_is_shutting_down = true →
        (Node.stepIn env n s).self.node_is_shutting_down = true
        ∧ List.Sublist (Node.stepIn env n s).requests n.requests) := by
  have lift : ∀ (r : SynchronizerImpl × List Event),
      Preserved n.self r.1 r.2 →
      (headersPresent n.self → headersPresent (n.absorb r).self)
      ∧ (n.self.node_is_shutting_down = true →
          (n.absorb r).self.node_is_shutting_down = true
          ∧ List.Sublist (n.absorb r).requests n.requests) := by
    intro r hr
    have h := absorb_invariant n r n.self hr
    refine ⟨h.1, fun hs => ⟨(h.2 hs).1, ?_⟩⟩
    rw [(h.2 hs).2]
  cases s with
  | action tree a => exact step_invariant env tree n a
  | prune finalized_block => exact lift _ (prune_preserved n.self finalized_block)
  | syncState senv peer_id block handler =>
    exact lift _ (syncState_preserved senv n.self peer_id block handler)
  | stateResponse res flow =>
    by_cases h : n.self.state_sync.isSome = true
    · have heq : Node.stepIn env n (.stateResponse res flow)
          = n.absorb (syncStateResponse n.self res flow) := by
        simp [Node.stepIn, h]
      rw [heq]
      exact lift _ (syncStateResponse_preserved n.self res flow)
    · have heq : Node.stepIn env n (.stateResponse res flow) = n := by
        simp [Node.stepIn, h]
      rw [heq]
      exact ⟨fun h => h, fun hs => ⟨hs, List.Sublist.refl _⟩⟩

theorem runIn_invariant (env : Env) (steps : List Step) :
    ∀ n : Node,
      (headersPresent n.self → headersPresent (Node.runIn env n steps).self)
      ∧ (n.self.node_is_shutting_down = true →
          (Node.runIn env n steps).self.node_is_shutting_down = true
          ∧ List.Sublist (Node.runIn env n steps).requests n.requests) := by
  induction steps with
  | nil => intro n; exact ⟨fun h => h, fun hs => ⟨hs, List.Sublist.refl _⟩⟩
  | cons s rest ih =>
    intro n
    have h1 := stepIn_invariant env n s
    have h2 := ih (Node.stepIn env n s)
    refine ⟨fun h => h2.1 (h1.1 h), fun hs => ?_⟩
    have h3 := h1.2 hs
    have h4 := h2.2 h3.1
    exact ⟨h4.1, h4.2.trans h3.2⟩

/-- Claim C30 (header-presence invariant). In every state that a node reaches from a
freshly constructed synchronizer by any sequence of steps, each entry of `known_blocks`
has a header, so the entry that `applyNextBlock`, `processBlockAdditionResult` or
`discardBlock` finds under a hash has a header whose number is the one read from it, and
neither `applyNextBlock` nor `processBlockAdditionResult` runs into its assertion in front
of any block tree. And in every state, a response block without a header, after blocks
that passed the loop, makes the response handler of `loadBlocks` report
`RESPONSE_WITHOUT_BLOCK_HEADER` and leave the state as it was after those earlier blocks:
neither that block nor a later one is enqueued. -/
theorem header_presence_invariant (env : Env) (method : SyncMethod) (steps : List Step) :
    headersPresent (Node.runIn env (Node.init method) steps).self
    ∧ (∀ (hash : BlockHash) (kb : KnownBlock),
        mapFind (Node.runIn env (Node.init method) steps).self.known_blocks hash = some kb →
        ∃ header, kb.data.header = some header ∧ headerNumber kb.data = header.number)
    ∧ (∀ tree : BlockTree, Event.assertionFailure ∉
        (applyNextBlock env tree (Node.runIn env (Node.init method) steps).self).2)
    ∧ (∀ (tree : BlockTree) (res : AdditionResult) (hash : BlockHash)
        (handler : Option Handler), Event.assertionFailure ∉
        (processBlockAdditionResult env tree (Node.runIn env (Node.init method) steps).self
          res hash handler).2)
    ∧ (∀ (tree : BlockTree) (self : SynchronizerImpl) (peer_id : PeerId)
        (handler : Option Handler) (pre post : List BlockData) (b : BlockData)
        (l : LoadLoop),
        loadBlocksLoop env tree peer_id ⟨self, zero_hash, false, BlockInfo.default⟩ pre
          = (l, none) →
        b.header = none →
        loadBlocksResponse env tree self peer_id handler (.blocks (pre ++ b :: post))
          = (l.self, callHandler handler (.err .RESPONSE_WITHOUT_BLOCK_HEADER))) := by
  have hinit : headersPresent (Node.init method).self := by
    intro e he
    simp [Node.init, SynchronizerImpl.init] at he
  have hp := (runIn_invariant env steps (Node.init method)).1 hinit
  refine ⟨hp, ?_, ?_, ?_, ?_⟩
  · intro hash kb hk
    have hh := hp _ (mapFind_mem _ _ _ hk)
    cases hd : kb.data.header with
    | none => simp [hd] at hh
    | some header => exact ⟨header, rfl, by simp [headerNumber, hd]⟩
  · intro tree
    exact applyNextBlock_noAssert env tree _ hp
  · intro tree res hash handler
    exact processBlockAdditionResult_noAssert env tree _ res hash handler hp
  · intro tree self peer_id handler pre post b l hpre hb
    rw [loadBlocksResponse_split env tree self peer_id handler pre post b l hpre]
    simp [loadBlocksBlock, hb]

/-- Worked example for C30: the node fetches the announced block `C3` from peer 7 and
hands it to the executor; the queue entry of `C3` keeps a header. A response
`C3, C4 without header, C5` to a fresh synchronizer enqueues `C3` only and reports
`RESPONSE_WITHOUT_BLOCK_HEADER`. -/
theorem header_presence_invariant_witness :
    headersPresent (Node.runIn Scenario.env (Node.init .Full) Scenario.fetchC3).self
    ∧ (∃ header, (⟨Scenario.C3, [7]⟩ : KnownBlock).data.header = some header
        ∧ headerNumber (⟨Scenario.C3, [7]⟩ : KnownBlock).data = header.number)
    ∧ loadBlocksResponse Scenario.env Scenario.tree0 (SynchronizerImpl.init .Full) 7
          (some (.user 1))
          (.blocks ([Scenario.C3] ++ Scenario.headerlessC4 :: [Scenario.C5]))
        = ((loadBlocksResponse Scenario.env Scenario.tree0 (SynchronizerImpl.init .Full) 7
              none (.blocks [Scenario.C3])).1,
           [Event.handler (.user 1) (.err .RESPONSE_WITHOUT_BLOCK_HEADER)]) :=
  ⟨(header_presence_invariant Scenario.env .Full Scenario.fetchC3).1,
   (header_presence_invariant Scenario.env .Full Scenario.fetchC3).2.1 Scenario.C3.hash
      ⟨Scenario.C3, [7]⟩ (by decide),
   (header_presence_invariant Scenario.env .Full Scenario.fetchC3).2.2.2.2 Scenario.tree0
      (SynchronizerImpl.init .Full) 7 (some (.user 1)) [Scenario.C3] [Scenario.C5]
      Scenario.headerlessC4
      (loadBlocksLoop Scenario.env Scenario.tree0 7
        ⟨SynchronizerImpl.init .Full, zero_hash, false, BlockInfo.default⟩ [Scenario.C3]).1
      (by decide) rfl⟩

/-- Worked example for C23 (claim as stated fails). Peer 7 announces `C3` to a node with
chain `G, A1, A2`; the request for the block is pending when `stop` sets the flag. The
response `C3` that arrives afterwards is handled as on a running node: the handler gets
the block and not `SHUTTING_DOWN`, `C3` is enqueued, `applyNextBlock` is scheduled, and
the scheduled `applyNextBlock` hands `C3` to the executor. -/
theorem shutdown_pending_response_counterexample :
    Scenario.stoppedNode.self.node_is_shutting_down = true
    ∧ Scenario.stoppedNode.requests.map (fun r => r.2.2) = [.loadBlocks 7 (some .announce)]
    ∧ (loadBlocksResponse Scenario.env Scenario.tree0 Scenario.stoppedNode.self 7
        (some .announce) (.blocks [Scenario.C3])).2
      = [Event.handler .announce (.value ⟨3, Scenario.C3.hash⟩),
         Event.scheduledApplyNextBlock]
    ∧ mapContains (loadBlocksResponse Scenario.env Scenario.tree0 Scenario.stoppedNode.self 7
        (some .announce) (.blocks [Scenario.C3])).1.known_blocks Scenario.C3.hash = true
    ∧ (Node.run Scenario.env Scenario.tree0 Scenario.stoppedNode
        [.response 0 (.blocks [Scenario.C3]), .task 1]).executing
      = [⟨Scenario.C3.hash, some (.user 1)⟩] := by
  decide

/-- Claim C23 (shutdown short-circuit, as amended). Once the shutting-down flag is set,
`findCommonBlock`, `loadBlocks` and `loadJustifications` return at their entry: the
handler gets `SHUTTING_DOWN` (if there is one), no request is sent, and the state, so the
queue and the scheduled work, is unchanged. The handler of a response that is still
pending keeps the flag set and sends no request to the sync protocol, whatever the
response is; and over any sequence of steps of the node the flag stays set and the
pending block requests only get fewer. -/
theorem shutdown_short_circuit (env : Env) (n : Node)
    (hs : n.self.node_is_shutting_down = true) :
    (∀ (peer_id : PeerId) (lower upper hint : Nat) (handler : Handler)
        (observed : List (Nat × BlockHash)),
        findCommonBlock env n.self peer_id lower upper hint handler observed
          = (n.self, [Event.handler handler (.err .SHUTTING_DOWN)], none))
    ∧ (∀ (peer_id : PeerId) (from_ : BlockInfo) (handler : Option Handler),
        loadBlocks env n.self peer_id from_ handler
          = (n.self, callHandler handler (.err .SHUTTING_DOWN)))
    ∧ (∀ (peer_id : PeerId) (target_block : BlockInfo) (limit : Option Nat)
        (handler : Option Handler),
        loadJustifications env n.self peer_id target_block limit handler
          = (n.self, callHandler handler (.err .SHUTTING_DOWN)))
    ∧ (∀ (tree : BlockTree) (k : ResponseHandler) (response : Response),
        (respond env tree n.self k response).1.node_is_shutting_down = true
        ∧ sentRequests (respond env tree n.self k response).2 = [])
    ∧ (∀ steps : List Step,
        (Node.runIn env n steps).self.node_is_shutting_down = true
        ∧ List.Sublist (Node.runIn env n steps).requests n.requests) := by
  refine ⟨?_, ?_, ?_, ?_, ?_⟩
  · intro peer_id lower upper hint handler observed
    simp [findCommonBlock, hs]
  · intro peer_id from_ handler
    simp [loadBlocks, hs]
  · intro peer_id target_block limit handler
    simp [loadJustifications, hs]
  · intro tree k response
    exact (respond_preserved env tree n.self k response).2 hs
  · intro steps
    exact (runIn_invariant env steps n).2 hs

/-- Worked example for C23: on the stopped node of the scenario a call of `loadBlocks`
gives `SHUTTING_DOWN` to its handler and changes nothing, and the pending response `C3`
leads to no further request. -/
theorem shutdown_short_circuit_witness :
    loadBlocks Scenario.env Scenario.stoppedNode.self 8 ⟨2, Scenario.A2.hash⟩
        (some (.user 2))
      = (Scenario.stoppedNode.self, [Event.handler (.user 2) (.err .SHUTTING_DOWN)])
    ∧ sentRequests (respond Scenario.env Scenario.tree0 Scenario.stoppedNode.self
        (.loadBlocks 7 (some .announce)) (.blocks [Scenario.C3])).2 = []
    ∧ (Node.runIn Scenario.env Scenario.stoppedNode
        [.action Scenario.tree0 (.response 0 (.blocks [Scenario.C3])),
         .action Scenario.tree0 (.task 1)]).self.node_is_shutting_down = true :=
  have h := shutdown_short_circuit Scenario.env Scenario.stoppedNode (by decide)
  ⟨h.2.1 8 ⟨2, Scenario.A2.hash⟩ (some (.user 2)),
   (h.2.2.2.1 Scenario.tree0 (.loadBlocks 7 (some .announce)) (.blocks [Scenario.C3])).2,
   (h.2.2.2.2 [.action Scenario.tree0 (.response 0 (.blocks [Scenario.C3])),
      .action Scenario.tree0 (.task 1)]).1⟩

end kagome.network
